import Mathlib

/-!
# Scene-graph transform nodes of the Octave engine

A shallow embedding of `Engine/Source/Engine/Nodes/Node.cpp` and
`Engine/Source/Engine/Nodes/3D/Node3d.cpp`.

* Scalars (`float`) are idealised as exact rationals; the rounding of `float`
  operations is modelled where a property depends on it (`roundFloat32`, used for the
  spawn-rate accumulator).
* Node pointers are natural numbers; a scene is a total map from pointers to
  node records, `nullptr` is `none`.
* `glm` matrix and quaternion operations are written out from their
  mathematical definitions (column vectors, `M * v`).
* Recursion through the parent chain (`UpdateTransform`) carries a fuel
  argument; `none` means the fuel was exhausted.
* Helpers whose source is not part of the translated files (the `Maths`
  decomposition helpers, `glm::normalize`, the Euler-angle view) are
  parameters collected in the structure `Maths`.
-/

namespace Octave

/-! ## Vectors, quaternions and matrices -/

/-- Matrices `glm::mat4`, indexed `M row col`. -/
abbrev Mat4 := Matrix (Fin 4) (Fin 4) ℚ

/-- Vectors `glm::vec3`. -/
structure Vec3 where
  x : ℚ
  y : ℚ
  z : ℚ
deriving DecidableEq

/-- Quaternions `glm::quat`, scalar part `w`. -/
structure Quat where
  w : ℚ
  x : ℚ
  y : ℚ
  z : ℚ
deriving DecidableEq

/-- The value of `glm::quat({0, 0, 0})`: the rotation by zero Euler angles. -/
def Quat.identity : Quat := ⟨1, 0, 0, 0⟩

/-- The translation matrix by `v`; `glm::translate(m, v)` is `m * translateMat v`. -/
def translateMat (v : Vec3) : Mat4 :=
  !![1, 0, 0, v.x; 0, 1, 0, v.y; 0, 0, 1, v.z; 0, 0, 0, 1]

/-- The diagonal scaling matrix; `glm::scale(m, v)` is `m * scaleMat v`. -/
def scaleMat (v : Vec3) : Mat4 :=
  !![v.x, 0, 0, 0; 0, v.y, 0, 0; 0, 0, v.z, 0; 0, 0, 0, 1]

/-- The rotation matrix `glm::toMat4(q)`. -/
def toMat4 (q : Quat) : Mat4 :=
  !![1 - 2 * (q.y * q.y + q.z * q.z), 2 * (q.x * q.y - q.w * q.z), 2 * (q.x * q.z + q.w * q.y), 0;
     2 * (q.x * q.y + q.w * q.z), 1 - 2 * (q.x * q.x + q.z * q.z), 2 * (q.y * q.z - q.w * q.x), 0;
     2 * (q.x * q.z - q.w * q.y), 2 * (q.y * q.z + q.w * q.x), 1 - 2 * (q.x * q.x + q.y * q.y), 0;
     0, 0, 0, 1]

/-- The function `glm::translate(m, v)`. -/
def glmTranslate (m : Mat4) (v : Vec3) : Mat4 := m * translateMat v

/-- The function `glm::scale(m, v)`. -/
def glmScale (m : Mat4) (v : Vec3) : Mat4 := m * scaleMat v

/-- The function `glm::inverse` on `mat4`: adjugate over determinant. The value stands
for the result of the code for a non-zero determinant only: for a singular matrix
`glm::inverse` divides by the zero determinant and returns non-finite entries, whereas
this definition gives the zero matrix (the reciprocal of `0` is `0` in `ℚ`). -/
def inverse (m : Mat4) : Mat4 := (m.det)⁻¹ • m.adjugate

/-- The homogeneous point `glm::vec4(v, 1.0f)`. -/
def point4 (v : Vec3) : Fin 4 → ℚ := ![v.x, v.y, v.z, 1]

/-- The truncation `glm::vec3(r.x, r.y, r.z)` of a `vec4`. -/
def xyz (r : Fin 4 → ℚ) : Vec3 := ⟨r 0, r 1, r 2⟩

/-- The Hamilton product `p * q` of `glm::quat`. -/
def quatMul (p q : Quat) : Quat :=
  ⟨p.w * q.w - p.x * q.x - p.y * q.y - p.z * q.z,
   p.w * q.x + p.x * q.w + p.y * q.z - p.z * q.y,
   p.w * q.y + p.y * q.w + p.z * q.x - p.x * q.z,
   p.w * q.z + p.z * q.w + p.x * q.y - p.y * q.x⟩

/-- The function `glm::inverse` on `quat`: conjugate over squared norm. -/
def quatInverse (q : Quat) : Quat :=
  let d := q.w * q.w + q.x * q.x + q.y * q.y + q.z * q.z
  ⟨q.w / d, -q.x / d, -q.y / d, -q.z / d⟩

/-- Modelled from the spec: `Maths::ExtractPosition` (declared in `Maths.h`,
which is not among the translated sources) extracts the position component
of a world matrix, that is its translation column. -/
def ExtractPosition (m : Mat4) : Vec3 := ⟨m 0 3, m 1 3, m 2 3⟩

/-- Helpers that the node code calls but whose definitions are outside the
translated sources; every theorem holds for all values of these fields. -/
structure Maths where
  /-- The function `Maths::ExtractScale`. -/
  ExtractScale : Mat4 → Vec3
  /-- The function `Maths::ExtractRotation`. -/
  ExtractRotation : Mat4 → Quat
  /-- The function `glm::normalize` on quaternions (needs a square root). -/
  normalize : Quat → Quat
  /-- The composite `EnforceEulerRange(glm::eulerAngles(q) * RADIANS_TO_DEGREES)`. -/
  eulerDegrees : Quat → Vec3

/-! ## Data model -/

/-- Node pointers; `Option Ptr` is a nullable `Node*`. -/
abbrev Ptr := Nat

/-- The part of a `SkeletalMesh3D` that `Node3D` queries. -/
structure SkeletalMesh3D where
  /-- The result of `GetNumBones()` (a `uint32_t`). -/
  numBones : Nat
  /-- Whether `GetSkeletalMesh()` is non-null. -/
  hasSkeletalMesh : Bool
  /-- The result of `GetBoneTransform(i)`. -/
  boneTransform : Int → Mat4
  /-- The field `GetSkeletalMesh()->GetBone(i).mInvOffsetMatrix`. -/
  invOffsetMatrix : Int → Mat4
  /-- The result of `GetBoneRotationQuat(i)`. -/
  boneRotationQuat : Int → Quat

/-- The fields of a `Node3D` (with the `Node` fields `mParent`, `mChildren`).
The field `skeletal` is `some _` exactly when `GetType()` is
`SkeletalMesh3D::GetStaticType()`. -/
structure Node3D where
  mParent : Option Ptr
  mChildren : List Ptr
  mPosition : Vec3
  mRotationEuler : Vec3
  mScale : Vec3
  mRotationQuat : Quat
  mTransform : Mat4
  mParentBoneIndex : Int
  mTransformDirty : Bool
  skeletal : Option SkeletalMesh3D

/-- The state left by the constructor `Node3D::Node3D()`. -/
def Node3D.new : Node3D where
  mParent := none
  mChildren := []
  mPosition := ⟨0, 0, 0⟩
  mRotationEuler := ⟨0, 0, 0⟩
  mScale := ⟨1, 1, 1⟩
  mRotationQuat := Quat.identity
  mTransform := 1
  mParentBoneIndex := -1
  mTransformDirty := true
  skeletal := none

/-- The heap of nodes. -/
abbrev Scene := Ptr → Node3D

/-- A scene of freshly constructed, detached nodes. -/
def Scene.fresh : Scene := fun _ => Node3D.new

/-- In-place modification of the node at `n`. -/
def modify (s : Scene) (n : Ptr) (f : Node3D → Node3D) : Scene :=
  fun m => if m = n then f (s m) else s m

/-- The conversion `int32_t(u)` of a `uint32_t`. -/
def toInt32 (u : Nat) : Int :=
  if u % 2 ^ 32 < 2 ^ 31 then ((u % 2 ^ 32 : Nat) : Int) else ((u % 2 ^ 32 : Nat) : Int) - 2 ^ 32

/-! ## `Node` (Node.cpp) -/

/-- The method `Node::GetNumChildren`. -/
def GetNumChildren (s : Scene) (n : Ptr) : Nat := (s n).mChildren.length

/-- The method `Node::AddChild(child)` called on `self`. -/
def AddChild (s : Scene) (self : Ptr) (child : Option Ptr) : Scene :=
  match child with
  | none => s
  | some c =>
    if c ∈ (s self).mChildren then s
    else
      let s1 := modify s self (fun nd => { nd with mChildren := nd.mChildren ++ [c] })
      modify s1 c (fun nd => { nd with mParent := some self })

/-- The method `Node::RemoveChild(int32_t index)` called on `self`. -/
def RemoveChildAt (s : Scene) (self : Ptr) (index : Nat) : Scene :=
  match (s self).mChildren[index]? with
  | none => s
  | some c =>
    let s1 := modify s c (fun nd => { nd with mParent := none })
    modify s1 self (fun nd => { nd with mChildren := nd.mChildren.eraseIdx index })

/-- The method `Node::RemoveChild(Node* child)` called on `self`:
the first index holding `child` is removed, nothing happens when absent. -/
def RemoveChild (s : Scene) (self : Ptr) (child : Option Ptr) : Scene :=
  match child with
  | none => s
  | some c =>
    if c ∈ (s self).mChildren then RemoveChildAt s self ((s self).mChildren.indexOf c)
    else s

/-- The method `Node::Attach(parent, keepWorldTransform)` called on `self`. -/
def NodeAttach (s : Scene) (self : Ptr) (parent : Option Ptr) (_keepWorldTransform : Bool) : Scene :=
  if parent = some self then s
  else
    let s1 := match (s self).mParent with
      | some old => RemoveChild s old (some self)
      | none => s
    match parent with
    | some p => AddChild s1 p (some self)
    | none => s1

/-! ## `Node3D` (Node3d.cpp) -/

/-- The method `Node3D::MarkTransformDirty`. -/
def MarkTransformDirty (s : Scene) (n : Ptr) : Scene :=
  modify s n (fun nd => { nd with mTransformDirty := true })

/-- The method `Node3D::IsTransformDirty`. -/
def IsTransformDirty (s : Scene) (n : Ptr) : Bool := (s n).mTransformDirty

/-- The loop `for i: mChildren[i]->MarkTransformDirty()` run on `n`. -/
def markChildrenDirty (s : Scene) (n : Ptr) : Scene :=
  (s n).mChildren.foldl MarkTransformDirty s

/-- The method `Node3D::GetTransform`, over a given `UpdateTransform`. -/
def GetTransformWith (upd : Scene → Ptr → Bool → Option Scene)
    (s : Scene) (n : Ptr) : Option (Mat4 × Scene) :=
  if (s n).mTransformDirty then
    (upd s n false).map (fun s1 => ((s1 n).mTransform, s1))
  else some ((s n).mTransform, s)

/-- The method `Node3D::GetParentTransform`, over a given `UpdateTransform`. -/
def GetParentTransformWith (upd : Scene → Ptr → Bool → Option Scene)
    (s : Scene) (n : Ptr) : Option (Mat4 × Scene) :=
  match (s n).mParent with
  | none => some (1, s)
  | some p =>
    if (s n).mParentBoneIndex = -1 then GetTransformWith upd s p
    else
      match (s p).skeletal with
      | none => some (1, s)
      | some sk =>
        if 0 ≤ (s n).mParentBoneIndex ∧ (s n).mParentBoneIndex < toInt32 sk.numBones
            ∧ sk.hasSkeletalMesh = true then
          (GetTransformWith upd s p).map (fun r =>
            (r.1 * sk.boneTransform (s n).mParentBoneIndex
              * sk.invOffsetMatrix (s n).mParentBoneIndex, r.2))
        else some (1, s)

/-- The scale used when the matrix is built: uniform in `x` when the node has children. -/
def effectiveScale (nd : Node3D) : Vec3 :=
  if nd.mChildren.length > 0 then ⟨nd.mScale.x, nd.mScale.x, nd.mScale.x⟩ else nd.mScale

/-- The local matrix built by `UpdateTransform` before the parent is applied. -/
def localMatrix (nd : Node3D) : Mat4 :=
  glmScale (glmTranslate 1 nd.mPosition * toMat4 nd.mRotationQuat) (effectiveScale nd)

/-- First block of `UpdateTransform`: a dirty parent is updated first
(`mParent->UpdateTransform(false)`). -/
def updateParentWith (upd : Scene → Ptr → Bool → Option Scene) (s : Scene) (n : Ptr) :
    Option Scene :=
  match (s n).mParent with
  | some p => if (s p).mTransformDirty then upd s p false else some s
  | none => some s

/-- Body of the block `if (mTransformDirty) { ... }` of `UpdateTransform`:
the local matrix is built, the parent transform is applied, the children are
marked dirty, the Euler view is cached and the flag is cleared. -/
def rebuildWith (upd : Scene → Ptr → Bool → Option Scene) (mx : Maths) (s : Scene) (n : Ptr) :
    Option Scene :=
  let sa := modify s n (fun nd => { nd with mTransform := localMatrix nd })
  let sb : Option Scene :=
    match (sa n).mParent with
    | some _ =>
      (GetParentTransformWith upd sa n).map (fun r =>
        modify r.2 n (fun nd => { nd with mTransform := r.1 * nd.mTransform }))
    | none => some sa
  sb.map (fun t =>
    modify
      (modify (markChildrenDirty t n) n
        (fun nd => { nd with mRotationEuler := mx.eulerDegrees nd.mRotationQuat }))
      n (fun nd => { nd with mTransformDirty := false }))

/-- The method `Node3D::UpdateTransform(updateChildren)` called on `n`. -/
def UpdateTransform (mx : Maths) : Nat → Scene → Ptr → Bool → Option Scene
  | 0, _, _, _ => none
  | fuel + 1, s, n, updateChildren =>
    (updateParentWith (fun t m b => UpdateTransform mx fuel t m b) s n).bind fun s1 =>
    (if (s1 n).mTransformDirty then
      rebuildWith (fun t m b => UpdateTransform mx fuel t m b) mx s1 n
     else some s1).bind fun s2 =>
    if updateChildren then
      (s2 n).mChildren.foldlM (fun t c => UpdateTransform mx fuel t c true) s2
    else some s2

/-- The method `Node3D::GetTransform`. -/
def GetTransform (mx : Maths) (fuel : Nat) (s : Scene) (n : Ptr) : Option (Mat4 × Scene) :=
  GetTransformWith (fun t m b => UpdateTransform mx fuel t m b) s n

/-- The method `Node3D::GetParentTransform`. -/
def GetParentTransform (mx : Maths) (fuel : Nat) (s : Scene) (n : Ptr) : Option (Mat4 × Scene) :=
  GetParentTransformWith (fun t m b => UpdateTransform mx fuel t m b) s n

/-- The method `Node3D::SetPosition`. -/
def SetPosition (s : Scene) (n : Ptr) (position : Vec3) : Scene :=
  MarkTransformDirty (modify s n (fun nd => { nd with mPosition := position })) n

/-- The method `Node3D::SetRotation(glm::quat)`. -/
def SetRotation (mx : Maths) (s : Scene) (n : Ptr) (quat : Quat) : Scene :=
  MarkTransformDirty (modify s n (fun nd => { nd with mRotationQuat := mx.normalize quat })) n

/-- The method `Node3D::SetScale`. -/
def SetScale (s : Scene) (n : Ptr) (scale : Vec3) : Scene :=
  MarkTransformDirty (modify s n (fun nd => { nd with mScale := scale })) n

/-- The method `Node3D::GetPosition`. -/
def GetPosition (s : Scene) (n : Ptr) : Vec3 := (s n).mPosition

/-- The method `Node3D::GetRotationQuat`. -/
def GetRotationQuat (s : Scene) (n : Ptr) : Quat := (s n).mRotationQuat

/-- The method `Node3D::GetScale`. -/
def GetScale (s : Scene) (n : Ptr) : Vec3 := (s n).mScale

/-- The method `Node3D::GetAbsolutePosition`. -/
def GetAbsolutePosition (mx : Maths) (fuel : Nat) (s : Scene) (n : Ptr) : Option (Vec3 × Scene) :=
  (UpdateTransform mx fuel s n false).map (fun s1 => (ExtractPosition (s1 n).mTransform, s1))

/-- The method `Node3D::GetAbsoluteRotationQuat`. -/
def GetAbsoluteRotationQuat (mx : Maths) (fuel : Nat) (s : Scene) (n : Ptr) :
    Option (Quat × Scene) :=
  (UpdateTransform mx fuel s n false).map (fun s1 => (mx.ExtractRotation (s1 n).mTransform, s1))

/-- The method `Node3D::GetAbsoluteScale`. -/
def GetAbsoluteScale (mx : Maths) (fuel : Nat) (s : Scene) (n : Ptr) : Option (Vec3 × Scene) :=
  (UpdateTransform mx fuel s n false).map (fun s1 => (mx.ExtractScale (s1 n).mTransform, s1))

/-- The method `Node3D::SetAbsolutePosition`. -/
def SetAbsolutePosition (mx : Maths) (fuel : Nat) (s : Scene) (n : Ptr) (position : Vec3) :
    Option Scene :=
  match (s n).mParent with
  | some _ =>
    (GetParentTransform mx fuel s n).map fun r =>
      let invParentTrans := inverse r.1
      let relPosition4 := Matrix.mulVec invParentTrans (point4 position)
      SetPosition r.2 n (xyz relPosition4)
  | none => some (SetPosition s n position)

/-- The parent rotation used by `SetAbsoluteRotation`: the parent's absolute rotation,
multiplied by the bone rotation when `n` is attached to a bone of a skeletal mesh. -/
def parentWorldRot (s : Scene) (n p : Ptr) (parentRot : Quat) : Quat :=
  match (s p).skeletal with
  | some sk =>
    if (s n).mParentBoneIndex ≠ -1 then
      quatMul parentRot (sk.boneRotationQuat (s n).mParentBoneIndex)
    else parentRot
  | none => parentRot

/-- The method `Node3D::SetAbsoluteRotation(glm::quat)`. -/
def SetAbsoluteRotation (mx : Maths) (fuel : Nat) (s : Scene) (n : Ptr) (rotation : Quat) :
    Option Scene :=
  match (s n).mParent with
  | some p =>
    (GetAbsoluteRotationQuat mx fuel s p).map fun r =>
      SetRotation mx r.2 n (quatMul (quatInverse (parentWorldRot r.2 n p r.1)) rotation)
  | none => some (SetRotation mx s n rotation)

/-- The per-axis quotient computed by `SetAbsoluteScale`, `0` where the parent scale is `0`. -/
def relScale (scale parentScale : Vec3) : Vec3 :=
  ⟨if parentScale.x ≠ 0 then scale.x / parentScale.x else 0,
   if parentScale.y ≠ 0 then scale.y / parentScale.y else 0,
   if parentScale.z ≠ 0 then scale.z / parentScale.z else 0⟩

/-- The method `Node3D::SetAbsoluteScale`. -/
def SetAbsoluteScale (mx : Maths) (fuel : Nat) (s : Scene) (n : Ptr) (scale : Vec3) :
    Option Scene :=
  match (s n).mParent with
  | some p =>
    (GetAbsoluteScale mx fuel s p).map fun r => SetScale r.2 n (relScale scale r.1)
  | none => some (SetScale s n scale)

/-- The tail of `SetTransform`: Euler view cached, flag cleared, children marked dirty. -/
def settle (mx : Maths) (s : Scene) (n : Ptr) : Scene :=
  markChildrenDirty
    (modify
      (modify s n (fun nd => { nd with mRotationEuler := mx.eulerDegrees nd.mRotationQuat }))
      n (fun nd => { nd with mTransformDirty := false }))
    n

/-- The method `Node3D::SetTransform`. -/
def SetTransform (mx : Maths) (fuel : Nat) (s : Scene) (n : Ptr) (transform : Mat4) :
    Option Scene :=
  (SetAbsolutePosition mx fuel (modify s n (fun nd => { nd with mTransform := transform })) n
      (ExtractPosition transform)).bind fun s2 =>
  (SetAbsoluteScale mx fuel s2 n (mx.ExtractScale transform)).bind fun s3 =>
  (SetAbsoluteRotation mx fuel s3 n (mx.ExtractRotation transform)).map fun s4 =>
  settle mx s4 n

/-- The block `// Detach from parent first` of `Node3D::Attach`. -/
def detachOld (mx : Maths) (fuel : Nat) (s : Scene) (n : Ptr) (keepWorldTransform : Bool) :
    Option Scene :=
  match (s n).mParent with
  | some old =>
    if keepWorldTransform then
      (GetTransform mx fuel s n).bind fun r =>
        SetTransform mx fuel (RemoveChild r.2 old (some n)) n r.1
    else some (RemoveChild s old (some n))
  | none => some s

/-- The block `// Attach to new parent` of `Node3D::Attach`. -/
def attachNew (mx : Maths) (fuel : Nat) (s : Scene) (n : Ptr) (parent : Option Ptr)
    (keepWorldTransform : Bool) : Option Scene :=
  match parent with
  | some p =>
    if keepWorldTransform then
      (GetTransform mx fuel s n).bind fun r =>
        SetTransform mx fuel (AddChild r.2 p (some n)) n r.1
    else some (AddChild s p (some n))
  | none => some s

/-- The method `Node3D::Attach(parent, keepWorldTransform)` called on `n`
(with the debug assertion compiled out). -/
def Attach (mx : Maths) (fuel : Nat) (s : Scene) (n : Ptr) (parent : Option Ptr)
    (keepWorldTransform : Bool) : Option Scene :=
  if parent = some n then some s
  else
    (if keepWorldTransform && IsTransformDirty s n then UpdateTransform mx fuel s n false
     else some s).bind fun s1 =>
    (detachOld mx fuel s1 n keepWorldTransform).bind fun s2 =>
    (attachNew mx fuel (modify s2 n (fun nd => { nd with mParentBoneIndex := -1 })) n parent
      keepWorldTransform).map fun s4 =>
    MarkTransformDirty s4 n

/-! ## Derived notions used to state the properties -/

/-- State after `n` has been rebuilt with matrix `m`: the matrix is stored, every
direct child is marked dirty, the Euler view is recached, the flag is cleared. -/
def rebuilt (mx : Maths) (s : Scene) (n : Ptr) (m : Mat4) : Scene :=
  modify
    (modify (markChildrenDirty (modify s n (fun nd => { nd with mTransform := m })) n) n
      (fun nd => { nd with mRotationEuler := mx.eulerDegrees nd.mRotationQuat }))
    n (fun nd => { nd with mTransformDirty := false })

/-- The matrix `GetParentTransform` yields from cached matrices, without any update. -/
def parentMatrix (s : Scene) (n : Ptr) : Mat4 :=
  match (s n).mParent with
  | none => 1
  | some p =>
    if (s n).mParentBoneIndex = -1 then (s p).mTransform
    else
      match (s p).skeletal with
      | none => 1
      | some sk =>
        if 0 ≤ (s n).mParentBoneIndex ∧ (s n).mParentBoneIndex < toInt32 sk.numBones
            ∧ sk.hasSkeletalMesh = true then
          (s p).mTransform * sk.boneTransform (s n).mParentBoneIndex
            * sk.invOffsetMatrix (s n).mParentBoneIndex
        else 1

/-- The matrix a rebuild of `n` stores: the parent transform times the local matrix
when `n` has a parent, the local matrix alone otherwise. -/
def rebuildMatrix (s : Scene) (n : Ptr) : Mat4 :=
  match (s n).mParent with
  | some _ => parentMatrix s n * localMatrix (s n)
  | none => localMatrix (s n)

/-- The second half of `UpdateTransform(false)`: rebuild `n` when it is dirty. -/
def finish (mx : Maths) (s : Scene) (n : Ptr) : Scene :=
  if (s n).mTransformDirty then rebuilt mx s n (rebuildMatrix s n) else s

/-- Following parent pointers from `n` reaches a parentless node after exactly `k` steps. -/
def rooted (s : Scene) : Nat → Ptr → Bool
  | 0, n => (s n).mParent.isNone
  | k + 1, n =>
    match (s n).mParent with
    | some p => rooted s k p
    | none => false

/-- The local transform `translate * rotate * scale` of a node, with the scale
that a rebuild would use. -/
def specLocal (nd : Node3D) : Mat4 :=
  translateMat nd.mPosition * toMat4 nd.mRotationQuat * scaleMat (effectiveScale nd)

/-- The product of the local transforms from the `k`-th ancestor of `n` down to `n`
(from the root down to `n` when the chain of `n` has `k` links). -/
def worldMatrix (s : Scene) : Nat → Ptr → Mat4
  | 0, n => specLocal (s n)
  | k + 1, n =>
    match (s n).mParent with
    | some p => worldMatrix s k p * specLocal (s n)
    | none => specLocal (s n)

/-- The stored scale has three equal components. -/
def uniformScale (nd : Node3D) : Bool :=
  decide (nd.mScale.y = nd.mScale.x ∧ nd.mScale.z = nd.mScale.x)

/-- Node `n` is not excluded by `ex`, has a clean flag and a uniform stored scale. -/
def nodeOk (ex : Ptr → Bool) (s : Scene) (n : Ptr) : Bool :=
  !(ex n) && !(s n).mTransformDirty && uniformScale (s n)

/-- The chain from `n` up to the root has exactly `k` links and every node on it,
`n` included, satisfies `nodeOk`. -/
def okChain (ex : Ptr → Bool) (s : Scene) : Nat → Ptr → Bool
  | 0, n => nodeOk ex s n && (s n).mParent.isNone
  | k + 1, n =>
    nodeOk ex s n &&
      match (s n).mParent with
      | some p => okChain ex s k p
      | none => false

/-- The chain from `n` up to the root has `k` links, and `n` and all its ancestors
have a clean dirty flag and a uniform stored scale. -/
def cleanChain (s : Scene) (k : Nat) (n : Ptr) : Bool := okChain (fun _ => false) s k n

/-- Parent pointers and child lists agree, and no child is listed twice. -/
def WellFormed (s : Scene) : Prop :=
  (∀ c p, (s c).mParent = some p ↔ c ∈ (s p).mChildren) ∧ ∀ p, (s p).mChildren.Nodup

/-- No node is attached to a bone. -/
def NoBones (s : Scene) : Prop := ∀ n, (s n).mParentBoneIndex = -1

/-- Every node heading an `okChain` caches the product of its chain. -/
def CacheInv (ex : Ptr → Bool) (s : Scene) : Prop :=
  ∀ k n, okChain ex s k n = true → (s n).mTransform = worldMatrix s k n

/-- Scenes reachable from freshly created nodes by `SetPosition`, `SetRotation`,
`SetScale`, `Attach` and `GetTransform` calls that return. -/
inductive Reachable (mx : Maths) : Scene → Prop
  | fresh : Reachable mx Scene.fresh
  | setPosition {s : Scene} (n : Ptr) (v : Vec3) :
      Reachable mx s → Reachable mx (SetPosition s n v)
  | setRotation {s : Scene} (n : Ptr) (q : Quat) :
      Reachable mx s → Reachable mx (SetRotation mx s n q)
  | setScale {s : Scene} (n : Ptr) (v : Vec3) :
      Reachable mx s → Reachable mx (SetScale s n v)
  | attach {s t : Scene} (fuel : Nat) (n : Ptr) (parent : Option Ptr) (keep : Bool) :
      Reachable mx s → Attach mx fuel s n parent keep = some t → Reachable mx t
  | getTransform {s : Scene} (fuel : Nat) (n : Ptr) (r : Mat4 × Scene) :
      Reachable mx s → GetTransform mx fuel s n = some r → Reachable mx r.2

/-- A sample instance of the helper functions, exact on matrices that only translate
and scale by positive factors; used to exhibit concrete inputs. -/
def sampleMaths : Maths where
  ExtractScale := fun m => ⟨m 0 0, m 1 1, m 2 2⟩
  ExtractRotation := fun _ => Quat.identity
  normalize := fun q => q
  eulerDegrees := fun _ => ⟨0, 0, 0⟩

/-- Scenario: node 1 is attached to node 0 and read, then node 0 is moved. -/
def staleChildScenario (mx : Maths) : Option Scene :=
  (Attach mx 2 Scene.fresh 1 (some 0) false).bind fun s1 =>
  (GetTransform mx 2 s1 1).map fun r => SetPosition r.2 0 ⟨1, 0, 0⟩

/-- Scenario: node 1 is attached to node 0 and read. -/
def readChildScenario (mx : Maths) : Option Scene :=
  (Attach mx 2 Scene.fresh 1 (some 0) false).bind fun s1 =>
  (GetTransform mx 2 s1 1).map fun r => r.2

/-- The chain from `n` up to the root has `k` links, every node on it is clean, every
node with a parent is listed by that parent and has bone index `-1`, and every cached
matrix is the parent's cached matrix times the node's local transform. -/
def resolved (s : Scene) : Nat → Ptr → Bool
  | 0, n =>
    (s n).mParent.isNone && !(s n).mTransformDirty
      && decide ((s n).mTransform = specLocal (s n))
  | k + 1, n =>
    match (s n).mParent with
    | none => false
    | some p =>
      !(s n).mTransformDirty && decide ((s n).mParentBoneIndex = -1)
        && decide (n ∈ (s p).mChildren)
        && decide ((s n).mTransform = (s p).mTransform * specLocal (s n))
        && resolved s k p

/-- The chain of `n` has `k` links and can be pulled up to date by `UpdateTransform`:
the dirty nodes among the ancestors form a run that starts at the parent of `n`, the
nodes above that run are `resolved`, and `n` itself is dirty or consistent with a
clean parent. -/
def pullable (s : Scene) : Nat → Ptr → Bool
  | 0, n =>
    (s n).mParent.isNone
      && ((s n).mTransformDirty || decide ((s n).mTransform = specLocal (s n)))
  | k + 1, n =>
    match (s n).mParent with
    | none => false
    | some p =>
      decide ((s n).mParentBoneIndex = -1) && decide (n ∈ (s p).mChildren)
        && (if (s p).mTransformDirty then pullable s k p
            else resolved s k p
              && ((s n).mTransformDirty
                || decide ((s n).mTransform = (s p).mTransform * specLocal (s n))))

/-- A mutation of the local pose: one of the three setters. -/
inductive Mutation where
  | setPosition (v : Vec3)
  | setRotation (q : Quat)
  | setScale (v : Vec3)

/-- The setter call that a `Mutation` stands for, applied to node `m`. -/
def mutate (mx : Maths) (s : Scene) (m : Ptr) : Mutation → Scene
  | Mutation.setPosition v => SetPosition s m v
  | Mutation.setRotation q => SetRotation mx s m q
  | Mutation.setScale v => SetScale s m v

/-- Scenario: a chain 0 - 1 - 2 is built and node 2 is read; node 0 is then moved and
node 2 is read again. The result pairs the second read with the translation of the
product of the chain's current local transforms. -/
def staleGrandparentScenario (mx : Maths) : Option (Vec3 × Vec3) :=
  (Attach mx 3 Scene.fresh 1 (some 0) false).bind fun s1 =>
  (Attach mx 3 s1 2 (some 1) false).bind fun s2 =>
  (GetAbsolutePosition mx 3 s2 2).bind fun r =>
  (GetAbsolutePosition mx 3 (SetPosition r.2 0 ⟨1, 0, 0⟩) 2).map fun r2 =>
    (r2.1, ExtractPosition (worldMatrix (SetPosition r.2 0 ⟨1, 0, 0⟩) 2 2))

/-- The scene in which node 1 has been attached to node 0 and nothing was read. -/
def attachedScene : Scene :=
  (Attach sampleMaths 1 Scene.fresh 1 (some 0) false).getD Scene.fresh

/-- The scene in which node 1 has been attached to node 0 and read. -/
def readChildScene : Scene := (readChildScenario sampleMaths).getD Scene.fresh

/-- Reference definition of the effective parent transform, following the words of the
specification: without a bone index (`-1`) it is the parent's world matrix; with a bone
index in range on a skinned-mesh parent that has a skeleton it is
parent world matrix × bone pose matrix × bone inverse bind matrix; otherwise it is the
identity. -/
def parentTransformRef (parentWorld : Mat4) (boneIndex : Int) (sk : Option SkeletalMesh3D) :
    Mat4 :=
  if boneIndex = -1 then parentWorld
  else
    match sk with
    | some k =>
      if k.hasSkeletalMesh = true ∧ 0 ≤ boneIndex ∧ boneIndex < (k.numBones : Int) then
        parentWorld * k.boneTransform boneIndex * k.invOffsetMatrix boneIndex
      else 1
    | none => 1

/-- The two situations the reference definition of C10 speaks about: no bone index, or
a bone index in range on a skinned-mesh parent with a skeleton (the bone count being
representable as an `int32_t`). -/
def BoneCase (s : Scene) (n p : Ptr) : Prop :=
  (s n).mParentBoneIndex = -1 ∨
    ∃ sk, (s p).skeletal = some sk ∧ sk.hasSkeletalMesh = true
      ∧ 0 ≤ (s n).mParentBoneIndex ∧ (s n).mParentBoneIndex < (sk.numBones : Int)
      ∧ sk.numBones < 2 ^ 31

/-- A scene in which node 1 is attached to bone 0 of the skinned-mesh node 0. -/
def boneScene : Scene := fun m =>
  if m = 1 then { Node3D.new with mParent := some 0, mParentBoneIndex := 0 }
  else if m = 0 then
    { Node3D.new with
      mChildren := [1]
      skeletal := some
        { numBones := 1
          hasSkeletalMesh := true
          boneTransform := fun _ => translateMat ⟨0, 1, 0⟩
          invOffsetMatrix := fun _ => translateMat ⟨0, 0, 1⟩
          boneRotationQuat := fun _ => Quat.identity } }
  else Node3D.new

/-- Three parentless nodes with identity rotation and unit scale: node 0 placed at `a`,
node 1 at `c` and node 2 at `b`. -/
def threeNodes (a b c : Vec3) : Scene :=
  SetPosition (SetPosition (SetPosition Scene.fresh 0 a) 1 c) 2 b

/-- Outcome of the re-parenting scenario with `keepWorldTransform = true` on
`threeNodes a b c`: node 1 is attached to node 0, which gives the scene `s1`; its absolute
position read there is `world` (the read leaves the scene `r`); re-attaching node 1 to
node 2 with `keepWorldTransform = true`, from `s1` as well as from `r`, gives the scene
`t`, in which node 2 is the parent of node 1, the stored local position of node 1 is
`loc`, and the absolute position read is again `world`. -/
def ReparentKeepOutcome (mx : Maths) (a b c world loc : Vec3) : Prop :=
  ∃ s1 r t u,
    Attach mx 3 (threeNodes a b c) 1 (some 0) false = some s1
      ∧ GetAbsolutePosition mx 3 s1 1 = some (world, r)
      ∧ Attach mx 3 s1 1 (some 2) true = some t
      ∧ Attach mx 3 r 1 (some 2) true = some t
      ∧ (t 1).mParent = some 2
      ∧ (t 1).mPosition = loc
      ∧ GetAbsolutePosition mx 3 t 1 = some (world, u)

/-- Node `n` is `p` or one of the first `j` ancestors of `p`. -/
def onChain (s : Scene) : Nat → Ptr → Ptr → Bool
  | 0, p, n => decide (p = n)
  | j + 1, p, n =>
    decide (p = n) ||
      match (s p).mParent with
      | some g => onChain s j g n
      | none => false

/-- The bottom row of the matrix is `(0, 0, 0, 1)`. -/
def IsAffine (m : Mat4) : Prop := m 3 0 = 0 ∧ m 3 1 = 0 ∧ m 3 2 = 0 ∧ m 3 3 = 1

instance instDecidableIsAffine (m : Mat4) : Decidable (IsAffine m) := by
  unfold IsAffine
  infer_instance

/-- Scenario: node 1 is attached to node 0 and read, node 0 is then moved to (1,0,0)
(node 1 stays clean with a stale matrix); the detached node 2 is read, attached to
node 1 with `keepWorldTransform = true`, and read again. The result pairs the absolute
position of node 2 read before the call with the one read after it. Every matrix that
occurs is a translation, on which `sampleMaths` is exact. -/
def staleParentAttachScenario : Option (Vec3 × Vec3) :=
  (Attach sampleMaths 3 Scene.fresh 1 (some 0) false).bind fun s1 =>
  (GetAbsolutePosition sampleMaths 3 s1 1).bind fun r1 =>
  (GetAbsolutePosition sampleMaths 3 (SetPosition r1.2 0 ⟨1, 0, 0⟩) 2).bind fun r2 =>
  (Attach sampleMaths 3 r2.2 2 (some 1) true).bind fun s3 =>
  (GetAbsolutePosition sampleMaths 3 s3 2).map fun r3 => (r2.1, r3.1)

/-- Scenario: node 1 is moved to (5,0,0) and never read; node 2 is moved to (1,1,0)
and read. -/
def twoRootsScenario (mx : Maths) : Option Scene :=
  (GetTransform mx 1 (SetPosition (SetPosition Scene.fresh 1 ⟨5, 0, 0⟩) 2 ⟨1, 1, 0⟩) 2).map
    fun r => r.2

/-- The scene of `twoRootsScenario` for `sampleMaths`. -/
def twoRootsScene : Scene := (twoRootsScenario sampleMaths).getD Scene.fresh

/-- The fields that only setters and re-parenting change agree on two node records:
everything but the cached matrix, the cached Euler view and the dirty flag. -/
def SameLocal (a b : Node3D) : Prop :=
  b.mParent = a.mParent ∧ b.mChildren = a.mChildren ∧ b.mPosition = a.mPosition
    ∧ b.mScale = a.mScale ∧ b.mRotationQuat = a.mRotationQuat
    ∧ b.mParentBoneIndex = a.mParentBoneIndex ∧ b.skeletal = a.skeletal

/-- Scene `t` differs from `s` at most in cached matrices, Euler views and dirty flags. -/
def Frame (s t : Scene) : Prop := ∀ y, SameLocal (s y) (t y)

/-! ## Basic facts about the heap -/

@[simp]
theorem modify_same (s : Scene) (n : Ptr) (f : Node3D → Node3D) :
    modify s n f n = f (s n) := by
  simp [modify]

theorem modify_other (s : Scene) {n m : Ptr} (f : Node3D → Node3D) (h : m ≠ n) :
    modify s n f m = s m := by
  simp [modify, h]

theorem modify_apply (s : Scene) (n m : Ptr) (f : Node3D → Node3D) :
    modify s n f m = if m = n then f (s m) else s m := rfl

theorem modify_modify (s : Scene) (n : Ptr) (f g : Node3D → Node3D) :
    modify (modify s n f) n g = modify s n (fun nd => g (f nd)) := by
  funext m
  by_cases h : m = n <;> simp [modify, h]

theorem modify_congr (s : Scene) (n : Ptr) {f g : Node3D → Node3D} (h : f (s n) = g (s n)) :
    modify s n f = modify s n g := by
  funext m
  by_cases hm : m = n
  · subst hm
    simp [modify, h]
  · simp [modify, hm]

theorem foldl_mark_apply (l : List Ptr) (s : Scene) (m : Ptr) :
    l.foldl MarkTransformDirty s m
      = if m ∈ l then { s m with mTransformDirty := true } else s m := by
  induction l generalizing s with
  | nil => simp
  | cons a l ih =>
    simp only [List.foldl_cons, ih, List.mem_cons]
    by_cases hm : m ∈ l
    · by_cases ha : m = a <;> simp [hm, ha, MarkTransformDirty, modify]
    · by_cases ha : m = a <;> simp [hm, ha, MarkTransformDirty, modify]

theorem markChildrenDirty_apply (s : Scene) (n m : Ptr) :
    markChildrenDirty s n m
      = if m ∈ (s n).mChildren then { s m with mTransformDirty := true } else s m := by
  simp [markChildrenDirty, foldl_mark_apply]

theorem rebuilt_self (mx : Maths) (s : Scene) (n : Ptr) (m : Mat4) :
    rebuilt mx s n m = fun y =>
      if y = n then
        { s n with mTransform := m, mRotationEuler := mx.eulerDegrees (s n).mRotationQuat,
                   mTransformDirty := false }
      else if y ∈ (s n).mChildren then { s y with mTransformDirty := true } else s y := by
  funext y
  by_cases h : y = n
  · subst h
    by_cases hc : y ∈ (s y).mChildren <;>
      simp [rebuilt, modify, markChildrenDirty_apply, hc]
  · simp [rebuilt, modify, markChildrenDirty_apply, h]

/-! ## `UpdateTransform(false)` -/

theorem UpdateTransform_zero (mx : Maths) (s : Scene) (n : Ptr) (b : Bool) :
    UpdateTransform mx 0 s n b = none := rfl

theorem UpdateTransform_succ_false (mx : Maths) (f : Nat) (s : Scene) (n : Ptr) :
    UpdateTransform mx (f + 1) s n false
      = (updateParentWith (fun t m b => UpdateTransform mx f t m b) s n).bind fun s1 =>
          if (s1 n).mTransformDirty then
            rebuildWith (fun t m b => UpdateTransform mx f t m b) mx s1 n
          else some s1 := by
  rw [UpdateTransform]
  congr 1
  funext s1
  by_cases hd : (s1 n).mTransformDirty = true <;> simp [hd]

theorem UpdateTransform_clean (mx : Maths) (fuel : Nat) (s s1 : Scene) (n : Ptr)
    (h : UpdateTransform mx fuel s n false = some s1) : (s1 n).mTransformDirty = false := by
  cases fuel with
  | zero => simp [UpdateTransform] at h
  | succ f =>
    rw [UpdateTransform_succ_false] at h
    simp only [Option.bind_eq_some] at h
    obtain ⟨t, -, hu⟩ := h
    by_cases hd : (t n).mTransformDirty = true
    · simp only [hd, if_true, rebuildWith, Option.map_eq_some'] at hu
      obtain ⟨v, -, rfl⟩ := hu
      simp
    · simp only [hd, Bool.false_eq_true, if_false, Option.some.injEq] at hu
      subst hu
      simpa using hd

theorem sameLocal_refl (a : Node3D) : SameLocal a a := by
  simp [SameLocal]

theorem sameLocal_trans {a b c : Node3D} (h1 : SameLocal a b) (h2 : SameLocal b c) :
    SameLocal a c := by
  obtain ⟨a1, a2, a3, a4, a5, a6, a7⟩ := h1
  obtain ⟨b1, b2, b3, b4, b5, b6, b7⟩ := h2
  exact ⟨b1.trans a1, b2.trans a2, b3.trans a3, b4.trans a4, b5.trans a5, b6.trans a6,
    b7.trans a7⟩

theorem frame_refl (s : Scene) : Frame s s := fun y => sameLocal_refl (s y)

theorem frame_trans {s t u : Scene} (h1 : Frame s t) (h2 : Frame t u) : Frame s u :=
  fun y => sameLocal_trans (h1 y) (h2 y)

theorem frame_localMatrix_eq {s t : Scene} (h : Frame s t) (y : Ptr) :
    localMatrix (t y) = localMatrix (s y) := by
  obtain ⟨-, h2, h3, h4, h5, -, -⟩ := h y
  simp [localMatrix, effectiveScale, h2, h3, h4, h5]

theorem frame_modify_cache (s : Scene) (n : Ptr) (f : Node3D → Node3D)
    (hf : ∀ nd, SameLocal nd (f nd)) : Frame s (modify s n f) := by
  intro y
  by_cases h : y = n
  · subst h
    simpa using hf (s y)
  · simpa [modify_other s f h] using sameLocal_refl (s y)

theorem frame_markChildrenDirty (s : Scene) (n : Ptr) : Frame s (markChildrenDirty s n) := by
  intro y
  rw [markChildrenDirty_apply]
  by_cases h : y ∈ (s n).mChildren <;> simp [h, SameLocal]

theorem frame_rebuilt (mx : Maths) (s : Scene) (n : Ptr) (m : Mat4) :
    Frame s (rebuilt mx s n m) := by
  intro y
  rw [rebuilt_self]
  by_cases h : y = n
  · subst h
    simp [SameLocal]
  · by_cases hc : y ∈ (s n).mChildren <;> simp [h, hc, SameLocal]

/-- Property of an update function: it only touches caches. -/
def FrameUpd (upd : Scene → Ptr → Bool → Option Scene) : Prop :=
  ∀ t m u, upd t m false = some u → Frame t u

theorem GetTransformWith_frame {upd : Scene → Ptr → Bool → Option Scene} (hu : FrameUpd upd)
    {s : Scene} {n : Ptr} {r : Mat4 × Scene} (h : GetTransformWith upd s n = some r) :
    Frame s r.2 := by
  unfold GetTransformWith at h
  by_cases hd : (s n).mTransformDirty = true
  · simp only [hd, if_true, Option.map_eq_some'] at h
    obtain ⟨u, hu1, rfl⟩ := h
    exact hu _ _ _ hu1
  · simp only [hd, Bool.false_eq_true, if_false, Option.some.injEq] at h
    subst h
    exact frame_refl s

theorem GetParentTransformWith_frame {upd : Scene → Ptr → Bool → Option Scene}
    (hu : FrameUpd upd) {s : Scene} {n : Ptr} {r : Mat4 × Scene}
    (h : GetParentTransformWith upd s n = some r) : Frame s r.2 := by
  unfold GetParentTransformWith at h
  split at h
  · simp only [Option.some.injEq] at h
    subst h
    exact frame_refl s
  · split at h
    · exact GetTransformWith_frame hu h
    · split at h
      · simp only [Option.some.injEq] at h
        subst h
        exact frame_refl s
      · split at h
        · simp only [Option.map_eq_some'] at h
          obtain ⟨q, hq, rfl⟩ := h
          exact GetTransformWith_frame (r := q) hu hq
        · simp only [Option.some.injEq] at h
          subst h
          exact frame_refl s

theorem rebuildWith_frame {upd : Scene → Ptr → Bool → Option Scene} (hu : FrameUpd upd)
    (mx : Maths) {s t : Scene} {n : Ptr} (h : rebuildWith upd mx s n = some t) :
    Frame s t := by
  unfold rebuildWith at h
  simp only [Option.map_eq_some'] at h
  obtain ⟨sb, hsb, rfl⟩ := h
  have h1 : Frame s (modify s n (fun nd => { nd with mTransform := localMatrix nd })) :=
    frame_modify_cache s n _ (fun nd => by simp [SameLocal])
  have h2 : Frame s sb := by
    split at hsb
    · simp only [Option.map_eq_some'] at hsb
      obtain ⟨r, hr, rfl⟩ := hsb
      exact frame_trans (frame_trans h1 (GetParentTransformWith_frame hu hr))
        (frame_modify_cache _ n _ (fun nd => by simp [SameLocal]))
    · simp only [Option.some.injEq] at hsb
      subst hsb
      exact h1
  refine frame_trans h2 (frame_trans (frame_markChildrenDirty sb n) ?_)
  exact frame_trans (frame_modify_cache _ n _ (fun nd => by simp [SameLocal]))
    (frame_modify_cache _ n _ (fun nd => by simp [SameLocal]))

theorem updateParentWith_frame {upd : Scene → Ptr → Bool → Option Scene} (hu : FrameUpd upd)
    {s t : Scene} {n : Ptr} (h : updateParentWith upd s n = some t) : Frame s t := by
  unfold updateParentWith at h
  split at h
  · split at h
    · exact hu _ _ _ h
    · simp only [Option.some.injEq] at h
      subst h
      exact frame_refl s
  · simp only [Option.some.injEq] at h
    subst h
    exact frame_refl s

theorem UpdateTransform_frameUpd (mx : Maths) (fuel : Nat) :
    FrameUpd (fun t m b => UpdateTransform mx fuel t m b) := by
  induction fuel with
  | zero =>
    intro t m u h
    simp [UpdateTransform] at h
  | succ f ih =>
    intro t m u h
    simp only [UpdateTransform_succ_false, Option.bind_eq_some] at h
    obtain ⟨s1, h1, h2⟩ := h
    have f1 := updateParentWith_frame ih h1
    by_cases hd : (s1 m).mTransformDirty = true
    · simp only [hd, if_true] at h2
      exact frame_trans f1 (rebuildWith_frame ih mx h2)
    · simp only [hd, Bool.false_eq_true, if_false, Option.some.injEq] at h2
      subst h2
      exact f1

theorem UpdateTransform_frame {mx : Maths} {fuel : Nat} {s t : Scene} {n : Ptr}
    (h : UpdateTransform mx fuel s n false = some t) : Frame s t :=
  UpdateTransform_frameUpd mx fuel s n t h

/-- The parent of `n`, when there is one, has a clean flag. -/
def ParentClean (s : Scene) (n : Ptr) : Prop :=
  ∀ p, (s n).mParent = some p → (s p).mTransformDirty = false

theorem GetTransformWith_clean (upd : Scene → Ptr → Bool → Option Scene) {s : Scene} {p : Ptr}
    (h : (s p).mTransformDirty = false) :
    GetTransformWith upd s p = some ((s p).mTransform, s) := by
  simp [GetTransformWith, h]

theorem GetParentTransformWith_clean (upd : Scene → Ptr → Bool → Option Scene) {s : Scene}
    {n : Ptr} (h : ParentClean s n) :
    GetParentTransformWith upd s n = some (parentMatrix s n, s) := by
  unfold GetParentTransformWith parentMatrix
  cases hp : (s n).mParent with
  | none => rfl
  | some p =>
    have hc := h p hp
    simp only [GetTransformWith_clean upd hc]
    split
    · rfl
    · split
      · rfl
      · split <;> rfl

theorem rebuildWith_eq (upd : Scene → Ptr → Bool → Option Scene) (mx : Maths) {s : Scene}
    {n : Ptr} (hc : ParentClean s n) (hd : (s n).mTransformDirty = true) :
    rebuildWith upd mx s n = some (rebuilt mx s n (rebuildMatrix s n)) := by
  have hne : ∀ p, (s n).mParent = some p → p ≠ n := by
    intro p hp hpn
    have := hc p hp
    rw [hpn, hd] at this
    exact Bool.noConfusion this
  unfold rebuildWith
  cases hp : (s n).mParent with
  | none =>
    simp only [modify_same, hp, Option.map_some', rebuilt, rebuildMatrix]
    rw [modify_congr s n (g := fun nd => { nd with mTransform := localMatrix (s n) }) rfl]
  | some p =>
    have hpn := hne p hp
    have hc2 : ParentClean (modify s n (fun nd => { nd with mTransform := localMatrix nd })) n := by
      intro q hq
      simp only [modify_same] at hq
      have hqn := hne q hq
      rw [modify_other _ _ hqn]
      exact hc q hq
    have hpm : parentMatrix (modify s n (fun nd => { nd with mTransform := localMatrix nd })) n
        = parentMatrix s n := by
      simp [parentMatrix, hp, modify_other _ _ hpn]
    simp only [modify_same, hp, GetParentTransformWith_clean upd hc2, hpm, Option.map_some',
      rebuilt, rebuildMatrix, modify_modify]
    rw [modify_congr s n
      (g := fun nd => { nd with mTransform := parentMatrix s n * localMatrix (s n) }) rfl]

theorem updateParentWith_clean {mx : Maths} {f : Nat} {s t : Scene} {n : Ptr}
    (h : updateParentWith (fun t m b => UpdateTransform mx f t m b) s n = some t) :
    ParentClean t n := by
  intro p hp
  have hfr := updateParentWith_frame (UpdateTransform_frameUpd mx f) h
  have hp0 : (s n).mParent = some p := by rw [← (hfr n).1]; exact hp
  unfold updateParentWith at h
  simp only [hp0] at h
  by_cases hd : (s p).mTransformDirty = true
  · simp only [hd, if_true] at h
    exact UpdateTransform_clean mx f s t p h
  · simp only [hd, Bool.false_eq_true, if_false, Option.some.injEq] at h
    subst h
    simpa using hd

theorem UpdateTransform_step (mx : Maths) (f : Nat) (s : Scene) (n : Ptr) :
    UpdateTransform mx (f + 1) s n false
      = (updateParentWith (fun t m b => UpdateTransform mx f t m b) s n).map
          (fun s1 => finish mx s1 n) := by
  rw [UpdateTransform_succ_false]
  cases h : updateParentWith (fun t m b => UpdateTransform mx f t m b) s n with
  | none => rfl
  | some s1 =>
    simp only [Option.some_bind, Option.map_some', finish]
    by_cases hd : (s1 n).mTransformDirty = true
    · simp only [hd, if_true]
      exact rebuildWith_eq _ mx (updateParentWith_clean h) hd
    · simp [hd]

/-! ## Chains, world matrices and the cache invariant -/

theorem localMatrix_eq_specLocal (nd : Node3D) : localMatrix nd = specLocal nd := by
  simp [localMatrix, specLocal, glmScale, glmTranslate]

theorem frame_specLocal_eq {s t : Scene} (h : Frame s t) (y : Ptr) :
    specLocal (t y) = specLocal (s y) := by
  rw [← localMatrix_eq_specLocal, ← localMatrix_eq_specLocal, frame_localMatrix_eq h]

theorem frame_worldMatrix_eq {s t : Scene} (h : Frame s t) (k : Nat) (n : Ptr) :
    worldMatrix t k n = worldMatrix s k n := by
  induction k generalizing n with
  | zero => simp [worldMatrix, frame_specLocal_eq h]
  | succ k ih =>
    simp only [worldMatrix, (h n).1, frame_specLocal_eq h, ih]

theorem frame_rooted_eq {s t : Scene} (h : Frame s t) (k : Nat) (n : Ptr) :
    rooted t k n = rooted s k n := by
  induction k generalizing n with
  | zero => simp [rooted, (h n).1]
  | succ k ih => simp only [rooted, (h n).1, ih]

theorem frame_wellFormed {s t : Scene} (h : Frame s t) (hw : WellFormed s) : WellFormed t := by
  refine ⟨fun c p => ?_, fun p => ?_⟩
  · rw [(h c).1, (h p).2.1]
    exact hw.1 c p
  · rw [(h p).2.1]
    exact hw.2 p

theorem frame_noBones {s t : Scene} (h : Frame s t) (hb : NoBones s) : NoBones t := by
  intro n
  rw [(h n).2.2.2.2.2.1]
  exact hb n

theorem rooted_unique (s : Scene) {i j : Nat} {n : Ptr} (hi : rooted s i n = true)
    (hj : rooted s j n = true) : i = j := by
  induction i generalizing j n with
  | zero =>
    cases j with
    | zero => rfl
    | succ j =>
      simp only [rooted] at hi hj
      cases hp : (s n).mParent <;> simp [hp] at hi hj
  | succ i ih =>
    cases j with
    | zero =>
      simp only [rooted] at hi hj
      cases hp : (s n).mParent <;> simp [hp] at hi hj
    | succ j =>
      simp only [rooted] at hi hj
      cases hp : (s n).mParent with
      | none => simp [hp] at hi
      | some p =>
        simp only [hp] at hi hj
        rw [ih hi hj]

theorem okChain_rooted {ex : Ptr → Bool} {s : Scene} {k : Nat} {n : Ptr}
    (h : okChain ex s k n = true) : rooted s k n = true := by
  induction k generalizing n with
  | zero =>
    simp only [okChain, Bool.and_eq_true] at h
    simpa [rooted] using h.2
  | succ k ih =>
    simp only [okChain, Bool.and_eq_true] at h
    simp only [rooted]
    cases hp : (s n).mParent with
    | none => simp [hp] at h
    | some p =>
      simp only [hp] at h
      exact ih h.2

theorem okChain_nodeOk {ex : Ptr → Bool} {s : Scene} {k : Nat} {n : Ptr}
    (h : okChain ex s k n = true) : nodeOk ex s n = true := by
  cases k <;> simp only [okChain, Bool.and_eq_true] at h <;> exact h.1

theorem effectiveScale_uniform {a : Node3D} (hu : uniformScale a = true) :
    effectiveScale a = a.mScale := by
  simp only [uniformScale, decide_eq_true_eq] at hu
  unfold effectiveScale
  split
  · cases hsc : a.mScale with
    | mk x y z =>
      rw [hsc] at hu
      simp only at hu
      simp [hu.1, hu.2]
  · rfl

theorem specLocal_uniform {a b : Node3D} (hu : uniformScale b = true)
    (hp : b.mPosition = a.mPosition) (hs : b.mScale = a.mScale)
    (hr : b.mRotationQuat = a.mRotationQuat) : specLocal b = specLocal a := by
  have hua : uniformScale a = true := by
    simp only [uniformScale, hs] at hu
    exact hu
  simp [specLocal, effectiveScale_uniform hu, effectiveScale_uniform hua, hp, hs, hr]

/-- Every node that is `nodeOk` in `t` carries the same parent, pose and cache in `s`
and is `nodeOk` there. -/
def StableOk (ex : Ptr → Bool) (s t : Scene) : Prop :=
  ∀ y, nodeOk ex t y = true →
    nodeOk ex s y = true ∧ (t y).mParent = (s y).mParent ∧ (t y).mPosition = (s y).mPosition
      ∧ (t y).mScale = (s y).mScale ∧ (t y).mRotationQuat = (s y).mRotationQuat
      ∧ (t y).mTransform = (s y).mTransform

theorem stableOk_okChain {ex : Ptr → Bool} {s t : Scene} (h : StableOk ex s t) {k : Nat}
    {n : Ptr} (hk : okChain ex t k n = true) :
    okChain ex s k n = true ∧ worldMatrix t k n = worldMatrix s k n := by
  induction k generalizing n with
  | zero =>
    simp only [okChain, Bool.and_eq_true] at hk ⊢
    obtain ⟨h1, h2, h3, h4, h5, -⟩ := h n hk.1
    refine ⟨⟨h1, by rw [← h2]; exact hk.2⟩, ?_⟩
    simp only [worldMatrix]
    have hu : uniformScale (t n) = true := by
      have := hk.1
      simp only [nodeOk, Bool.and_eq_true] at this
      exact this.2
    exact specLocal_uniform hu h3 h4 h5
  | succ k ih =>
    simp only [okChain, Bool.and_eq_true] at hk ⊢
    obtain ⟨h1, h2, h3, h4, h5, -⟩ := h n hk.1
    have hu : uniformScale (t n) = true := by
      have := hk.1
      simp only [nodeOk, Bool.and_eq_true] at this
      exact this.2
    have hl := specLocal_uniform hu h3 h4 h5
    cases hp : (t n).mParent with
    | none => simp [hp] at hk
    | some p =>
      have hp2 : (s n).mParent = some p := by rw [← h2]; exact hp
      simp only [hp] at hk
      obtain ⟨i1, i2⟩ := ih hk.2
      refine ⟨⟨h1, by simp only [hp2]; exact i1⟩, ?_⟩
      simp only [worldMatrix, hp, hp2, i2, hl]

theorem stableOk_cacheInv {ex : Ptr → Bool} {s t : Scene} (h : StableOk ex s t)
    (hc : CacheInv ex s) : CacheInv ex t := by
  intro k n hk
  obtain ⟨h1, h2⟩ := stableOk_okChain h hk
  rw [h2, ← hc k n h1]
  exact (h n (okChain_nodeOk hk)).2.2.2.2.2

theorem rebuilt_at (mx : Maths) (s : Scene) (x : Ptr) (m : Mat4) :
    (rebuilt mx s x m x).mTransform = m ∧ (rebuilt mx s x m x).mTransformDirty = false := by
  rw [rebuilt_self]
  simp

theorem rebuilt_ok_other (mx : Maths) (ex : Ptr → Bool) (s : Scene) (x : Ptr) (m : Mat4)
    {y : Ptr} (hy : y ≠ x) (hok : nodeOk ex (rebuilt mx s x m) y = true) :
    rebuilt mx s x m y = s y ∧ y ∉ (s x).mChildren := by
  rw [rebuilt_self] at hok ⊢
  by_cases hc : y ∈ (s x).mChildren
  · simp [nodeOk, hy, hc] at hok
  · simp [hy, hc]

theorem rebuilt_chain (mx : Maths) (ex : Ptr → Bool) (s : Scene) (x : Ptr)
    (hinv : CacheInv ex s) (hw : WellFormed s) (hb : NoBones s) (hpc : ParentClean s x)
    (hd : (s x).mTransformDirty = true) (k : Nat) (n : Ptr)
    (hk : okChain ex (rebuilt mx s x (rebuildMatrix s x)) k n = true) :
    (n ≠ x → okChain ex s k n = true ∧ rebuilt mx s x (rebuildMatrix s x) n = s n)
      ∧ (n = x → rebuildMatrix s x = worldMatrix s k x) := by
  have hfr : Frame s (rebuilt mx s x (rebuildMatrix s x)) := frame_rebuilt mx s x _
  induction k generalizing n with
  | zero =>
    simp only [okChain, Bool.and_eq_true] at hk
    have hpar : (s n).mParent = none := by
      have := hk.2
      rw [(hfr n).1] at this
      simpa using this
    constructor
    · intro hne
      have h1 := (rebuilt_ok_other mx ex s x _ hne hk.1).1
      refine ⟨?_, h1⟩
      simp only [okChain, Bool.and_eq_true]
      rw [h1] at hk
      refine ⟨?_, by simp [hpar]⟩
      have := hk.1
      simpa [nodeOk, h1] using this
    · intro he
      subst he
      simp [rebuildMatrix, hpar, worldMatrix, localMatrix_eq_specLocal]
  | succ k ih =>
    simp only [okChain, Bool.and_eq_true] at hk
    rw [(hfr n).1] at hk
    cases hp : (s n).mParent with
    | none => simp [hp] at hk
    | some p =>
      simp only [hp] at hk
      obtain ⟨hok, hkp⟩ := hk
      constructor
      · intro hne
        obtain ⟨h1, h2⟩ := rebuilt_ok_other mx ex s x _ hne hok
        have hpx : p ≠ x := by
          intro hpx
          subst hpx
          exact h2 ((hw.1 n p).1 hp)
        obtain ⟨i1, -⟩ := (ih p hkp).1 hpx
        refine ⟨?_, h1⟩
        simp only [okChain, Bool.and_eq_true, hp]
        refine ⟨?_, i1⟩
        simpa [nodeOk, h1] using hok
      · intro he
        subst he
        have hpx : p ≠ n := by
          intro hpx
          subst hpx
          have := hpc p hp
          rw [hd] at this
          exact Bool.noConfusion this
        obtain ⟨i1, -⟩ := (ih p hkp).1 hpx
        have hc := hinv k p i1
        simp only [rebuildMatrix, hp, parentMatrix, hb n, if_true, worldMatrix,
          localMatrix_eq_specLocal, hc]

theorem rebuilt_cacheInv (mx : Maths) (ex : Ptr → Bool) (s : Scene) (x : Ptr)
    (hinv : CacheInv ex s) (hw : WellFormed s) (hb : NoBones s) (hpc : ParentClean s x)
    (hd : (s x).mTransformDirty = true) :
    CacheInv ex (rebuilt mx s x (rebuildMatrix s x)) := by
  intro k n hk
  have hfr : Frame s (rebuilt mx s x (rebuildMatrix s x)) := frame_rebuilt mx s x _
  obtain ⟨h1, h2⟩ := rebuilt_chain mx ex s x hinv hw hb hpc hd k n hk
  rw [frame_worldMatrix_eq hfr]
  by_cases hn : n = x
  · subst hn
    rw [(rebuilt_at mx s n _).1]
    exact h2 rfl
  · obtain ⟨i1, i2⟩ := h1 hn
    rw [i2]
    exact hinv k n i1

/-- The three facts carried through every operation: well-formed links, no bone
attachment, and correct caches on `okChain`s. -/
def Inv (ex : Ptr → Bool) (s : Scene) : Prop :=
  WellFormed s ∧ NoBones s ∧ CacheInv ex s

theorem finish_inv (mx : Maths) (ex : Ptr → Bool) (s : Scene) (n : Ptr) (h : Inv ex s)
    (hpc : ParentClean s n) : Inv ex (finish mx s n) := by
  unfold finish
  by_cases hd : (s n).mTransformDirty = true
  · simp only [hd, if_true]
    have hfr : Frame s (rebuilt mx s n (rebuildMatrix s n)) := frame_rebuilt mx s n _
    exact ⟨frame_wellFormed hfr h.1, frame_noBones hfr h.2.1,
      rebuilt_cacheInv mx ex s n h.2.2 h.1 h.2.1 hpc hd⟩
  · simpa [hd] using h

theorem UpdateTransform_inv (mx : Maths) (ex : Ptr → Bool) (fuel : Nat) :
    ∀ (s t : Scene) (n : Ptr), UpdateTransform mx fuel s n false = some t →
      Inv ex s → Inv ex t := by
  induction fuel with
  | zero =>
    intro s t n h
    simp [UpdateTransform] at h
  | succ f ih =>
    intro s t n h hinv
    rw [UpdateTransform_step] at h
    simp only [Option.map_eq_some'] at h
    obtain ⟨s1, h1, rfl⟩ := h
    have hpc := updateParentWith_clean h1
    have hinv1 : Inv ex s1 := by
      unfold updateParentWith at h1
      split at h1
      · split at h1
        · exact ih _ _ _ h1 hinv
        · simp only [Option.some.injEq] at h1
          subst h1
          exact hinv
      · simp only [Option.some.injEq] at h1
        subst h1
        exact hinv
    exact finish_inv mx ex s1 n hinv1 hpc

/-! ## Steps that touch one node only -/

/-- Parent pointers, child lists and bone indices agree in `s` and `t`. -/
def SameLinks (s t : Scene) : Prop :=
  ∀ y, (t y).mParent = (s y).mParent ∧ (t y).mChildren = (s y).mChildren
    ∧ (t y).mParentBoneIndex = (s y).mParentBoneIndex

/-- Away from `n`, a node of `t` is either dirty or carries the parent, pose, cache
and flag it has in `s`. -/
def Away (n : Ptr) (s t : Scene) : Prop :=
  ∀ y, y ≠ n → (t y).mTransformDirty = true ∨
    ((t y).mParent = (s y).mParent ∧ (t y).mPosition = (s y).mPosition
      ∧ (t y).mScale = (s y).mScale ∧ (t y).mRotationQuat = (s y).mRotationQuat
      ∧ (t y).mTransform = (s y).mTransform
      ∧ (t y).mTransformDirty = (s y).mTransformDirty)

theorem frame_sameLinks {s t : Scene} (h : Frame s t) : SameLinks s t :=
  fun y => ⟨(h y).1, (h y).2.1, (h y).2.2.2.2.2.1⟩

theorem sameLinks_wellFormed {s t : Scene} (h : SameLinks s t) (hw : WellFormed s) :
    WellFormed t := by
  refine ⟨fun c p => ?_, fun p => ?_⟩
  · rw [(h c).1, (h p).2.1]
    exact hw.1 c p
  · rw [(h p).2.1]
    exact hw.2 p

theorem sameLinks_noBones {s t : Scene} (h : SameLinks s t) (hb : NoBones s) : NoBones t := by
  intro n
  rw [(h n).2.2]
  exact hb n

theorem away_stableOk {n : Ptr} {s t : Scene} (h : Away n s t) {ex : Ptr → Bool}
    (hex : ex n = true) : StableOk ex s t := by
  intro y hy
  have hyn : y ≠ n := by
    intro e
    subst e
    simp [nodeOk, hex] at hy
  rcases h y hyn with hd | ⟨h1, h2, h3, h4, h5, h6⟩
  · simp [nodeOk, hd] at hy
  · refine ⟨?_, h1, h2, h3, h4, h5⟩
    simpa [nodeOk, uniformScale, h3, h6] using hy

theorem away_modify (s : Scene) (n : Ptr) (f : Node3D → Node3D) : Away n s (modify s n f) := by
  intro y hy
  right
  simp [modify_other s f hy]

theorem away_markChildrenDirty (s : Scene) (n : Ptr) : Away n s (markChildrenDirty s n) := by
  intro y _
  rw [markChildrenDirty_apply]
  by_cases hc : y ∈ (s n).mChildren
  · left
    simp [hc]
  · right
    simp [hc]

theorem away_trans {n : Ptr} {s t u : Scene} (h1 : Away n s t) (h2 : Away n t u) :
    Away n s u := by
  intro y hy
  rcases h2 y hy with hd | ⟨a1, a2, a3, a4, a5, a6⟩
  · exact Or.inl hd
  · rcases h1 y hy with hd | ⟨b1, b2, b3, b4, b5, b6⟩
    · left
      rw [a6]
      exact hd
    · right
      exact ⟨a1.trans b1, a2.trans b2, a3.trans b3, a4.trans b4, a5.trans b5, a6.trans b6⟩

theorem sameLinks_refl (s : Scene) : SameLinks s s := fun _ => ⟨Eq.refl _, Eq.refl _, Eq.refl _⟩

theorem sameLinks_trans {s t u : Scene} (h1 : SameLinks s t) (h2 : SameLinks t u) :
    SameLinks s u :=
  fun y => ⟨(h2 y).1.trans (h1 y).1, (h2 y).2.1.trans (h1 y).2.1,
    (h2 y).2.2.trans (h1 y).2.2⟩

theorem sameLinks_modify (s : Scene) (n : Ptr) (f : Node3D → Node3D)
    (hf : ∀ nd, (f nd).mParent = nd.mParent ∧ (f nd).mChildren = nd.mChildren
      ∧ (f nd).mParentBoneIndex = nd.mParentBoneIndex) : SameLinks s (modify s n f) := by
  intro y
  by_cases h : y = n
  · subst h
    simpa using hf (s y)
  · simp [modify_other s f h]

theorem away_inv {ex : Ptr → Bool} {n : Ptr} {s t : Scene} (h : Inv ex s) (hex : ex n = true)
    (hl : SameLinks s t) (ha : Away n s t) : Inv ex t :=
  ⟨sameLinks_wellFormed hl h.1, sameLinks_noBones hl h.2.1,
    stableOk_cacheInv (away_stableOk ha hex) h.2.2⟩

theorem SetPosition_links (s : Scene) (n : Ptr) (v : Vec3) :
    SameLinks s (SetPosition s n v) ∧ Away n s (SetPosition s n v) := by
  unfold SetPosition MarkTransformDirty
  rw [modify_modify]
  exact ⟨sameLinks_modify s n _ (fun nd => by simp), away_modify s n _⟩

theorem SetScale_links (s : Scene) (n : Ptr) (v : Vec3) :
    SameLinks s (SetScale s n v) ∧ Away n s (SetScale s n v) := by
  unfold SetScale MarkTransformDirty
  rw [modify_modify]
  exact ⟨sameLinks_modify s n _ (fun nd => by simp), away_modify s n _⟩

theorem SetRotation_links (mx : Maths) (s : Scene) (n : Ptr) (q : Quat) :
    SameLinks s (SetRotation mx s n q) ∧ Away n s (SetRotation mx s n q) := by
  unfold SetRotation MarkTransformDirty
  rw [modify_modify]
  exact ⟨sameLinks_modify s n _ (fun nd => by simp), away_modify s n _⟩

theorem okChain_mono {ex ex2 : Ptr → Bool} {s : Scene}
    (h : ∀ y, nodeOk ex s y = true → nodeOk ex2 s y = true) {k : Nat} {n : Ptr}
    (hk : okChain ex s k n = true) : okChain ex2 s k n = true := by
  induction k generalizing n with
  | zero =>
    simp only [okChain, Bool.and_eq_true] at hk ⊢
    exact ⟨h n hk.1, hk.2⟩
  | succ k ih =>
    simp only [okChain, Bool.and_eq_true] at hk ⊢
    refine ⟨h n hk.1, ?_⟩
    cases hp : (s n).mParent with
    | none => simp [hp] at hk
    | some p =>
      simp only [hp] at hk ⊢
      exact ih hk.2

theorem inv_mono {ex ex2 : Ptr → Bool} {s : Scene} (h : Inv ex2 s)
    (hm : ∀ y, nodeOk ex s y = true → nodeOk ex2 s y = true) : Inv ex s :=
  ⟨h.1, h.2.1, fun k n hk => h.2.2 k n (okChain_mono hm hk)⟩

/-- The exclusion set holding just `n`. -/
def only (n : Ptr) : Ptr → Bool := fun y => decide (y = n)

theorem inv_exclude {s : Scene} (h : Inv (fun _ => false) s) (n : Ptr) : Inv (only n) s :=
  inv_mono h (fun y hy => by
    simp only [nodeOk, Bool.and_eq_true] at hy ⊢
    exact ⟨⟨by simp, hy.1.2⟩, hy.2⟩)

theorem inv_include {s : Scene} {n : Ptr} (h : Inv (only n) s)
    (hd : (s n).mTransformDirty = true) : Inv (fun _ => false) s :=
  inv_mono h (fun y hy => by
    have hyn : y ≠ n := by
      intro e
      subst e
      simp [nodeOk, hd] at hy
    simp only [nodeOk, Bool.and_eq_true] at hy ⊢
    exact ⟨⟨by simp [only, hyn], hy.1.2⟩, hy.2⟩)

/-! ## `AddChild` and `RemoveChild` -/

theorem RemoveChild_eq (s : Scene) (o n : Ptr) (h : n ∈ (s o).mChildren) :
    RemoveChild s o (some n)
      = modify (modify s n (fun nd => { nd with mParent := none })) o
          (fun nd => { nd with mChildren := nd.mChildren.erase n }) := by
  simp only [RemoveChild, h, if_true, RemoveChildAt, List.getElem?_indexOf h]
  apply modify_congr
  by_cases hno : o = n
  · subst hno
    simp [List.eraseIdx_indexOf_eq_erase]
  · simp [modify_other _ _ hno, List.eraseIdx_indexOf_eq_erase]

theorem RemoveChild_absent (s : Scene) (o n : Ptr) (h : n ∉ (s o).mChildren) :
    RemoveChild s o (some n) = s := by
  simp [RemoveChild, h]

theorem AddChild_eq (s : Scene) (p n : Ptr) (h : n ∉ (s p).mChildren) :
    AddChild s p (some n)
      = modify (modify s p (fun nd => { nd with mChildren := nd.mChildren ++ [n] })) n
          (fun nd => { nd with mParent := some p }) := by
  simp [AddChild, h]

theorem RemoveChild_parent (s : Scene) (o n : Ptr) (h : n ∈ (s o).mChildren) :
    (RemoveChild s o (some n) n).mParent = none := by
  rw [RemoveChild_eq s o n h]
  by_cases hno : n = o
  · subst hno
    simp
  · simp [modify_other _ _ hno]

theorem RemoveChild_away (s : Scene) (o n : Ptr) :
    Away n s (RemoveChild s o (some n)) := by
  by_cases h : n ∈ (s o).mChildren
  · rw [RemoveChild_eq s o n h]
    intro y hy
    right
    by_cases hyo : y = o
    · subst hyo
      simp [modify_other _ _ hy]
    · simp [modify_other _ _ hyo, modify_other _ _ hy]
  · rw [RemoveChild_absent s o n h]
    intro y _
    right
    simp

theorem AddChild_away (s : Scene) (p n : Ptr) : Away n s (AddChild s p (some n)) := by
  by_cases h : n ∈ (s p).mChildren
  · simp only [AddChild, h, if_true]
    intro y _
    right
    simp
  · rw [AddChild_eq s p n h]
    intro y hy
    right
    by_cases hyp : y = p
    · subst hyp
      simp [modify_other _ _ hy]
    · simp [modify_other _ _ hyp, modify_other _ _ hy]

theorem RemoveChild_bones (s : Scene) (o n : Ptr) (y : Ptr) :
    (RemoveChild s o (some n) y).mParentBoneIndex = (s y).mParentBoneIndex := by
  by_cases h : n ∈ (s o).mChildren
  · rw [RemoveChild_eq s o n h]
    simp only [modify_apply]
    split <;> split <;> simp_all
  · rw [RemoveChild_absent s o n h]

theorem AddChild_bones (s : Scene) (p n : Ptr) (y : Ptr) :
    (AddChild s p (some n) y).mParentBoneIndex = (s y).mParentBoneIndex := by
  by_cases h : n ∈ (s p).mChildren
  · simp [AddChild, h]
  · rw [AddChild_eq s p n h]
    simp only [modify_apply]
    split <;> split <;> simp_all

theorem RemoveChild_wellFormed (s : Scene) (o n : Ptr) (hw : WellFormed s)
    (hp : (s n).mParent = some o) : WellFormed (RemoveChild s o (some n)) := by
  have hmem : n ∈ (s o).mChildren := (hw.1 n o).1 hp
  rw [RemoveChild_eq s o n hmem]
  have hpar : ∀ c, (modify (modify s n (fun nd => { nd with mParent := none })) o
      (fun nd => { nd with mChildren := nd.mChildren.erase n }) c).mParent
      = if c = n then none else (s c).mParent := by
    intro c
    simp only [modify_apply]
    split <;> split <;> simp_all
  have hch : ∀ q, (modify (modify s n (fun nd => { nd with mParent := none })) o
      (fun nd => { nd with mChildren := nd.mChildren.erase n }) q).mChildren
      = if q = o then (s o).mChildren.erase n else (s q).mChildren := by
    intro q
    simp only [modify_apply]
    split <;> split <;> simp_all
  refine ⟨fun c q => ?_, fun q => ?_⟩
  · rw [hpar, hch]
    by_cases hc : c = n
    · subst hc
      simp only [if_true]
      by_cases hq : q = o
      · subst hq
        simp only [if_true]
        constructor
        · intro h
          exact Option.noConfusion h
        · intro h
          exact absurd h (hw.2 q).not_mem_erase
      · simp only [hq, if_false]
        constructor
        · intro h
          exact Option.noConfusion h
        · intro h
          have := (hw.1 c q).2 h
          rw [hp] at this
          exact absurd (Option.some.inj this).symm hq
    · simp only [hc, if_false]
      by_cases hq : q = o
      · subst hq
        simp only [if_true]
        rw [List.mem_erase_of_ne hc]
        exact hw.1 c q
      · simp only [hq, if_false]
        exact hw.1 c q
  · rw [hch]
    by_cases hq : q = o
    · subst hq
      simp only [if_true]
      exact (hw.2 q).erase n
    · simp only [hq, if_false]
      exact hw.2 q

theorem AddChild_wellFormed (s : Scene) (p n : Ptr) (hw : WellFormed s)
    (hp : (s n).mParent = none) : WellFormed (AddChild s p (some n)) := by
  have hmem : ∀ q, n ∉ (s q).mChildren := by
    intro q h
    have := (hw.1 n q).2 h
    rw [hp] at this
    exact Option.noConfusion this
  rw [AddChild_eq s p n (hmem p)]
  have hpar : ∀ c, (modify (modify s p (fun nd => { nd with mChildren := nd.mChildren ++ [n] })) n
      (fun nd => { nd with mParent := some p }) c).mParent
      = if c = n then some p else (s c).mParent := by
    intro c
    simp only [modify_apply]
    split <;> split <;> simp_all
  have hch : ∀ q, (modify (modify s p (fun nd => { nd with mChildren := nd.mChildren ++ [n] })) n
      (fun nd => { nd with mParent := some p }) q).mChildren
      = if q = p then (s p).mChildren ++ [n] else (s q).mChildren := by
    intro q
    simp only [modify_apply]
    split <;> split <;> simp_all
  refine ⟨fun c q => ?_, fun q => ?_⟩
  · rw [hpar, hch]
    by_cases hc : c = n
    · subst hc
      simp only [if_true]
      by_cases hq : q = p
      · subst hq
        simp
      · simp only [hq, if_false]
        constructor
        · intro h
          exact absurd (Option.some.inj h).symm hq
        · intro h
          exact absurd h (hmem q)
    · simp only [hc, if_false]
      by_cases hq : q = p
      · subst hq
        simp only [if_true, List.mem_append, List.mem_singleton, hc, or_false]
        exact hw.1 c q
      · simp only [hq, if_false]
        exact hw.1 c q
  · rw [hch]
    by_cases hq : q = p
    · subst hq
      simp only [if_true]
      rw [List.nodup_append]
      refine ⟨hw.2 q, List.nodup_singleton n, ?_⟩
      intro a ha hb
      rw [List.mem_singleton] at hb
      subst hb
      exact hmem q ha
    · simp only [hq, if_false]
      exact hw.2 q

theorem AddChild_parent (s : Scene) (p n : Ptr) (h : n ∉ (s p).mChildren) :
    (AddChild s p (some n) n).mParent = some p := by
  rw [AddChild_eq s p n h]
  simp

/-! ## The invariant through reads, absolute setters and `SetTransform` -/

theorem GetTransform_frame {mx : Maths} {f : Nat} {s : Scene} {n : Ptr} {r : Mat4 × Scene}
    (h : GetTransform mx f s n = some r) : Frame s r.2 :=
  GetTransformWith_frame (UpdateTransform_frameUpd mx f) h

theorem GetParentTransform_frame {mx : Maths} {f : Nat} {s : Scene} {n : Ptr}
    {r : Mat4 × Scene} (h : GetParentTransform mx f s n = some r) : Frame s r.2 :=
  GetParentTransformWith_frame (UpdateTransform_frameUpd mx f) h

theorem GetTransform_inv {mx : Maths} {ex : Ptr → Bool} {f : Nat} {s : Scene} {n : Ptr}
    {r : Mat4 × Scene} (h : GetTransform mx f s n = some r) (hi : Inv ex s) : Inv ex r.2 := by
  unfold GetTransform GetTransformWith at h
  by_cases hd : (s n).mTransformDirty = true
  · simp only [hd, if_true, Option.map_eq_some'] at h
    obtain ⟨u, hu, rfl⟩ := h
    exact UpdateTransform_inv mx ex f _ _ _ hu hi
  · simp only [hd, Bool.false_eq_true, if_false, Option.some.injEq] at h
    subst h
    exact hi

theorem GetParentTransform_inv {mx : Maths} {ex : Ptr → Bool} {f : Nat} {s : Scene} {n : Ptr}
    {r : Mat4 × Scene} (h : GetParentTransform mx f s n = some r) (hi : Inv ex s) :
    Inv ex r.2 := by
  unfold GetParentTransform GetParentTransformWith at h
  split at h
  · simp only [Option.some.injEq] at h
    subst h
    exact hi
  · split at h
    · exact GetTransform_inv h hi
    · split at h
      · simp only [Option.some.injEq] at h
        subst h
        exact hi
      · split at h
        · simp only [Option.map_eq_some'] at h
          obtain ⟨q, hq, rfl⟩ := h
          exact GetTransform_inv (r := q) hq hi
        · simp only [Option.some.injEq] at h
          subst h
          exact hi

theorem SetAbsolutePosition_inv {mx : Maths} {ex : Ptr → Bool} {f : Nat} {s t : Scene}
    {n : Ptr} {v : Vec3} (h : SetAbsolutePosition mx f s n v = some t) (hex : ex n = true)
    (hi : Inv ex s) : Inv ex t ∧ SameLinks s t := by
  unfold SetAbsolutePosition at h
  split at h
  · simp only [Option.map_eq_some'] at h
    obtain ⟨r, hr, rfl⟩ := h
    have h1 := GetParentTransform_inv hr hi
    have h2 := SetPosition_links r.2 n (xyz (Matrix.mulVec (inverse r.1) (point4 v)))
    exact ⟨away_inv h1 hex h2.1 h2.2, sameLinks_trans (frame_sameLinks (GetParentTransform_frame hr)) h2.1⟩
  · simp only [Option.some.injEq] at h
    subst h
    have h2 := SetPosition_links s n v
    exact ⟨away_inv hi hex h2.1 h2.2, h2.1⟩

theorem SetAbsoluteScale_inv {mx : Maths} {ex : Ptr → Bool} {f : Nat} {s t : Scene}
    {n : Ptr} {v : Vec3} (h : SetAbsoluteScale mx f s n v = some t) (hex : ex n = true)
    (hi : Inv ex s) : Inv ex t ∧ SameLinks s t := by
  unfold SetAbsoluteScale at h
  split at h
  · simp only [GetAbsoluteScale, Option.map_eq_some'] at h
    obtain ⟨r, ⟨u, hu, rfl⟩, rfl⟩ := h
    have h1 := UpdateTransform_inv mx ex f _ _ _ hu hi
    have h2 := fun w => SetScale_links u n w
    exact ⟨away_inv h1 hex (h2 _).1 (h2 _).2, 
      sameLinks_trans (frame_sameLinks (UpdateTransform_frame hu)) (h2 _).1⟩
  · simp only [Option.some.injEq] at h
    subst h
    have h2 := SetScale_links s n v
    exact ⟨away_inv hi hex h2.1 h2.2, h2.1⟩

theorem SetAbsoluteRotation_inv {mx : Maths} {ex : Ptr → Bool} {f : Nat} {s t : Scene}
    {n : Ptr} {q : Quat} (h : SetAbsoluteRotation mx f s n q = some t) (hex : ex n = true)
    (hi : Inv ex s) : Inv ex t ∧ SameLinks s t := by
  unfold SetAbsoluteRotation at h
  split at h
  · simp only [GetAbsoluteRotationQuat, Option.map_eq_some'] at h
    obtain ⟨r, ⟨u, hu, rfl⟩, rfl⟩ := h
    have h1 := UpdateTransform_inv mx ex f _ _ _ hu hi
    have h2 := fun w => SetRotation_links mx u n w
    exact ⟨away_inv h1 hex (h2 _).1 (h2 _).2, 
      sameLinks_trans (frame_sameLinks (UpdateTransform_frame hu)) (h2 _).1⟩
  · simp only [Option.some.injEq] at h
    subst h
    have h2 := SetRotation_links mx s n q
    exact ⟨away_inv hi hex h2.1 h2.2, h2.1⟩

theorem settle_links (mx : Maths) (s : Scene) (n : Ptr) :
    SameLinks s (settle mx s n) ∧ Away n s (settle mx s n) := by
  unfold settle
  rw [modify_modify]
  constructor
  · exact sameLinks_trans (sameLinks_modify s n _ (fun nd => by simp))
      (frame_sameLinks (frame_markChildrenDirty _ n))
  · exact away_trans (away_modify s n _) (away_markChildrenDirty _ n)

theorem SetTransform_inv {mx : Maths} {ex : Ptr → Bool} {f : Nat} {s t : Scene}
    {n : Ptr} {m : Mat4} (h : SetTransform mx f s n m = some t) (hex : ex n = true)
    (hi : Inv ex s) : Inv ex t ∧ SameLinks s t := by
  unfold SetTransform at h
  simp only [Option.bind_eq_some, Option.map_eq_some'] at h
  obtain ⟨s2, h2, s3, h3, s4, h4, rfl⟩ := h
  have l0 : SameLinks s (modify s n (fun nd => { nd with mTransform := m })) :=
    sameLinks_modify s n _ (fun nd => by simp)
  have i0 : Inv ex (modify s n (fun nd => { nd with mTransform := m })) :=
    away_inv hi hex l0 (away_modify s n _)
  obtain ⟨i2, l2⟩ := SetAbsolutePosition_inv h2 hex i0
  obtain ⟨i3, l3⟩ := SetAbsoluteScale_inv h3 hex i2
  obtain ⟨i4, l4⟩ := SetAbsoluteRotation_inv h4 hex i3
  have l5 := settle_links mx s4 n
  exact ⟨away_inv i4 hex l5.1 l5.2, 
    sameLinks_trans (sameLinks_trans (sameLinks_trans l0 l2) l3) (sameLinks_trans l4 l5.1)⟩

/-! ## The invariant through `Attach` -/

theorem RemoveChild_inv {ex : Ptr → Bool} {s : Scene} {o n : Ptr} (hi : Inv ex s)
    (hex : ex n = true) (hp : (s n).mParent = some o) :
    Inv ex (RemoveChild s o (some n)) ∧ (RemoveChild s o (some n) n).mParent = none :=
  ⟨⟨RemoveChild_wellFormed s o n hi.1 hp,
    fun y => (RemoveChild_bones s o n y).trans (hi.2.1 y),
    stableOk_cacheInv (away_stableOk (RemoveChild_away s o n) hex) hi.2.2⟩,
   RemoveChild_parent s o n ((hi.1.1 n o).1 hp)⟩

theorem AddChild_inv {ex : Ptr → Bool} {s : Scene} {p n : Ptr} (hi : Inv ex s)
    (hex : ex n = true) (hp : (s n).mParent = none) : Inv ex (AddChild s p (some n)) :=
  ⟨AddChild_wellFormed s p n hi.1 hp,
   fun y => (AddChild_bones s p n y).trans (hi.2.1 y),
   stableOk_cacheInv (away_stableOk (AddChild_away s p n) hex) hi.2.2⟩

theorem detachOld_inv {mx : Maths} {ex : Ptr → Bool} {f : Nat} {s t : Scene} {n : Ptr}
    {keep : Bool} (h : detachOld mx f s n keep = some t) (hex : ex n = true) (hi : Inv ex s) :
    Inv ex t ∧ (t n).mParent = none := by
  unfold detachOld at h
  cases hp : (s n).mParent with
  | none =>
    simp only [hp, Option.some.injEq] at h
    subst h
    exact ⟨hi, hp⟩
  | some old =>
    simp only [hp] at h
    cases keep with
    | false =>
      simp only [Bool.false_eq_true, if_false, Option.some.injEq] at h
      subst h
      exact RemoveChild_inv hi hex hp
    | true =>
      simp only [if_true, Option.bind_eq_some] at h
      obtain ⟨r, hr, hs⟩ := h
      have i1 := GetTransform_inv hr hi
      have hp1 : (r.2 n).mParent = some old := by
        rw [((GetTransform_frame hr) n).1]
        exact hp
      obtain ⟨i2, hp2⟩ := RemoveChild_inv i1 hex hp1
      obtain ⟨i3, l3⟩ := SetTransform_inv hs hex i2
      exact ⟨i3, by rw [(l3 n).1]; exact hp2⟩

theorem attachNew_inv {mx : Maths} {ex : Ptr → Bool} {f : Nat} {s t : Scene} {n : Ptr}
    {parent : Option Ptr} {keep : Bool} (h : attachNew mx f s n parent keep = some t)
    (hex : ex n = true) (hi : Inv ex s) (hp : (s n).mParent = none) : Inv ex t := by
  unfold attachNew at h
  cases parent with
  | none =>
    simp only [Option.some.injEq] at h
    subst h
    exact hi
  | some p =>
    simp only at h
    cases keep with
    | false =>
      simp only [Bool.false_eq_true, if_false, Option.some.injEq] at h
      subst h
      exact AddChild_inv hi hex hp
    | true =>
      simp only [if_true, Option.bind_eq_some] at h
      obtain ⟨r, hr, hs⟩ := h
      have i1 := GetTransform_inv hr hi
      have hp1 : (r.2 n).mParent = none := by
        rw [((GetTransform_frame hr) n).1]
        exact hp
      exact (SetTransform_inv hs hex (AddChild_inv i1 hex hp1)).1

theorem clearBone_inv {ex : Ptr → Bool} {s : Scene} {n : Ptr} (hi : Inv ex s)
    (hex : ex n = true) :
    Inv ex (modify s n (fun nd => { nd with mParentBoneIndex := -1 })) := by
  have hl : SameLinks s (modify s n (fun nd => { nd with mParentBoneIndex := -1 })) := by
    intro y
    by_cases hy : y = n
    · subst hy
      simp [hi.2.1 y]
    · simp [modify_other _ _ hy]
  exact away_inv hi hex hl (away_modify s n _)

theorem Attach_inv {mx : Maths} {f : Nat} {s t : Scene} {n : Ptr} {parent : Option Ptr}
    {keep : Bool} (h : Attach mx f s n parent keep = some t) (hi : Inv (fun _ => false) s) :
    Inv (fun _ => false) t := by
  unfold Attach at h
  by_cases hself : parent = some n
  · simp only [hself, if_true, Option.some.injEq] at h
    subst h
    exact hi
  · simp only [hself, if_false, Option.bind_eq_some, Option.map_eq_some'] at h
    obtain ⟨s1, h1, s2, h2, s4, h4, rfl⟩ := h
    have hex : only n n = true := by simp [only]
    have i1 : Inv (only n) s1 := by
      split at h1
      · exact UpdateTransform_inv mx (only n) f _ _ _ h1 (inv_exclude hi n)
      · simp only [Option.some.injEq] at h1
        subst h1
        exact inv_exclude hi n
    obtain ⟨i2, hp2⟩ := detachOld_inv h2 hex i1
    have i3 := clearBone_inv i2 hex
    have hp3 : (modify s2 n (fun nd => { nd with mParentBoneIndex := -1 }) n).mParent = none := by
      simpa using hp2
    have i4 := attachNew_inv h4 hex i3 hp3
    have i5 : Inv (only n) (MarkTransformDirty s4 n) :=
      away_inv i4 hex (sameLinks_modify s4 n _ (fun nd => by simp)) (away_modify s4 n _)
    exact inv_include i5 (by simp [MarkTransformDirty])

theorem fresh_inv : Inv (fun _ => false) Scene.fresh := by
  refine ⟨⟨fun c p => ?_, fun p => ?_⟩, fun n => rfl, fun k n hk => ?_⟩
  · simp [Scene.fresh, Node3D.new]
  · simp [Scene.fresh, Node3D.new]
  · have := okChain_nodeOk hk
    simp [nodeOk, Scene.fresh, Node3D.new] at this

theorem setter_inv {s t : Scene} {n : Ptr} (hi : Inv (fun _ => false) s)
    (hl : SameLinks s t ∧ Away n s t) (hd : (t n).mTransformDirty = true) :
    Inv (fun _ => false) t :=
  inv_include (away_inv (inv_exclude hi n) (by simp [only]) hl.1 hl.2) hd

theorem reachable_inv {mx : Maths} {s : Scene} (h : Reachable mx s) :
    Inv (fun _ => false) s := by
  induction h with
  | fresh => exact fresh_inv
  | setPosition n v _ ih =>
    exact setter_inv ih (SetPosition_links _ n v) (by simp [SetPosition, MarkTransformDirty])
  | setRotation n q _ ih =>
    exact setter_inv ih (SetRotation_links mx _ n q) (by simp [SetRotation, MarkTransformDirty])
  | setScale n v _ ih =>
    exact setter_inv ih (SetScale_links _ n v) (by simp [SetScale, MarkTransformDirty])
  | attach fuel n parent keep _ ha ih => exact Attach_inv ha ih
  | getTransform fuel n r _ hg ih => exact GetTransform_inv hg ih

/-! ## C1: the cache invariant -/

theorem staleChildScenario_reachable (mx : Maths) (s : Scene)
    (h : staleChildScenario mx = some s) : Reachable mx s := by
  simp only [staleChildScenario, Option.bind_eq_some, Option.map_eq_some'] at h
  obtain ⟨s1, h1, r, hr, rfl⟩ := h
  exact Reachable.setPosition 0 _
    (Reachable.getTransform 2 1 r (Reachable.attach 2 1 (some 0) false Reachable.fresh h1) hr)

theorem readChildScenario_reachable (mx : Maths) (s : Scene)
    (h : readChildScenario mx = some s) : Reachable mx s := by
  simp only [readChildScenario, Option.bind_eq_some, Option.map_eq_some'] at h
  obtain ⟨s1, h1, r, hr, rfl⟩ := h
  exact Reachable.getTransform 2 1 r (Reachable.attach 2 1 (some 0) false Reachable.fresh h1) hr

theorem staleChild_matrices :
    localMatrix { Node3D.new with mChildren := [1] } * localMatrix Node3D.new
      ≠ specLocal { Node3D.new with mPosition := ⟨1, 0, 0⟩, mChildren := [1] }
          * specLocal Node3D.new := by
  decide!

/-- C1 (as stated, refuted): after node 1 is attached to node 0 and read, and node 0 is
then moved, node 1 is reachable with a clean dirty flag while its cached matrix
differs from the product of the local matrices from the root down. -/
theorem C1_stale_child_counterexample :
    ∃ n k, ∀ mx : Maths, ∃ s, Reachable mx s ∧ rooted s k n = true
      ∧ (s n).mTransformDirty = false ∧ (s n).mTransform ≠ worldMatrix s k n := by
  refine ⟨1, 1, fun mx => ?_⟩
  have hs : ∃ s, staleChildScenario mx = some s := Option.isSome_iff_exists.1 rfl
  obtain ⟨s, hs⟩ := hs
  have h1 : (staleChildScenario mx).map (fun s => rooted s 1 1) = some true := rfl
  have h2 : (staleChildScenario mx).map (fun s => (s 1).mTransformDirty) = some false := rfl
  have h3 : (staleChildScenario mx).map (fun s => (s 1).mTransform)
      = some (localMatrix { Node3D.new with mChildren := [1] } * localMatrix Node3D.new) := rfl
  have h4 : (staleChildScenario mx).map (fun s => worldMatrix s 1 1)
      = some (specLocal { Node3D.new with mPosition := ⟨1, 0, 0⟩, mChildren := [1] }
          * specLocal Node3D.new) := rfl
  rw [hs] at h1 h2 h3 h4
  simp only [Option.map_some', Option.some.injEq] at h1 h2 h3 h4
  refine ⟨s, staleChildScenario_reachable mx s hs, h1, h2, ?_⟩
  rw [h3, h4]
  exact staleChild_matrices

/-- C1 (amended): in every state reachable from freshly created nodes by
SetPosition/SetRotation/SetScale/Attach/GetTransform calls, a node whose dirty flag is
false, whose ancestors all have a false dirty flag, and whose chain carries uniform
stored scales, has a cached matrix (the value GetTransform returns, leaving the scene
unchanged) equal to the product, from the root down to the node, of each node's
translate * rotate * effective-scale local matrix. -/
theorem C1_clean_chain_cache (mx : Maths) (s : Scene) (h : Reachable mx s) (k : Nat) (n : Ptr)
    (hc : cleanChain s k n = true) :
    (s n).mTransform = worldMatrix s k n
      ∧ ∀ fuel, GetTransform mx fuel s n = some (worldMatrix s k n, s) := by
  have h1 : (s n).mTransform = worldMatrix s k n := (reachable_inv h).2.2 k n hc
  refine ⟨h1, fun fuel => ?_⟩
  have hd : (s n).mTransformDirty = false := by
    have := okChain_nodeOk hc
    simp only [nodeOk, Bool.and_eq_true] at this
    simpa using this.1.2
  rw [GetTransform, GetTransformWith_clean _ hd, h1]

/-- Witness for C1: after node 1 is attached to node 0 and read, node 1 heads a clean
chain of one link and caches the product of the two local matrices. -/
theorem C1_clean_chain_cache_witness :
    ∃ s, Reachable sampleMaths s ∧ cleanChain s 1 1 = true
      ∧ (s 1).mTransform = worldMatrix s 1 1 := by
  have hs : ∃ s, readChildScenario sampleMaths = some s := Option.isSome_iff_exists.1 rfl
  obtain ⟨s, hs⟩ := hs
  have h1 : (readChildScenario sampleMaths).map (fun s => cleanChain s 1 1) = some true := by
    decide!
  rw [hs] at h1
  simp only [Option.map_some', Option.some.injEq] at h1
  exact ⟨s, readChildScenario_reachable _ s hs, h1,
    (C1_clean_chain_cache sampleMaths s (readChildScenario_reachable _ s hs) 1 1 h1).1⟩

/-! ## Pulling a chain up to date -/

theorem rebuilt_other (mx : Maths) (s : Scene) (x : Ptr) (m : Mat4) {y : Ptr} (hy : y ≠ x) :
    (rebuilt mx s x m y).mTransform = (s y).mTransform
      ∧ (rebuilt mx s x m y).mRotationEuler = (s y).mRotationEuler
      ∧ ((s y).mTransformDirty = true → (rebuilt mx s x m y).mTransformDirty = true)
      ∧ (y ∈ (s x).mChildren → (rebuilt mx s x m y).mTransformDirty = true) := by
  rw [rebuilt_self]
  by_cases hc : y ∈ (s x).mChildren <;> simp [hy, hc]

theorem finish_other (mx : Maths) (s : Scene) (x : Ptr) {y : Ptr} (hy : y ≠ x) :
    (finish mx s x y).mTransform = (s y).mTransform
      ∧ (finish mx s x y).mRotationEuler = (s y).mRotationEuler
      ∧ ((s y).mTransformDirty = true → (finish mx s x y).mTransformDirty = true) := by
  unfold finish
  split
  · exact ⟨(rebuilt_other mx s x _ hy).1, (rebuilt_other mx s x _ hy).2.1,
      (rebuilt_other mx s x _ hy).2.2.1⟩
  · exact ⟨rfl, rfl, fun h => h⟩

theorem rooted_parent {s : Scene} {k : Nat} {n p : Ptr} (h : rooted s (k + 1) n = true)
    (hp : (s n).mParent = some p) : rooted s k p = true := by
  simpa [rooted, hp] using h

theorem rooted_ne {s : Scene} {i j : Nat} {x y : Ptr} (hx : rooted s i x = true)
    (hy : rooted s j y = true) (hij : i ≠ j) : x ≠ y := by
  intro e
  subst e
  exact hij (rooted_unique s hx hy)

/-- Nodes deeper than `p` keep their cached matrix and a set dirty flag while `p` is
updated. -/
theorem UpdateTransform_deeper (mx : Maths) (f : Nat) :
    ∀ (s t : Scene) (p : Ptr) (j : Nat), UpdateTransform mx f s p false = some t →
      rooted s j p = true → ∀ y i, rooted s i y = true → j < i →
        (t y).mTransform = (s y).mTransform
          ∧ (t y).mRotationEuler = (s y).mRotationEuler
          ∧ ((s y).mTransformDirty = true → (t y).mTransformDirty = true) := by
  induction f with
  | zero =>
    intro s t p j h
    simp [UpdateTransform] at h
  | succ f ih =>
    intro s t p j h hr y i hy hji
    rw [UpdateTransform_step] at h
    simp only [Option.map_eq_some'] at h
    obtain ⟨s1, h1, rfl⟩ := h
    have hyp : y ≠ p := rooted_ne hy hr (by omega)
    have hfin := finish_other mx s1 p hyp
    have h1y : (s1 y).mTransform = (s y).mTransform
        ∧ (s1 y).mRotationEuler = (s y).mRotationEuler
        ∧ ((s y).mTransformDirty = true → (s1 y).mTransformDirty = true) := by
      unfold updateParentWith at h1
      cases hp : (s p).mParent with
      | none =>
        simp only [hp, Option.some.injEq] at h1
        subst h1
        exact ⟨rfl, rfl, fun h => h⟩
      | some g =>
        simp only [hp] at h1
        by_cases hd : (s g).mTransformDirty = true
        · simp only [hd, if_true] at h1
          cases j with
          | zero => simp [rooted, hp] at hr
          | succ j =>
            exact ih s s1 g j h1 (rooted_parent hr hp) y i hy (by omega)
        · simp only [hd, Bool.false_eq_true, if_false, Option.some.injEq] at h1
          subst h1
          exact ⟨rfl, rfl, fun h => h⟩
    exact ⟨hfin.1.trans h1y.1, hfin.2.1.trans h1y.2.1, fun h => hfin.2.2 (h1y.2.2 h)⟩

theorem resolved_world {s : Scene} {k : Nat} {n : Ptr} (h : resolved s k n = true) :
    (s n).mTransform = worldMatrix s k n ∧ rooted s k n = true
      ∧ (s n).mTransformDirty = false := by
  induction k generalizing n with
  | zero =>
    simp only [resolved, Bool.and_eq_true, decide_eq_true_eq, Bool.not_eq_true'] at h
    exact ⟨by simpa [worldMatrix] using h.2, by simpa [rooted] using h.1.1, h.1.2⟩
  | succ k ih =>
    simp only [resolved] at h
    cases hp : (s n).mParent with
    | none => simp [hp] at h
    | some p =>
      simp only [hp, Bool.and_eq_true, decide_eq_true_eq, Bool.not_eq_true'] at h
      obtain ⟨⟨⟨⟨h1, -⟩, -⟩, h4⟩, h5⟩ := h
      obtain ⟨i1, i2, -⟩ := ih h5
      exact ⟨by simp only [worldMatrix, hp, h4, i1], by simpa [rooted, hp] using i2, h1⟩

theorem pullable_rooted {s : Scene} {k : Nat} {n : Ptr} (h : pullable s k n = true) :
    rooted s k n = true := by
  induction k generalizing n with
  | zero =>
    simp only [pullable, Bool.and_eq_true] at h
    simpa [rooted] using h.1
  | succ k ih =>
    simp only [pullable] at h
    cases hp : (s n).mParent with
    | none => simp [hp] at h
    | some p =>
      simp only [hp, Bool.and_eq_true] at h
      simp only [rooted, hp]
      by_cases hd : (s p).mTransformDirty = true
      · simp only [hd, if_true] at h
        exact ih h.2
      · simp only [hd, Bool.false_eq_true, if_false, Bool.and_eq_true] at h
        exact (resolved_world h.2.1).2.1

/-- With enough fuel, `UpdateTransform(false)` on the head of a `pullable` chain returns,
leaves the product of the chain's local transforms in the node's cache, and marks the
children of a node that was dirty. -/
theorem UpdateTransform_pull (mx : Maths) (k : Nat) :
    ∀ (s : Scene) (n : Ptr), pullable s k n = true → ∀ f, k < f →
      ∃ t, UpdateTransform mx f s n false = some t
        ∧ (t n).mTransform = worldMatrix s k n
        ∧ ((s n).mTransformDirty = true →
            ∀ c, c ∈ (s n).mChildren → c ≠ n → (t c).mTransformDirty = true) := by
  induction k with
  | zero =>
    intro s n h f hf
    obtain ⟨f, rfl⟩ : ∃ g, f = g + 1 := ⟨f - 1, by omega⟩
    simp only [pullable, Bool.and_eq_true, Bool.or_eq_true, decide_eq_true_eq] at h
    have hp : (s n).mParent = none := by simpa using h.1
    rw [UpdateTransform_step]
    simp only [updateParentWith, hp, Option.map_some', Option.some.injEq, exists_eq_left',
      finish]
    by_cases hd : (s n).mTransformDirty = true
    · simp only [hd, if_true, (rebuilt_at mx s n _).1, rebuildMatrix, hp, worldMatrix,
        localMatrix_eq_specLocal, true_and, forall_const]
      intro c hc hcn
      exact (rebuilt_other mx s n _ hcn).2.2.2 hc
    · simp only [hd, Bool.false_eq_true, if_false, worldMatrix, false_implies, and_true]
      rcases h.2 with h2 | h2
      · exact absurd h2 hd
      · exact h2
  | succ k ih =>
    intro s n h f hf
    obtain ⟨f, rfl⟩ : ∃ g, f = g + 1 := ⟨f - 1, by omega⟩
    have hroot := pullable_rooted h
    simp only [pullable] at h
    cases hp : (s n).mParent with
    | none => simp [hp] at h
    | some p =>
      simp only [hp, Bool.and_eq_true, decide_eq_true_eq] at h
      obtain ⟨⟨hbone, hmem⟩, hrest⟩ := h
      have hrp : rooted s k p = true := rooted_parent hroot hp
      have hnp : n ≠ p := rooted_ne hroot hrp (by omega)
      rw [UpdateTransform_step]
      by_cases hdp : (s p).mTransformDirty = true
      · simp only [hdp, if_true] at hrest
        obtain ⟨s1, h1, h2, h3⟩ := ih s p hrest f (by omega)
        have hfr : Frame s s1 := UpdateTransform_frame h1
        have hn1 : (s1 n).mTransformDirty = true := h3 hdp n hmem hnp
        have hpc : (s1 p).mTransformDirty = false := UpdateTransform_clean mx f s s1 p h1
        have hkids : (s1 n).mChildren = (s n).mChildren := (hfr n).2.1
        simp only [updateParentWith, hp, hdp, if_true, h1, Option.map_some',
          Option.some.injEq, exists_eq_left', finish, hn1]
        refine ⟨?_, ?_⟩
        · rw [(rebuilt_at mx s1 n _).1]
          simp only [rebuildMatrix, (hfr n).1, hp, parentMatrix, (hfr n).2.2.2.2.2.1, hbone,
            if_true, h2, worldMatrix, localMatrix_eq_specLocal, frame_specLocal_eq hfr]
        · intro _ c hc hcn
          exact (rebuilt_other mx s1 n _ hcn).2.2.2 (by rw [hkids]; exact hc)
      · simp only [hdp, Bool.false_eq_true, if_false, Bool.and_eq_true, Bool.or_eq_true,
          decide_eq_true_eq] at hrest
        obtain ⟨hres, hn⟩ := hrest
        have hw := (resolved_world hres).1
        simp only [updateParentWith, hp, hdp, Bool.false_eq_true, if_false, Option.map_some',
          Option.some.injEq, exists_eq_left', finish]
        by_cases hd : (s n).mTransformDirty = true
        · simp only [hd, if_true, (rebuilt_at mx s n _).1, rebuildMatrix, hp, parentMatrix,
            hbone, hw, worldMatrix, localMatrix_eq_specLocal, true_and, forall_const]
          intro c hc hcn
          exact (rebuilt_other mx s n _ hcn).2.2.2 hc
        · simp only [hd, Bool.false_eq_true, if_false, worldMatrix, hp, false_implies,
            and_true]
          rcases hn with h2 | h2
          · exact absurd h2 hd
          · rw [h2, hw]

/-! ## C2: reads after a mutation -/

theorem mutate_spec (mx : Maths) (s : Scene) (m : Ptr) (μ : Mutation) :
    (∀ y, y ≠ m → mutate mx s m μ y = s y)
      ∧ (mutate mx s m μ m).mParent = (s m).mParent
      ∧ (mutate mx s m μ m).mChildren = (s m).mChildren
      ∧ (mutate mx s m μ m).mParentBoneIndex = (s m).mParentBoneIndex
      ∧ (mutate mx s m μ m).mTransformDirty = true := by
  cases μ <;>
    simp [mutate, SetPosition, SetRotation, SetScale, MarkTransformDirty, modify_modify] <;>
    intro y hy <;> exact modify_other _ _ hy

theorem resolved_congr {s t : Scene} {x : Ptr} {i : Nat} (hs : ∀ y, y ≠ x → t y = s y)
    (hx : rooted s i x = true) :
    ∀ (k : Nat) (n : Ptr), k < i → resolved s k n = true → resolved t k n = true := by
  intro k
  induction k with
  | zero =>
    intro n hk h
    have hn : n ≠ x := rooted_ne (resolved_world h).2.1 hx (by omega)
    simpa [resolved, hs n hn] using h
  | succ k ih =>
    intro n hk h
    have hn : n ≠ x := rooted_ne (resolved_world h).2.1 hx (by omega)
    simp only [resolved, hs n hn] at h ⊢
    cases hp : (s n).mParent with
    | none => simp [hp] at h
    | some p =>
      simp only [hp, Bool.and_eq_true] at h ⊢
      have hpx : p ≠ x := rooted_ne (resolved_world h.2).2.1 hx (by omega)
      rw [hs p hpx]
      exact ⟨h.1, ih p (by omega) h.2⟩

theorem pullable_dirty_head {s t : Scene} {k : Nat} {n : Ptr} (h : resolved s k n = true)
    (hs : ∀ y, y ≠ n → t y = s y) (hp : (t n).mParent = (s n).mParent)
    (hb : (t n).mParentBoneIndex = (s n).mParentBoneIndex)
    (hd : (t n).mTransformDirty = true) : pullable t k n = true := by
  have hroot := (resolved_world h).2.1
  cases k with
  | zero =>
    simp only [resolved, Bool.and_eq_true] at h
    simp only [pullable, hp, hd, Bool.true_or, Bool.and_true]
    exact h.1.1
  | succ k =>
    simp only [resolved] at h
    cases hpar : (s n).mParent with
    | none => simp [hpar] at h
    | some p =>
      simp only [hpar, Bool.and_eq_true, decide_eq_true_eq, Bool.not_eq_true'] at h
      obtain ⟨⟨⟨⟨-, h2⟩, h3⟩, -⟩, h5⟩ := h
      have hpn : p ≠ n := rooted_ne (resolved_world h5).2.1 hroot (by omega)
      have h5t := resolved_congr hs hroot k p (by omega) h5
      have hpc : (t p).mTransformDirty = false := (resolved_world h5t).2.2
      simp only [pullable, hp, hpar, hb, h2, hs p hpn, h3, decide_True, Bool.true_and,
        hd, Bool.true_or, Bool.and_true]
      rw [← hs p hpn, hpc]
      simpa using h5t

/-- C2 (amended): for every chain of nodes of any depth whose dirty flags are all
false and whose cached matrices are correct, and every mutation
(SetPosition/SetRotation/SetScale) applied to the node itself or to its direct parent,
a following GetAbsolutePosition on the node returns (with fuel above the chain length)
the translation of the composition of the whole ancestor chain's current local
transforms. -/
theorem C2_read_after_near_mutation (mx : Maths) (s : Scene) (k : Nat) (n m : Ptr)
    (μ : Mutation) (fuel : Nat) (h : resolved s k n = true)
    (hm : m = n ∨ (s n).mParent = some m) (hf : k < fuel) :
    ∃ t, GetAbsolutePosition mx fuel (mutate mx s m μ) n
      = some (ExtractPosition (worldMatrix (mutate mx s m μ) k n), t) := by
  obtain ⟨hs, hmp, hmc, hmb, hmd⟩ := mutate_spec mx s m μ
  suffices hpull : pullable (mutate mx s m μ) k n = true by
    obtain ⟨t, h1, h2, -⟩ := UpdateTransform_pull mx k _ n hpull fuel hf
    exact ⟨t, by simp [GetAbsolutePosition, h1, h2]⟩
  rcases hm with rfl | hm
  · exact pullable_dirty_head h hs hmp hmb hmd
  · have hroot := (resolved_world h).2.1
    cases k with
    | zero =>
      simp only [resolved, hm, Option.isNone_some, Bool.false_and] at h
      exact Bool.noConfusion h
    | succ k =>
      simp only [resolved, hm, Bool.and_eq_true, decide_eq_true_eq, Bool.not_eq_true'] at h
      obtain ⟨⟨⟨⟨-, h2⟩, h3⟩, -⟩, h5⟩ := h
      have hnm : n ≠ m := rooted_ne hroot (resolved_world h5).2.1 (by omega)
      have hhead := pullable_dirty_head h5 hs hmp hmb hmd
      simp only [pullable, hs n hnm, hm, h2, hmc, h3, hmd, decide_True, Bool.true_and,
        if_true]
      exact hhead

theorem staleGrandparent_values :
    (ExtractPosition (localMatrix { Node3D.new with mChildren := [1] }
        * localMatrix { Node3D.new with mChildren := [2] } * localMatrix Node3D.new),
      ExtractPosition (specLocal { Node3D.new with mChildren := [1], mPosition := ⟨1, 0, 0⟩ }
        * specLocal { Node3D.new with mChildren := [2] } * specLocal Node3D.new))
      = ((⟨0, 0, 0⟩ : Vec3), (⟨1, 0, 0⟩ : Vec3)) := by
  decide!

/-- C2 (as stated, refuted): in the chain 0 - 1 - 2, read once and then mutated at the
grandparent 0 by SetPosition (1,0,0), GetAbsolutePosition on node 2 returns (0,0,0)
while the translation of the composition of the chain's current local transforms is
(1,0,0). -/
theorem C2_stale_grandparent_counterexample :
    ∃ v w : Vec3, v ≠ w ∧ ∀ mx : Maths, staleGrandparentScenario mx = some (v, w) := by
  refine ⟨⟨0, 0, 0⟩, ⟨1, 0, 0⟩, by decide, fun mx => ?_⟩
  have h : staleGrandparentScenario mx
      = some (ExtractPosition (localMatrix { Node3D.new with mChildren := [1] }
          * localMatrix { Node3D.new with mChildren := [2] } * localMatrix Node3D.new),
        ExtractPosition (specLocal { Node3D.new with mChildren := [1], mPosition := ⟨1, 0, 0⟩ }
          * specLocal { Node3D.new with mChildren := [2] } * specLocal Node3D.new)) := rfl
  rw [h, staleGrandparent_values]

theorem readChildScene_resolved : resolved readChildScene 1 1 = true := by
  decide!

/-- Witness for C2: in the two-node chain 0 - 1 that has been read, moving the parent 0
and reading node 1 returns the translation of the current product. -/
theorem C2_read_after_near_mutation_witness :
    resolved readChildScene 1 1 = true ∧
      ∃ t, GetAbsolutePosition sampleMaths 2
          (mutate sampleMaths readChildScene 0 (Mutation.setPosition ⟨1, 0, 0⟩)) 1
        = some (ExtractPosition
            (worldMatrix (mutate sampleMaths readChildScene 0 (Mutation.setPosition ⟨1, 0, 0⟩))
              1 1), t) :=
  ⟨readChildScene_resolved,
   C2_read_after_near_mutation sampleMaths readChildScene 1 1 0
     (Mutation.setPosition ⟨1, 0, 0⟩) 2 readChildScene_resolved (Or.inr (by decide!))
     (by decide)⟩

/-! ## C3, C4: the rebuilt matrix -/

theorem UpdateTransform_returns (mx : Maths) (k : Nat) :
    ∀ (s : Scene) (n : Ptr), rooted s k n = true → ∀ f, k < f →
      ∃ t, UpdateTransform mx f s n false = some t := by
  induction k with
  | zero =>
    intro s n h f hf
    obtain ⟨f, rfl⟩ : ∃ g, f = g + 1 := ⟨f - 1, by omega⟩
    have hp : (s n).mParent = none := by simpa [rooted] using h
    rw [UpdateTransform_step]
    simp [updateParentWith, hp]
  | succ k ih =>
    intro s n h f hf
    obtain ⟨f, rfl⟩ : ∃ g, f = g + 1 := ⟨f - 1, by omega⟩
    rw [UpdateTransform_step]
    cases hp : (s n).mParent with
    | none => simp [rooted, hp] at h
    | some p =>
      by_cases hd : (s p).mTransformDirty = true
      · obtain ⟨t, ht⟩ := ih s p (rooted_parent h hp) f (by omega)
        simp [updateParentWith, hp, hd, ht]
      · simp [updateParentWith, hp, hd]

/-- The rebuild of a dirty node at the head of a rooted chain, step by step. -/
theorem rebuild_dirty_rooted (mx : Maths) (s : Scene) (n : Ptr) (k f : Nat)
    (hr : rooted s k n = true) (hd : (s n).mTransformDirty = true) (hf : k ≤ f) :
    ∃ s1, updateParentWith (fun a b c => UpdateTransform mx f a b c) s n = some s1
      ∧ Frame s s1 ∧ ParentClean s1 n
      ∧ UpdateTransform mx (f + 1) s n false
          = some (rebuilt mx s1 n (rebuildMatrix s1 n)) := by
  have hstep := UpdateTransform_step mx f s n
  obtain ⟨t, ht⟩ := UpdateTransform_returns mx k s n hr (f + 1) (by omega)
  rw [hstep] at ht
  simp only [Option.map_eq_some'] at ht
  obtain ⟨s1, h1, -⟩ := ht
  have hfr := updateParentWith_frame (UpdateTransform_frameUpd mx f) h1
  have hd1 : (s1 n).mTransformDirty = true := by
    have h1c := h1
    unfold updateParentWith at h1c
    cases hp : (s n).mParent with
    | none =>
      simp only [hp, Option.some.injEq] at h1c
      subst h1c
      exact hd
    | some p =>
      simp only [hp] at h1c
      by_cases hdp : (s p).mTransformDirty = true
      · simp only [hdp, if_true] at h1c
        cases k with
        | zero => simp [rooted, hp] at hr
        | succ k =>
          exact (UpdateTransform_deeper mx f s s1 p k h1c (rooted_parent hr hp) n (k + 1) hr
            (by omega)).2.2 hd
      · simp only [hdp, Bool.false_eq_true, if_false, Option.some.injEq] at h1c
        subst h1c
        exact hd
  refine ⟨s1, h1, hfr, updateParentWith_clean h1, ?_⟩
  rw [hstep, h1]
  simp [finish, hd1]

theorem specLocal_eq (nd : Node3D) :
    specLocal nd
      = translateMat nd.mPosition * toMat4 nd.mRotationQuat * scaleMat (effectiveScale nd) :=
  rfl

/-- C3: for a dirty node at the head of a chain of k links and fuel above k,
UpdateTransform (and GetTransform) return, and the rebuilt matrix equals
P * translate(position) * rotate(quaternion) * scale(effectiveScale), where P is the
value GetParentTransform returns once the parent is up to date, which is the identity
when the node has no parent. -/
theorem C3_rebuilt_matrix_formula (mx : Maths) (s : Scene) (n : Ptr) (k f : Nat)
    (hr : rooted s k n = true) (hd : (s n).mTransformDirty = true) (hf : k ≤ f) :
    ∃ s1 P t,
      updateParentWith (fun a b c => UpdateTransform mx f a b c) s n = some s1
        ∧ GetParentTransform mx f s1 n = some (P, s1)
        ∧ ((s n).mParent = none → P = 1)
        ∧ UpdateTransform mx (f + 1) s n false = some t
        ∧ GetTransform mx (f + 1) s n = some ((t n).mTransform, t)
        ∧ (t n).mTransform
            = P * (translateMat (s n).mPosition * toMat4 (s n).mRotationQuat
                * scaleMat (effectiveScale (s n))) := by
  obtain ⟨s1, h1, hfr, hpc, hu⟩ := rebuild_dirty_rooted mx s n k f hr hd hf
  refine ⟨s1, parentMatrix s1 n, rebuilt mx s1 n (rebuildMatrix s1 n), h1,
    GetParentTransformWith_clean _ hpc, ?_, hu, ?_, ?_⟩
  · intro hp
    simp [parentMatrix, (hfr n).1, hp]
  · simp [GetTransform, GetTransformWith, hd, hu]
  · rw [(rebuilt_at mx s1 n _).1, ← specLocal_eq, ← frame_specLocal_eq hfr n]
    unfold rebuildMatrix
    cases hp : (s1 n).mParent with
    | none => simp [parentMatrix, hp, localMatrix_eq_specLocal]
    | some p => simp [localMatrix_eq_specLocal]

/-- Witness for C3: node 1, attached to node 0 and never read, is dirty and heads a
chain of one link. -/
theorem C3_rebuilt_matrix_formula_witness :
    ∃ s1 P t,
      updateParentWith (fun a b c => UpdateTransform sampleMaths 1 a b c) attachedScene 1
          = some s1
        ∧ GetParentTransform sampleMaths 1 s1 1 = some (P, s1)
        ∧ ((attachedScene 1).mParent = none → P = 1)
        ∧ UpdateTransform sampleMaths (1 + 1) attachedScene 1 false = some t
        ∧ GetTransform sampleMaths (1 + 1) attachedScene 1 = some ((t 1).mTransform, t)
        ∧ (t 1).mTransform
            = P * (translateMat (attachedScene 1).mPosition
                * toMat4 (attachedScene 1).mRotationQuat
                * scaleMat (effectiveScale (attachedScene 1))) :=
  C3_rebuilt_matrix_formula sampleMaths attachedScene 1 1 1 (by decide!) (by decide!)
    (Nat.le_refl 1)

/-- C4: for a dirty node with stored scale (sx, sy, sz) at the head of a chain of k
links and fuel above k, the rebuild returns; the rebuilt matrix uses scale (sx, sx, sx)
when the node has at least one child and (sx, sy, sz) when it has none; and the stored
scale, hence GetScale, is unchanged. -/
theorem C4_uniform_scale_at_build (mx : Maths) (s : Scene) (n : Ptr) (k f : Nat)
    (hr : rooted s k n = true) (hd : (s n).mTransformDirty = true) (hf : k ≤ f) :
    ∃ s1 P t,
      updateParentWith (fun a b c => UpdateTransform mx f a b c) s n = some s1
        ∧ GetParentTransform mx f s1 n = some (P, s1)
        ∧ UpdateTransform mx (f + 1) s n false = some t
        ∧ GetScale t n = GetScale s n
        ∧ (0 < GetNumChildren s n →
            (t n).mTransform
              = P * (translateMat (s n).mPosition * toMat4 (s n).mRotationQuat
                  * scaleMat ⟨(s n).mScale.x, (s n).mScale.x, (s n).mScale.x⟩))
        ∧ (GetNumChildren s n = 0 →
            (t n).mTransform
              = P * (translateMat (s n).mPosition * toMat4 (s n).mRotationQuat
                  * scaleMat (s n).mScale)) := by
  obtain ⟨s1, h1, hfr, hpc, hu⟩ := rebuild_dirty_rooted mx s n k f hr hd hf
  have hm : (rebuilt mx s1 n (rebuildMatrix s1 n) n).mTransform
      = parentMatrix s1 n * specLocal (s n) := by
    rw [(rebuilt_at mx s1 n _).1, ← frame_specLocal_eq hfr n]
    unfold rebuildMatrix
    cases hp : (s1 n).mParent with
    | none => simp [parentMatrix, hp, localMatrix_eq_specLocal]
    | some p => simp [localMatrix_eq_specLocal]
  refine ⟨s1, parentMatrix s1 n, rebuilt mx s1 n (rebuildMatrix s1 n), h1,
    GetParentTransformWith_clean _ hpc, hu, ?_, ?_, ?_⟩
  · have hf2 : Frame s (rebuilt mx s1 n (rebuildMatrix s1 n)) :=
      frame_trans hfr (frame_rebuilt mx s1 n _)
    exact (hf2 n).2.2.2.1
  · intro hc
    rw [hm, specLocal_eq]
    simp only [GetNumChildren] at hc
    simp [effectiveScale, hc]
  · intro hc
    rw [hm, specLocal_eq]
    simp only [GetNumChildren] at hc
    simp [effectiveScale, hc]

/-- Witness for C4: node 0, parent of node 1 and never read, is dirty and is a root. -/
theorem C4_uniform_scale_at_build_witness :
    ∃ s1 P t,
      updateParentWith (fun a b c => UpdateTransform sampleMaths 0 a b c) attachedScene 0
          = some s1
        ∧ GetParentTransform sampleMaths 0 s1 0 = some (P, s1)
        ∧ UpdateTransform sampleMaths (0 + 1) attachedScene 0 false = some t
        ∧ GetScale t 0 = GetScale attachedScene 0
        ∧ (0 < GetNumChildren attachedScene 0 →
            (t 0).mTransform
              = P * (translateMat (attachedScene 0).mPosition
                  * toMat4 (attachedScene 0).mRotationQuat
                  * scaleMat ⟨(attachedScene 0).mScale.x, (attachedScene 0).mScale.x,
                      (attachedScene 0).mScale.x⟩))
        ∧ (GetNumChildren attachedScene 0 = 0 →
            (t 0).mTransform
              = P * (translateMat (attachedScene 0).mPosition
                  * toMat4 (attachedScene 0).mRotationQuat
                  * scaleMat (attachedScene 0).mScale)) :=
  C4_uniform_scale_at_build sampleMaths attachedScene 0 0 0 (by decide!) (by decide!)
    (Nat.le_refl 0)

/-! ## C5: `SetTransform` round trip -/

theorem sameLinks_rooted_eq {s t : Scene} (h : SameLinks s t) (k : Nat) (n : Ptr) :
    rooted t k n = rooted s k n := by
  induction k generalizing n with
  | zero => simp [rooted, (h n).1]
  | succ k ih => simp only [rooted, (h n).1, ih]

/-- Updating the parent of a rooted node returns and leaves the node's cache alone. -/
theorem parent_update_keeps (mx : Maths) {s : Scene} {n p : Ptr} {k f : Nat}
    (hr : rooted s k n = true) (hp : (s n).mParent = some p) (hf : k ≤ f) :
    ∃ u, UpdateTransform mx f s p false = some u ∧ Frame s u
      ∧ (u n).mTransform = (s n).mTransform := by
  cases k with
  | zero => simp [rooted, hp] at hr
  | succ k =>
    have hrp := rooted_parent hr hp
    obtain ⟨u, hu⟩ := UpdateTransform_returns mx k s p hrp f (by omega)
    exact ⟨u, hu, UpdateTransform_frame hu,
      (UpdateTransform_deeper mx f s u p k hu hrp n (k + 1) hr (by omega)).1⟩

theorem GetTransform_parent_keeps (mx : Maths) {s : Scene} {n p : Ptr} {k f : Nat}
    (hr : rooted s k n = true) (hp : (s n).mParent = some p) (hf : k ≤ f) :
    ∃ r, GetTransformWith (fun a b c => UpdateTransform mx f a b c) s p = some r
      ∧ Frame s r.2 ∧ (r.2 n).mTransform = (s n).mTransform := by
  unfold GetTransformWith
  by_cases hd : (s p).mTransformDirty = true
  · obtain ⟨u, hu, hfr, hk⟩ := parent_update_keeps mx hr hp hf
    exact ⟨((u p).mTransform, u), by simp [hd, hu], hfr, hk⟩
  · exact ⟨((s p).mTransform, s), by simp [hd], frame_refl s, rfl⟩

theorem GetParentTransform_keeps (mx : Maths) {s : Scene} {n : Ptr} {k f : Nat}
    (hr : rooted s k n = true) (hf : k ≤ f) :
    ∃ r, GetParentTransform mx f s n = some r ∧ Frame s r.2
      ∧ (r.2 n).mTransform = (s n).mTransform := by
  unfold GetParentTransform GetParentTransformWith
  cases hp : (s n).mParent with
  | none => exact ⟨(1, s), rfl, frame_refl s, rfl⟩
  | some p =>
    obtain ⟨r, h1, h2, h3⟩ := GetTransform_parent_keeps mx hr hp hf
    simp only
    split
    · exact ⟨r, h1, h2, h3⟩
    · split
      · exact ⟨(1, s), rfl, frame_refl s, rfl⟩
      · split
        · rename_i _ _ sk _ _
          exact ⟨(r.1 * sk.boneTransform (s n).mParentBoneIndex
              * sk.invOffsetMatrix (s n).mParentBoneIndex, r.2), by rw [h1]; rfl, h2, h3⟩
        · exact ⟨(1, s), rfl, frame_refl s, rfl⟩

theorem setter_keeps (s : Scene) (n : Ptr) (f : Node3D → Node3D)
    (hf : ∀ nd, (f nd).mParent = nd.mParent ∧ (f nd).mChildren = nd.mChildren
      ∧ (f nd).mParentBoneIndex = nd.mParentBoneIndex ∧ (f nd).mTransform = nd.mTransform) :
    SameLinks s (modify s n f) ∧ (modify s n f n).mTransform = (s n).mTransform :=
  ⟨sameLinks_modify s n f (fun nd => ⟨(hf nd).1, (hf nd).2.1, (hf nd).2.2.1⟩),
   by simpa using (hf (s n)).2.2.2⟩

theorem SetPosition_keeps (s : Scene) (n : Ptr) (v : Vec3) :
    SameLinks s (SetPosition s n v) ∧ (SetPosition s n v n).mTransform = (s n).mTransform := by
  unfold SetPosition MarkTransformDirty
  rw [modify_modify]
  exact setter_keeps s n _ (fun nd => by simp)

theorem SetScale_keeps (s : Scene) (n : Ptr) (v : Vec3) :
    SameLinks s (SetScale s n v) ∧ (SetScale s n v n).mTransform = (s n).mTransform := by
  unfold SetScale MarkTransformDirty
  rw [modify_modify]
  exact setter_keeps s n _ (fun nd => by simp)

theorem SetRotation_keeps (mx : Maths) (s : Scene) (n : Ptr) (q : Quat) :
    SameLinks s (SetRotation mx s n q)
      ∧ (SetRotation mx s n q n).mTransform = (s n).mTransform := by
  unfold SetRotation MarkTransformDirty
  rw [modify_modify]
  exact setter_keeps s n _ (fun nd => by simp)

theorem SetAbsolutePosition_keeps (mx : Maths) {s : Scene} {n : Ptr} {k f : Nat} (v : Vec3)
    (hr : rooted s k n = true) (hf : k ≤ f) :
    ∃ t, SetAbsolutePosition mx f s n v = some t ∧ SameLinks s t
      ∧ (t n).mTransform = (s n).mTransform := by
  unfold SetAbsolutePosition
  cases hp : (s n).mParent with
  | none => exact ⟨_, rfl, SetPosition_keeps s n v⟩
  | some p =>
    obtain ⟨r, h1, h2, h3⟩ := GetParentTransform_keeps mx hr hf
    have h4 := fun w => SetPosition_keeps r.2 n w
    exact ⟨SetPosition r.2 n (xyz (Matrix.mulVec (inverse r.1) (point4 v))),
      by simp only [h1, Option.map_some'],
      sameLinks_trans (frame_sameLinks h2) (h4 _).1, (h4 _).2.trans h3⟩

theorem SetAbsoluteScale_keeps (mx : Maths) {s : Scene} {n : Ptr} {k f : Nat} (v : Vec3)
    (hr : rooted s k n = true) (hf : k ≤ f) :
    ∃ t, SetAbsoluteScale mx f s n v = some t ∧ SameLinks s t
      ∧ (t n).mTransform = (s n).mTransform := by
  unfold SetAbsoluteScale
  cases hp : (s n).mParent with
  | none => exact ⟨_, rfl, SetScale_keeps s n v⟩
  | some p =>
    obtain ⟨u, h1, h2, h3⟩ := parent_update_keeps mx hr hp hf
    have h4 := fun w => SetScale_keeps u n w
    exact ⟨SetScale u n (relScale v (mx.ExtractScale (u p).mTransform)),
      by simp only [GetAbsoluteScale, h1, Option.map_some'],
      sameLinks_trans (frame_sameLinks h2) (h4 _).1, (h4 _).2.trans h3⟩

theorem SetAbsoluteRotation_keeps (mx : Maths) {s : Scene} {n : Ptr} {k f : Nat} (q : Quat)
    (hr : rooted s k n = true) (hf : k ≤ f) :
    ∃ t, SetAbsoluteRotation mx f s n q = some t ∧ SameLinks s t
      ∧ (t n).mTransform = (s n).mTransform := by
  unfold SetAbsoluteRotation
  cases hp : (s n).mParent with
  | none => exact ⟨_, rfl, SetRotation_keeps mx s n q⟩
  | some p =>
    obtain ⟨u, h1, h2, h3⟩ := parent_update_keeps mx hr hp hf
    have h4 := fun w => SetRotation_keeps mx u n w
    exact ⟨SetRotation mx u n
        (quatMul (quatInverse (parentWorldRot u n p (mx.ExtractRotation (u p).mTransform))) q),
      by simp only [GetAbsoluteRotationQuat, h1, Option.map_some'],
      sameLinks_trans (frame_sameLinks h2) (h4 _).1, (h4 _).2.trans h3⟩

theorem settle_spec (mx : Maths) (s : Scene) (n : Ptr) (hself : n ∉ (s n).mChildren) :
    (settle mx s n n).mTransform = (s n).mTransform
      ∧ (settle mx s n n).mTransformDirty = false
      ∧ (settle mx s n n).mChildren = (s n).mChildren
      ∧ ∀ c, c ∈ (s n).mChildren → (settle mx s n c).mTransformDirty = true := by
  unfold settle
  rw [modify_modify]
  refine ⟨?_, ?_, ?_, ?_⟩
  · rw [markChildrenDirty_apply]
    simp [hself]
  · rw [markChildrenDirty_apply]
    simp [hself]
  · rw [markChildrenDirty_apply]
    simp [hself]
  · intro c hc
    rw [markChildrenDirty_apply]
    simp [hc]

/-- The common content of the `SetTransform` properties: on a rooted node that is not
its own child the call returns, stores the matrix, clears the flag and leaves every
direct child dirty. -/
theorem SetTransform_spec (mx : Maths) (s : Scene) (n : Ptr) (k f : Nat) (m : Mat4)
    (hr : rooted s k n = true) (hself : n ∉ (s n).mChildren) (hf : k ≤ f) :
    ∃ t, SetTransform mx f s n m = some t ∧ SameLinks s t
      ∧ (t n).mTransform = m ∧ (t n).mTransformDirty = false
      ∧ ∀ c, c ∈ (t n).mChildren → (t c).mTransformDirty = true := by
  have l0 : SameLinks s (modify s n (fun nd => { nd with mTransform := m })) :=
    sameLinks_modify s n _ (fun nd => by simp)
  have e0 : (modify s n (fun nd => { nd with mTransform := m }) n).mTransform = m := by simp
  have r0 : rooted (modify s n (fun nd => { nd with mTransform := m })) k n = true := by
    rw [sameLinks_rooted_eq l0]
    exact hr
  obtain ⟨s2, h2, l2, e2⟩ := SetAbsolutePosition_keeps mx (ExtractPosition m) r0 hf
  have r2 : rooted s2 k n = true := by rw [sameLinks_rooted_eq l2]; exact r0
  obtain ⟨s3, h3, l3, e3⟩ := SetAbsoluteScale_keeps mx (mx.ExtractScale m) r2 hf
  have r3 : rooted s3 k n = true := by rw [sameLinks_rooted_eq l3]; exact r2
  obtain ⟨s4, h4, l4, e4⟩ := SetAbsoluteRotation_keeps mx (mx.ExtractRotation m) r3 hf
  have l04 : SameLinks s s4 := sameLinks_trans (sameLinks_trans (sameLinks_trans l0 l2) l3) l4
  have hself4 : n ∉ (s4 n).mChildren := by rw [(l04 n).2.1]; exact hself
  obtain ⟨q1, q2, q3, q4⟩ := settle_spec mx s4 n hself4
  refine ⟨settle mx s4 n, ?_, sameLinks_trans l04 (settle_links mx s4 n).1, ?_, q2, ?_⟩
  · simp [SetTransform, h2, h3, h4]
  · rw [q1, e4, e3, e2, e0]
  · intro c hc
    rw [q3] at hc
    exact q4 c hc

/-- C5: for every matrix M and every node at the head of a chain of k links that is
not listed among its own children (whatever the parent's state: absent, clean or
dirty, bone-attached, degenerate scale), SetTransform(M) returns with fuel at least k,
a GetTransform that follows immediately returns exactly M and changes nothing, the
node's dirty flag is false and every direct child's dirty flag is true. -/
theorem C5_SetTransform_roundtrip (mx : Maths) (s : Scene) (n : Ptr) (k f : Nat) (m : Mat4)
    (hr : rooted s k n = true) (hself : n ∉ (s n).mChildren) (hf : k ≤ f) :
    ∃ t, SetTransform mx f s n m = some t
      ∧ (∀ g, GetTransform mx g t n = some (m, t))
      ∧ (t n).mTransformDirty = false
      ∧ ∀ c, c ∈ (t n).mChildren → (t c).mTransformDirty = true := by
  obtain ⟨t, h1, -, h3, h4, h5⟩ := SetTransform_spec mx s n k f m hr hself hf
  refine ⟨t, h1, fun g => ?_, h4, h5⟩
  rw [GetTransform, GetTransformWith_clean _ h4, h3]

/-- Witness for C5: node 1 under the dirty, never read parent 0. -/
theorem C5_SetTransform_roundtrip_witness :
    ∃ t, SetTransform sampleMaths 1 attachedScene 1 (translateMat ⟨1, 2, 3⟩) = some t
      ∧ (∀ g, GetTransform sampleMaths g t 1 = some (translateMat ⟨1, 2, 3⟩, t))
      ∧ (t 1).mTransformDirty = false
      ∧ ∀ c, c ∈ (t 1).mChildren → (t c).mTransformDirty = true :=
  C5_SetTransform_roundtrip sampleMaths attachedScene 1 1 1 (translateMat ⟨1, 2, 3⟩)
    (by decide!) (by decide!) (Nat.le_refl 1)

/-! ## C9: attaching a node to itself -/

/-- C9: for every node n, every scene (with or without a current parent) and either
value of keepWorldTransform, Attach(n, ...) called on n itself returns at once with the
scene unchanged, for Node3D::Attach with any fuel and for Node::Attach alike: parent,
child lists, bone index, local pose, cached matrix and dirty flag are as before. -/
theorem C9_attach_self_is_noop (mx : Maths) (fuel : Nat) (s : Scene) (n : Ptr) (keep : Bool) :
    Attach mx fuel s n (some n) keep = some s ∧ NodeAttach s n (some n) keep = s := by
  simp [Attach, NodeAttach]

/-! ## C10: the effective parent transform -/

theorem toInt32_small {u : Nat} (h : u < 2 ^ 31) : toInt32 u = (u : Int) := by
  have h1 : u % 2 ^ 32 = u := Nat.mod_eq_of_lt (by omega)
  unfold toInt32
  rw [h1, if_pos h]

/-- C10: for a node with a parent, GetParentTransform agrees with the reference
definition in both situations it describes: with bone index -1 it is the parent's
GetTransform(); with a bone index i, 0 <= i < number of bones, on a skinned-mesh parent
with a non-null skeletal mesh it is parent.GetTransform() * boneTransform(i) *
inverseOffsetMatrix(i), multiplied in that order. The scene returned is the one
GetTransform on the parent returns. -/
theorem C10_GetParentTransform_refines (mx : Maths) (f : Nat) (s : Scene) (n p : Ptr)
    (hp : (s n).mParent = some p) (hc : BoneCase s n p) :
    GetParentTransform mx f s n
      = (GetTransform mx f s p).map fun r =>
          (parentTransformRef r.1 (s n).mParentBoneIndex (s p).skeletal, r.2) := by
  unfold GetParentTransform GetParentTransformWith GetTransform
  simp only [hp]
  rcases hc with hb | ⟨sk, hsk, hmesh, h0, hlt, hsmall⟩
  · simp only [hb, if_true, parentTransformRef]
    cases GetTransformWith (fun t m b => UpdateTransform mx f t m b) s p <;> rfl
  · have hne : (s n).mParentBoneIndex ≠ -1 := by omega
    simp only [hne, if_false, hsk, toInt32_small hsmall, h0, hlt, hmesh, and_self, if_true,
      parentTransformRef]

/-- Witness for C10: node 1 attached to bone 0 of the skinned-mesh node 0. -/
theorem C10_GetParentTransform_refines_witness :
    GetParentTransform sampleMaths 1 boneScene 1
      = (GetTransform sampleMaths 1 boneScene 0).map fun r =>
          (parentTransformRef r.1 (boneScene 1).mParentBoneIndex (boneScene 0).skeletal, r.2) :=
  C10_GetParentTransform_refines sampleMaths 1 boneScene 1 0 rfl
    (Or.inr ⟨_, rfl, rfl, by decide, by decide, by decide⟩)

/-! ## Matrix facts -/

theorem specLocal_col3 (nd : Node3D) (j : Fin 4) : specLocal nd j 3 = point4 nd.mPosition j := by
  fin_cases j <;>
    simp [specLocal, translateMat, toMat4, scaleMat, point4, Matrix.mul_apply, Fin.sum_univ_four,
      Matrix.vecHead, Matrix.vecTail]

theorem extractPosition_mul_specLocal (P : Mat4) (nd : Node3D) :
    ExtractPosition (P * specLocal nd) = xyz (Matrix.mulVec P (point4 nd.mPosition)) := by
  simp only [ExtractPosition, xyz, Matrix.mul_apply, Matrix.mulVec, Matrix.dotProduct,
    specLocal_col3]

theorem inverse_eq_inv (m : Mat4) : inverse m = m⁻¹ := by
  rw [inverse, Matrix.inv_def, Ring.inverse_eq_inv']

theorem mul_inverse_of_det_ne_zero (m : Mat4) (h : m.det ≠ 0) : m * inverse m = 1 := by
  rw [inverse_eq_inv]
  exact Matrix.mul_nonsing_inv m (isUnit_iff_ne_zero.2 h)

theorem translateMat_mul (a b : Vec3) :
    translateMat a * translateMat b = translateMat ⟨a.x + b.x, a.y + b.y, a.z + b.z⟩ := by
  ext i j
  fin_cases i <;> fin_cases j <;>
    simp [translateMat, Matrix.mul_apply, Fin.sum_univ_four, Matrix.vecHead, Matrix.vecTail,
      add_comm]

theorem translateMat_zero : translateMat ⟨0, 0, 0⟩ = 1 := by
  ext i j
  fin_cases i <;> fin_cases j <;>
    simp [translateMat, Matrix.one_apply, Matrix.vecHead, Matrix.vecTail]

theorem inverse_translateMat (b : Vec3) :
    inverse (translateMat b) = translateMat ⟨-b.x, -b.y, -b.z⟩ := by
  rw [inverse_eq_inv]
  apply Matrix.inv_eq_left_inv
  rw [translateMat_mul]
  simp [translateMat_zero]

theorem localMatrix_translation (nd : Node3D) (hq : nd.mRotationQuat = Quat.identity)
    (hs : nd.mScale = ⟨1, 1, 1⟩) : localMatrix nd = translateMat nd.mPosition := by
  rw [localMatrix_eq_specLocal, specLocal]
  have h1 : toMat4 nd.mRotationQuat = 1 := by
    rw [hq]
    ext i j
    fin_cases i <;> fin_cases j <;>
      simp [toMat4, Quat.identity, Matrix.one_apply, Matrix.vecHead, Matrix.vecTail]
  have h2 : scaleMat (effectiveScale nd) = 1 := by
    have : effectiveScale nd = ⟨1, 1, 1⟩ := by
      unfold effectiveScale
      rw [hs]
      split <;> rfl
    rw [this]
    ext i j
    fin_cases i <;> fin_cases j <;>
      simp [scaleMat, Matrix.one_apply, Matrix.vecHead, Matrix.vecTail]
  rw [h1, h2, mul_one, mul_one]

theorem translate_point (b v : Vec3) :
    xyz (Matrix.mulVec (translateMat b) (point4 v)) = ⟨v.x + b.x, v.y + b.y, v.z + b.z⟩ := by
  simp [xyz, translateMat, point4, Matrix.mulVec, Matrix.dotProduct, Fin.sum_univ_four,
    Matrix.vecHead, Matrix.vecTail, add_comm]

theorem extractPosition_translateMat (v : Vec3) : ExtractPosition (translateMat v) = v := by
  simp [ExtractPosition, translateMat, Matrix.vecHead, Matrix.vecTail]

/-! ## Reading a dirty node below a clean parent -/

theorem UpdateTransform_dirty_child (mx : Maths) (t : Scene) (n p : Ptr) (f : Nat)
    (hp : (t n).mParent = some p) (hb : (t n).mParentBoneIndex = -1)
    (hd : (t n).mTransformDirty = true) (hpc : (t p).mTransformDirty = false) :
    UpdateTransform mx (f + 1) t n false
      = some (rebuilt mx t n ((t p).mTransform * specLocal (t n))) := by
  rw [UpdateTransform_step]
  simp [updateParentWith, hp, hpc, finish, hd, rebuildMatrix, parentMatrix, hb,
    localMatrix_eq_specLocal]

theorem GetAbsolutePosition_dirty_child (mx : Maths) (t : Scene) (n p : Ptr) (f : Nat)
    (hp : (t n).mParent = some p) (hb : (t n).mParentBoneIndex = -1)
    (hd : (t n).mTransformDirty = true) (hpc : (t p).mTransformDirty = false) :
    GetAbsolutePosition mx (f + 1) t n
      = some (xyz (Matrix.mulVec (t p).mTransform (point4 (t n).mPosition)),
          rebuilt mx t n ((t p).mTransform * specLocal (t n))) := by
  rw [GetAbsolutePosition, UpdateTransform_dirty_child mx t n p f hp hb hd hpc]
  simp only [Option.map_some', (rebuilt_at mx t n _).1, extractPosition_mul_specLocal]

/-! ## Steps local to one node, seen from the other nodes -/

/-- Away from `n`, scene `t` has the parents, poses, caches and bone indices of `s`,
and the dirty flags of `s` except possibly at children of `n`. -/
def Only (n : Ptr) (s t : Scene) : Prop :=
  ∀ y, y ≠ n →
    (t y).mParent = (s y).mParent ∧ (t y).mPosition = (s y).mPosition
      ∧ (t y).mScale = (s y).mScale ∧ (t y).mRotationQuat = (s y).mRotationQuat
      ∧ (t y).mTransform = (s y).mTransform
      ∧ (t y).mParentBoneIndex = (s y).mParentBoneIndex
      ∧ ((s y).mParent ≠ some n → (t y).mTransformDirty = (s y).mTransformDirty)

theorem only_refl (n : Ptr) (s : Scene) : Only n s s :=
  fun _ _ => ⟨rfl, rfl, rfl, rfl, rfl, rfl, fun _ => rfl⟩

theorem only_trans {n : Ptr} {s t u : Scene} (h1 : Only n s t) (h2 : Only n t u) :
    Only n s u := by
  intro y hy
  obtain ⟨a1, a2, a3, a4, a5, a6, a7⟩ := h1 y hy
  obtain ⟨b1, b2, b3, b4, b5, b6, b7⟩ := h2 y hy
  refine ⟨b1.trans a1, b2.trans a2, b3.trans a3, b4.trans a4, b5.trans a5, b6.trans a6, ?_⟩
  intro hne
  rw [b7 (by rw [a1]; exact hne), a7 hne]

theorem only_modify (s : Scene) (n : Ptr) (f : Node3D → Node3D) : Only n s (modify s n f) := by
  intro y hy
  rw [modify_other s f hy]
  exact ⟨rfl, rfl, rfl, rfl, rfl, rfl, fun _ => rfl⟩

theorem only_markChildrenDirty (s : Scene) (n : Ptr) (hw : WellFormed s) :
    Only n s (markChildrenDirty s n) := by
  intro y _
  rw [markChildrenDirty_apply]
  by_cases hc : y ∈ (s n).mChildren
  · simp only [hc, if_true, true_and]
    intro hne
    exact absurd ((hw.1 y n).2 hc) hne
  · rw [if_neg hc]
    exact ⟨rfl, rfl, rfl, rfl, rfl, rfl, fun _ => rfl⟩

theorem only_RemoveChild (s : Scene) (o n : Ptr) : Only n s (RemoveChild s o (some n)) := by
  by_cases h : n ∈ (s o).mChildren
  · rw [RemoveChild_eq s o n h]
    intro y hy
    by_cases hyo : y = o
    · subst hyo
      simp [modify_other _ _ hy]
    · simp [modify_other _ _ hyo, modify_other _ _ hy]
  · rw [RemoveChild_absent s o n h]
    exact only_refl n s

theorem only_AddChild (s : Scene) (p n : Ptr) : Only n s (AddChild s p (some n)) := by
  by_cases h : n ∈ (s p).mChildren
  · simp only [AddChild, h, if_true]
    exact only_refl n s
  · rw [AddChild_eq s p n h]
    intro y hy
    by_cases hyp : y = p
    · subst hyp
      simp [modify_other _ _ hy]
    · simp [modify_other _ _ hyp, modify_other _ _ hy]

theorem only_SetPosition (s : Scene) (n : Ptr) (v : Vec3) : Only n s (SetPosition s n v) := by
  unfold SetPosition MarkTransformDirty
  rw [modify_modify]
  exact only_modify s n _

theorem only_SetScale (s : Scene) (n : Ptr) (v : Vec3) : Only n s (SetScale s n v) := by
  unfold SetScale MarkTransformDirty
  rw [modify_modify]
  exact only_modify s n _

theorem only_SetRotation (mx : Maths) (s : Scene) (n : Ptr) (q : Quat) :
    Only n s (SetRotation mx s n q) := by
  unfold SetRotation MarkTransformDirty
  rw [modify_modify]
  exact only_modify s n _

theorem only_settle (mx : Maths) (s : Scene) (n : Ptr) (hw : WellFormed s) :
    Only n s (settle mx s n) := by
  unfold settle
  rw [modify_modify]
  refine only_trans (only_modify s n _) (only_markChildrenDirty _ n ?_)
  exact sameLinks_wellFormed (sameLinks_modify s n _ (fun nd => by simp)) hw

/-- A parentless node: `SetTransform` reduces to the three local setters. -/
theorem SetTransform_root (mx : Maths) (f : Nat) (s : Scene) (n : Ptr) (m : Mat4)
    (hp : (s n).mParent = none) :
    SetTransform mx f s n m
      = some (settle mx
          (SetRotation mx
            (SetScale
              (SetPosition (modify s n (fun nd => { nd with mTransform := m })) n
                (ExtractPosition m))
              n (mx.ExtractScale m))
            n (mx.ExtractRotation m))
          n) := by
  simp [SetTransform, SetAbsolutePosition, SetAbsoluteScale, SetAbsoluteRotation, SetPosition,
    SetScale, SetRotation, MarkTransformDirty, hp]

theorem UpdateTransform_stable_noop (mx : Maths) (f : Nat) (s : Scene) (p : Ptr)
    (hc : (s p).mTransformDirty = false) (hpc : ParentClean s p) :
    UpdateTransform mx (f + 1) s p false = some s := by
  rw [UpdateTransform_step]
  unfold updateParentWith
  cases hp : (s p).mParent with
  | none => simp [finish, hc]
  | some g => simp [hpc g hp, finish, hc]

/-! ## `Attach` with `keepWorldTransform = true`, step by step -/

theorem only_sameLinks_wellFormed {s t : Scene} (hl : SameLinks s t) (hw : WellFormed s) :
    WellFormed t := sameLinks_wellFormed hl hw

/-- Detaching a clean node with `keepWorldTransform = true`. -/
theorem detachOld_keep_spec (mx : Maths) (f : Nat) (s : Scene) (n : Ptr) (hw : WellFormed s)
    (hc : (s n).mTransformDirty = false) :
    ∃ s2, detachOld mx f s n true = some s2 ∧ WellFormed s2 ∧ Only n s s2
      ∧ (s2 n).mParent = none ∧ (s2 n).mTransformDirty = false
      ∧ (s2 n).mTransform = (s n).mTransform := by
  unfold detachOld
  cases hp : (s n).mParent with
  | none => exact ⟨s, rfl, hw, only_refl n s, hp, hc, rfl⟩
  | some old =>
    have hmem : n ∈ (s old).mChildren := (hw.1 n old).1 hp
    have hw1 := RemoveChild_wellFormed s old n hw hp
    have hp1 := RemoveChild_parent s old n hmem
    have o1 := only_RemoveChild s old n
    simp only [if_true, GetTransform, GetTransformWith_clean _ hc, Option.some_bind,
      SetTransform_root mx f _ n _ hp1]
    have k0 : SameLinks (RemoveChild s old (some n))
        (modify (RemoveChild s old (some n)) n
          (fun nd => { nd with mTransform := (s n).mTransform })) :=
      sameLinks_modify _ n _ (fun nd => by simp)
    have k1 := fun t v => SetPosition_keeps t n v
    have k2 := fun t v => SetScale_keeps t n v
    have k3 := fun t q => SetRotation_keeps mx t n q
    have l4 : SameLinks (RemoveChild s old (some n))
        (SetRotation mx
          (SetScale
            (SetPosition
              (modify (RemoveChild s old (some n)) n
                (fun nd => { nd with mTransform := (s n).mTransform }))
              n (ExtractPosition (s n).mTransform))
            n (mx.ExtractScale (s n).mTransform))
          n (mx.ExtractRotation (s n).mTransform)) :=
      sameLinks_trans (sameLinks_trans (sameLinks_trans k0 (k1 _ _).1) (k2 _ _).1) (k3 _ _).1
    have hw4 := sameLinks_wellFormed l4 hw1
    have hp4 := (l4 n).1.trans hp1
    have hself : n ∉ (SetRotation mx
          (SetScale
            (SetPosition
              (modify (RemoveChild s old (some n)) n
                (fun nd => { nd with mTransform := (s n).mTransform }))
              n (ExtractPosition (s n).mTransform))
            n (mx.ExtractScale (s n).mTransform))
          n (mx.ExtractRotation (s n).mTransform) n).mChildren := by
      intro hin
      have := (hw4.1 n n).2 hin
      rw [hp4] at this
      exact Option.noConfusion this
    obtain ⟨q1, q2, -, -⟩ := settle_spec mx _ n hself
    refine ⟨_, rfl, sameLinks_wellFormed (settle_links mx _ n).1 hw4, ?_, ?_, q2, ?_⟩
    · exact only_trans o1 (only_trans (only_modify _ n _) (only_trans (only_SetPosition _ n _)
        (only_trans (only_SetScale _ n _) (only_trans (only_SetRotation mx _ n _)
          (only_settle mx _ n hw4)))))
    · exact ((settle_links mx _ n).1 n).1.trans hp4
    · rw [q1, (k3 _ _).2, (k2 _ _).2, (k1 _ _).2]
      simp

theorem only_chain {n : Ptr} {s t : Scene} (h : Only n s t) :
    ∀ (j : Nat) (p : Ptr), onChain s j p n = false →
      rooted t j p = rooted s j p ∧ onChain t j p n = false := by
  intro j
  induction j with
  | zero =>
    intro p hoc
    have hpn : p ≠ n := by simpa [onChain] using hoc
    exact ⟨by simp [rooted, (h p hpn).1], by simpa [onChain] using hpn⟩
  | succ j ih =>
    intro p hoc
    simp only [onChain, Bool.or_eq_false_iff, decide_eq_false_iff_not] at hoc
    have hpn : p ≠ n := hoc.1
    simp only [rooted, onChain, (h p hpn).1, Bool.or_eq_false_iff, decide_eq_false_iff_not]
    cases hp : (s p).mParent with
    | none => exact ⟨rfl, hpn, rfl⟩
    | some g =>
      have hg := hoc.2
      simp only [hp] at hg
      exact ⟨(ih g hg).1, hpn, (ih g hg).2⟩

theorem frame_chain {s t : Scene} (h : Frame s t) (n : Ptr) :
    ∀ (j : Nat) (p : Ptr), onChain t j p n = onChain s j p n := by
  intro j
  induction j with
  | zero => intro p; rfl
  | succ j ih =>
    intro p
    simp only [onChain, (h p).1]
    cases (s p).mParent with
    | none => rfl
    | some g => simp only [ih g]

/-- What `onChain s j p n = false` says about `p`, its parent and its grandparent. -/
def Apart (s : Scene) (n p : Ptr) : Prop :=
  p ≠ n ∧ (s p).mParent ≠ some n
    ∧ ∀ g, (s p).mParent = some g → g ≠ n ∧ (s g).mParent ≠ some n

theorem onChain_apart {s : Scene} {j : Nat} {p n : Ptr} (hoc : onChain s j p n = false)
    (hr : rooted s j p = true) : Apart s n p := by
  cases j with
  | zero =>
    have hpn : p ≠ n := by simpa [onChain] using hoc
    have hp : (s p).mParent = none := by simpa [rooted] using hr
    exact ⟨hpn, by simp [hp], fun g hg => by simp [hp] at hg⟩
  | succ j =>
    simp only [onChain, Bool.or_eq_false_iff, decide_eq_false_iff_not] at hoc
    cases hp : (s p).mParent with
    | none => simp [rooted, hp] at hr
    | some g =>
      have hg := hoc.2
      simp only [hp] at hg
      have hrg : rooted s j g = true := rooted_parent hr hp
      have hgn : g ≠ n := by
        cases j <;> simp [onChain] at hg <;> tauto
      refine ⟨hoc.1, ?_, ?_⟩
      · intro e
        exact hgn (Option.some.inj (hp.symm.trans e))
      · intro g2 hg2
        obtain rfl : g = g2 := Option.some.inj (hp.symm.trans hg2)
        refine ⟨hgn, ?_⟩
        cases j with
        | zero =>
          have : (s g).mParent = none := by simpa [rooted] using hrg
          simp [this]
        | succ j =>
          simp only [onChain, Bool.or_eq_false_iff, decide_eq_false_iff_not] at hg
          cases hpg : (s g).mParent with
          | none => simp
          | some gg =>
            have hgg := hg.2
            simp only [hpg] at hgg
            intro e
            have : gg = n := Option.some.inj e
            subst this
            cases j <;> simp [onChain] at hgg

/-- The parent of `p` being clean and `p` being clean: an update of `p` does nothing. -/
def Stable (s : Scene) (p : Ptr) : Prop :=
  (s p).mTransformDirty = false ∧ ParentClean s p

theorem stable_only {n p : Ptr} {u v : Scene} (h : Only n u v) (ha : Apart u n p)
    (hs : Stable u p) :
    Stable v p ∧ Apart v n p ∧ (v p).mTransform = (u p).mTransform := by
  obtain ⟨hpn, hpp, hg⟩ := ha
  obtain ⟨a1, -, -, -, a5, -, a7⟩ := h p hpn
  refine ⟨⟨(a7 hpp).trans hs.1, ?_⟩, ⟨hpn, by rw [a1]; exact hpp, ?_⟩, a5⟩
  · intro g hpg
    rw [a1] at hpg
    obtain ⟨hgn, hgp⟩ := hg g hpg
    rw [(h g hgn).2.2.2.2.2.2 hgp]
    exact hs.2 g hpg
  · intro g hpg
    rw [a1] at hpg
    obtain ⟨hgn, hgp⟩ := hg g hpg
    exact ⟨hgn, by rw [(h g hgn).1]; exact hgp⟩

theorem UpdateTransform_parentClean (mx : Maths) {f j : Nat} {s u : Scene} {p : Ptr}
    (hw : WellFormed s) (hr : rooted s j p = true)
    (h : UpdateTransform mx f s p false = some u) : ParentClean u p := by
  cases f with
  | zero => simp [UpdateTransform] at h
  | succ f =>
    rw [UpdateTransform_step] at h
    simp only [Option.map_eq_some'] at h
    obtain ⟨s1, h1, rfl⟩ := h
    have hpc := updateParentWith_clean h1
    have hfr := updateParentWith_frame (UpdateTransform_frameUpd mx f) h1
    unfold finish
    by_cases hd : (s1 p).mTransformDirty = true
    · simp only [hd, if_true]
      intro g hg
      rw [((frame_rebuilt mx s1 p _) p).1] at hg
      have hg0 : (s p).mParent = some g := by rw [← (hfr p).1]; exact hg
      have hc1 := hpc g hg
      have hgp : g ≠ p := by
        intro e
        rw [e, hd] at hc1
        exact Bool.noConfusion hc1
      have hnot : g ∉ (s1 p).mChildren := by
        intro hin
        have hw1 := frame_wellFormed hfr hw
        have hpar : (s g).mParent = some p := by
          rw [← (hfr g).1]
          exact (hw1.1 g p).2 hin
        cases j with
        | zero => simp [rooted, hg0] at hr
        | succ j =>
          have hrg := rooted_parent hr hg0
          cases j with
          | zero => simp [rooted, hpar] at hrg
          | succ j =>
            have hrp := rooted_parent hrg hpar
            have := rooted_unique s hr hrp
            omega
      rw [rebuilt_self]
      simp [hgp, hnot, hc1]
    · simpa [hd] using hpc

theorem apart_only {n p : Ptr} {u v : Scene} (h : Only n u v) (ha : Apart u n p) :
    Apart v n p := by
  obtain ⟨hpn, hpp, hg⟩ := ha
  have a1 := (h p hpn).1
  refine ⟨hpn, by rw [a1]; exact hpp, ?_⟩
  intro g hpg
  rw [a1] at hpg
  obtain ⟨hgn, hgp⟩ := hg g hpg
  exact ⟨hgn, by rw [(h g hgn).1]; exact hgp⟩

theorem apart_frame {n p : Ptr} {u v : Scene} (h : Frame u v) (ha : Apart u n p) :
    Apart v n p := by
  obtain ⟨hpn, hpp, hg⟩ := ha
  refine ⟨hpn, by rw [(h p).1]; exact hpp, ?_⟩
  intro g hpg
  rw [(h p).1] at hpg
  obtain ⟨hgn, hgp⟩ := hg g hpg
  exact ⟨hgn, by rw [(h g).1]; exact hgp⟩

theorem SetPosition_at (s : Scene) (n : Ptr) (v : Vec3) :
    SetPosition s n v n = { s n with mPosition := v, mTransformDirty := true } := by
  simp [SetPosition, MarkTransformDirty]

theorem SetScale_at (s : Scene) (n : Ptr) (v : Vec3) :
    SetScale s n v n = { s n with mScale := v, mTransformDirty := true } := by
  simp [SetScale, MarkTransformDirty]

theorem SetRotation_at (mx : Maths) (s : Scene) (n : Ptr) (q : Quat) :
    SetRotation mx s n q n
      = { s n with mRotationQuat := mx.normalize q, mTransformDirty := true } := by
  simp [SetRotation, MarkTransformDirty]

theorem settle_at (mx : Maths) (s : Scene) (n : Ptr) :
    (settle mx s n n).mPosition = (s n).mPosition
      ∧ (settle mx s n n).mScale = (s n).mScale
      ∧ (settle mx s n n).mRotationQuat = (s n).mRotationQuat := by
  unfold settle
  rw [modify_modify, markChildrenDirty_apply]
  split <;> simp

/-- Reading the parent of `n` for the first time inside `SetTransform`: the parent is
brought up to date and is `Stable` afterwards. -/
theorem GetTransform_parent_stable (mx : Maths) {f j : Nat} {s : Scene} {p : Ptr}
    (hw : WellFormed s) (hr : rooted s j p = true)
    (hst : (s p).mTransformDirty = true ∨ ParentClean s p) (hf : j < f) :
    ∃ u, GetTransformWith (fun a b c => UpdateTransform mx f a b c) s p
        = some ((u p).mTransform, u)
      ∧ Frame s u ∧ Stable u p := by
  unfold GetTransformWith
  by_cases hd : (s p).mTransformDirty = true
  · obtain ⟨u, hu⟩ := UpdateTransform_returns mx j s p hr f hf
    exact ⟨u, by simp [hd, hu], UpdateTransform_frame hu,
      UpdateTransform_clean mx f s u p hu, UpdateTransform_parentClean mx hw hr hu⟩
  · have hc : (s p).mTransformDirty = false := by simpa using hd
    rcases hst with h1 | h1
    · exact absurd h1 hd
    · exact ⟨s, by simp [hc], frame_refl s, hc, h1⟩

/-- The facts about `n` and its new parent `p` that the local steps preserve. -/
def Carried (n p : Ptr) (s : Scene) : Prop :=
  (s n).mParent = some p ∧ (s n).mParentBoneIndex = -1 ∧ Stable s p ∧ Apart s n p
    ∧ WellFormed s

theorem carried_step {n p : Ptr} {s t : Scene} (h : Carried n p s) (ho : Only n s t)
    (hl : SameLinks s t) : Carried n p t ∧ (t p).mTransform = (s p).mTransform := by
  obtain ⟨h1, h2, h3, h4, h5⟩ := h
  obtain ⟨st, ap, e⟩ := stable_only ho h4 h3
  exact ⟨⟨(hl n).1.trans h1, (hl n).2.2.trans h2, st, ap, sameLinks_wellFormed hl h5⟩, e⟩

theorem SetAbsoluteScale_stable (mx : Maths) (f : Nat) {s : Scene} {n p : Ptr}
    (h : Carried n p s) (sc : Vec3) :
    SetAbsoluteScale mx (f + 1) s n sc
      = some (SetScale s n (relScale sc (mx.ExtractScale (s p).mTransform))) := by
  simp [SetAbsoluteScale, h.1, GetAbsoluteScale,
    UpdateTransform_stable_noop mx f s p h.2.2.1.1 h.2.2.1.2]

theorem SetAbsoluteRotation_stable (mx : Maths) (f : Nat) {s : Scene} {n p : Ptr}
    (h : Carried n p s) (q : Quat) :
    SetAbsoluteRotation mx (f + 1) s n q
      = some (SetRotation mx s n
          (quatMul (quatInverse (mx.ExtractRotation (s p).mTransform)) q)) := by
  have hb : parentWorldRot s n p (mx.ExtractRotation (s p).mTransform)
      = mx.ExtractRotation (s p).mTransform := by
    unfold parentWorldRot
    cases (s p).skeletal <;> simp [h.2.1]
  simp [SetAbsoluteRotation, h.1, GetAbsoluteRotationQuat,
    UpdateTransform_stable_noop mx f s p h.2.2.1.1 h.2.2.1.2, hb]

/-- Attaching a clean parentless node with `keepWorldTransform = true` to a node whose
chain is rooted and does not pass through it. -/
theorem attachNew_keep_spec (mx : Maths) (f j : Nat) (s : Scene) (n p : Ptr)
    (hw : WellFormed s) (hpar : (s n).mParent = none) (hc : (s n).mTransformDirty = false)
    (hb : (s n).mParentBoneIndex = -1) (hrp : rooted s j p = true)
    (hoc : onChain s j p n = false)
    (hst : (s p).mTransformDirty = true ∨ ParentClean s p) (hf : j < f) :
    ∃ s4, attachNew mx f s n (some p) true = some s4
      ∧ Carried n p s4
      ∧ (s4 n).mPosition
          = xyz (Matrix.mulVec (inverse (s4 p).mTransform)
              (point4 (ExtractPosition (s n).mTransform)))
      ∧ (s4 n).mScale
          = relScale (mx.ExtractScale (s n).mTransform) (mx.ExtractScale (s4 p).mTransform)
      ∧ (s4 n).mRotationQuat
          = mx.normalize (quatMul (quatInverse (mx.ExtractRotation (s4 p).mTransform))
              (mx.ExtractRotation (s n).mTransform))
      ∧ ∀ y, y ≠ n → (s4 y).mParent = (s y).mParent ∧ (s4 y).mPosition = (s y).mPosition
          ∧ (s4 y).mScale = (s y).mScale ∧ (s4 y).mRotationQuat = (s y).mRotationQuat := by
  obtain ⟨f, rfl⟩ : ∃ g, f = g + 1 := ⟨f - 1, by omega⟩
  have hap : Apart s n p := onChain_apart hoc hrp
  have hnmem : n ∉ (s p).mChildren := by
    intro hin
    have := (hw.1 n p).2 hin
    rw [hpar] at this
    exact Option.noConfusion this
  -- the scene after `AddChild` and the store of the matrix
  obtain ⟨sA, hsA⟩ : ∃ sA, sA = modify (AddChild s p (some n)) n
      (fun nd => { nd with mTransform := (s n).mTransform }) := ⟨_, rfl⟩
  have lA : SameLinks (AddChild s p (some n)) sA := by
    rw [hsA]
    exact sameLinks_modify _ n _ (fun nd => by simp)
  have oA : Only n s sA := by
    rw [hsA]
    exact only_trans (only_AddChild s p n) (only_modify _ n _)
  have hwA := sameLinks_wellFormed lA (AddChild_wellFormed s p n hw hpar)
  have hpA := (lA n).1.trans (AddChild_parent s p n hnmem)
  have hbA := (lA n).2.2.trans ((AddChild_bones s p n n).trans hb)
  have hrA := ((only_chain oA j p hoc).1).trans hrp
  have hapA := apart_only oA hap
  have hstA : (sA p).mTransformDirty = true ∨ ParentClean sA p := by
    have hflag := (oA p hap.1).2.2.2.2.2.2 hap.2.1
    by_cases hd : (s p).mTransformDirty = true
    · exact Or.inl (hflag.trans hd)
    · rcases hst with h1 | h1
      · exact absurd h1 hd
      · exact Or.inr (stable_only oA hap ⟨by simpa using hd, h1⟩).1.2
  obtain ⟨u1, hg1, fr1, st1⟩ := GetTransform_parent_stable mx hwA hrA hstA hf
  have c1 : Carried n p u1 :=
    ⟨((fr1 n).1).trans hpA, ((fr1 n).2.2.2.2.2.1).trans hbA, st1, apart_frame fr1 hapA,
      frame_wellFormed fr1 hwA⟩
  -- the three absolute setters and the tail
  obtain ⟨lp, hlp⟩ : ∃ lp, lp = xyz (Matrix.mulVec (inverse (u1 p).mTransform)
      (point4 (ExtractPosition (s n).mTransform))) := ⟨_, rfl⟩
  obtain ⟨c2, e2⟩ := carried_step c1 (only_SetPosition u1 n lp) (SetPosition_keeps u1 n lp).1
  obtain ⟨v, hv⟩ : ∃ v, v = relScale (mx.ExtractScale (s n).mTransform)
      (mx.ExtractScale (u1 p).mTransform) := ⟨_, rfl⟩
  have h3 := SetAbsoluteScale_stable mx f c2 (mx.ExtractScale (s n).mTransform)
  rw [e2, ← hv] at h3
  obtain ⟨c3, e3⟩ := carried_step c2 (only_SetScale _ n v) (SetScale_keeps _ n v).1
  obtain ⟨q, hq⟩ : ∃ q, q = quatMul (quatInverse (mx.ExtractRotation (u1 p).mTransform))
      (mx.ExtractRotation (s n).mTransform) := ⟨_, rfl⟩
  have h4 := SetAbsoluteRotation_stable mx f c3 (mx.ExtractRotation (s n).mTransform)
  rw [e3, e2, ← hq] at h4
  obtain ⟨c4, e4⟩ := carried_step c3 (only_SetRotation mx _ n q) (SetRotation_keeps mx _ n q).1
  obtain ⟨c5, e5⟩ := carried_step c4 (only_settle mx _ n c4.2.2.2.2) (settle_links mx _ n).1
  have ep : (settle mx (SetRotation mx (SetScale (SetPosition u1 n lp) n v) n q) n p).mTransform
      = (u1 p).mTransform := by rw [e5, e4, e3, e2]
  refine ⟨_, ?_, c5, ?_, ?_, ?_, ?_⟩
  · simp only [attachNew, if_true, GetTransform, GetTransformWith_clean _ hc, Option.some_bind,
      SetTransform, SetAbsolutePosition, ← hsA, hpA, GetParentTransform, GetParentTransformWith,
      hbA, hg1, Option.map_some', ← hlp, h3, h4]
  · rw [(settle_at mx _ n).1, SetRotation_at, SetScale_at, SetPosition_at, ep, hlp]
  · rw [(settle_at mx _ n).2.1, SetRotation_at, SetScale_at, ep, hv]
  · rw [(settle_at mx _ n).2.2, SetRotation_at, ep, hq]
  · intro y hy
    have a := oA y hy
    have b := fr1 y
    have c := only_trans (only_SetPosition u1 n lp) (only_trans (only_SetScale _ n v)
      (only_trans (only_SetRotation mx _ n q) (only_settle mx _ n c4.2.2.2.2))) y hy
    exact ⟨c.1.trans (b.1.trans a.1), c.2.1.trans (b.2.2.1.trans a.2.1),
      c.2.2.1.trans (b.2.2.2.1.trans a.2.2.1), c.2.2.2.1.trans (b.2.2.2.2.1.trans a.2.2.2.1)⟩

theorem wellFormed_modify (s : Scene) (n : Ptr) (f : Node3D → Node3D)
    (hf : ∀ nd, (f nd).mParent = nd.mParent ∧ (f nd).mChildren = nd.mChildren)
    (hw : WellFormed s) : WellFormed (modify s n f) := by
  have hp : ∀ y, (modify s n f y).mParent = (s y).mParent := by
    intro y
    by_cases h : y = n
    · subst h
      simpa using (hf (s y)).1
    · rw [modify_other s f h]
  have hc : ∀ y, (modify s n f y).mChildren = (s y).mChildren := by
    intro y
    by_cases h : y = n
    · subst h
      simpa using (hf (s y)).2
    · rw [modify_other s f h]
  refine ⟨fun c q => ?_, fun q => ?_⟩
  · rw [hp, hc]
    exact hw.1 c q
  · rw [hc]
    exact hw.2 q

/-- `Attach(p, keepWorldTransform = true)` on a clean node `n`, for a new parent whose
chain is rooted, does not pass through `n`, and is not stale. -/
theorem Attach_keep_spec (mx : Maths) (f j : Nat) (s : Scene) (n p : Ptr)
    (hw : WellFormed s) (hc : (s n).mTransformDirty = false) (hrp : rooted s j p = true)
    (hoc : onChain s j p n = false)
    (hst : (s p).mTransformDirty = true ∨ ParentClean s p) (hf : j < f) :
    ∃ t, Attach mx f s n (some p) true = some t
      ∧ (t n).mParent = some p ∧ (t n).mParentBoneIndex = -1
      ∧ (t n).mTransformDirty = true ∧ (t p).mTransformDirty = false
      ∧ (t n).mPosition
          = xyz (Matrix.mulVec (inverse (t p).mTransform)
              (point4 (ExtractPosition (s n).mTransform)))
      ∧ (t n).mScale
          = relScale (mx.ExtractScale (s n).mTransform) (mx.ExtractScale (t p).mTransform)
      ∧ (t n).mRotationQuat
          = mx.normalize (quatMul (quatInverse (mx.ExtractRotation (t p).mTransform))
              (mx.ExtractRotation (s n).mTransform))
      ∧ ∀ y, y ≠ n → (t y).mParent = (s y).mParent ∧ (t y).mPosition = (s y).mPosition
          ∧ (t y).mScale = (s y).mScale ∧ (t y).mRotationQuat = (s y).mRotationQuat := by
  have hap : Apart s n p := onChain_apart hoc hrp
  have hpn : p ≠ n := hap.1
  obtain ⟨s2, h2, hw2, o2, hp2, hc2, hm2⟩ := detachOld_keep_spec mx f s n hw hc
  obtain ⟨s3, hs3⟩ : ∃ s3, s3 = modify s2 n (fun nd => { nd with mParentBoneIndex := -1 }) :=
    ⟨_, rfl⟩
  have o3 : Only n s s3 := by
    rw [hs3]
    exact only_trans o2 (only_modify s2 n _)
  have hw3 : WellFormed s3 := by
    rw [hs3]
    exact wellFormed_modify s2 n _ (fun nd => by simp) hw2
  have hp3 : (s3 n).mParent = none := by rw [hs3]; simpa using hp2
  have hc3 : (s3 n).mTransformDirty = false := by rw [hs3]; simpa using hc2
  have hb3 : (s3 n).mParentBoneIndex = -1 := by rw [hs3]; simp
  have hm3 : (s3 n).mTransform = (s n).mTransform := by rw [hs3]; simpa using hm2
  have hr3 := ((only_chain o3 j p hoc).1).trans hrp
  have hoc3 := (only_chain o3 j p hoc).2
  have hst3 : (s3 p).mTransformDirty = true ∨ ParentClean s3 p := by
    have hflag := (o3 p hpn).2.2.2.2.2.2 hap.2.1
    by_cases hd : (s p).mTransformDirty = true
    · exact Or.inl (hflag.trans hd)
    · rcases hst with h1 | h1
      · exact absurd h1 hd
      · exact Or.inr (stable_only o3 hap ⟨by simpa using hd, h1⟩).1.2
  obtain ⟨s4, h4, c4, e4, e5, e6, fr4⟩ :=
    attachNew_keep_spec mx f j s3 n p hw3 hp3 hc3 hb3 hr3 hoc3 hst3 hf
  have hself : ¬ (some p = some n) := fun e => hpn (Option.some.inj e)
  refine ⟨MarkTransformDirty s4 n, ?_, ?_, ?_, ?_, ?_, ?_, ?_, ?_, ?_⟩
  · simp only [Attach, hself, if_false, IsTransformDirty, hc, Bool.and_false,
      Bool.false_eq_true, Option.some_bind, h2, ← hs3, h4, Option.map_some']
  · simpa [MarkTransformDirty] using c4.1
  · simpa [MarkTransformDirty] using c4.2.1
  · simp [MarkTransformDirty]
  · rw [MarkTransformDirty, modify_other _ _ hpn]
    exact c4.2.2.1.1
  · rw [MarkTransformDirty, modify_other _ _ hpn, ← hm3]
    simpa using e4
  · rw [MarkTransformDirty, modify_other _ _ hpn, ← hm3]
    simpa using e5
  · rw [MarkTransformDirty, modify_other _ _ hpn, ← hm3]
    simpa using e6
  · intro y hy
    rw [MarkTransformDirty, modify_other _ _ hy]
    obtain ⟨a1, a2, a3, a4⟩ := fr4 y hy
    obtain ⟨b1, b2, b3, b4, -⟩ := o3 y hy
    exact ⟨a1.trans b1, a2.trans b2, a3.trans b3, a4.trans b4⟩

theorem affine_roundtrip (P : Mat4) (v : Vec3) (ha : IsAffine P) (hd : P.det ≠ 0) :
    xyz (Matrix.mulVec P (point4 (xyz (Matrix.mulVec (inverse P) (point4 v))))) = v := by
  have h1 : Matrix.mulVec P (Matrix.mulVec (inverse P) (point4 v)) = point4 v := by
    rw [Matrix.mulVec_mulVec, mul_inverse_of_det_ne_zero P hd, Matrix.one_mulVec]
  have h3 : Matrix.mulVec (inverse P) (point4 v) 3 = 1 := by
    have h2 : ∀ w : Fin 4 → ℚ, Matrix.mulVec P w 3 = w 3 := by
      intro w
      simp only [Matrix.mulVec, Matrix.dotProduct, Fin.sum_univ_four, ha.1, ha.2.1, ha.2.2.1,
        ha.2.2.2, zero_mul, one_mul, zero_add]
    rw [← h2 (Matrix.mulVec (inverse P) (point4 v)), h1]
    simp [point4]
  have h4 : point4 (xyz (Matrix.mulVec (inverse P) (point4 v)))
      = Matrix.mulVec (inverse P) (point4 v) := by
    funext i
    fin_cases i
    · simp [point4, xyz]
    · simp [point4, xyz]
    · simp [point4, xyz]
    · simpa [point4, xyz] using h3.symm
  rw [h4, h1]
  simp [xyz, point4]

/-! ## C6: `Attach` with `keepWorldTransform = true` and the absolute pose -/

/-- The squared norm of a quaternion. -/
def quatNormSq (q : Quat) : ℚ := q.w * q.w + q.x * q.x + q.y * q.y + q.z * q.z

/-- The conjugate of a quaternion. -/
def quatConj (q : Quat) : Quat := ⟨q.w, -q.x, -q.y, -q.z⟩

/-- The rotation matrix of a quaternion in its homogeneous form, which agrees with
`toMat4` on unit quaternions and is multiplicative on all quaternions. -/
def homRot (q : Quat) : Mat4 :=
  !![q.w * q.w + q.x * q.x - q.y * q.y - q.z * q.z, 2 * (q.x * q.y - q.w * q.z),
       2 * (q.x * q.z + q.w * q.y), 0;
     2 * (q.x * q.y + q.w * q.z), q.w * q.w - q.x * q.x + q.y * q.y - q.z * q.z,
       2 * (q.y * q.z - q.w * q.x), 0;
     2 * (q.x * q.z - q.w * q.y), 2 * (q.y * q.z + q.w * q.x),
       q.w * q.w - q.x * q.x - q.y * q.y + q.z * q.z, 0;
     0, 0, 0, 1]

theorem toMat4_eq_homRot (q : Quat) (h : quatNormSq q = 1) : toMat4 q = homRot q := by
  unfold quatNormSq at h
  ext i j
  fin_cases i <;> fin_cases j <;>
    simp [toMat4, homRot, Matrix.vecHead, Matrix.vecTail] <;> linear_combination (-1 : ℚ) * h

theorem homRot_quatMul (p q : Quat) : homRot (quatMul p q) = homRot p * homRot q := by
  ext i j
  fin_cases i <;> fin_cases j <;>
    simp only [Matrix.mul_apply, Fin.sum_univ_four] <;>
    simp only [homRot, quatMul, Matrix.of_apply, Matrix.cons_val', Matrix.cons_val_zero,
      Matrix.cons_val_one, Matrix.head_cons, Matrix.empty_val', Matrix.cons_val_fin_one,
      Matrix.cons_val_two, Matrix.tail_cons, Matrix.cons_val_three, Fin.zero_eta, Fin.mk_one,
      Fin.reduceFinMk] <;>
    first | ring1 | simp [Matrix.vecHead]

theorem quatNormSq_quatMul (p q : Quat) :
    quatNormSq (quatMul p q) = quatNormSq p * quatNormSq q := by
  simp only [quatNormSq, quatMul]
  ring

theorem quatInverse_unit (q : Quat) (h : quatNormSq q = 1) : quatInverse q = quatConj q := by
  unfold quatNormSq at h
  simp [quatInverse, quatConj, h]

theorem quatNormSq_quatConj (q : Quat) : quatNormSq (quatConj q) = quatNormSq q := by
  simp only [quatNormSq, quatConj]
  ring

theorem quatMul_conj_cancel (p q : Quat) (h : quatNormSq p = 1) :
    quatMul p (quatMul (quatConj p) q) = q := by
  unfold quatNormSq at h
  cases q with
  | mk w x y z =>
    simp only [quatMul, quatConj, Quat.mk.injEq]
    refine ⟨?_, ?_, ?_, ?_⟩
    · linear_combination w * h
    · linear_combination x * h
    · linear_combination y * h
    · linear_combination z * h

/-- For unit quaternions the rotation of the parent followed by the relative rotation
`inverse(p) * q` is the rotation `q`. -/
theorem toMat4_relative (p q : Quat) (hp : quatNormSq p = 1) (hq : quatNormSq q = 1) :
    toMat4 p * toMat4 (quatMul (quatInverse p) q) = toMat4 q := by
  have hr : quatNormSq (quatMul (quatConj p) q) = 1 := by
    rw [quatNormSq_quatMul, quatNormSq_quatConj, hp, hq, mul_one]
  rw [quatInverse_unit p hp, toMat4_eq_homRot p hp, toMat4_eq_homRot _ hr, ← homRot_quatMul,
    quatMul_conj_cancel p q hp, toMat4_eq_homRot q hq]

theorem scaleMat_uniform_comm (k : ℚ) (q : Quat) :
    scaleMat ⟨k, k, k⟩ * toMat4 q = toMat4 q * scaleMat ⟨k, k, k⟩ := by
  ext i j
  fin_cases i <;> fin_cases j <;>
    simp [scaleMat, toMat4, Matrix.mul_apply, Fin.sum_univ_four, Matrix.vecHead,
      Matrix.vecTail, mul_comm]

theorem linear_mul_translate (c v : Vec3) (L : Mat4) (ha : IsAffine L)
    (h0 : L 0 3 = 0) (h1 : L 1 3 = 0) (h2 : L 2 3 = 0) :
    translateMat c * L * translateMat v
      = translateMat (xyz (Matrix.mulVec (translateMat c * L) (point4 v))) * L := by
  obtain ⟨a0, a1, a2, a3⟩ := ha
  ext i j
  fin_cases i <;> fin_cases j <;>
    simp only [Matrix.mul_apply, Matrix.mulVec, Matrix.dotProduct, Fin.sum_univ_four, xyz,
      point4] <;>
    simp only [translateMat, Matrix.of_apply, Matrix.cons_val', Matrix.cons_val_zero,
      Matrix.cons_val_one, Matrix.head_cons, Matrix.empty_val', Matrix.cons_val_fin_one,
      Matrix.cons_val_two, Matrix.tail_cons, Matrix.cons_val_three, Fin.zero_eta, Fin.mk_one,
      Fin.reduceFinMk, a0, a1, a2, a3, h0, h1, h2] <;>
    first | ring1 | simp [Matrix.vecHead, a0, a1, a2, a3, h0, h1, h2]

theorem rotScale_linear (q : Quat) (sc : Vec3) :
    IsAffine (toMat4 q * scaleMat sc) ∧ (toMat4 q * scaleMat sc) 0 3 = 0
      ∧ (toMat4 q * scaleMat sc) 1 3 = 0 ∧ (toMat4 q * scaleMat sc) 2 3 = 0 := by
  unfold IsAffine
  simp [toMat4, scaleMat, Matrix.mul_apply, Fin.sum_univ_four, Matrix.vecHead, Matrix.vecTail]

/-- Moving a translation through a matrix of the form translation * rotation * scale. -/
theorem trs_mul_translate (c v sc : Vec3) (q : Quat) :
    translateMat c * toMat4 q * scaleMat sc * translateMat v
      = translateMat (xyz (Matrix.mulVec (translateMat c * toMat4 q * scaleMat sc) (point4 v)))
          * toMat4 q * scaleMat sc := by
  obtain ⟨ha, h0, h1, h2⟩ := rotScale_linear q sc
  have h := linear_mul_translate c v (toMat4 q * scaleMat sc) ha h0 h1 h2
  simpa only [Matrix.mul_assoc] using h

theorem trs_isAffine (c sc : Vec3) (q : Quat) :
    IsAffine (translateMat c * toMat4 q * scaleMat sc) := by
  unfold IsAffine
  simp [translateMat, toMat4, scaleMat, Matrix.mul_apply, Fin.sum_univ_four, Matrix.vecHead,
    Matrix.vecTail]

/-- The helpers decompose the matrix `m` exactly: `m` is the product translation *
rotation * scale of the position, the rotation and the scale extracted from it, and the
rotation extracted is a unit quaternion. -/
def ExactTRS (mx : Maths) (m : Mat4) : Prop :=
  m = translateMat (ExtractPosition m) * toMat4 (mx.ExtractRotation m)
        * scaleMat (mx.ExtractScale m)
    ∧ quatNormSq (mx.ExtractRotation m) = 1

instance instDecidableExactTRS (mx : Maths) (m : Mat4) : Decidable (ExactTRS mx m) := by
  unfold ExactTRS
  infer_instance

/-- The three components of a vector are equal. -/
def IsUniform (v : Vec3) : Prop := v.x = v.y ∧ v.y = v.z

instance instDecidableIsUniform (v : Vec3) : Decidable (IsUniform v) := by
  unfold IsUniform
  infer_instance

/-- No component of the vector is zero. -/
def NoZero (v : Vec3) : Prop := v.x ≠ 0 ∧ v.y ≠ 0 ∧ v.z ≠ 0

instance instDecidableNoZero (v : Vec3) : Decidable (NoZero v) := by
  unfold NoZero
  infer_instance

/-- The conditions on the new parent matrix `P` and on the world matrix `W` of the node
under which the local pose computed by `SetTransform` gives back `W`: the helpers
decompose both matrices exactly, no component of the scale of `P` is zero, the scale of
`P` is uniform or the relative rotation `inverse(rotation of P) * rotation of W` is the
identity, and `normalize` returns the relative rotation, a unit quaternion, unchanged. -/
def Recomposes (mx : Maths) (P W : Mat4) : Prop :=
  ExactTRS mx P ∧ ExactTRS mx W ∧ NoZero (mx.ExtractScale P)
    ∧ (IsUniform (mx.ExtractScale P)
      ∨ quatMul (quatInverse (mx.ExtractRotation P)) (mx.ExtractRotation W) = Quat.identity)
    ∧ mx.normalize (quatMul (quatInverse (mx.ExtractRotation P)) (mx.ExtractRotation W))
      = quatMul (quatInverse (mx.ExtractRotation P)) (mx.ExtractRotation W)

instance instDecidableRecomposes (mx : Maths) (P W : Mat4) :
    Decidable (Recomposes mx P W) := by
  unfold Recomposes
  infer_instance

theorem toMat4_identity : toMat4 Quat.identity = 1 := by
  ext i j
  fin_cases i <;> fin_cases j <;>
    simp [toMat4, Quat.identity, Matrix.one_apply, Matrix.vecHead, Matrix.vecTail]

theorem toMat4_mul_conj (p : Quat) (hp : quatNormSq p = 1) :
    toMat4 p * toMat4 (quatConj p) = 1 := by
  have h := toMat4_relative p Quat.identity hp (by simp [quatNormSq, Quat.identity])
  rw [quatInverse_unit p hp, toMat4_identity] at h
  have e : quatMul (quatConj p) Quat.identity = quatConj p := by
    simp [quatMul, quatConj, Quat.identity]
  rw [e] at h
  exact h

theorem scaleMat_relScale (k sc : Vec3) (hk : NoZero k) :
    scaleMat k * scaleMat (relScale sc k) = scaleMat sc := by
  obtain ⟨h1, h2, h3⟩ := hk
  ext i j
  fin_cases i <;> fin_cases j <;>
    simp [scaleMat, relScale, h1, h2, h3, Matrix.mul_apply, Fin.sum_univ_four, Matrix.vecHead,
      Matrix.vecTail] <;> field_simp

theorem scaleMat_mul_inv (k : Vec3) (hk : NoZero k) :
    scaleMat k * scaleMat ⟨k.x⁻¹, k.y⁻¹, k.z⁻¹⟩ = 1 := by
  obtain ⟨h1, h2, h3⟩ := hk
  ext i j
  fin_cases i <;> fin_cases j <;>
    simp [scaleMat, h1, h2, h3, Matrix.mul_apply, Fin.sum_univ_four, Matrix.one_apply,
      Matrix.vecHead, Matrix.vecTail]

theorem trs_det_ne_zero (c : Vec3) (p : Quat) (k : Vec3) (hp : quatNormSq p = 1)
    (hk : NoZero k) : (translateMat c * toMat4 p * scaleMat k).det ≠ 0 := by
  apply Matrix.det_ne_zero_of_right_inverse
    (B := scaleMat ⟨k.x⁻¹, k.y⁻¹, k.z⁻¹⟩ * toMat4 (quatConj p)
      * translateMat ⟨-c.x, -c.y, -c.z⟩)
  calc translateMat c * toMat4 p * scaleMat k
        * (scaleMat ⟨k.x⁻¹, k.y⁻¹, k.z⁻¹⟩ * toMat4 (quatConj p)
          * translateMat ⟨-c.x, -c.y, -c.z⟩)
      = translateMat c * (toMat4 p * ((scaleMat k * scaleMat ⟨k.x⁻¹, k.y⁻¹, k.z⁻¹⟩)
          * toMat4 (quatConj p))) * translateMat ⟨-c.x, -c.y, -c.z⟩ := by
        simp only [Matrix.mul_assoc]
    _ = 1 := by
        rw [scaleMat_mul_inv k hk, Matrix.one_mul, toMat4_mul_conj p hp, Matrix.mul_one,
          translateMat_mul]
        simp [translateMat_zero]

theorem scaleMat_comm_of (k : Vec3) (r : Quat) (h : IsUniform k ∨ r = Quat.identity) :
    scaleMat k * toMat4 r = toMat4 r * scaleMat k := by
  rcases h with ⟨h1, h2⟩ | h
  · cases k with
    | mk x y z =>
      simp only at h1 h2
      subst h1
      subst h2
      exact scaleMat_uniform_comm x r
  · rw [h, toMat4_identity, Matrix.mul_one, Matrix.one_mul]

/-- The local pose that `SetTransform` computes from the world matrix `W` under the
parent matrix `P` gives back `W` when multiplied out below `P`. -/
theorem recompose (mx : Maths) (P W : Mat4) (h : Recomposes mx P W) :
    P * (translateMat (xyz (Matrix.mulVec (inverse P) (point4 (ExtractPosition W))))
          * toMat4 (mx.normalize
              (quatMul (quatInverse (mx.ExtractRotation P)) (mx.ExtractRotation W)))
          * scaleMat (relScale (mx.ExtractScale W) (mx.ExtractScale P)))
      = W := by
  obtain ⟨⟨hP, uP⟩, ⟨hW, uW⟩, hk0, hcomm, hn⟩ := h
  have hdet : P.det ≠ 0 := by
    rw [hP]
    exact trs_det_ne_zero _ _ _ uP hk0
  have haff : IsAffine P := by
    rw [hP]
    exact trs_isAffine _ _ _
  have hround := affine_roundtrip P (ExtractPosition W) haff hdet
  have hmove := trs_mul_translate (ExtractPosition P) (xyz (Matrix.mulVec (inverse P)
    (point4 (ExtractPosition W)))) (mx.ExtractScale P) (mx.ExtractRotation P)
  rw [← hP, hround] at hmove
  rw [hn, ← Matrix.mul_assoc, ← Matrix.mul_assoc, hmove]
  calc translateMat (ExtractPosition W) * toMat4 (mx.ExtractRotation P)
        * scaleMat (mx.ExtractScale P)
        * toMat4 (quatMul (quatInverse (mx.ExtractRotation P)) (mx.ExtractRotation W))
        * scaleMat (relScale (mx.ExtractScale W) (mx.ExtractScale P))
      = translateMat (ExtractPosition W)
          * (toMat4 (mx.ExtractRotation P)
            * toMat4 (quatMul (quatInverse (mx.ExtractRotation P)) (mx.ExtractRotation W)))
          * (scaleMat (mx.ExtractScale P)
            * scaleMat (relScale (mx.ExtractScale W) (mx.ExtractScale P))) := by
        simp only [Matrix.mul_assoc]
        rw [← Matrix.mul_assoc (scaleMat (mx.ExtractScale P)), scaleMat_comm_of _ _ hcomm]
        simp only [Matrix.mul_assoc]
    _ = W := by
        rw [toMat4_relative _ _ uP uW, scaleMat_relScale _ _ hk0]
        exact hW.symm

theorem effectiveScale_of_uniform (nd : Node3D)
    (h : nd.mChildren = [] ∨ IsUniform nd.mScale) : effectiveScale nd = nd.mScale := by
  unfold effectiveScale
  rcases h with h | ⟨h1, h2⟩
  · simp [h]
  · split
    · cases hs : nd.mScale with
      | mk x y z =>
        rw [hs] at h1 h2
        simp only at h1 h2
        simp [← h2, ← h1]
    · rfl

theorem relScale_uniform (a b : Vec3) (ha : IsUniform a) (hb : IsUniform b) :
    IsUniform (relScale a b) := by
  obtain ⟨a1, a2⟩ := ha
  obtain ⟨b1, b2⟩ := hb
  unfold IsUniform relScale
  simp only [← a2, ← a1, ← b2, ← b1, and_self]

/-- Scenario: node 1 is placed at (5,0,0) with the scale (2,2,2) and never read; node 2
is placed at (1,1,0) with the scale (1,2,3) and read. -/
def scaledPairScenario (mx : Maths) : Option Scene :=
  (GetTransform mx 1
    (SetScale (SetPosition (SetScale (SetPosition Scene.fresh 1 ⟨5, 0, 0⟩) 1 ⟨2, 2, 2⟩)
      2 ⟨1, 1, 0⟩) 2 ⟨1, 2, 3⟩) 2).map fun r => r.2

/-- The scene of `scaledPairScenario` for `sampleMaths`. -/
def scaledPairScene : Scene := (scaledPairScenario sampleMaths).getD Scene.fresh

/-- Scenario: node 1 is given the scale (2,1,1) and read while it has no child, so that
its cached matrix has the diagonal (2,1,1); node 3 is attached to node 2, node 2 is read,
attached to node 1 with `keepWorldTransform = true`, and read again. Node 1 is a clean
root, so it is not stale. The result pairs the absolute scale of node 2 read before the
call with the one read after it. Every matrix that occurs is diagonal with positive
entries, on which `sampleMaths` is exact. -/
def childScaleAttachScenario : Option (Vec3 × Vec3) :=
  (GetAbsoluteScale sampleMaths 3 (SetScale Scene.fresh 1 ⟨2, 1, 1⟩) 1).bind fun r0 =>
  (Attach sampleMaths 3 r0.2 3 (some 2) false).bind fun s1 =>
  (GetAbsoluteScale sampleMaths 3 s1 2).bind fun r2 =>
  (Attach sampleMaths 3 r2.2 2 (some 1) true).bind fun s3 =>
  (GetAbsoluteScale sampleMaths 3 s3 2).map fun r3 => (r2.1, r3.1)

/-- C6 (as stated, refuted): node 2 is attached with keepWorldTransform = true to node
1, whose cached matrix is stale because its own parent 0 was moved after node 1 was
read; GetAbsolutePosition on node 2 returns (0,0,0) right before the call and (1,0,0)
right after it. And when node 2, which has a child, is attached with keepWorldTransform =
true to the clean root 1 whose cached matrix has the scale (2,1,1), GetAbsoluteScale on
node 2 returns (1,1,1) right before the call and (1,1/2,1/2) right after it. -/
theorem C6_attach_keep_counterexample :
    staleParentAttachScenario = some (⟨0, 0, 0⟩, ⟨1, 0, 0⟩)
      ∧ childScaleAttachScenario = some (⟨1, 1, 1⟩, ⟨1, 1 / 2, 1 / 2⟩) := by
  decide!

/-- C6 (amended): for every node n that is up to date (its dirty flag and its parent's
are false, as right after a read) in a well-formed tree, and every new parent p whose
chain ends at a root, does not pass through n and is not stale (p is dirty, or the
parent of p is clean), the three reads before the call return the position, rotation and
scale extracted from the cached world matrix W of n, and Attach(p, keepWorldTransform =
true) returns. When the world matrix P that the call leaves on p is affine and
invertible, GetAbsolutePosition read right after the call equals the value read right
before it. When moreover the helpers decompose P and W exactly into translation *
rotation * scale with unit rotations, no component of the scale of P is zero, the scale
of P is uniform or n is not rotated relative to p, normalize leaves the relative
rotation unchanged, and n has no child or the scales of W and P are both uniform, the
rebuilt world matrix of n is W again, and GetAbsolutePosition, GetAbsoluteRotationQuat
and GetAbsoluteScale read right after the call all equal the values read right before
it. -/
theorem C6_attach_keep_preserves_pose (mx : Maths) (s : Scene) (n p : Ptr) (j f : Nat)
    (hw : WellFormed s) (hc : (s n).mTransformDirty = false) (hpc : ParentClean s n)
    (hrp : rooted s j p = true) (hoc : onChain s j p n = false)
    (hst : (s p).mTransformDirty = true ∨ ParentClean s p) (hf : j < f) :
    ∃ t, GetAbsolutePosition mx f s n = some (ExtractPosition (s n).mTransform, s)
      ∧ GetAbsoluteRotationQuat mx f s n = some (mx.ExtractRotation (s n).mTransform, s)
      ∧ GetAbsoluteScale mx f s n = some (mx.ExtractScale (s n).mTransform, s)
      ∧ Attach mx f s n (some p) true = some t
      ∧ (IsAffine (t p).mTransform → (t p).mTransform.det ≠ 0 →
          ∃ u, GetAbsolutePosition mx f t n = some (ExtractPosition (s n).mTransform, u))
      ∧ (Recomposes mx (t p).mTransform (s n).mTransform →
          ((t n).mChildren = []
            ∨ (IsUniform (mx.ExtractScale (s n).mTransform)
              ∧ IsUniform (mx.ExtractScale (t p).mTransform))) →
          ∃ u, (u n).mTransform = (s n).mTransform
            ∧ GetAbsolutePosition mx f t n = some (ExtractPosition (s n).mTransform, u)
            ∧ GetAbsoluteRotationQuat mx f t n
              = some (mx.ExtractRotation (s n).mTransform, u)
            ∧ GetAbsoluteScale mx f t n = some (mx.ExtractScale (s n).mTransform, u)) := by
  obtain ⟨t, h1, h2, h3, h4, h5, h6, h7, h8, -⟩ :=
    Attach_keep_spec mx f j s n p hw hc hrp hoc hst hf
  obtain ⟨f, rfl⟩ : ∃ g, f = g + 1 := ⟨f - 1, by omega⟩
  have hnoop := UpdateTransform_stable_noop mx f s n hc hpc
  refine ⟨t, ?_, ?_, ?_, h1, ?_, ?_⟩
  · simp [GetAbsolutePosition, hnoop]
  · simp [GetAbsoluteRotationQuat, hnoop]
  · simp [GetAbsoluteScale, hnoop]
  · intro ha hd
    refine ⟨rebuilt mx t n ((t p).mTransform * specLocal (t n)), ?_⟩
    rw [GetAbsolutePosition_dirty_child mx t n p f h2 h3 h4 h5, h6, affine_roundtrip _ _ ha hd]
  · intro hrec hch
    have heff : effectiveScale (t n) = (t n).mScale := by
      apply effectiveScale_of_uniform
      rcases hch with hch | hch
      · exact Or.inl hch
      · right
        rw [h7]
        exact relScale_uniform _ _ hch.1 hch.2
    have hm : (t p).mTransform * specLocal (t n) = (s n).mTransform := by
      rw [specLocal_eq, heff, h6, h7, h8]
      exact recompose mx _ _ hrec
    have hup := UpdateTransform_dirty_child mx t n p f h2 h3 h4 h5
    rw [hm] at hup
    refine ⟨rebuilt mx t n (s n).mTransform, (rebuilt_at mx t n _).1, ?_, ?_, ?_⟩
    · simp only [GetAbsolutePosition, hup, Option.map_some', (rebuilt_at mx t n _).1]
    · simp only [GetAbsoluteRotationQuat, hup, Option.map_some', (rebuilt_at mx t n _).1]
    · simp only [GetAbsoluteScale, hup, Option.map_some', (rebuilt_at mx t n _).1]

theorem twoRootsScene_reachable : Reachable sampleMaths twoRootsScene := by
  have hs : ∃ s, twoRootsScenario sampleMaths = some s := Option.isSome_iff_exists.1 rfl
  obtain ⟨s, hs⟩ := hs
  have he : twoRootsScene = s := by simp [twoRootsScene, hs]
  rw [he]
  simp only [twoRootsScenario, Option.map_eq_some'] at hs
  obtain ⟨r, hr, rfl⟩ := hs
  exact Reachable.getTransform 1 2 r
    (Reachable.setPosition 2 _ (Reachable.setPosition 1 _ Reachable.fresh)) hr

theorem scaledPairScene_reachable : Reachable sampleMaths scaledPairScene := by
  have hs : ∃ s, scaledPairScenario sampleMaths = some s := Option.isSome_iff_exists.1 rfl
  obtain ⟨s, hs⟩ := hs
  have he : scaledPairScene = s := by simp [scaledPairScene, hs]
  rw [he]
  simp only [scaledPairScenario, Option.map_eq_some'] at hs
  obtain ⟨r, hr, rfl⟩ := hs
  exact Reachable.getTransform 1 2 r
    (Reachable.setScale 2 _ (Reachable.setPosition 2 _ (Reachable.setScale 1 _
      (Reachable.setPosition 1 _ Reachable.fresh)))) hr

theorem scaledPair_after_attach :
    (Attach sampleMaths 1 scaledPairScene 2 (some 1) true).map
        (fun t => decide (Recomposes sampleMaths (t 1).mTransform (scaledPairScene 2).mTransform
          ∧ (t 2).mChildren = []))
      = some true := by
  decide!

theorem scaledPair_before :
    ExtractPosition (scaledPairScene 2).mTransform = ⟨1, 1, 0⟩
      ∧ sampleMaths.ExtractRotation (scaledPairScene 2).mTransform = Quat.identity
      ∧ sampleMaths.ExtractScale (scaledPairScene 2).mTransform = ⟨1, 2, 3⟩ := by
  decide!

/-- Witness for C6: node 2, read at (1,1,0) with the scale (1,2,3), is attached to the
never read node 1 placed at (5,0,0) with the scale (2,2,2); the position, the rotation
and the scale read after the call are those read before. -/
theorem C6_attach_keep_preserves_pose_witness :
    ∃ t u, Attach sampleMaths 1 scaledPairScene 2 (some 1) true = some t
      ∧ GetAbsolutePosition sampleMaths 1 scaledPairScene 2
        = some (⟨1, 1, 0⟩, scaledPairScene)
      ∧ GetAbsoluteRotationQuat sampleMaths 1 scaledPairScene 2
        = some (Quat.identity, scaledPairScene)
      ∧ GetAbsoluteScale sampleMaths 1 scaledPairScene 2 = some (⟨1, 2, 3⟩, scaledPairScene)
      ∧ GetAbsolutePosition sampleMaths 1 t 2 = some (⟨1, 1, 0⟩, u)
      ∧ GetAbsoluteRotationQuat sampleMaths 1 t 2 = some (Quat.identity, u)
      ∧ GetAbsoluteScale sampleMaths 1 t 2 = some (⟨1, 2, 3⟩, u) := by
  obtain ⟨t, b1, b2, b3, h1, -, h3⟩ :=
    C6_attach_keep_preserves_pose sampleMaths scaledPairScene 2 1 0 1
      (reachable_inv scaledPairScene_reachable).1 (by decide!)
      (fun g hg => by
        have h0 : (scaledPairScene 2).mParent = none := by decide!
        rw [h0] at hg
        exact Option.noConfusion hg)
      (by decide!) (by decide!) (Or.inl (by decide!)) (by decide)
  have h4 := scaledPair_after_attach
  rw [h1] at h4
  simp only [Option.map_some', Option.some.injEq, decide_eq_true_eq] at h4
  obtain ⟨u, -, a1, a2, a3⟩ := h3 h4.1 (Or.inl h4.2)
  obtain ⟨e1, e2, e3⟩ := scaledPair_before
  rw [e1] at b1 a1
  rw [e2] at b2 a2
  rw [e3] at b3 a3
  exact ⟨t, u, h1, b1, b2, b3, a1, a2, a3⟩

/-! ## C7: re-parenting translation-only nodes with `keepWorldTransform = true` -/

theorem Attach_keep_updated (mx : Maths) (f : Nat) (s s1 : Scene) (n : Ptr)
    (parent : Option Ptr) (hne : parent ≠ some n) (hd : (s n).mTransformDirty = true)
    (hu : UpdateTransform mx f s n false = some s1) (hc : (s1 n).mTransformDirty = false) :
    Attach mx f s n parent true = Attach mx f s1 n parent true := by
  simp only [Attach, hne, if_false, IsTransformDirty, hd, hc, Bool.and_true, Bool.and_false,
    Bool.false_eq_true, if_true, hu, Option.some_bind]

theorem threeNodes_reachable (mx : Maths) (a b c : Vec3) : Reachable mx (threeNodes a b c) :=
  Reachable.setPosition 2 b (Reachable.setPosition 1 c (Reachable.setPosition 0 a Reachable.fresh))

theorem threeNodes_attached (mx : Maths) (a b c : Vec3) :
    ∃ s1 s2, Attach mx 3 (threeNodes a b c) 1 (some 0) false = some s1
      ∧ UpdateTransform mx 3 s1 1 false = some s2
      ∧ (s1 1).mTransformDirty = true ∧ (s2 1).mTransformDirty = false
      ∧ (s2 1).mTransform = translateMat a * translateMat c
      ∧ rooted s2 0 2 = true ∧ (s2 2).mPosition = b
      ∧ (s2 2).mRotationQuat = Quat.identity ∧ (s2 2).mScale = ⟨1, 1, 1⟩ := by
  have hs : ∃ s2, ((Attach mx 3 (threeNodes a b c) 1 (some 0) false).bind
      fun s1 => UpdateTransform mx 3 s1 1 false) = some s2 := Option.isSome_iff_exists.1 rfl
  obtain ⟨s2, hs⟩ := hs
  have k1 : (Attach mx 3 (threeNodes a b c) 1 (some 0) false).map
      (fun s => (s 1).mTransformDirty) = some true := rfl
  have k2 : ((Attach mx 3 (threeNodes a b c) 1 (some 0) false).bind
      fun s1 => UpdateTransform mx 3 s1 1 false).map
      (fun s => (s 1).mTransformDirty) = some false := rfl
  have k3 : ((Attach mx 3 (threeNodes a b c) 1 (some 0) false).bind
      fun s1 => UpdateTransform mx 3 s1 1 false).map (fun s => (s 1).mTransform)
      = some (localMatrix { Node3D.new with mPosition := a, mChildren := [1] }
          * localMatrix { Node3D.new with mPosition := c }) := rfl
  have k4 : ((Attach mx 3 (threeNodes a b c) 1 (some 0) false).bind
      fun s1 => UpdateTransform mx 3 s1 1 false).map (fun s => rooted s 0 2) = some true := rfl
  have k5 : ((Attach mx 3 (threeNodes a b c) 1 (some 0) false).bind
      fun s1 => UpdateTransform mx 3 s1 1 false).map
      (fun s => ((s 2).mPosition, (s 2).mRotationQuat, (s 2).mScale))
      = some (b, Quat.identity, ⟨1, 1, 1⟩) := rfl
  rw [hs] at k2 k3 k4 k5
  obtain ⟨s1, h1, h2⟩ := Option.bind_eq_some.1 hs
  rw [h1] at k1
  simp only [Option.map_some', Option.some.injEq, Prod.mk.injEq] at k1 k2 k3 k4 k5
  refine ⟨s1, s2, h1, h2, k1, k2, ?_, k4, k5.1, k5.2.1, k5.2.2⟩
  rw [k3, localMatrix_translation _ rfl rfl, localMatrix_translation _ rfl rfl]

theorem reparentKeep_general (mx : Maths) (a b c : Vec3) :
    ReparentKeepOutcome mx a b c ⟨a.x + c.x, a.y + c.y, a.z + c.z⟩
      ⟨a.x + c.x - b.x, a.y + c.y - b.y, a.z + c.z - b.z⟩ := by
  obtain ⟨s1, s2, h1, h2, d1, d2, m2, r2, p2, q2, sc2⟩ := threeNodes_attached mx a b c
  have hR1 : Reachable mx s1 :=
    Reachable.attach 3 1 (some 0) false (threeNodes_reachable mx a b c) h1
  have hG : GetTransform mx 3 s1 1 = some ((s2 1).mTransform, s2) := by
    simp [GetTransform, GetTransformWith, h2, d1]
  have hR2 : Reachable mx s2 := Reachable.getTransform 3 1 _ hR1 hG
  have hn2 : (s2 2).mParent = none := by
    simpa [rooted, Option.isNone_iff_eq_none] using r2
  have hpc2 : ParentClean s2 2 := fun g hg => by
    rw [hn2] at hg
    exact Option.noConfusion hg
  obtain ⟨t, hA, tp, tb, td, tc, tpos, -, -, tfr⟩ :=
    Attach_keep_spec mx 3 0 s2 1 2 (reachable_inv hR2).1 d2 r2 (by simp [onChain])
      (Or.inr hpc2) (by omega)
  have hA1 : Attach mx 3 s1 1 (some 2) true = some t := by
    rw [Attach_keep_updated mx 3 s1 s2 1 (some 2) (by decide) d1 h2 d2]
    exact hA
  have hRt : Reachable mx t := Reachable.attach 3 1 (some 2) true hR1 hA1
  obtain ⟨f1, f2, f3, f4⟩ := tfr 2 (by decide)
  have hT2 : (t 2).mTransform = translateMat b := by
    have hok : okChain (fun _ => false) t 0 2 = true := by
      simp [okChain, nodeOk, uniformScale, tc, f1, f3, sc2, hn2]
    rw [(reachable_inv hRt).2.2 0 2 hok]
    simp only [worldMatrix]
    rw [← localMatrix_eq_specLocal, localMatrix_translation _ (f4.trans q2) (f3.trans sc2),
      f2, p2]
  have hloc : (t 1).mPosition
      = ⟨a.x + c.x - b.x, a.y + c.y - b.y, a.z + c.z - b.z⟩ := by
    rw [tpos, hT2, m2, translateMat_mul, extractPosition_translateMat, inverse_translateMat,
      translate_point]
    simp [sub_eq_add_neg]
  have hworld : xyz (Matrix.mulVec (t 2).mTransform (point4 (t 1).mPosition))
      = ⟨a.x + c.x, a.y + c.y, a.z + c.z⟩ := by
    rw [hloc, hT2, translate_point]
    simp
  refine ⟨s1, s2, t, rebuilt mx t 1 ((t 2).mTransform * specLocal (t 1)), h1, ?_, hA1, hA, tp,
    hloc, ?_⟩
  · simp only [GetAbsolutePosition, h2, Option.map_some', m2, translateMat_mul,
      extractPosition_translateMat]
  · rw [GetAbsolutePosition_dirty_child mx t 1 2 2 tp tb td tc, hworld]

/-- C7: for translation-only poses (identity rotation, unit scale) of a node 1 at local
position c, its old parent 0 at a and its new parent 2 at b, the call
Attach(2, keepWorldTransform = true) on node 1 returns, makes node 2 the parent, stores
the local position a + c - b and leaves the absolute position at a + c, the value read
before the call; with a = (1,0,0), b = (5,0,0) and c = (0,1,0) the absolute position
stays (1,1,0) and the stored local position becomes (-4,1,0). -/
theorem C7_translation_reparent_keep (mx : Maths) :
    (∀ a b c : Vec3,
        ReparentKeepOutcome mx a b c ⟨a.x + c.x, a.y + c.y, a.z + c.z⟩
          ⟨a.x + c.x - b.x, a.y + c.y - b.y, a.z + c.z - b.z⟩)
      ∧ ReparentKeepOutcome mx ⟨1, 0, 0⟩ ⟨5, 0, 0⟩ ⟨0, 1, 0⟩ ⟨1, 1, 0⟩ ⟨-4, 1, 0⟩ := by
  refine ⟨reparentKeep_general mx, ?_⟩
  have h := reparentKeep_general mx ⟨1, 0, 0⟩ ⟨5, 0, 0⟩ ⟨0, 1, 0⟩
  norm_num at h
  exact h

/-! ## Re-parenting with `keepWorldTransform = false`, step by step -/

theorem RemoveChild_pose (s : Scene) (o n y : Ptr) :
    (RemoveChild s o (some n) y).mPosition = (s y).mPosition
      ∧ (RemoveChild s o (some n) y).mRotationQuat = (s y).mRotationQuat
      ∧ (RemoveChild s o (some n) y).mScale = (s y).mScale := by
  by_cases h : n ∈ (s o).mChildren
  · rw [RemoveChild_eq s o n h]
    simp only [modify_apply]
    split_ifs <;> simp
  · rw [RemoveChild_absent s o n h]
    exact ⟨rfl, rfl, rfl⟩

theorem AddChild_pose (s : Scene) (p n y : Ptr) :
    (AddChild s p (some n) y).mPosition = (s y).mPosition
      ∧ (AddChild s p (some n) y).mRotationQuat = (s y).mRotationQuat
      ∧ (AddChild s p (some n) y).mScale = (s y).mScale := by
  by_cases h : n ∈ (s p).mChildren
  · have e : AddChild s p (some n) = s := by simp only [AddChild, h, if_true]
    rw [e]
    exact ⟨rfl, rfl, rfl⟩
  · rw [AddChild_eq s p n h]
    simp only [modify_apply]
    split_ifs <;> simp

theorem detachOld_plain_spec (mx : Maths) (f : Nat) (s : Scene) (n : Ptr)
    (hw : WellFormed s) :
    ∃ s2, detachOld mx f s n false = some s2 ∧ WellFormed s2 ∧ (s2 n).mParent = none
      ∧ Only n s s2 ∧ (s2 n).mPosition = (s n).mPosition
      ∧ (s2 n).mRotationQuat = (s n).mRotationQuat ∧ (s2 n).mScale = (s n).mScale := by
  unfold detachOld
  cases hp : (s n).mParent with
  | none => exact ⟨s, rfl, hw, hp, only_refl n s, rfl, rfl, rfl⟩
  | some old =>
    have hm : n ∈ (s old).mChildren := (hw.1 n old).1 hp
    obtain ⟨a1, a2, a3⟩ := RemoveChild_pose s old n n
    exact ⟨RemoveChild s old (some n), by simp, RemoveChild_wellFormed s old n hw hp,
      RemoveChild_parent s old n hm, only_RemoveChild s old n, a1, a2, a3⟩

theorem Attach_plain_spec (mx : Maths) (f : Nat) (s : Scene) (n : Ptr) (parent : Option Ptr)
    (hw : WellFormed s) (hne : parent ≠ some n) :
    ∃ t, Attach mx f s n parent false = some t
      ∧ (t n).mPosition = (s n).mPosition ∧ (t n).mRotationQuat = (s n).mRotationQuat
      ∧ (t n).mScale = (s n).mScale ∧ (t n).mParent = parent
      ∧ (t n).mParentBoneIndex = -1 ∧ (t n).mTransformDirty = true ∧ Only n s t := by
  obtain ⟨s2, h2, hw2, hp2, o2, a1, a2, a3⟩ := detachOld_plain_spec mx f s n hw
  obtain ⟨s3, hs3⟩ : ∃ s3, s3 = modify s2 n (fun nd => { nd with mParentBoneIndex := -1 }) :=
    ⟨_, rfl⟩
  have o3 : Only n s s3 := by
    rw [hs3]
    exact only_trans o2 (only_modify s2 n _)
  have hw3 : WellFormed s3 := by
    rw [hs3]
    exact wellFormed_modify s2 n _ (fun nd => by simp) hw2
  have hp3 : (s3 n).mParent = none := by rw [hs3]; simpa using hp2
  have hb3 : (s3 n).mParentBoneIndex = -1 := by rw [hs3]; simp
  have b1 : (s3 n).mPosition = (s n).mPosition := by rw [hs3]; simpa using a1
  have b2 : (s3 n).mRotationQuat = (s n).mRotationQuat := by rw [hs3]; simpa using a2
  have b3 : (s3 n).mScale = (s n).mScale := by rw [hs3]; simpa using a3
  have hA : Attach mx f s n parent false
      = (attachNew mx f s3 n parent false).map fun s4 => MarkTransformDirty s4 n := by
    simp only [Attach, hne, if_false, Bool.false_and, Bool.false_eq_true, Option.some_bind, h2,
      ← hs3]
  cases parent with
  | none =>
    refine ⟨MarkTransformDirty s3 n, by rw [hA]; rfl, ?_, ?_, ?_, ?_, ?_, ?_, ?_⟩
    · simpa [MarkTransformDirty] using b1
    · simpa [MarkTransformDirty] using b2
    · simpa [MarkTransformDirty] using b3
    · simpa [MarkTransformDirty] using hp3
    · simpa [MarkTransformDirty] using hb3
    · simp [MarkTransformDirty]
    · exact only_trans o3 (only_modify s3 n _)
  | some p =>
    have hnm : n ∉ (s3 p).mChildren := by
      intro hm
      have := (hw3.1 n p).2 hm
      rw [hp3] at this
      exact Option.noConfusion this
    obtain ⟨c1, c2, c3⟩ := AddChild_pose s3 p n n
    have hb4 : (AddChild s3 p (some n) n).mParentBoneIndex = -1 := by
      rw [AddChild_eq s3 p n hnm]
      simp only [modify_apply]
      split_ifs <;> simp [hb3]
    refine ⟨MarkTransformDirty (AddChild s3 p (some n)) n, by rw [hA]; rfl,
      ?_, ?_, ?_, ?_, ?_, ?_, ?_⟩
    · simpa [MarkTransformDirty] using c1.trans b1
    · simpa [MarkTransformDirty] using c2.trans b2
    · simpa [MarkTransformDirty] using c3.trans b3
    · simpa [MarkTransformDirty] using AddChild_parent s3 p n hnm
    · simpa [MarkTransformDirty] using hb4
    · simp [MarkTransformDirty]
    · exact only_trans o3 (only_trans (only_AddChild s3 p n) (only_modify _ n _))

theorem read_after_attach (mx : Maths) (t : Scene) (n p : Ptr) (k g : Nat)
    (hp : (t n).mParent = some p) (hb : (t n).mParentBoneIndex = -1)
    (hd : (t n).mTransformDirty = true) (hr : rooted t k p = true) (hg : k + 1 < g) :
    ∃ u, GetAbsolutePosition mx g t n
      = some (xyz (Matrix.mulVec (u p).mTransform (point4 (t n).mPosition)), u) := by
  obtain ⟨f, rfl⟩ : ∃ f, g = f + 1 := ⟨g - 1, by omega⟩
  have hrn : rooted t (k + 1) n = true := by simp [rooted, hp, hr]
  have hpn : p ≠ n := rooted_ne hr hrn (by omega)
  obtain ⟨s1, -, hfr, hpc, hU⟩ := rebuild_dirty_rooted mx t n (k + 1) f hrn hd (by omega)
  obtain ⟨e1, -, e3, -, -, e6, -⟩ := hfr n
  have hM : rebuildMatrix s1 n = (s1 p).mTransform * specLocal (s1 n) := by
    simp [rebuildMatrix, parentMatrix, e1, hp, e6, hb, localMatrix_eq_specLocal]
  refine ⟨rebuilt mx s1 n (rebuildMatrix s1 n), ?_⟩
  simp only [GetAbsolutePosition, hU, Option.map_some', (rebuilt_at mx s1 n _).1,
    (rebuilt_other mx s1 n _ hpn).1]
  rw [hM, extractPosition_mul_specLocal, e3]

theorem reparentPlain_example (mx : Maths) (a b c : Vec3) :
    ∃ s1 t u, Attach mx 3 (threeNodes a b c) 1 (some 0) false = some s1
      ∧ Attach mx 3 s1 1 (some 2) false = some t
      ∧ GetAbsolutePosition mx 3 t 1 = some (⟨b.x + c.x, b.y + c.y, b.z + c.z⟩, u) := by
  have hs : ∃ r, ((Attach mx 3 (threeNodes a b c) 1 (some 0) false).bind fun s1 =>
      (Attach mx 3 s1 1 (some 2) false).bind fun t => GetAbsolutePosition mx 3 t 1) = some r :=
    Option.isSome_iff_exists.1 rfl
  obtain ⟨r, hs⟩ := hs
  have k : ((Attach mx 3 (threeNodes a b c) 1 (some 0) false).bind fun s1 =>
      (Attach mx 3 s1 1 (some 2) false).bind fun t => GetAbsolutePosition mx 3 t 1).map
        Prod.fst
      = some (ExtractPosition (localMatrix { Node3D.new with mPosition := b, mChildren := [1] }
          * localMatrix { Node3D.new with mPosition := c })) := rfl
  rw [hs] at k
  simp only [Option.map_some', Option.some.injEq] at k
  rw [localMatrix_translation _ rfl rfl, localMatrix_translation _ rfl rfl, translateMat_mul,
    extractPosition_translateMat] at k
  obtain ⟨s1, h1, h2⟩ := Option.bind_eq_some.1 hs
  obtain ⟨t, h3, h4⟩ := Option.bind_eq_some.1 h2
  refine ⟨s1, t, r.2, h1, h3, ?_⟩
  rw [h4]
  exact congrArg some (Prod.ext k rfl)

/-! ## C11: the identity fallback of `GetParentTransform` -/

/-- The situations in which the parent transform degrades to the identity: the node has
no parent, or its bone index is not `-1` and the parent is not a skinned-mesh node, or
the parent has no skeletal mesh, or the bone index is negative or not below the number of
bones. -/
def FallbackCase (s : Scene) (n : Ptr) : Prop :=
  (s n).mParent = none ∨
    ∃ p, (s n).mParent = some p ∧ (s n).mParentBoneIndex ≠ -1
      ∧ ((s p).skeletal = none
        ∨ ∃ sk, (s p).skeletal = some sk
            ∧ (sk.hasSkeletalMesh = false ∨ (s n).mParentBoneIndex < 0
              ∨ (sk.numBones : Int) ≤ (s n).mParentBoneIndex))

/-- A scene in which node 1 names bone 5 of the skinned-mesh node 0, which has one bone. -/
def badBoneScene : Scene := modify boneScene 1 (fun nd => { nd with mParentBoneIndex := 5 })

theorem toInt32_le (u : Nat) : toInt32 u ≤ (u : Int) := by
  unfold toInt32
  have h := Nat.mod_le u (2 ^ 32)
  split <;> omega

/-- C11: for every node without a parent, and for every node whose bone index is not -1
and whose parent is not a skinned-mesh node, or has no skeletal mesh, or whose bone index
is negative or at least the number of bones, GetParentTransform returns the identity
matrix, for every amount of fuel and without touching the scene. -/
theorem C11_GetParentTransform_identity_fallback (mx : Maths) (fuel : Nat) (s : Scene)
    (n : Ptr) (h : FallbackCase s n) : GetParentTransform mx fuel s n = some (1, s) := by
  unfold GetParentTransform GetParentTransformWith
  rcases h with h | ⟨p, hp, hb, h⟩
  · rw [h]
  · rw [hp]
    simp only [hb, if_false]
    rcases h with h | ⟨sk, hsk, h⟩
    · rw [h]
    · rw [hsk]
      have hle := toInt32_le sk.numBones
      have hc : ¬ (0 ≤ (s n).mParentBoneIndex ∧ (s n).mParentBoneIndex < toInt32 sk.numBones
          ∧ sk.hasSkeletalMesh = true) := by
        rintro ⟨h0, h1, h2⟩
        rcases h with h | h | h
        · rw [h] at h2
          exact Bool.noConfusion h2
        · omega
        · omega
      simp only [hc, if_false]

/-- Witness for C11: node 1 names bone 5 of a one-bone skinned mesh. -/
theorem C11_GetParentTransform_identity_fallback_witness :
    GetParentTransform sampleMaths 0 badBoneScene 1 = some (1, badBoneScene) :=
  C11_GetParentTransform_identity_fallback sampleMaths 0 badBoneScene 1
    (Or.inr ⟨0, rfl, by decide, Or.inr ⟨_, rfl, Or.inr (Or.inr (by decide))⟩⟩)

/-! ## C12: `SetAbsoluteScale` -/

/-- C12: for every node whose parent chain ends at a root (fuel covering the chain):
without a parent SetAbsoluteScale(scale) stores scale itself; with a parent p whose
absolute scale reads (px, py, pz), the call returns and the stored local scale is, on each
axis, scale_i / p_i when p_i is not 0 and 0 when p_i is 0. -/
theorem C12_SetAbsoluteScale_ratio (mx : Maths) (s : Scene) (n : Ptr) (k f : Nat)
    (scale : Vec3) (hr : rooted s k n = true) (hf : k ≤ f) :
    ((s n).mParent = none →
        ∃ t, SetAbsoluteScale mx f s n scale = some t ∧ (t n).mScale = scale)
      ∧ ∀ p, (s n).mParent = some p →
          ∃ ps r t, GetAbsoluteScale mx f s p = some (ps, r)
            ∧ SetAbsoluteScale mx f s n scale = some t
            ∧ (ps.x ≠ 0 → (t n).mScale.x = scale.x / ps.x) ∧ (ps.x = 0 → (t n).mScale.x = 0)
            ∧ (ps.y ≠ 0 → (t n).mScale.y = scale.y / ps.y) ∧ (ps.y = 0 → (t n).mScale.y = 0)
            ∧ (ps.z ≠ 0 → (t n).mScale.z = scale.z / ps.z)
            ∧ (ps.z = 0 → (t n).mScale.z = 0) := by
  constructor
  · intro hp
    refine ⟨SetScale s n scale, by simp [SetAbsoluteScale, hp], ?_⟩
    rw [SetScale_at]
  · intro p hp
    obtain ⟨k, rfl⟩ : ∃ j, k = j + 1 := by
      cases k with
      | zero => simp [rooted, hp] at hr
      | succ j => exact ⟨j, rfl⟩
    obtain ⟨u, hu⟩ := UpdateTransform_returns mx k s p (rooted_parent hr hp) f (by omega)
    refine ⟨mx.ExtractScale (u p).mTransform, u,
      SetScale u n (relScale scale (mx.ExtractScale (u p).mTransform)),
      by simp [GetAbsoluteScale, hu], by simp [SetAbsoluteScale, hp, GetAbsoluteScale, hu], ?_⟩
    rw [SetScale_at]
    simp only [relScale]
    refine ⟨fun h => by simp [h], fun h => by simp [h], fun h => by simp [h],
      fun h => by simp [h], fun h => by simp [h], fun h => by simp [h]⟩

/-- Witness for C12: node 1, attached to node 0 and not yet read, is given the absolute
scale (2,3,4). -/
theorem C12_SetAbsoluteScale_ratio_witness :
    ∃ ps r t, GetAbsoluteScale sampleMaths 1 attachedScene 0 = some (ps, r)
      ∧ SetAbsoluteScale sampleMaths 1 attachedScene 1 ⟨2, 3, 4⟩ = some t
      ∧ (ps.x ≠ 0 → (t 1).mScale.x = 2 / ps.x) := by
  obtain ⟨ps, r, t, h1, h2, h3, -⟩ :=
    (C12_SetAbsoluteScale_ratio sampleMaths attachedScene 1 1 1 ⟨2, 3, 4⟩ (by decide!)
      (by decide)).2 0 (by decide!)
  exact ⟨ps, r, t, h1, h2, h3⟩

/-! ## C13: `SetAbsolutePosition` followed by `GetAbsolutePosition` -/

/-- Scene `a` gives node `n` the same parent and bone index as `r`, and every node the
same skeleton data. -/
def SameAttach (r a : Scene) (n : Ptr) : Prop :=
  (a n).mParent = (r n).mParent ∧ (a n).mParentBoneIndex = (r n).mParentBoneIndex
    ∧ ∀ p, (a p).skeletal = (r p).skeletal

theorem sameAttach_of_frame {r a : Scene} (h : Frame r a) (n : Ptr) : SameAttach r a n :=
  ⟨(h n).1, (h n).2.2.2.2.2.1, fun p => (h p).2.2.2.2.2.2⟩

theorem sameAttach_trans {r a b : Scene} {n : Ptr} (h1 : SameAttach r a n)
    (h2 : SameAttach a b n) : SameAttach r b n :=
  ⟨h2.1.trans h1.1, h2.2.1.trans h1.2.1, fun p => (h2.2.2 p).trans (h1.2.2 p)⟩

theorem sameAttach_SetPosition (r : Scene) (n : Ptr) (w : Vec3) :
    SameAttach r (SetPosition r n w) n := by
  refine ⟨by rw [SetPosition_at], by rw [SetPosition_at], fun p => ?_⟩
  by_cases h : p = n
  · subst h
    rw [SetPosition_at]
  · simp [SetPosition, MarkTransformDirty, modify_other _ _ h]

theorem UpdateTransform_clears (mx : Maths) (k : Nat) (s : Scene) (n : Ptr)
    (hr : rooted s k n = true) (f : Nat) (hf : k < f) :
    ∃ t, UpdateTransform mx f s n false = some t ∧ (t n).mTransformDirty = false := by
  obtain ⟨t, ht⟩ := UpdateTransform_returns mx k s n hr f hf
  refine ⟨t, ht, ?_⟩
  obtain ⟨f, rfl⟩ : ∃ g, f = g + 1 := ⟨f - 1, by omega⟩
  rw [UpdateTransform_step] at ht
  obtain ⟨s1, -, rfl⟩ := Option.map_eq_some'.1 ht
  unfold finish
  by_cases hd : (s1 n).mTransformDirty = true
  · rw [if_pos hd]
    exact (rebuilt_at mx s1 n _).2
  · rw [if_neg hd]
    simpa using hd

theorem GetTransformWith_settled (mx : Maths) (s : Scene) (p : Ptr) (k f : Nat)
    (hr : rooted s k p = true) (hf : k < f) :
    ∃ r, GetTransformWith (fun a b c => UpdateTransform mx f a b c) s p
        = some ((r p).mTransform, r)
      ∧ Frame s r ∧ (r p).mTransformDirty = false := by
  by_cases hd : (s p).mTransformDirty = true
  · obtain ⟨t, ht, hc⟩ := UpdateTransform_clears mx k s p hr f hf
    exact ⟨t, by simp [GetTransformWith, hd, ht], UpdateTransform_frame ht, hc⟩
  · have hc : (s p).mTransformDirty = false := by simpa using hd
    exact ⟨s, GetTransformWith_clean _ hc, frame_refl s, hc⟩

theorem GetParentTransform_settled (mx : Maths) (s : Scene) (n : Ptr) (k f : Nat)
    (hr : rooted s k n = true) (hf : k ≤ f) :
    ∃ P r, GetParentTransform mx f s n = some (P, r) ∧ Frame s r ∧ P = parentMatrix r n
      ∧ ((∀ a, SameAttach r a n → parentMatrix a n = 1)
        ∨ ∃ p, (s n).mParent = some p ∧ (r p).mTransformDirty = false) := by
  unfold GetParentTransform GetParentTransformWith
  cases hp : (s n).mParent with
  | none =>
    refine ⟨1, s, rfl, frame_refl s, by simp [parentMatrix, hp], Or.inl fun a ha => ?_⟩
    simp [parentMatrix, ha.1, hp]
  | some p =>
    obtain ⟨k, rfl⟩ : ∃ j, k = j + 1 := by
      cases k with
      | zero => simp [rooted, hp] at hr
      | succ j => exact ⟨j, rfl⟩
    obtain ⟨r, hg, hfr, hc⟩ :=
      GetTransformWith_settled mx s p k f (rooted_parent hr hp) (by omega)
    have hpr : (r n).mParent = some p := (hfr n).1.trans hp
    have hbr : (r n).mParentBoneIndex = (s n).mParentBoneIndex := (hfr n).2.2.2.2.2.1
    have hsr : (r p).skeletal = (s p).skeletal := (hfr p).2.2.2.2.2.2
    by_cases hb : (s n).mParentBoneIndex = -1
    · refine ⟨(r p).mTransform, r, by simp [hb, hg], hfr, ?_, Or.inr ⟨p, rfl, hc⟩⟩
      simp [parentMatrix, hpr, hbr, hb]
    · simp only [hb, if_false]
      cases hsk : (s p).skeletal with
      | none =>
        refine ⟨1, s, rfl, frame_refl s, by simp [parentMatrix, hp, hb, hsk],
          Or.inl fun a ha => ?_⟩
        simp [parentMatrix, ha.1, ha.2.1, ha.2.2 p, hp, hb, hsk]
      | some sk =>
        by_cases hcond : 0 ≤ (s n).mParentBoneIndex
            ∧ (s n).mParentBoneIndex < toInt32 sk.numBones ∧ sk.hasSkeletalMesh = true
        · refine ⟨(r p).mTransform * sk.boneTransform (s n).mParentBoneIndex
              * sk.invOffsetMatrix (s n).mParentBoneIndex, r, by simp [hcond, hg], hfr, ?_,
            Or.inr ⟨p, rfl, hc⟩⟩
          simp [parentMatrix, hpr, hbr, hb, hsr, hsk, hcond]
        · refine ⟨1, s, by simp [hcond], frame_refl s,
            by simp [parentMatrix, hp, hb, hsk, hcond], Or.inl fun a ha => ?_⟩
          simp [parentMatrix, ha.1, ha.2.1, ha.2.2 p, hp, hb, hsk, hcond]

theorem rebuildMatrix_eq_mul (s : Scene) (n : Ptr) :
    rebuildMatrix s n = parentMatrix s n * specLocal (s n) := by
  unfold rebuildMatrix parentMatrix
  cases (s n).mParent with
  | none => simp [localMatrix_eq_specLocal]
  | some p => simp [localMatrix_eq_specLocal]

theorem read_after_SetPosition (mx : Maths) (s : Scene) (n : Ptr) (k f : Nat)
    (hr : rooted s k n = true) (hf : k ≤ f) :
    ∃ P r, GetParentTransform mx f s n = some (P, r)
      ∧ ∀ w g, k < g → ∃ u, GetAbsolutePosition mx g (SetPosition r n w) n
          = some (xyz (Matrix.mulVec P (point4 w)), u) := by
  obtain ⟨P, r, hg, hfr, hP, hcase⟩ := GetParentTransform_settled mx s n k f hr hf
  refine ⟨P, r, hg, fun w g hkg => ?_⟩
  obtain ⟨g, rfl⟩ : ∃ j, g = j + 1 := ⟨g - 1, by omega⟩
  have hrt : rooted (SetPosition r n w) k n = true := by
    rw [sameLinks_rooted_eq (SetPosition_keeps r n w).1, frame_rooted_eq hfr]
    exact hr
  have hd : (SetPosition r n w n).mTransformDirty = true := by rw [SetPosition_at]
  obtain ⟨s1, hup, hfr1, -, hU⟩ :=
    rebuild_dirty_rooted mx (SetPosition r n w) n k g hrt hd (by omega)
  have hpm : parentMatrix s1 n = P := by
    rcases hcase with h | ⟨p, hp, hc⟩
    · rw [hP, h s1 (sameAttach_trans (sameAttach_SetPosition r n w) (sameAttach_of_frame hfr1 n)),
        h r (sameAttach_of_frame (frame_refl r) n)]
    · obtain ⟨k, rfl⟩ : ∃ j, k = j + 1 := by
        cases k with
        | zero => simp [rooted, hp] at hr
        | succ j => exact ⟨j, rfl⟩
      have hpn : p ≠ n := rooted_ne (rooted_parent hr hp) hr (by omega)
      have htp : SetPosition r n w p = r p := by
        simp [SetPosition, MarkTransformDirty, modify_other _ _ hpn]
      have hpt : (SetPosition r n w n).mParent = some p := by
        rw [SetPosition_at]
        exact (hfr n).1.trans hp
      have hs1 : s1 = SetPosition r n w := by
        simp only [updateParentWith, hpt, htp, hc, Bool.false_eq_true, if_false,
          Option.some.injEq] at hup
        exact hup.symm
      have hrp : (r n).mParent = some p := (hfr n).1.trans hp
      rw [hs1, hP]
      simp [parentMatrix, SetPosition_at, hrp, htp]
  refine ⟨rebuilt mx s1 n (rebuildMatrix s1 n), ?_⟩
  simp only [GetAbsolutePosition, hU, Option.map_some', (rebuilt_at mx s1 n _).1]
  rw [rebuildMatrix_eq_mul, hpm, extractPosition_mul_specLocal, (hfr1 n).2.2.1, SetPosition_at]

/-- C13: for every node whose parent chain ends at a root (fuel covering the chain) and
every point v, SetAbsolutePosition(v) returns; the stored local position is v for a node
without a parent, and inverse(P) applied to (v,1) for a node with a parent whose transform
P, the value GetParentTransform returns, is invertible; and when the node has no parent or
P is an invertible affine matrix, the GetAbsolutePosition that follows returns v. Nothing
is stated about the stored position under a singular parent transform. -/
theorem C13_SetAbsolutePosition_roundtrip (mx : Maths) (s : Scene) (n : Ptr) (k f : Nat)
    (v : Vec3) (hr : rooted s k n = true) (hf : k ≤ f) :
    ∃ P r t, GetParentTransform mx f s n = some (P, r)
      ∧ SetAbsolutePosition mx f s n v = some t
      ∧ ((s n).mParent = none → (t n).mPosition = v)
      ∧ ((s n).mParent ≠ none → P.det ≠ 0 →
          (t n).mPosition = xyz (Matrix.mulVec (inverse P) (point4 v)))
      ∧ ((s n).mParent = none ∨ (IsAffine P ∧ P.det ≠ 0) →
          ∀ g, k < g → ∃ u, GetAbsolutePosition mx g t n = some (v, u)) := by
  obtain ⟨P, r, hg, hread⟩ := read_after_SetPosition mx s n k f hr hf
  cases hp : (s n).mParent with
  | none =>
    have hg2 : GetParentTransform mx f s n = some (1, s) := by
      simp [GetParentTransform, GetParentTransformWith, hp]
    rw [hg2] at hg
    obtain ⟨rfl, rfl⟩ := Prod.mk.inj (Option.some.inj hg)
    refine ⟨1, s, SetPosition s n v, hg2, by simp [SetAbsolutePosition, hp], fun _ => ?_,
      fun h _ => absurd rfl h, fun _ g hkg => ?_⟩
    · rw [SetPosition_at]
    · obtain ⟨u, hu⟩ := hread v g hkg
      refine ⟨u, ?_⟩
      rw [hu]
      simp [xyz, point4]
  | some p =>
    refine ⟨P, r, SetPosition r n (xyz (Matrix.mulVec (inverse P) (point4 v))), hg,
      by simp [SetAbsolutePosition, hp, hg], fun h => Option.noConfusion h, fun _ _ => ?_,
      fun h g hkg => ?_⟩
    · rw [SetPosition_at]
    · rcases h with h | ⟨ha, hd⟩
      · exact Option.noConfusion h
      · obtain ⟨u, hu⟩ := hread (xyz (Matrix.mulVec (inverse P) (point4 v))) g hkg
        exact ⟨u, by rw [hu, affine_roundtrip P v ha hd]⟩

/-- The scene in which node 1 is attached to node 0, placed at (5,0,0), nothing read. -/
def movedParentScene : Scene := SetPosition attachedScene 0 ⟨5, 0, 0⟩

theorem movedParent_transform :
    (GetParentTransform sampleMaths 1 movedParentScene 1).map
        (fun r => decide (IsAffine r.1 ∧ r.1.det ≠ 0)) = some true := by
  decide!

theorem movedParent_local :
    (GetParentTransform sampleMaths 1 movedParentScene 1).map
        (fun r => xyz (Matrix.mulVec (inverse r.1) (point4 ⟨3, 4, 5⟩)))
      = some ⟨-2, 4, 5⟩ := by
  decide!

/-- Witness for C13: node 1 below the unread node 0 at (5,0,0) is given the absolute
position (3,4,5); the stored local position is (-2,4,5) and the read that follows returns
(3,4,5). -/
theorem C13_SetAbsolutePosition_roundtrip_witness :
    ∃ t u, SetAbsolutePosition sampleMaths 1 movedParentScene 1 ⟨3, 4, 5⟩ = some t
      ∧ (t 1).mPosition = ⟨-2, 4, 5⟩
      ∧ GetAbsolutePosition sampleMaths 2 t 1 = some (⟨3, 4, 5⟩, u) := by
  obtain ⟨P, r, t, h1, h2, -, h4, h5⟩ :=
    C13_SetAbsolutePosition_roundtrip sampleMaths movedParentScene 1 1 1 ⟨3, 4, 5⟩
      (by decide!) (by decide)
  have h := movedParent_transform
  have hl := movedParent_local
  rw [h1] at h hl
  simp only [Option.map_some', Option.some.injEq, decide_eq_true_eq] at h hl
  obtain ⟨u, hu⟩ := h5 (Or.inr h) 2 (by decide)
  exact ⟨t, u, h2, (h4 (by decide) h.2).trans hl, hu⟩

/-! ## C16: parent cycles -/

theorem SetAbsolutePosition_sameLinks {mx : Maths} {f : Nat} {s t : Scene} {n : Ptr} {v : Vec3}
    (h : SetAbsolutePosition mx f s n v = some t) : SameLinks s t := by
  unfold SetAbsolutePosition at h
  split at h
  · simp only [Option.map_eq_some'] at h
    obtain ⟨r, hr, rfl⟩ := h
    exact sameLinks_trans (frame_sameLinks (GetParentTransform_frame hr))
      (SetPosition_links r.2 n _).1
  · simp only [Option.some.injEq] at h
    subst h
    exact (SetPosition_links s n v).1

theorem SetAbsoluteScale_sameLinks {mx : Maths} {f : Nat} {s t : Scene} {n : Ptr} {v : Vec3}
    (h : SetAbsoluteScale mx f s n v = some t) : SameLinks s t := by
  unfold SetAbsoluteScale at h
  split at h
  · simp only [GetAbsoluteScale, Option.map_eq_some'] at h
    obtain ⟨r, ⟨u, hu, rfl⟩, rfl⟩ := h
    exact sameLinks_trans (frame_sameLinks (UpdateTransform_frame hu)) (SetScale_links u n _).1
  · simp only [Option.some.injEq] at h
    subst h
    exact (SetScale_links s n v).1

theorem SetAbsoluteRotation_sameLinks {mx : Maths} {f : Nat} {s t : Scene} {n : Ptr} {q : Quat}
    (h : SetAbsoluteRotation mx f s n q = some t) : SameLinks s t := by
  unfold SetAbsoluteRotation at h
  split at h
  · simp only [GetAbsoluteRotationQuat, Option.map_eq_some'] at h
    obtain ⟨r, ⟨u, hu, rfl⟩, rfl⟩ := h
    exact sameLinks_trans (frame_sameLinks (UpdateTransform_frame hu))
      (SetRotation_links mx u n _).1
  · simp only [Option.some.injEq] at h
    subst h
    exact (SetRotation_links mx s n q).1

theorem SetTransform_sameLinks {mx : Maths} {f : Nat} {s t : Scene} {n : Ptr} {m : Mat4}
    (h : SetTransform mx f s n m = some t) : SameLinks s t := by
  unfold SetTransform at h
  simp only [Option.bind_eq_some, Option.map_eq_some'] at h
  obtain ⟨s2, h2, s3, h3, s4, h4, rfl⟩ := h
  exact sameLinks_trans (sameLinks_modify s n _ (fun nd => by simp))
    (sameLinks_trans (SetAbsolutePosition_sameLinks h2)
      (sameLinks_trans (SetAbsoluteScale_sameLinks h3)
        (sameLinks_trans (SetAbsoluteRotation_sameLinks h4) (settle_links mx s4 n).1)))

theorem detachOld_links {mx : Maths} {f : Nat} {s t : Scene} {n : Ptr} {keep : Bool}
    (h : detachOld mx f s n keep = some t) (hw : WellFormed s) :
    WellFormed t ∧ (t n).mParent = none ∧ ∀ y, y ≠ n → (t y).mParent = (s y).mParent := by
  unfold detachOld at h
  cases hp : (s n).mParent with
  | none =>
    rw [hp] at h
    simp only [Option.some.injEq] at h
    subst h
    exact ⟨hw, hp, fun _ _ => rfl⟩
  | some old =>
    rw [hp] at h
    cases keep with
    | false =>
      simp only [Bool.false_eq_true, if_false, Option.some.injEq] at h
      subst h
      exact ⟨RemoveChild_wellFormed s old n hw hp,
        RemoveChild_parent s old n ((hw.1 n old).1 hp),
        fun y hy => (only_RemoveChild s old n y hy).1⟩
    | true =>
      simp only [if_true, Option.bind_eq_some] at h
      obtain ⟨r, hr, hset⟩ := h
      have hfr := GetTransform_frame hr
      have hw1 := frame_wellFormed hfr hw
      have hp1 : (r.2 n).mParent = some old := (hfr n).1.trans hp
      have hl := SetTransform_sameLinks hset
      refine ⟨sameLinks_wellFormed hl (RemoveChild_wellFormed r.2 old n hw1 hp1), ?_, ?_⟩
      · rw [(hl n).1]
        exact RemoveChild_parent r.2 old n ((hw1.1 n old).1 hp1)
      · intro y hy
        rw [(hl y).1, (only_RemoveChild r.2 old n y hy).1]
        exact (hfr y).1

theorem attachNew_links {mx : Maths} {f : Nat} {s t : Scene} {n : Ptr} {parent : Option Ptr}
    {keep : Bool} (h : attachNew mx f s n parent keep = some t) (hw : WellFormed s)
    (hp : (s n).mParent = none) :
    WellFormed t ∧ (t n).mParent = parent ∧ ∀ y, y ≠ n → (t y).mParent = (s y).mParent := by
  unfold attachNew at h
  cases parent with
  | none =>
    simp only [Option.some.injEq] at h
    subst h
    exact ⟨hw, hp, fun _ _ => rfl⟩
  | some p =>
    have hnm : ∀ u : Scene, WellFormed u → (u n).mParent = none → n ∉ (u p).mChildren := by
      intro u hu hun hm
      have := (hu.1 n p).2 hm
      rw [hun] at this
      exact Option.noConfusion this
    cases keep with
    | false =>
      simp only [Bool.false_eq_true, if_false, Option.some.injEq] at h
      subst h
      exact ⟨AddChild_wellFormed s p n hw hp, AddChild_parent s p n (hnm s hw hp),
        fun y hy => (only_AddChild s p n y hy).1⟩
    | true =>
      simp only [if_true, Option.bind_eq_some] at h
      obtain ⟨r, hr, hset⟩ := h
      have hfr := GetTransform_frame hr
      have hw1 := frame_wellFormed hfr hw
      have hp1 : (r.2 n).mParent = none := (hfr n).1.trans hp
      have hl := SetTransform_sameLinks hset
      refine ⟨sameLinks_wellFormed hl (AddChild_wellFormed r.2 p n hw1 hp1), ?_, ?_⟩
      · rw [(hl n).1]
        exact AddChild_parent r.2 p n (hnm r.2 hw1 hp1)
      · intro y hy
        rw [(hl y).1, (only_AddChild r.2 p n y hy).1]
        exact (hfr y).1

theorem Attach_links {mx : Maths} {f : Nat} {s t : Scene} {n : Ptr} {parent : Option Ptr}
    {keep : Bool} (h : Attach mx f s n parent keep = some t) (hw : WellFormed s)
    (hne : parent ≠ some n) :
    WellFormed t ∧ (t n).mParent = parent ∧ ∀ y, y ≠ n → (t y).mParent = (s y).mParent := by
  unfold Attach at h
  simp only [hne, if_false, Option.bind_eq_some, Option.map_eq_some'] at h
  obtain ⟨s1, h1, s2, h2, s4, h4, rfl⟩ := h
  have hfr : Frame s s1 := by
    split at h1
    · exact UpdateTransform_frame h1
    · simp only [Option.some.injEq] at h1
      subst h1
      exact frame_refl s
  obtain ⟨hw2, hp2, hy2⟩ := detachOld_links h2 (frame_wellFormed hfr hw)
  have hw3 : WellFormed (modify s2 n (fun nd => { nd with mParentBoneIndex := -1 })) :=
    wellFormed_modify s2 n _ (fun nd => by simp) hw2
  obtain ⟨hw4, hp4, hy4⟩ := attachNew_links h4 hw3 (by simpa using hp2)
  refine ⟨wellFormed_modify s4 n _ (fun nd => by simp) hw4, ?_, ?_⟩
  · simpa [MarkTransformDirty] using hp4
  · intro y hy
    rw [MarkTransformDirty, modify_other _ _ hy, hy4 y hy, modify_other _ _ hy, hy2 y hy]
    exact (hfr y).1

/-- Scenario: node 1 is attached to node 0, then node 0 is attached to node 1. -/
def twoCycleScenario (mx : Maths) : Option Scene :=
  (Attach mx 0 Scene.fresh 1 (some 0) false).bind fun s1 => Attach mx 0 s1 0 (some 1) false

/-- The scene left by `twoCycleScenario`. -/
def twoCycleScene : Scene := (twoCycleScenario sampleMaths).getD Scene.fresh

/-- Node `p` is a proper descendant of `n`: following parent pointers from `p` meets `n`. -/
def IsDescendant (s : Scene) (p n : Ptr) : Prop := p ≠ n ∧ ∃ j, onChain s j p n = true

/-- The scenes built from freshly created (detached) nodes by `Attach` calls whose new
parent is never a proper descendant of the attached node. -/
inductive AttachedFromFresh (mx : Maths) : Scene → Prop
  | fresh : AttachedFromFresh mx Scene.fresh
  | attach {s t : Scene} (fuel : Nat) (n : Ptr) (parent : Option Ptr) (keep : Bool) :
      AttachedFromFresh mx s → (∀ p, parent = some p → ¬ IsDescendant s p n) →
      Attach mx fuel s n parent keep = some t → AttachedFromFresh mx t

theorem twoCycle_eq (mx : Maths) : twoCycleScenario mx = some twoCycleScene := rfl

theorem twoCycle_parents :
    (twoCycleScene 0).mParent = some 1 ∧ (twoCycleScene 1).mParent = some 0
      ∧ (twoCycleScene 0).mTransformDirty = true ∧ (twoCycleScene 1).mTransformDirty = true := by
  decide!

theorem twoCycle_unrooted (k : Nat) :
    rooted twoCycleScene k 0 = false ∧ rooted twoCycleScene k 1 = false := by
  obtain ⟨h0, h1, -, -⟩ := twoCycle_parents
  induction k with
  | zero => simp [rooted, h0, h1]
  | succ k ih => simp [rooted, h0, h1, ih.1, ih.2]

/-- C16 (as stated, refuted): from detached nodes, attaching node 1 to node 0 and then
node 0 to node 1 leaves a scene in which following parent pointers from node 0 never
reaches a node without a parent. -/
theorem C16_two_cycle_counterexample :
    ∃ s, (∀ mx, twoCycleScenario mx = some s) ∧ ∀ k, rooted s k 0 = false :=
  ⟨twoCycleScene, twoCycle_eq, fun k => (twoCycle_unrooted k).1⟩

theorem parents_chain {n : Ptr} {s t : Scene}
    (h : ∀ y, y ≠ n → (t y).mParent = (s y).mParent) :
    ∀ (j : Nat) (p : Ptr), onChain s j p n = false → rooted t j p = rooted s j p := by
  intro j
  induction j with
  | zero =>
    intro p hoc
    have hpn : p ≠ n := by simpa [onChain] using hoc
    simp [rooted, h p hpn]
  | succ j ih =>
    intro p hoc
    simp only [onChain, Bool.or_eq_false_iff, decide_eq_false_iff_not] at hoc
    simp only [rooted, h p hoc.1]
    cases hp : (s p).mParent with
    | none => rfl
    | some g =>
      have := hoc.2
      rw [hp] at this
      exact ih g this

theorem relink_acyclic {n : Ptr} {s t : Scene} {parent : Option Ptr}
    (hy : ∀ y, y ≠ n → (t y).mParent = (s y).mParent) (hn : (t n).mParent = parent)
    (hg : ∀ p, parent = some p → ¬ IsDescendant s p n) (hne : parent ≠ some n)
    (ha : ∀ y, ∃ k, rooted s k y = true) : ∀ y, ∃ k, rooted t k y = true := by
  have hself : ∃ k, rooted t k n = true := by
    cases parent with
    | none => exact ⟨0, by simp [rooted, hn]⟩
    | some p =>
      have hpn : p ≠ n := fun e => hne (by rw [e])
      obtain ⟨j, hj⟩ := ha p
      have hoc : onChain s j p n = false := by
        cases h : onChain s j p n with
        | false => rfl
        | true => exact absurd ⟨hpn, j, h⟩ (hg p rfl)
      exact ⟨j + 1, by simp [rooted, hn, parents_chain hy j p hoc, hj]⟩
  have key : ∀ k y, rooted s k y = true → ∃ k2, rooted t k2 y = true := by
    intro k
    induction k with
    | zero =>
      intro y h
      by_cases hyn : y = n
      · rw [hyn]
        exact hself
      · exact ⟨0, by simpa [rooted, hy y hyn] using h⟩
    | succ k ih =>
      intro y h
      by_cases hyn : y = n
      · rw [hyn]
        exact hself
      · cases hp : (s y).mParent with
        | none => simp [rooted, hp] at h
        | some q =>
          obtain ⟨k2, hk2⟩ := ih q (rooted_parent h hp)
          exact ⟨k2 + 1, by simp [rooted, hy y hyn, hp, hk2]⟩
  intro y
  obtain ⟨k, hk⟩ := ha y
  exact key k y hk

theorem attachedFromFresh_inv {mx : Maths} {s : Scene} (h : AttachedFromFresh mx s) :
    WellFormed s ∧ ∀ y, ∃ k, rooted s k y = true := by
  induction h with
  | fresh => exact ⟨(fresh_inv).1, fun y => ⟨0, rfl⟩⟩
  | @attach s t fuel n parent keep _ hg hA ih =>
    by_cases hne : parent = some n
    · rw [hne] at hA
      simp only [Attach, if_true, Option.some.injEq] at hA
      subst hA
      exact ih
    · obtain ⟨hw, hn, hy⟩ := Attach_links hA ih.1 hne
      exact ⟨hw, relink_acyclic hy hn hg hne ih.2⟩

/-- C16 (amended): starting from detached nodes, no sequence of Attach calls in which the
new parent is never a proper descendant of the attached node creates a cycle: after any
such sequence, following parent pointers from any node reaches a node with no parent in
finitely many steps. -/
theorem C16_guarded_attach_acyclic (mx : Maths) (s : Scene) (h : AttachedFromFresh mx s)
    (y : Ptr) : ∃ k, rooted s k y = true :=
  (attachedFromFresh_inv h).2 y

/-- Witness for C16: node 1 attached to node 0, both fresh. -/
theorem C16_guarded_attach_acyclic_witness : ∃ k, rooted attachedScene k 1 = true :=
  C16_guarded_attach_acyclic sampleMaths attachedScene
    (AttachedFromFresh.attach 1 1 (some 0) false AttachedFromFresh.fresh
      (fun p hp hd => by
        obtain ⟨-, j, hj⟩ := hd
        have e : p = 0 := (Option.some.inj hp).symm
        subst e
        cases j with
        | zero => simp [onChain] at hj
        | succ j => simp [onChain, Scene.fresh, Node3D.new] at hj)
      rfl) 1

/-! ## C14: `GetTransform` completes and is idempotent -/

theorem twoCycle_update_none (mx : Maths) (fuel : Nat) :
    UpdateTransform mx fuel twoCycleScene 0 false = none
      ∧ UpdateTransform mx fuel twoCycleScene 1 false = none := by
  obtain ⟨h0, h1, d0, d1⟩ := twoCycle_parents
  induction fuel with
  | zero => exact ⟨UpdateTransform_zero mx _ _ _, UpdateTransform_zero mx _ _ _⟩
  | succ f ih =>
    constructor
    · rw [UpdateTransform_step]
      simp [updateParentWith, h0, d1, ih.2]
    · rw [UpdateTransform_step]
      simp [updateParentWith, h1, d0, ih.1]

/-- C14 (as stated, refuted): in the scene built from detached nodes by attaching node 1
to node 0 and node 0 to node 1, GetTransform on node 0 does not complete: the mutual
recursion between the two dirty nodes exhausts every amount of fuel. -/
theorem C14_cycle_read_counterexample :
    ∃ s n, (∀ mx, twoCycleScenario mx = some s)
      ∧ ∀ mx fuel, GetTransform mx fuel s n = none := by
  refine ⟨twoCycleScene, 0, twoCycle_eq, fun mx fuel => ?_⟩
  simp [GetTransform, GetTransformWith, twoCycle_parents.2.2.1,
    (twoCycle_update_none mx fuel).1]

/-- C14 (amended): for every node whose parent chain ends at a node without a parent
after k links, in every state of the dirty flags, GetTransform (with fuel above k)
completes and leaves the dirty flag of the node false, and a second immediate
GetTransform returns the identical matrix and the identical scene, with any fuel. -/
theorem C14_GetTransform_idempotent (mx : Maths) (s : Scene) (n : Ptr) (k f : Nat)
    (hr : rooted s k n = true) (hf : k < f) :
    ∃ m t, GetTransform mx f s n = some (m, t) ∧ (t n).mTransformDirty = false
      ∧ ∀ g, GetTransform mx g t n = some (m, t) := by
  obtain ⟨r, hg, -, hc⟩ := GetTransformWith_settled mx s n k f hr hf
  exact ⟨(r n).mTransform, r, hg, hc, fun g => GetTransformWith_clean _ hc⟩

/-- Witness for C14: the never read node 1 below the never read node 0. -/
theorem C14_GetTransform_idempotent_witness :
    ∃ m t, GetTransform sampleMaths 2 attachedScene 1 = some (m, t)
      ∧ (t 1).mTransformDirty = false
      ∧ ∀ g, GetTransform sampleMaths g t 1 = some (m, t) :=
  C14_GetTransform_idempotent sampleMaths attachedScene 1 1 2 (by decide!) (by decide)

/-! ## C15: `Node::Destroy` -/

/-- The method `Node::GetChild(int32_t index)`: `none` stands for `nullptr`. -/
def GetChild (s : Scene) (n : Ptr) (index : Int) : Option Ptr :=
  if 0 ≤ index ∧ index < toInt32 (s n).mChildren.length then (s n).mChildren[index.toNat]?
  else none

/-- The loop `for (i = int32_t(GetNumChildren()) - 1; i >= 0; --i)` of `Node::Destroy`,
entered with `i + 1` as counter: the child at index `i` is destroyed and deleted, then the
loop goes on with `i - 1`. The result pairs the scene with the children visited, in the
order of the visits. Calling `Destroy` on the `nullptr` that `GetChild` returns for a bad
index has no result. -/
def destroyChildren (destroy : Scene → Ptr → Option Scene) (n : Ptr) :
    Nat → Scene → Option (Scene × List Ptr)
  | 0, s => some (s, [])
  | i + 1, s =>
    match GetChild s n (i : Int) with
    | none => none
    | some c =>
      (destroy s c).bind fun s1 =>
        (destroyChildren destroy n i s1).map fun r => (r.1, c :: r.2)

/-- The block `if (mParent != nullptr) { Attach(nullptr); }` of `Node::Destroy`. -/
def detachSelf (s : Scene) (n : Ptr) : Scene :=
  if (s n).mParent ≠ none then NodeAttach s n none false else s

/-- The method `Node::Destroy` called on `n` (a plain `Node`: `Stop` is empty and
`IsPrimitiveNode` is false; the reference and editor bookkeeping at the end touches no
link). -/
def Destroy : Nat → Scene → Ptr → Option Scene
  | 0, _, _ => none
  | fuel + 1, s, n =>
    (destroyChildren (fun t c => Destroy fuel t c) n
        (toInt32 (GetNumChildren s n)).toNat s).map fun r => detachSelf r.1 n

/-- The node reached from `y` by following `j` parent pointers. -/
def ancestor (s : Scene) : Nat → Ptr → Option Ptr
  | 0, y => some y
  | j + 1, y =>
    match (s y).mParent with
    | some q => ancestor s j q
    | none => none

/-- Every chain of child links below `n` has at most `d` links. -/
def treeBelow (s : Scene) : Nat → Ptr → Bool
  | 0, n => (s n).mChildren.isEmpty
  | d + 1, n => (s n).mChildren.all fun c => treeBelow s d c

/-- Every node that has `n` among its ancestors is at most `d` parent links below `n`. -/
def HeightBelow (s : Scene) (d : Nat) (n : Ptr) : Prop :=
  ∀ y j, ancestor s j y = some n → j ≤ d

/-- From `s` to `t` parent pointers are kept or cleared and child lists do not grow. -/
def Shrinks (s t : Scene) : Prop :=
  ∀ y, ((t y).mParent = none ∨ (t y).mParent = (s y).mParent)
    ∧ (t y).mChildren.length ≤ (s y).mChildren.length

/-- Every child list is short enough for its length to be an `int32_t`. -/
def Small (s : Scene) : Prop := ∀ y, (s y).mChildren.length < 2 ^ 31

theorem ancestor_last (s : Scene) : ∀ (j : Nat) (y n : Ptr),
    ancestor s (j + 1) y = some n ↔ ∃ x, ancestor s j y = some x ∧ (s x).mParent = some n := by
  intro j
  induction j with
  | zero =>
    intro y n
    simp only [ancestor]
    cases hp : (s y).mParent with
    | none => simp [hp]
    | some q => simp [hp]
  | succ j ih =>
    intro y n
    rw [ancestor]
    cases hp : (s y).mParent with
    | none => simp [ancestor, hp]
    | some q =>
      simp only [ih q n]
      conv_rhs => simp only [ancestor, hp]

theorem ancestor_add (s : Scene) : ∀ (i : Nat) (y x z : Ptr) (k : Nat),
    ancestor s i y = some x → ancestor s k x = some z → ancestor s (i + k) y = some z := by
  intro i
  induction i with
  | zero =>
    intro y x z k h1 h2
    simp only [ancestor, Option.some.injEq] at h1
    subst h1
    simpa using h2
  | succ i ih =>
    intro y x z k h1 h2
    rw [show i + 1 + k = (i + k) + 1 by omega]
    rw [ancestor] at h1 ⊢
    cases hp : (s y).mParent with
    | none => simp [hp] at h1
    | some q =>
      simp only [hp] at h1 ⊢
      exact ih q x z k h1 h2

theorem treeBelow_height {s : Scene} (hw : WellFormed s) :
    ∀ (d : Nat) (n : Ptr), treeBelow s d n = true → HeightBelow s d n := by
  intro d
  induction d with
  | zero =>
    intro n h y j hj
    cases j with
    | zero => exact Nat.le_refl 0
    | succ j =>
      obtain ⟨x, -, hx⟩ := (ancestor_last s j y n).1 hj
      have hm := (hw.1 x n).1 hx
      simp only [treeBelow, List.isEmpty_iff] at h
      rw [h] at hm
      exact absurd hm (List.not_mem_nil x)
  | succ d ih =>
    intro n h y j hj
    cases j with
    | zero => exact Nat.zero_le _
    | succ j =>
      obtain ⟨x, hjx, hx⟩ := (ancestor_last s j y n).1 hj
      have hm := (hw.1 x n).1 hx
      simp only [treeBelow, List.all_eq_true] at h
      exact Nat.succ_le_succ (ih x (h x hm) y j hjx)

theorem shrinks_refl (s : Scene) : Shrinks s s := fun _ => ⟨Or.inr rfl, Nat.le_refl _⟩

theorem shrinks_trans {s t u : Scene} (h1 : Shrinks s t) (h2 : Shrinks t u) : Shrinks s u := by
  intro y
  refine ⟨?_, Nat.le_trans (h2 y).2 (h1 y).2⟩
  rcases (h2 y).1 with h | h
  · exact Or.inl h
  · rw [h]
    exact (h1 y).1

theorem shrinks_parent {s t : Scene} (h : Shrinks s t) {y q : Ptr}
    (hq : (t y).mParent = some q) : (s y).mParent = some q := by
  rcases (h y).1 with h1 | h1
  · rw [h1] at hq
    exact Option.noConfusion hq
  · rw [← h1]
    exact hq

theorem shrinks_ancestor {s t : Scene} (h : Shrinks s t) : ∀ (j : Nat) (y x : Ptr),
    ancestor t j y = some x → ancestor s j y = some x := by
  intro j
  induction j with
  | zero => intro y x hx; exact hx
  | succ j ih =>
    intro y x hx
    rw [ancestor] at hx ⊢
    cases hp : (t y).mParent with
    | none => simp [hp] at hx
    | some q =>
      simp only [hp] at hx
      simp only [shrinks_parent h hp]
      exact ih q x hx

theorem shrinks_small {s t : Scene} (h : Shrinks s t) (hs : Small s) : Small t :=
  fun y => Nat.lt_of_le_of_lt (h y).2 (hs y)

theorem shrinks_height {s t : Scene} (h : Shrinks s t) {d : Nat} {n : Ptr}
    (hh : HeightBelow s d n) : HeightBelow t d n :=
  fun y j hj => hh y j (shrinks_ancestor h j y n hj)

theorem heightBelow_child {s : Scene} {d : Nat} {n c : Ptr} (hh : HeightBelow s d n)
    (hc : (s c).mParent = some n) : ∃ e, d = e + 1 ∧ HeightBelow s e c := by
  have h1 : 1 ≤ d := hh c 1 (by simp [ancestor, hc])
  refine ⟨d - 1, by omega, fun y j hj => ?_⟩
  have := hh y (j + 1) ((ancestor_last s j y n).2 ⟨c, hj, hc⟩)
  omega

theorem heightBelow_acyclic {s : Scene} {d : Nat} {n p : Ptr} (hh : HeightBelow s d n)
    (hp : (s n).mParent = some p) : ∀ j, ancestor s j p ≠ some n := by
  intro j hj
  have h1 : ancestor s (j + 1) n = some n := by
    rw [ancestor, hp]
    exact hj
  have h2 : ∀ m, ancestor s (m * (j + 1)) n = some n := by
    intro m
    induction m with
    | zero => simp [ancestor]
    | succ m ih =>
      rw [Nat.succ_mul]
      exact ancestor_add s _ n n n _ ih h1
  have := hh n ((d + 1) * (j + 1)) (h2 (d + 1))
  nlinarith

/-- What `Destroy` on `c` leaves of the scene `s`: a well-formed scene in which `c` has
neither parent nor children, the former parent of `c` has lost `c` from its child list, and
every node that is neither below `c` nor the parent of `c` is untouched. -/
def DestroyPost (s : Scene) (c : Ptr) (t : Scene) : Prop :=
  WellFormed t ∧ Shrinks s t ∧ (t c).mParent = none ∧ (t c).mChildren = []
    ∧ (∀ p, (s c).mParent = some p →
        (t p).mChildren = (s p).mChildren.erase c ∧ (t p).mParent = (s p).mParent)
    ∧ ∀ y, (∀ j, ancestor s j y ≠ some c) → (∀ p, (s c).mParent = some p → y ≠ p) →
        t y = s y

/-- The function `destroy` behaves as `Destroy` should on every node of height `e`. -/
def DestroyOk (destroy : Scene → Ptr → Option Scene) (e : Nat) : Prop :=
  ∀ s c, WellFormed s → HeightBelow s e c → Small s →
    ∃ t, destroy s c = some t ∧ DestroyPost s c t

/-- State of the loop of `Destroy` on `n` when the children at indices `i` and above have
been destroyed. -/
def LoopInv (s : Scene) (n : Ptr) (i : Nat) (u : Scene) : Prop :=
  WellFormed u ∧ Shrinks s u ∧ (u n).mChildren = (s n).mChildren.take i
    ∧ (u n).mParent = (s n).mParent
    ∧ (∀ y, (∀ j, ancestor s j y ≠ some n) → u y = s y)
    ∧ ∀ c ∈ (s n).mChildren.drop i, (u c).mParent = none ∧ (u c).mChildren = []

theorem GetChild_last {u : Scene} {n : Ptr} {l : List Ptr} {i : Nat} (hi : i < l.length)
    (hch : (u n).mChildren = l.take (i + 1)) (hs : Small u) :
    GetChild u n (i : Int) = some (l.get ⟨i, hi⟩) := by
  have hlen : (u n).mChildren.length = i + 1 := by
    rw [hch, List.length_take]
    omega
  have hsm : (u n).mChildren.length < 2 ^ 31 := hs n
  unfold GetChild
  rw [toInt32_small hsm, hlen, if_pos ⟨by omega, by omega⟩, hch, Int.toNat_natCast,
    List.getElem?_take, if_pos (Nat.lt_succ_self i), List.getElem?_eq_getElem hi]
  rfl

theorem destroyChildren_spec {destroy : Scene → Ptr → Option Scene} {s : Scene} {n : Ptr}
    {d : Nat} (hws : WellFormed s) (hs : Small s) (hh : HeightBelow s d n)
    (hok : ∀ e, d = e + 1 → DestroyOk destroy e) :
    ∀ (i : Nat) (u : Scene), i ≤ (s n).mChildren.length → LoopInv s n i u →
      ∃ u2, destroyChildren destroy n i u = some (u2, ((s n).mChildren.take i).reverse)
        ∧ LoopInv s n 0 u2 := by
  intro i
  induction i with
  | zero =>
    intro u _ hinv
    exact ⟨u, by simp [destroyChildren], hinv⟩
  | succ i ih =>
    intro u hi hinv
    obtain ⟨hwu, hsu, hch, hpar, hframe, hdone⟩ := hinv
    have hil : i < (s n).mChildren.length := hi
    obtain ⟨c, hc⟩ : ∃ c, c = (s n).mChildren.get ⟨i, hil⟩ := ⟨_, rfl⟩
    have htake : (s n).mChildren.take (i + 1) = (s n).mChildren.take i ++ [c] := by
      rw [hc, ← List.take_concat_get _ i hil, List.concat_eq_append]
      rfl
    have hget : GetChild u n (i : Int) = some c := by
      rw [hc]
      exact GetChild_last hil hch (shrinks_small hsu hs)
    have hmem : c ∈ (u n).mChildren := by
      rw [hch, htake]
      simp
    have huc : (u c).mParent = some n := (hwu.1 c n).2 hmem
    have hsc : (s c).mParent = some n := shrinks_parent hsu huc
    obtain ⟨e, he, hhe⟩ := heightBelow_child hh hsc
    obtain ⟨u1, hd, hw1, hs1, hc1, hc2, hpp, hfr1⟩ :=
      hok e he u c hwu (shrinks_height hsu hhe) (shrinks_small hsu hs)
    have hnd : ((s n).mChildren.take i ++ [c]).Nodup := by
      rw [← htake, ← hch]
      exact hwu.2 n
    have hcn : c ∉ (s n).mChildren.take i := by
      intro hm
      exact (List.nodup_append.1 hnd).2.2 hm (List.mem_singleton_self c)
    have hdrop : (s n).mChildren.drop i = c :: (s n).mChildren.drop (i + 1) := by
      rw [hc]
      exact List.drop_eq_getElem_cons hil
    have hcd : c ∉ (s n).mChildren.drop (i + 1) := by
      have hn := hws.2 n
      rw [← List.take_append_drop i (s n).mChildren, hdrop] at hn
      exact (List.nodup_cons.1 (List.nodup_append.1 hn).2.1).1
    have hinv1 : LoopInv s n i u1 := by
      refine ⟨hw1, shrinks_trans hsu hs1, ?_, ?_, ?_, ?_⟩
      · rw [(hpp n huc).1, hch, htake, List.erase_append_right _ hcn]
        simp
      · rw [(hpp n huc).2, hpar]
      · intro y hy
        rw [hfr1 y ?_ ?_, hframe y hy]
        · intro j hj
          exact hy (j + 1)
            ((ancestor_last s j y n).2 ⟨c, shrinks_ancestor hsu j y c hj, hsc⟩)
        · intro p hp hyp
          rw [huc] at hp
          have := Option.some.inj hp
          subst this
          subst hyp
          exact hy 0 rfl
      · intro c2 hc2m
        rw [hdrop] at hc2m
        rcases List.mem_cons.1 hc2m with h | h
        · rw [h]
          exact ⟨hc1, hc2⟩
        · have hu2 := hdone c2 h
          have hne : c2 ≠ c := fun e => hcd (e ▸ h)
          have hnn : c2 ≠ n := by
            intro e
            have h0 := hu2.2
            rw [e, hch, htake] at h0
            simp at h0
          rw [hfr1 c2 ?_ ?_]
          · exact hu2
          · intro j hj
            cases j with
            | zero =>
              simp only [ancestor, Option.some.injEq] at hj
              exact hne hj
            | succ j => simp [ancestor, hu2.1] at hj
          · intro p hp hyp
            rw [huc] at hp
            exact hnn (hyp.trans (Option.some.inj hp).symm)
    obtain ⟨u2, hl, hfin⟩ := ih u1 (Nat.le_of_lt hil) hinv1
    refine ⟨u2, ?_, hfin⟩
    simp only [destroyChildren, hget, hd, Option.some_bind, hl, Option.map_some', htake,
      List.reverse_append, List.reverse_cons, List.reverse_nil, List.nil_append,
      List.singleton_append]

theorem RemoveChild_shrinks (s : Scene) (p n : Ptr) : Shrinks s (RemoveChild s p (some n)) := by
  by_cases h : n ∈ (s p).mChildren
  · rw [RemoveChild_eq s p n h]
    intro y
    simp only [modify_apply]
    constructor
    · split_ifs <;> simp
    · split_ifs <;> simp [List.length_erase] <;> split_ifs <;> omega
  · rw [RemoveChild_absent s p n h]
    exact shrinks_refl s

theorem Destroy_step (fuel : Nat) (s : Scene) (n : Ptr) (d : Nat) (hw : WellFormed s)
    (hh : HeightBelow s d n) (hs : Small s)
    (hok : ∀ e, d = e + 1 → DestroyOk (fun t c => Destroy fuel t c) e) :
    ∃ u, destroyChildren (fun t c => Destroy fuel t c) n (s n).mChildren.length s
          = some (u, (s n).mChildren.reverse)
      ∧ LoopInv s n 0 u
      ∧ Destroy (fuel + 1) s n = some (detachSelf u n)
      ∧ DestroyPost s n (detachSelf u n) := by
  have hinv : LoopInv s n (s n).mChildren.length s :=
    ⟨hw, shrinks_refl s, by rw [List.take_length], rfl, fun _ _ => rfl, by simp⟩
  obtain ⟨u, hl, hfin⟩ :=
    destroyChildren_spec hw hs hh hok (s n).mChildren.length s (Nat.le_refl _) hinv
  rw [List.take_length] at hl
  have hcnt : (toInt32 (GetNumChildren s n)).toNat = (s n).mChildren.length := by
    rw [GetNumChildren, toInt32_small (hs n), Int.toNat_natCast]
  refine ⟨u, hl, hfin, by simp [Destroy, hcnt, hl], ?_⟩
  obtain ⟨hwu, hsu, hch, hpar, hframe, -⟩ := hfin
  have hch0 : (u n).mChildren = [] := by simpa using hch
  cases hp : (s n).mParent with
  | none =>
    have hd : detachSelf u n = u := by simp [detachSelf, hpar, hp]
    rw [hd]
    exact ⟨hwu, hsu, hpar.trans hp, hch0,
      fun p h => Option.noConfusion (hp.symm.trans h), fun y hy _ => hframe y hy⟩
  | some p =>
    have hac := heightBelow_acyclic hh hp
    have hpn : p ≠ n := fun e => hac 0 (by rw [e]; rfl)
    have hup : u p = s p := hframe p hac
    have hun : (u n).mParent = some p := hpar.trans hp
    have hmem : n ∈ (u p).mChildren := by
      rw [hup]
      exact (hw.1 n p).1 hp
    have hd : detachSelf u n = RemoveChild u p (some n) := by
      simp [detachSelf, NodeAttach, hun]
    rw [hd]
    refine ⟨RemoveChild_wellFormed u p n hwu hun,
      shrinks_trans hsu (RemoveChild_shrinks u p n), RemoveChild_parent u p n hmem, ?_, ?_, ?_⟩
    · rw [RemoveChild_eq u p n hmem, modify_other _ _ (Ne.symm hpn), modify_same]
      exact hch0
    · intro q hq
      have := Option.some.inj (hp.symm.trans hq)
      subst this
      rw [RemoveChild_eq u p n hmem, modify_same, modify_other _ _ hpn, hup]
      exact ⟨rfl, rfl⟩
    · intro y hy hyp
      have hyn : y ≠ n := fun e => hy 0 (by rw [e]; rfl)
      rw [RemoveChild_eq u p n hmem, modify_other _ _ (hyp p hp), modify_other _ _ hyn]
      exact hframe y hy

theorem Destroy_ok : ∀ (fuel e : Nat), e ≤ fuel → DestroyOk (fun t c => Destroy (fuel + 1) t c) e := by
  intro fuel
  induction fuel with
  | zero =>
    intro e he s n hw hh hs
    obtain ⟨u, -, -, h3, h4⟩ := Destroy_step 0 s n e hw hh hs (fun e2 h => by omega)
    exact ⟨_, h3, h4⟩
  | succ fuel ih =>
    intro e he s n hw hh hs
    obtain ⟨u, -, -, h3, h4⟩ :=
      Destroy_step (fuel + 1) s n e hw hh hs (fun e2 h => ih e2 (by omega))
    exact ⟨_, h3, h4⟩

/-- A scene holding the tree 0 - 1 - (2, 3): node 1 is the only child of node 0 and has
the children 2 and 3. -/
def familyScene : Scene := fun m =>
  if m = 0 then { Node3D.new with mChildren := [1] }
  else if m = 1 then { Node3D.new with mParent := some 0, mChildren := [2, 3] }
  else if m = 2 then { Node3D.new with mParent := some 1 }
  else if m = 3 then { Node3D.new with mParent := some 1 }
  else Node3D.new

theorem familyScene_wellFormed : WellFormed familyScene := by
  constructor
  · intro c p
    unfold familyScene
    split_ifs <;> simp_all [Node3D.new]
    all_goals exact fun e => absurd e.symm (by assumption)
  · intro p
    unfold familyScene
    split_ifs <;> simp [Node3D.new]

theorem familyScene_small : Small familyScene := by
  intro y
  unfold familyScene
  split_ifs <;> simp [Node3D.new]

/-- C15: for every node n of a well-formed tree (parent links and child lists agree, the
chains of child links below n have at most d links, child counts fit an int32), Destroy
on n with fuel above d returns; its loop visits the children from the last index to the
first and leaves each of them without parent and children while n is still attached to its
parent; only then is n detached: afterwards n has no children and no parent, and the
child list of its former parent is the old list without n, in the old order. -/
theorem C15_Destroy_children_first (s : Scene) (n : Ptr) (d fuel : Nat) (hw : WellFormed s)
    (ht : treeBelow s d n = true) (hs : Small s) (hf : d ≤ fuel) :
    ∃ u t,
      destroyChildren (fun a c => Destroy fuel a c) n (s n).mChildren.length s
          = some (u, (s n).mChildren.reverse)
        ∧ (u n).mChildren = [] ∧ (u n).mParent = (s n).mParent
        ∧ (∀ p, (s n).mParent = some p → (u p).mChildren = (s p).mChildren)
        ∧ (∀ c ∈ (s n).mChildren, (u c).mParent = none ∧ (u c).mChildren = [])
        ∧ Destroy (fuel + 1) s n = some t ∧ t = detachSelf u n
        ∧ (t n).mChildren = [] ∧ (t n).mParent = none
        ∧ (∀ c ∈ (s n).mChildren, (t c).mParent = none ∧ (t c).mChildren = [])
        ∧ ∀ p, (s n).mParent = some p →
            n ∉ (t p).mChildren
              ∧ (t p).mChildren = (s p).mChildren.filter (fun c => c != n) := by
  have hh := treeBelow_height hw d n ht
  have hok : ∀ e, d = e + 1 → DestroyOk (fun t c => Destroy fuel t c) e := by
    intro e he
    obtain ⟨g, rfl⟩ : ∃ g, fuel = g + 1 := ⟨fuel - 1, by omega⟩
    exact Destroy_ok g e (by omega)
  obtain ⟨u, hl, ⟨hwu, hsu, hch, hpar, hframe, hdone⟩, hD, hpost⟩ :=
    Destroy_step fuel s n d hw hh hs hok
  obtain ⟨hwt, hst, htp, htc, hpp, hfr⟩ := hpost
  have hch0 : (u n).mChildren = [] := by simpa using hch
  have hdone0 : ∀ c ∈ (s n).mChildren, (u c).mParent = none ∧ (u c).mChildren = [] := by
    simpa using hdone
  refine ⟨u, detachSelf u n, hl, hch0, hpar, ?_, hdone0, hD, rfl, htc, htp, ?_, ?_⟩
  · intro p hp
    rw [hframe p (heightBelow_acyclic hh hp)]
  · intro c hc
    have hcp : (s c).mParent = some n := (hw.1 c n).2 hc
    cases hp : (s n).mParent with
    | none =>
      have hd : detachSelf u n = u := by simp [detachSelf, hpar, hp]
      rw [hd]
      exact hdone0 c hc
    | some p =>
      have hac := heightBelow_acyclic hh hp
      have hpn : p ≠ n := fun e => hac 0 (by rw [e]; rfl)
      have hcn : c ≠ n := by
        intro e
        rw [e, hp] at hcp
        exact hpn (Option.some.inj hcp)
      have hcq : c ≠ p := by
        intro e
        rw [e] at hcp
        exact hac 1 (by simp [ancestor, hcp])
      have hun : (u n).mParent = some p := hpar.trans hp
      have hmem : n ∈ (u p).mChildren := by
        rw [hframe p hac]
        exact (hw.1 n p).1 hp
      have hd : detachSelf u n = RemoveChild u p (some n) := by
        simp [detachSelf, NodeAttach, hun]
      rw [hd, RemoveChild_eq u p n hmem, modify_other _ _ hcq, modify_other _ _ hcn]
      exact hdone0 c hc
  · intro p hp
    have he := (hpp p hp).1
    rw [List.Nodup.erase_eq_filter (hw.2 p)] at he
    refine ⟨?_, he⟩
    rw [he]
    simp

/-- Witness for C15: node 1 of the tree 0 - 1 - (2, 3) is destroyed. -/
theorem C15_Destroy_children_first_witness :
    ∃ u t, destroyChildren (fun a c => Destroy 1 a c) 1 2 familyScene = some (u, [3, 2])
      ∧ Destroy 2 familyScene 1 = some t ∧ (t 1).mChildren = [] ∧ (t 1).mParent = none
      ∧ (t 0).mChildren = [] := by
  obtain ⟨u, t, h1, -, -, -, -, h6, -, h8, h9, -, h11⟩ :=
    C15_Destroy_children_first familyScene 1 1 1 familyScene_wellFormed (by decide)
      familyScene_small (by decide)
  exact ⟨u, t, h1, h6, h8, h9, (h11 0 rfl).2⟩

/-! ## `ParticleComponent` (ParticleComponent.cpp) -/

/-- Vectors `glm::vec2`. -/
structure Vec2 where
  x : ℚ
  y : ℚ
deriving DecidableEq

/-- Vectors `glm::vec4`, used for colours. -/
structure Vec4 where
  r : ℚ
  g : ℚ
  b : ℚ
  a : ℚ
deriving DecidableEq

/-- The record `Particle`. -/
structure Particle where
  mPosition : Vec3
  mVelocity : Vec3
  mSize : Vec2
  mElapsedTime : ℚ
  mLifetime : ℚ
  mRotation : ℚ
  mRotationSpeed : ℚ
deriving DecidableEq

/-- The record `VertexParticle`; `mColor` is the packed `uint32_t`. -/
structure VertexParticle where
  mPosition : Vec3
  mTexcoord : Vec2
  mColor : Nat
deriving DecidableEq

/-- The enumeration `ParticleOrientation`; `Count` stands for the enumerator `Count` and
for any other value the stored byte can take. -/
inductive ParticleOrientation where
  | X | Y | Z | NX | NY | NZ | Billboard | Count
deriving DecidableEq

/-- The record `ParticleParams` of a particle system. -/
structure ParticleParams where
  mLifetimeMin : ℚ
  mLifetimeMax : ℚ
  mPositionMin : Vec3
  mPositionMax : Vec3
  mVelocityMin : Vec3
  mVelocityMax : Vec3
  mSizeMin : Vec2
  mSizeMax : Vec2
  mRotationMin : ℚ
  mRotationMax : ℚ
  mRotationSpeedMin : ℚ
  mRotationSpeedMax : ℚ
  mAcceleration : Vec3
  mAlphaEase : ℚ
  mScaleEase : ℚ
  mScaleStart : Vec2
  mScaleEnd : Vec2
  mColorStart : Vec4
  mColorEnd : Vec4

/-- What `ParticleComponent` reads from a `ParticleSystem` asset through its getters.
The integer getters `GetBurstCount`, `GetLoops` and `GetMaxParticles` are declared outside
the sources; their values are kept as integers and the `int32_t` conversions of the
callers are applied explicitly. -/
structure ParticleSystem where
  params : ParticleParams
  burstCount : Int
  burstWindow : ℚ
  duration : ℚ
  loops : Int
  spawnRate : ℚ
  maxParticles : Int
  radialSpawn : Bool
  radialVelocity : Bool
  ratioLocked : Bool

/-- The fields of a `ParticleComponent` that the simulation and the vertex builder use.
`mActive` and `mTransform` are inherited from `Node` and `Node3D`; `mParticleSystem` is
`none` when the asset reference is null; `randCalls` counts the calls made so far to
`Maths::RandRange`, whose generator is global. -/
structure ParticleComponent where
  mParticles : List Particle
  mVertices : List VertexParticle
  mParticleSystem : Option ParticleSystem
  mElapsedTime : ℚ
  mEmissionCounter : ℚ
  mLoop : Int
  mTimeMultiplier : ℚ
  mEmit : Bool
  mAutoEmit : Bool
  mActive : Bool
  mEnableSimulation : Bool
  mUseLocalSpace : Bool
  mAlwaysSimulate : Bool
  mHasSimulatedThisFrame : Bool
  mHasUpdatedVerticesThisFrame : Bool
  mOrientation : ParticleOrientation
  mTransform : Mat4
  randCalls : Nat

/-- What the spawn step takes from outside the sources: the outcomes of
`Maths::RandRange` (indexed by the number of the call), the point computed by the
radial-spawn branch from its three draws (through `Maths::Map`, `powf` and `glm::rotate`),
the constant `PI`, `glm::normalize`, and the elapsed time of a default-constructed
`Particle`. -/
structure ParticleEnv where
  randFloat : ℚ → ℚ → Nat → ℚ
  randVec2 : Vec2 → Vec2 → Nat → Vec2
  randVec3 : Vec3 → Vec3 → Nat → Vec3
  radialPoint : ParticleParams → ℚ → ℚ → ℚ → Vec3
  pi : ℚ
  normalize : Vec3 → Vec3
  initialElapsedTime : ℚ

/-- The conversion `int32_t(x)` of a float: truncation toward zero. Outside the range of
`int32_t` the conversion is undefined in C++; the model takes `-2^31` there. -/
def truncToInt32 (x : ℚ) : Int :=
  let t : Int := if 0 ≤ x then ⌊x⌋ else ⌈x⌉
  if -2 ^ 31 ≤ t ∧ t < 2 ^ 31 then t else -2 ^ 31

/-- The value of an integer brought into the range of `int32_t` (two's complement). -/
def wrapInt32 (z : Int) : Int := (z + 2 ^ 31) % 2 ^ 32 - 2 ^ 31

/-- The method `ParticleComponent::Tick`; the call of the base class
`PrimitiveComponent::Tick` is outside the sources and touches none of these fields. -/
def Tick (c : ParticleComponent) (_deltaTime : ℚ) : ParticleComponent :=
  { c with mHasSimulatedThisFrame := false, mHasUpdatedVerticesThisFrame := false }

/-- The method `ParticleComponent::EnableEmission`. -/
def EnableEmission (c : ParticleComponent) (enable : Bool) : ParticleComponent :=
  if !enable then { c with mEmit := enable, mElapsedTime := 0, mLoop := 0 }
  else { c with mEmit := enable }

/-- The backwards loop of `KillExpiredParticles`, entered with `i + 1` as counter: the
particle at index `i` is erased when its elapsed time has reached its lifetime. -/
def killLoop : Nat → List Particle → List Particle
  | 0, ps => ps
  | i + 1, ps =>
    match ps[i]? with
    | some p => killLoop i (if p.mElapsedTime ≥ p.mLifetime then ps.eraseIdx i else ps)
    | none => killLoop i ps

/-- The method `ParticleComponent::KillExpiredParticles`. -/
def KillExpiredParticles (c : ParticleComponent) (_deltaTime : ℚ) : ParticleComponent :=
  { c with mParticles := killLoop (toInt32 c.mParticles.length).toNat c.mParticles }

/-- Body of the loop of `UpdateParticles` for one particle. -/
def stepParticle (acceleration : Vec3) (deltaTime : ℚ) (p : Particle) : Particle :=
  let elapsed := p.mElapsedTime + deltaTime
  let velocity : Vec3 :=
    ⟨p.mVelocity.x + acceleration.x * deltaTime, p.mVelocity.y + acceleration.y * deltaTime,
      p.mVelocity.z + acceleration.z * deltaTime⟩
  let position : Vec3 :=
    ⟨p.mPosition.x + velocity.x * deltaTime, p.mPosition.y + velocity.y * deltaTime,
      p.mPosition.z + velocity.z * deltaTime⟩
  { p with
    mElapsedTime := elapsed
    mVelocity := velocity
    mPosition := position
    mRotation := p.mRotation + p.mRotationSpeed * deltaTime }

/-- The method `ParticleComponent::UpdateParticles`. -/
def UpdateParticles (c : ParticleComponent) (deltaTime : ℚ) : ParticleComponent :=
  match c.mParticleSystem with
  | some system =>
    { c with mParticles := c.mParticles.map (stepParticle system.params.mAcceleration deltaTime) }
  | none => c

/-- The burst share of a tick, computed at the top of `SpawnNewParticles`. -/
def burstShare (system : ParticleSystem) (elapsedTime deltaTime : ℚ) : Int :=
  if system.burstCount > 0 ∧ elapsedTime < system.burstWindow then
    if system.burstWindow > 0 then
      min (truncToInt32 ((system.burstCount : ℚ) * (deltaTime / system.burstWindow)))
        (wrapInt32 system.burstCount)
    else wrapInt32 system.burstCount
  else 0

/-- The duration and loop block of `SpawnNewParticles`. -/
def advanceTimers (system : ParticleSystem) (c : ParticleComponent) (deltaTime : ℚ) :
    ParticleComponent :=
  let c1 := { c with mElapsedTime := c.mElapsedTime + deltaTime }
  if system.duration > 0 ∧ c1.mElapsedTime ≥ system.duration then
    let c2 := { c1 with mLoop := c1.mLoop + 1, mElapsedTime := 0 }
    if system.loops > 0 ∧ c2.mLoop ≥ system.loops then EnableEmission c2 false else c2
  else c1

/-- The value of `spawnCount` in `SpawnNewParticles` before the cap: the integer part of
the emission counter `counter` plus the burst share. -/
def spawnRequest (counter : ℚ) (burstCount : Int) : Int :=
  wrapInt32 (truncToInt32 counter + burstCount)

/-- The value of `spawnCount` in `SpawnNewParticles` after the cap. -/
def cappedCount (system : ParticleSystem) (numParticles : Nat) (spawnCount : Int) : Int :=
  if wrapInt32 system.maxParticles > 0 then
    min (wrapInt32 (wrapInt32 system.maxParticles - toInt32 numParticles)) spawnCount
  else spawnCount

/-- The sampled local position of a new particle: the radial-spawn branch or the box. -/
def samplePosition (env : ParticleEnv) (system : ParticleSystem) (r : Nat) : Vec3 :=
  if system.radialSpawn then
    env.radialPoint system.params
      (env.randFloat system.params.mPositionMin.x system.params.mPositionMax.x (r + 1))
      (env.randFloat 0 (env.pi * 2) (r + 2))
      (env.randFloat (-env.pi / 2) (env.pi / 2) (r + 3))
  else env.randVec3 system.params.mPositionMin system.params.mPositionMax (r + 1)

/-- The number of `Maths::RandRange` calls made up to and including the position. -/
def positionDraws (system : ParticleSystem) : Nat := if system.radialSpawn then 4 else 2

/-- The number of `Maths::RandRange` calls made for one particle. -/
def particleDraws (system : ParticleSystem) : Nat :=
  positionDraws system + 4 + (if system.ratioLocked then 1 else 0)

/-- Body of the spawn loop of `SpawnNewParticles`: the particle pushed when `r` calls of
`Maths::RandRange` have been made before. -/
def newParticle (env : ParticleEnv) (system : ParticleSystem) (c : ParticleComponent)
    (r : Nat) : Particle :=
  let params := system.params
  let lifetime := env.randFloat params.mLifetimeMin params.mLifetimeMax r
  let position := samplePosition env system r
  let r1 := r + positionDraws system
  let velocity := env.randVec3 params.mVelocityMin params.mVelocityMax r1
  let size := env.randVec2 params.mSizeMin params.mSizeMax (r1 + 1)
  let rotation := env.randFloat params.mRotationMin params.mRotationMax (r1 + 2)
  let rotationSpeed := env.randFloat params.mRotationSpeedMin params.mRotationSpeedMax (r1 + 3)
  let size2 : Vec2 :=
    if system.ratioLocked then
      let ratioYX := if params.mSizeMax.x ≠ 0 then params.mSizeMax.y / params.mSizeMax.x else 1
      let sx := env.randFloat params.mSizeMin.x params.mSizeMax.x (r1 + 4)
      ⟨sx, ratioYX * sx⟩
    else size
  let velocity2 : Vec3 :=
    if system.radialVelocity then
      let speed := velocity.x
      let direction := env.normalize position
      ⟨direction.x * speed, direction.y * speed, direction.z * speed⟩
    else velocity
  let position3 : Vec3 :=
    if !c.mUseLocalSpace then xyz (Matrix.mulVec c.mTransform (point4 position)) else position
  let velocity3 : Vec3 :=
    if !c.mUseLocalSpace then
      xyz (Matrix.mulVec c.mTransform ![velocity2.x, velocity2.y, velocity2.z, 0])
    else velocity2
  { mPosition := position3
    mVelocity := velocity3
    mSize := size2
    mElapsedTime := env.initialElapsedTime
    mLifetime := lifetime
    mRotation := rotation
    mRotationSpeed := rotationSpeed }

/-- The loop `for (i = 0; i < spawnCount; ++i)` of `SpawnNewParticles`, with `k` rounds
left. -/
def spawnLoop (env : ParticleEnv) (system : ParticleSystem) :
    Nat → ParticleComponent → ParticleComponent
  | 0, c => c
  | k + 1, c =>
    spawnLoop env system k
      { c with
        mParticles := c.mParticles ++ [newParticle env system c c.randCalls]
        randCalls := c.randCalls + particleDraws system }

/-- The method `ParticleComponent::SpawnNewParticles`, in exact arithmetic: the `float`
operations are not rounded. The version with the rounding of the operations on
`mEmissionCounter` is `SpawnNewParticlesF32`. -/
def SpawnNewParticles (env : ParticleEnv) (c : ParticleComponent) (deltaTime : ℚ) :
    ParticleComponent :=
  match c.mParticleSystem with
  | some system =>
    if c.mEmit then
      let burstCount := burstShare system c.mElapsedTime deltaTime
      let c1 := advanceTimers system c deltaTime
      let counter := c1.mEmissionCounter + deltaTime * system.spawnRate
      let c2 := { c1 with mEmissionCounter := counter - (truncToInt32 counter : ℚ) }
      let spawnCount :=
        cappedCount system c2.mParticles.length (spawnRequest counter burstCount)
      spawnLoop env system spawnCount.toNat c2
    else c
  | none => c

/-- The block guarded by `mActive && mEnableSimulation` in `Simulate`. -/
def simulateBody (env : ParticleEnv) (c : ParticleComponent) (modDeltaTime : ℚ) :
    ParticleComponent :=
  if c.mActive && c.mEnableSimulation then
    SpawnNewParticles env (UpdateParticles (KillExpiredParticles c modDeltaTime) modDeltaTime)
      modDeltaTime
  else c

/-- The method `ParticleComponent::Simulate`. -/
def Simulate (env : ParticleEnv) (c : ParticleComponent) (deltaTime : ℚ) : ParticleComponent :=
  if c.mHasSimulatedThisFrame then c
  else
    { simulateBody env c (deltaTime * c.mTimeMultiplier) with mHasSimulatedThisFrame := true }

/-- A sample environment: every draw returns the lower bound of its range, the radial
point is the origin, vectors are left as they are by `normalize`. -/
def sampleEnv : ParticleEnv where
  randFloat := fun lo _ _ => lo
  randVec2 := fun lo _ _ => lo
  randVec3 := fun lo _ _ => lo
  radialPoint := fun _ _ _ _ => ⟨0, 0, 0⟩
  pi := 355 / 113
  normalize := fun v => v
  initialElapsedTime := 0

/-- Sample parameters: lifetime 1, everything else 0. -/
def sampleParams : ParticleParams where
  mLifetimeMin := 1
  mLifetimeMax := 1
  mPositionMin := ⟨0, 0, 0⟩
  mPositionMax := ⟨0, 0, 0⟩
  mVelocityMin := ⟨0, 0, 0⟩
  mVelocityMax := ⟨0, 0, 0⟩
  mSizeMin := ⟨1, 1⟩
  mSizeMax := ⟨1, 1⟩
  mRotationMin := 0
  mRotationMax := 0
  mRotationSpeedMin := 0
  mRotationSpeedMax := 0
  mAcceleration := ⟨0, 0, 0⟩
  mAlphaEase := 0
  mScaleEase := 0
  mScaleStart := ⟨1, 1⟩
  mScaleEnd := ⟨1, 1⟩
  mColorStart := ⟨1, 1, 1, 1⟩
  mColorEnd := ⟨1, 1, 1, 1⟩

/-- A sample system: spawn rate 10 per second, no burst, no cap, no duration limit. -/
def sampleSystem : ParticleSystem where
  params := sampleParams
  burstCount := 0
  burstWindow := 0
  duration := 0
  loops := 0
  spawnRate := 10
  maxParticles := 0
  radialSpawn := false
  radialVelocity := false
  ratioLocked := false

/-- A component that emits from `system`, with an empty pool and all counters at zero. -/
def freshEmitter (system : ParticleSystem) : ParticleComponent where
  mParticles := []
  mVertices := []
  mParticleSystem := some system
  mElapsedTime := 0
  mEmissionCounter := 0
  mLoop := 0
  mTimeMultiplier := 1
  mEmit := true
  mAutoEmit := true
  mActive := true
  mEnableSimulation := true
  mUseLocalSpace := false
  mAlwaysSimulate := false
  mHasSimulatedThisFrame := false
  mHasUpdatedVerticesThisFrame := false
  mOrientation := ParticleOrientation.Billboard
  mTransform := 1
  randCalls := 0

/-! ## C19: the simulate-this-frame guard -/

/-- C19: for every component state and all deltas dt1, dt2, Simulate(dt1) followed by
Simulate(dt2) without an intervening Tick gives the state Simulate(dt1) gives; after a
Tick the guard is false and the next Simulate runs the simulation block again and sets
the guard. -/
theorem C19_simulate_once_per_frame (env : ParticleEnv) (c : ParticleComponent)
    (dt1 dt2 dt : ℚ) :
    Simulate env (Simulate env c dt1) dt2 = Simulate env c dt1
      ∧ (Tick (Simulate env c dt1) dt).mHasSimulatedThisFrame = false
      ∧ Simulate env (Tick (Simulate env c dt1) dt) dt2
          = { simulateBody env (Tick (Simulate env c dt1) dt)
                (dt2 * (Tick (Simulate env c dt1) dt).mTimeMultiplier) with
              mHasSimulatedThisFrame := true } := by
  have h : (Simulate env c dt1).mHasSimulatedThisFrame = true := by
    unfold Simulate
    split <;> simp_all
  refine ⟨by rw [Simulate, if_pos h], rfl, ?_⟩
  rw [Simulate, if_neg]
  simp [Tick]

/-! ## C18: when a particle is removed -/

/-- The test a particle passes to stay in the pool: its elapsed time is below its
lifetime. -/
def alive (p : Particle) : Bool := decide (p.mElapsedTime < p.mLifetime)

/-- A component holding one particle of lifetime 1 and age 0, with emission off. -/
def agingComponent : ParticleComponent :=
  { freshEmitter sampleSystem with
    mEmit := false
    mParticles :=
      [{ mPosition := ⟨0, 0, 0⟩, mVelocity := ⟨0, 0, 0⟩, mSize := ⟨1, 1⟩, mElapsedTime := 0,
         mLifetime := 1, mRotation := 0, mRotationSpeed := 0 }] }

theorem killLoop_eq : ∀ (i : Nat) (ps : List Particle), i ≤ ps.length →
    killLoop i ps = (ps.take i).filter alive ++ ps.drop i := by
  intro i
  induction i with
  | zero => intro ps _; simp [killLoop]
  | succ i ih =>
    intro ps hi
    have hil : i < ps.length := hi
    have hdrop : ps.drop i = ps[i] :: ps.drop (i + 1) := List.drop_eq_getElem_cons hil
    have htake : ps.take (i + 1) = ps.take i ++ [ps[i]] := by
      rw [← List.take_concat_get _ i hil, List.concat_eq_append]
    rw [killLoop, List.getElem?_eq_getElem hil]
    simp only
    by_cases hdead : ps[i].mElapsedTime ≥ ps[i].mLifetime
    · rw [if_pos hdead, ih _ (by rw [List.length_eraseIdx, if_pos hil]; omega),
        List.eraseIdx_eq_take_drop_succ, htake, List.filter_append]
      have hlen : (ps.take i).length = i := by rw [List.length_take]; omega
      have h1 : List.take i (List.take i ps ++ List.drop (i + 1) ps) = List.take i ps :=
        List.take_left' hlen
      have h2 : List.drop i (List.take i ps ++ List.drop (i + 1) ps) = List.drop (i + 1) ps :=
        List.drop_left' hlen
      rw [h1, h2]
      simp [alive, not_lt.2 hdead]
    · rw [if_neg hdead, ih ps (Nat.le_of_lt hil), htake, List.filter_append, hdrop]
      simp [alive, not_le.1 hdead]

theorem KillExpiredParticles_eq (c : ParticleComponent) (dt : ℚ)
    (hl : c.mParticles.length < 2 ^ 31) :
    KillExpiredParticles c dt = { c with mParticles := c.mParticles.filter alive } := by
  unfold KillExpiredParticles
  rw [toInt32_small hl, Int.toNat_natCast, killLoop_eq _ _ (Nat.le_refl _)]
  simp

theorem spawnLoop_spec (env : ParticleEnv) (system : ParticleSystem) :
    ∀ (k : Nat) (c : ParticleComponent),
      ∃ new, new.length = k
        ∧ spawnLoop env system k c
          = { c with
              mParticles := c.mParticles ++ new
              randCalls := c.randCalls + k * particleDraws system } := by
  intro k
  induction k with
  | zero => intro c; exact ⟨[], rfl, by simp [spawnLoop]⟩
  | succ k ih =>
    intro c
    obtain ⟨new, hn, he⟩ := ih
      { c with
        mParticles := c.mParticles ++ [newParticle env system c c.randCalls]
        randCalls := c.randCalls + particleDraws system }
    refine ⟨newParticle env system c c.randCalls :: new, by simp [hn], ?_⟩
    rw [spawnLoop, he]
    simp [Nat.succ_mul, Nat.add_assoc, Nat.add_comm]

theorem advanceTimers_keeps (system : ParticleSystem) (c : ParticleComponent) (dt : ℚ) :
    (advanceTimers system c dt).mParticles = c.mParticles
      ∧ (advanceTimers system c dt).mEmissionCounter = c.mEmissionCounter
      ∧ (advanceTimers system c dt).mParticleSystem = c.mParticleSystem
      ∧ (advanceTimers system c dt).mActive = c.mActive
      ∧ (advanceTimers system c dt).mEnableSimulation = c.mEnableSimulation
      ∧ (advanceTimers system c dt).mTimeMultiplier = c.mTimeMultiplier
      ∧ (advanceTimers system c dt).randCalls = c.randCalls := by
  unfold advanceTimers EnableEmission
  simp only
  split_ifs <;> simp

theorem SpawnNewParticles_emit (env : ParticleEnv) (c : ParticleComponent) (dt : ℚ)
    (system : ParticleSystem) (hs : c.mParticleSystem = some system) (he : c.mEmit = true) :
    ∃ new,
      new.length
          = (cappedCount system c.mParticles.length
              (spawnRequest (c.mEmissionCounter + dt * system.spawnRate)
                (burstShare system c.mElapsedTime dt))).toNat
        ∧ SpawnNewParticles env c dt
          = { advanceTimers system c dt with
              mEmissionCounter := c.mEmissionCounter + dt * system.spawnRate
                - (truncToInt32 (c.mEmissionCounter + dt * system.spawnRate) : ℚ)
              mParticles := c.mParticles ++ new
              randCalls := c.randCalls + new.length * particleDraws system } := by
  obtain ⟨k1, k2, -, -, -, -, k7⟩ := advanceTimers_keeps system c dt
  have h0 : SpawnNewParticles env c dt
      = spawnLoop env system
          (cappedCount system (advanceTimers system c dt).mParticles.length
            (spawnRequest ((advanceTimers system c dt).mEmissionCounter + dt * system.spawnRate)
              (burstShare system c.mElapsedTime dt))).toNat
          { advanceTimers system c dt with
            mEmissionCounter :=
              (advanceTimers system c dt).mEmissionCounter + dt * system.spawnRate
                - (truncToInt32
                    ((advanceTimers system c dt).mEmissionCounter + dt * system.spawnRate) : ℚ) } := by
    unfold SpawnNewParticles
    rw [hs]
    simp only [he, if_true]
  obtain ⟨new, hn, hl⟩ := spawnLoop_spec env system
    (cappedCount system (advanceTimers system c dt).mParticles.length
      (spawnRequest ((advanceTimers system c dt).mEmissionCounter + dt * system.spawnRate)
        (burstShare system c.mElapsedTime dt))).toNat
    { advanceTimers system c dt with
      mEmissionCounter :=
        (advanceTimers system c dt).mEmissionCounter + dt * system.spawnRate
          - (truncToInt32
              ((advanceTimers system c dt).mEmissionCounter + dt * system.spawnRate) : ℚ) }
  rw [k1, k2] at hn
  refine ⟨new, hn, ?_⟩
  rw [h0, hl]
  simp only [k1, k2, k7, hn]

theorem SpawnNewParticles_pool (env : ParticleEnv) (c : ParticleComponent) (dt : ℚ) :
    ∃ new, (SpawnNewParticles env c dt).mParticles = c.mParticles ++ new
      ∧ (c.mEmit = false → new = []) := by
  cases hs : c.mParticleSystem with
  | none => exact ⟨[], by simp [SpawnNewParticles, hs], fun _ => rfl⟩
  | some system =>
    by_cases he : c.mEmit = true
    · obtain ⟨new, -, h⟩ := SpawnNewParticles_emit env c dt system hs he
      exact ⟨new, by rw [h], fun h2 => by rw [he] at h2; exact Bool.noConfusion h2⟩
    · exact ⟨[], by simp [SpawnNewParticles, hs, he], fun _ => rfl⟩

theorem simulate_pool (env : ParticleEnv) (c : ParticleComponent) (dt : ℚ)
    (system : ParticleSystem) (hg : c.mHasSimulatedThisFrame = false) (ha : c.mActive = true)
    (hen : c.mEnableSimulation = true) (hs : c.mParticleSystem = some system)
    (hl : c.mParticles.length < 2 ^ 31) :
    ∃ new,
      (Simulate env c dt).mParticles
          = (c.mParticles.filter alive).map
              (stepParticle system.params.mAcceleration (dt * c.mTimeMultiplier)) ++ new
        ∧ (c.mEmit = false → new = []) := by
  have hk := KillExpiredParticles_eq c (dt * c.mTimeMultiplier) hl
  obtain ⟨new, h1, h2⟩ := SpawnNewParticles_pool env
    (UpdateParticles (KillExpiredParticles c (dt * c.mTimeMultiplier)) (dt * c.mTimeMultiplier))
    (dt * c.mTimeMultiplier)
  refine ⟨new, ?_, fun he => h2 ?_⟩
  · simp only [Simulate, hg, Bool.false_eq_true, if_false, simulateBody, ha, hen, Bool.and_self,
      if_true, h1]
    rw [hk]
    simp [UpdateParticles, hs]
  · rw [hk]
    simp [UpdateParticles, hs, he]

/-- C18 (as stated, refuted): a particle of lifetime 1 and age 0 is ticked with dt = 1;
after the aging of that tick its elapsed time equals its lifetime, and it is still in the
pool when the tick ends; it is the next tick that removes it. -/
theorem C18_aged_particle_counterexample :
    (Simulate sampleEnv agingComponent 1).mParticles.map
        (fun p => (p.mElapsedTime, p.mLifetime)) = [(1, 1)]
      ∧ (Simulate sampleEnv (Tick (Simulate sampleEnv agingComponent 1) 1) 1).mParticles = [] := by
  decide!

/-- C18 (amended): in every tick that executes (guard clear, component active, simulation
enabled, particle system present, pool size below 2^31), the pool at the end of the tick
is the list of the particles whose elapsed time at the start of the tick, before this
tick's aging, was below their lifetime, in their old order and each aged by the step,
followed by the particles spawned in the tick (none when emission is off). A particle is
thus removed by the first tick that starts with its elapsed time at or above its lifetime
(equality included). -/
theorem C18_removed_at_next_tick (env : ParticleEnv) (c : ParticleComponent) (dt : ℚ)
    (system : ParticleSystem) (hg : c.mHasSimulatedThisFrame = false) (ha : c.mActive = true)
    (hen : c.mEnableSimulation = true) (hs : c.mParticleSystem = some system)
    (hl : c.mParticles.length < 2 ^ 31) :
    ∃ new,
      (Simulate env c dt).mParticles
          = (c.mParticles.filter (fun p => decide (p.mElapsedTime < p.mLifetime))).map
              (stepParticle system.params.mAcceleration (dt * c.mTimeMultiplier)) ++ new
        ∧ (c.mEmit = false → new = []) :=
  simulate_pool env c dt system hg ha hen hs hl

/-- Witness for C18: the tick of the counterexample keeps the particle, aged to 1. -/
theorem C18_removed_at_next_tick_witness :
    ∃ new,
      (Simulate sampleEnv agingComponent 1).mParticles
          = (agingComponent.mParticles.filter
                (fun p => decide (p.mElapsedTime < p.mLifetime))).map
              (stepParticle sampleSystem.params.mAcceleration (1 * agingComponent.mTimeMultiplier))
            ++ new
        ∧ (agingComponent.mEmit = false → new = []) :=
  C18_removed_at_next_tick sampleEnv agingComponent 1 sampleSystem rfl rfl rfl rfl (by decide)

/-! ## C17: the cap on the pool size -/

/-- The frames `Tick(dt); Simulate(dt)` run for the steps of `dts`, in order. -/
def runFrames (env : ParticleEnv) : ParticleComponent → List ℚ → ParticleComponent
  | c, [] => c
  | c, dt :: rest => runFrames env (Simulate env (Tick c dt) dt) rest

theorem wrapInt32_small {z : Int} (h1 : -2 ^ 31 ≤ z) (h2 : z < 2 ^ 31) : wrapInt32 z = z := by
  unfold wrapInt32
  omega

theorem KillExpiredParticles_keeps (c : ParticleComponent) (dt : ℚ) :
    (KillExpiredParticles c dt).mParticles.length ≤ c.mParticles.length
      ∧ KillExpiredParticles c dt
        = { c with mParticles := (KillExpiredParticles c dt).mParticles } := by
  refine ⟨?_, rfl⟩
  by_cases hl : c.mParticles.length < 2 ^ 31
  · rw [KillExpiredParticles_eq c dt hl]
    exact List.length_filter_le _ _
  · have h : toInt32 c.mParticles.length ≤ (c.mParticles.length : Int) := toInt32_le _
    have h2 : (toInt32 c.mParticles.length).toNat ≤ c.mParticles.length := by omega
    rw [KillExpiredParticles, killLoop_eq _ _ h2]
    simp only [List.length_append, List.length_drop]
    have := List.length_filter_le alive (c.mParticles.take (toInt32 c.mParticles.length).toNat)
    rw [List.length_take] at this
    omega

theorem UpdateParticles_keeps (c : ParticleComponent) (dt : ℚ) :
    (UpdateParticles c dt).mParticles.length = c.mParticles.length
      ∧ UpdateParticles c dt = { c with mParticles := (UpdateParticles c dt).mParticles } := by
  rcases Option.eq_none_or_eq_some c.mParticleSystem with hs | ⟨system, hs⟩
  · have h : UpdateParticles c dt = c := by simp [UpdateParticles, hs]
    rw [h]
    exact ⟨rfl, rfl⟩
  · have h : UpdateParticles c dt
        = { c with
            mParticles := c.mParticles.map (stepParticle system.params.mAcceleration dt) } := by
      simp [UpdateParticles, hs]
    rw [h]
    exact ⟨by simp, rfl⟩

theorem SpawnNewParticles_capped (env : ParticleEnv) (c : ParticleComponent) (dt : ℚ)
    (system : ParticleSystem) (hs : c.mParticleSystem = some system)
    (hM : 0 < system.maxParticles) (hM2 : system.maxParticles < 2 ^ 31)
    (hlen : (c.mParticles.length : Int) ≤ system.maxParticles) :
    ((SpawnNewParticles env c dt).mParticles.length : Int) ≤ system.maxParticles
      ∧ (SpawnNewParticles env c dt).mParticleSystem = some system := by
  by_cases he : c.mEmit = true
  · obtain ⟨new, hn, h⟩ := SpawnNewParticles_emit env c dt system hs he
    rw [h]
    refine ⟨?_, by simpa using (advanceTimers_keeps system c dt).2.2.1.trans hs⟩
    simp only [List.length_append, Nat.cast_add, hn]
    have hw : wrapInt32 system.maxParticles = system.maxParticles :=
      wrapInt32_small (by omega) hM2
    have ht : toInt32 c.mParticles.length = (c.mParticles.length : Int) :=
      toInt32_small (by omega)
    have hw2 : wrapInt32 (system.maxParticles - (c.mParticles.length : Int))
        = system.maxParticles - (c.mParticles.length : Int) :=
      wrapInt32_small (by omega) (by omega)
    rw [cappedCount, hw, if_pos hM, ht, hw2]
    omega
  · have h : SpawnNewParticles env c dt = c := by simp [SpawnNewParticles, hs, he]
    rw [h]
    exact ⟨hlen, hs⟩

theorem Simulate_capped (env : ParticleEnv) (c : ParticleComponent) (dt : ℚ)
    (system : ParticleSystem) (hs : c.mParticleSystem = some system)
    (hM : 0 < system.maxParticles) (hM2 : system.maxParticles < 2 ^ 31)
    (hlen : (c.mParticles.length : Int) ≤ system.maxParticles) :
    ((Simulate env c dt).mParticles.length : Int) ≤ system.maxParticles
      ∧ (Simulate env c dt).mParticleSystem = some system := by
  unfold Simulate
  split
  · exact ⟨hlen, hs⟩
  · unfold simulateBody
    split
    · obtain ⟨k1, k2⟩ := KillExpiredParticles_keeps c (dt * c.mTimeMultiplier)
      obtain ⟨u1, u2⟩ := UpdateParticles_keeps
        (KillExpiredParticles c (dt * c.mTimeMultiplier)) (dt * c.mTimeMultiplier)
      have hs2 : (UpdateParticles (KillExpiredParticles c (dt * c.mTimeMultiplier))
          (dt * c.mTimeMultiplier)).mParticleSystem = some system := by
        rw [u2, k2]
        exact hs
      have := SpawnNewParticles_capped env _ (dt * c.mTimeMultiplier) system hs2 hM hM2
        (by rw [u1]; omega)
      exact ⟨this.1, this.2⟩
    · exact ⟨hlen, hs⟩

theorem runFrames_capped (env : ParticleEnv) (system : ParticleSystem)
    (hM : 0 < system.maxParticles) (hM2 : system.maxParticles < 2 ^ 31) :
    ∀ (dts : List ℚ) (c : ParticleComponent), c.mParticleSystem = some system →
      (c.mParticles.length : Int) ≤ system.maxParticles →
      ((runFrames env c dts).mParticles.length : Int) ≤ system.maxParticles := by
  intro dts
  induction dts with
  | nil => intro c _ h; exact h
  | cons dt rest ih =>
    intro c hs hlen
    have h := Simulate_capped env (Tick c dt) dt system hs hM hM2 hlen
    exact ih _ h.2 h.1

/-- The sample system with a cap of 3 particles. -/
def cappedSystem : ParticleSystem := { sampleSystem with maxParticles := 3 }

/-- C17: for every particle system whose configured maximum M (as the int32 value the
code compares with) is positive, every spawn rate, burst count and burst window, and every
sequence of frames Tick; Simulate started from an empty pool, the pool size after each
frame is at most M; when M is zero or negative the spawn step applies no cap: it appends
as many particles as the integer part of the emission counter plus the burst share ask
for. -/
theorem C17_pool_size_capped (env : ParticleEnv) (c : ParticleComponent)
    (system : ParticleSystem) (hs : c.mParticleSystem = some system) (h0 : c.mParticles = []) :
    (0 < system.maxParticles → system.maxParticles < 2 ^ 31 →
        ∀ dts, ((runFrames env c dts).mParticles.length : Int) ≤ system.maxParticles)
      ∧ (system.maxParticles ≤ 0 → -2 ^ 31 ≤ system.maxParticles →
          ∀ (d : ParticleComponent) (dt : ℚ), d.mParticleSystem = some system →
            d.mEmit = true →
            (SpawnNewParticles env d dt).mParticles.length
              = d.mParticles.length
                + (spawnRequest (d.mEmissionCounter + dt * system.spawnRate)
                    (burstShare system d.mElapsedTime dt)).toNat) := by
  constructor
  · intro hM hM2 dts
    exact runFrames_capped env system hM hM2 dts c hs (by rw [h0]; simpa using hM.le)
  · intro hM hM2 d dt hd he
    obtain ⟨new, hn, h⟩ := SpawnNewParticles_emit env d dt system hd he
    rw [h]
    simp only [List.length_append, hn]
    have hw : wrapInt32 system.maxParticles = system.maxParticles :=
      wrapInt32_small hM2 (by omega)
    rw [cappedCount, hw, if_neg (by omega)]

/-- Witness for C17: rate 10 per second, cap 3, two frames of one second. -/
theorem C17_pool_size_capped_witness :
    ((runFrames sampleEnv (freshEmitter cappedSystem) [1, 1]).mParticles.length : Int) ≤ 3 :=
  (C17_pool_size_capped sampleEnv (freshEmitter cappedSystem) cappedSystem rfl rfl).1
    (by decide) (by decide) [1, 1]

/-! ## The spawn-rate accumulator in exact arithmetic -/

/-- The number of particles the spawn step appends to the pool of `c`. -/
def spawnedBy (env : ParticleEnv) (c : ParticleComponent) (deltaTime : ℚ) : Int :=
  ((SpawnNewParticles env c deltaTime).mParticles.length : Int) - c.mParticles.length

/-- The total number of particles spawned by the frames `Tick(dt); Simulate(dt)` run for
the steps of `dts` on an active component: in each frame, what the spawn step appends to
the pool left by the kill and update steps. -/
def totalSpawned (env : ParticleEnv) : ParticleComponent → List ℚ → Int
  | _, [] => 0
  | c, dt :: rest =>
    spawnedBy env
        (UpdateParticles (KillExpiredParticles (Tick c dt) (dt * (Tick c dt).mTimeMultiplier))
          (dt * (Tick c dt).mTimeMultiplier))
        (dt * (Tick c dt).mTimeMultiplier)
      + totalSpawned env (Simulate env (Tick c dt) dt) rest

theorem truncToInt32_floor {x : ℚ} (h0 : 0 ≤ x) (h1 : x < 2 ^ 31) : truncToInt32 x = ⌊x⌋ := by
  have hf0 : 0 ≤ ⌊x⌋ := Int.floor_nonneg.2 h0
  have hf1 : ⌊x⌋ < 2 ^ 31 := Int.floor_lt.2 (by exact_mod_cast h1)
  unfold truncToInt32
  simp only [h0, if_true]
  rw [if_pos ⟨by omega, hf1⟩]

/-- C21: for every component state, EnableEmission(false) sets the emit flag to false and
the system elapsed time and the loop counter to zero and changes nothing else, the particle
pool included; EnableEmission(true) sets the emit flag to true and changes nothing else:
elapsed time, loop counter and pool stay as they are. -/
theorem C21_EnableEmission_effect (c : ParticleComponent) :
    EnableEmission c false = { c with mEmit := false, mElapsedTime := 0, mLoop := 0 }
      ∧ (EnableEmission c false).mParticles = c.mParticles
      ∧ EnableEmission c true = { c with mEmit := true }
      ∧ (EnableEmission c true).mElapsedTime = c.mElapsedTime
      ∧ (EnableEmission c true).mLoop = c.mLoop
      ∧ (EnableEmission c true).mParticles = c.mParticles :=
  ⟨rfl, rfl, rfl, rfl, rfl, rfl⟩

/-! ## C22: the accumulator across a disable / re-enable -/

/-- A system with a burst of five particles and a burst window of zero. -/
def zeroWindowSystem : ParticleSystem :=
  { sampleSystem with burstCount := 5, burstWindow := 0 }

theorem burstShare_no_window (system : ParticleSystem) (elapsedTime deltaTime : ℚ)
    (hw : system.burstWindow ≤ 0) (he : 0 ≤ elapsedTime) :
    burstShare system elapsedTime deltaTime = 0 := by
  unfold burstShare
  rw [if_neg]
  intro h
  linarith [h.2]

/-- C23 (the code at the failing input): the system has burst count 5 and burst window 0
and the component is at system elapsed time 0; the burst contribution of the first emitting
tick is 0, not 5, and the tick spawns only the one particle owed by the spawn rate. The
same holds for every system whose window is not positive: at elapsed time 0 the guard
`mElapsedTime < GetBurstWindow()` is false, so the instant-delivery branch is not reached. -/
theorem C23_zero_window_burst_lost :
    zeroWindowSystem.burstCount = 5 ∧ zeroWindowSystem.burstWindow = 0
      ∧ (freshEmitter zeroWindowSystem).mElapsedTime = 0
      ∧ burstShare zeroWindowSystem (freshEmitter zeroWindowSystem).mElapsedTime (1 / 10) = 0
      ∧ totalSpawned sampleEnv (freshEmitter zeroWindowSystem) [1 / 10] = 1
      ∧ ∀ (system : ParticleSystem) (deltaTime : ℚ), system.burstWindow ≤ 0 →
          burstShare system 0 deltaTime = 0 :=
  ⟨rfl, rfl, rfl, by decide!, by decide!,
    fun system deltaTime hw => burstShare_no_window system 0 deltaTime hw le_rfl⟩

/-! ## C24: the burst spread over a positive window -/

/-- A component with emission off whose system has acceleration (0,-10,0), holding one
particle with velocity (1,0,0), rotation speed 2, age 0 and lifetime 1. -/
def movingComponent : ParticleComponent :=
  { freshEmitter
      { sampleSystem with params := { sampleParams with mAcceleration := ⟨0, -10, 0⟩ } } with
    mEmit := false
    mParticles :=
      [{ mPosition := ⟨0, 0, 0⟩, mVelocity := ⟨1, 0, 0⟩, mSize := ⟨1, 1⟩, mElapsedTime := 0,
         mLifetime := 1, mRotation := 0, mRotationSpeed := 2 }] }

/-- C26: in every tick that executes (guard clear, component active, simulation enabled,
particle system with acceleration a present, pool size below 2^31), with effective step
h = deltaTime * timeMultiplier, the i-th surviving particle p of the old pool is the i-th
particle p2 of the new pool with velocity2 = velocity + a*h, position2 = position +
velocity2*h (the updated velocity), rotation2 = rotation + rotationSpeed*h, elapsed2 =
elapsed + h, and lifetime, size and rotation speed unchanged. -/
theorem C26_survivor_integration (env : ParticleEnv) (c : ParticleComponent) (dt : ℚ)
    (system : ParticleSystem) (hg : c.mHasSimulatedThisFrame = false) (ha : c.mActive = true)
    (hen : c.mEnableSimulation = true) (hs : c.mParticleSystem = some system)
    (hl : c.mParticles.length < 2 ^ 31) (i : Nat) (p : Particle)
    (hp : (c.mParticles.filter alive)[i]? = some p) :
    ∃ p2, (Simulate env c dt).mParticles[i]? = some p2
      ∧ p2.mVelocity
        = ⟨p.mVelocity.x + system.params.mAcceleration.x * (dt * c.mTimeMultiplier),
            p.mVelocity.y + system.params.mAcceleration.y * (dt * c.mTimeMultiplier),
            p.mVelocity.z + system.params.mAcceleration.z * (dt * c.mTimeMultiplier)⟩
      ∧ p2.mPosition
        = ⟨p.mPosition.x + p2.mVelocity.x * (dt * c.mTimeMultiplier),
            p.mPosition.y + p2.mVelocity.y * (dt * c.mTimeMultiplier),
            p.mPosition.z + p2.mVelocity.z * (dt * c.mTimeMultiplier)⟩
      ∧ p2.mRotation = p.mRotation + p.mRotationSpeed * (dt * c.mTimeMultiplier)
      ∧ p2.mElapsedTime = p.mElapsedTime + dt * c.mTimeMultiplier
      ∧ p2.mLifetime = p.mLifetime ∧ p2.mSize = p.mSize
      ∧ p2.mRotationSpeed = p.mRotationSpeed := by
  obtain ⟨new, hpool, -⟩ := simulate_pool env c dt system hg ha hen hs hl
  refine ⟨stepParticle system.params.mAcceleration (dt * c.mTimeMultiplier) p, ?_,
    rfl, rfl, rfl, rfl, rfl, rfl, rfl⟩
  have hi : i < (c.mParticles.filter alive).length := by
    by_contra hge
    rw [List.getElem?_eq_none (not_lt.1 hge)] at hp
    exact Option.noConfusion hp
  rw [hpool, List.getElem?_append_left (by rw [List.length_map]; exact hi),
    List.getElem?_map, hp]
  rfl

/-- Witness for C26: the particle of `movingComponent` after a tick of 0.5 s. -/
theorem C26_survivor_integration_witness :
    ∃ p2, (Simulate sampleEnv movingComponent (1 / 2)).mParticles[0]? = some p2
      ∧ p2.mVelocity = ⟨1, -5, 0⟩ ∧ p2.mPosition = ⟨1 / 2, -5 / 2, 0⟩
      ∧ p2.mRotation = 1 ∧ p2.mElapsedTime = 1 / 2 ∧ p2.mLifetime = 1 := by
  obtain ⟨p2, h1, h2, h3, h4, h5, h6, -, -⟩ :=
    C26_survivor_integration sampleEnv movingComponent (1 / 2)
      { sampleSystem with params := { sampleParams with mAcceleration := ⟨0, -10, 0⟩ } }
      rfl rfl rfl rfl (by decide) 0
      { mPosition := ⟨0, 0, 0⟩, mVelocity := ⟨1, 0, 0⟩, mSize := ⟨1, 1⟩, mElapsedTime := 0,
        mLifetime := 1, mRotation := 0, mRotationSpeed := 2 } (by decide!)
  have e2 : p2.mVelocity = ⟨1, -5, 0⟩ := h2.trans (by decide!)
  refine ⟨p2, h1, e2, ?_, h4.trans (by decide!), h5.trans (by decide!), h6⟩
  rw [h3, e2]
  decide!

/-! ## C27: the kill loop is a filter -/

/-- The list the specification describes: the pool filtered with the predicate
`elapsed < lifetime`. -/
def keepUnexpired (ps : List Particle) : List Particle :=
  ps.filter fun p => decide (p.mElapsedTime < p.mLifetime)

/-- A component holding three particles of lifetime 1 with ages 0, 1 and 1/2. -/
def mixedPool : ParticleComponent :=
  { agingComponent with
    mParticles :=
      [{ mPosition := ⟨0, 0, 0⟩, mVelocity := ⟨0, 0, 0⟩, mSize := ⟨1, 1⟩, mElapsedTime := 0,
         mLifetime := 1, mRotation := 0, mRotationSpeed := 0 },
       { mPosition := ⟨1, 0, 0⟩, mVelocity := ⟨0, 0, 0⟩, mSize := ⟨1, 1⟩, mElapsedTime := 1,
         mLifetime := 1, mRotation := 0, mRotationSpeed := 0 },
       { mPosition := ⟨2, 0, 0⟩, mVelocity := ⟨0, 0, 0⟩, mSize := ⟨1, 1⟩,
         mElapsedTime := 1 / 2, mLifetime := 1, mRotation := 0, mRotationSpeed := 0 }] }

/-- C27: for every pool (its size within the int32 range the loop counter is cast to), the
backwards erase loop of KillExpiredParticles leaves exactly the pool filtered with the
predicate elapsed < lifetime, and changes nothing else in the component: every particle
with elapsed >= lifetime is gone, every other particle is kept as often as it occurred,
and the kept particles are in their old relative order. The loop itself, started at the
last index, computes the filter for every list. -/
theorem C27_kill_loop_is_filter (c : ParticleComponent) (dt : ℚ)
    (hl : c.mParticles.length < 2 ^ 31) :
    killLoop c.mParticles.length c.mParticles = keepUnexpired c.mParticles
      ∧ KillExpiredParticles c dt = { c with mParticles := keepUnexpired c.mParticles }
      ∧ (∀ p ∈ (KillExpiredParticles c dt).mParticles, p.mElapsedTime < p.mLifetime)
      ∧ (∀ p, p.mElapsedTime < p.mLifetime →
          (KillExpiredParticles c dt).mParticles.count p = c.mParticles.count p)
      ∧ (∀ p, p.mElapsedTime ≥ p.mLifetime → p ∉ (KillExpiredParticles c dt).mParticles)
      ∧ List.Sublist (KillExpiredParticles c dt).mParticles c.mParticles := by
  have hk : KillExpiredParticles c dt = { c with mParticles := keepUnexpired c.mParticles } :=
    KillExpiredParticles_eq c dt hl
  have hloop : killLoop c.mParticles.length c.mParticles = keepUnexpired c.mParticles := by
    rw [killLoop_eq _ _ (Nat.le_refl _)]
    simp only [List.take_length, List.drop_length, List.append_nil]
    rfl
  have hp : (KillExpiredParticles c dt).mParticles = keepUnexpired c.mParticles := by rw [hk]
  refine ⟨hloop, hk, ?_, ?_, ?_, ?_⟩
  · intro p hmem
    rw [hp, keepUnexpired, List.mem_filter] at hmem
    exact of_decide_eq_true hmem.2
  · intro p hlive
    rw [hp, keepUnexpired]
    exact List.count_filter (by simpa using hlive)
  · intro p hdead hmem
    rw [hp, keepUnexpired, List.mem_filter] at hmem
    exact absurd (of_decide_eq_true hmem.2) (not_lt.2 hdead)
  · rw [hp]
    exact List.filter_sublist _

/-- Witness for C27: of three particles with ages 0, 1 and 1/2 and lifetime 1 the second
is erased and the other two are kept in order. -/
theorem C27_kill_loop_is_filter_witness :
    (KillExpiredParticles mixedPool 1).mParticles.map (fun p => p.mPosition.x) = [0, 2] := by
  rw [(C27_kill_loop_is_filter mixedPool 1 (by decide)).2.1]
  decide!

/-! ## The vertex builder (`UpdateVertexBuffer`) -/

/-- What `UpdateVertexBuffer` takes from outside the sources: `glm::rotate(v, angle, axis)`
on vectors and the view matrix of the active camera. -/
structure VertexEnv where
  rotate : Vec3 → ℚ → Vec3 → Vec3
  viewMatrix : Mat4

/-- The function `glm::mix(x, y, a)` on scalars. -/
def glmMix (x y a : ℚ) : ℚ := x * (1 - a) + y * a

/-- The function `glm::clamp(x, lo, hi)`. -/
def glmClamp (x lo hi : ℚ) : ℚ := min (max x lo) hi

/-- The conversion `uint8_t(x)` of a float: truncation toward zero, then the low eight
bits. -/
def toUint8 (x : ℚ) : Nat := (truncToInt32 x % 256).toNat

/-- The byte `uint8_t(glm::clamp(channel * 255.0f, 0.0f, 255.0f))`. -/
def colorByte (channel : ℚ) : Nat := toUint8 (glmClamp (channel * 255) 0 255)

/-- The value `colors[0] | colors[1] << 8 | colors[2] << 16 | colors[3] << 24` as a
`uint32_t`. -/
def packColor (c0 c1 c2 c3 : Nat) : Nat :=
  (c0 ||| (c1 <<< 8) ||| (c2 <<< 16) ||| (c3 <<< 24)) % 2 ^ 32

/-- The constants `invAlphaEase2` and `invScaleEase2`: `(ease != 0) ? (0.5 / ease) : 1`. -/
def invEase2 (ease : ℚ) : ℚ := if ease ≠ 0 then (1 / 2) / ease else 1

/-- The value `easeX = 2 * fabs(life - 0.5)`. -/
def easeX (life : ℚ) : ℚ := 2 * |life - 1 / 2|

/-- The values `scalePower` and `alphaPower`:
`glm::clamp(invEase2 * (1 - easeX), 0, 1)`. -/
def easePower (ease life : ℚ) : ℚ := glmClamp (invEase2 ease * (1 - easeX life)) 0 1

/-- The vectors `right`, `up` and `forward` after the `switch (mOrientation)`. -/
def orientationAxes (env : VertexEnv) : ParticleOrientation → Vec3 × Vec3 × Vec3
  | ParticleOrientation.X => (⟨0, 0, -1⟩, ⟨0, 1, 0⟩, ⟨-1, 0, 0⟩)
  | ParticleOrientation.Y => (⟨1, 0, 0⟩, ⟨0, 0, -1⟩, ⟨0, -1, 0⟩)
  | ParticleOrientation.Z => (⟨1, 0, 0⟩, ⟨0, 1, 0⟩, ⟨0, 0, -1⟩)
  | ParticleOrientation.NX => (⟨0, 0, 1⟩, ⟨0, 1, 0⟩, ⟨1, 0, 0⟩)
  | ParticleOrientation.NY => (⟨-1, 0, 0⟩, ⟨0, 0, -1⟩, ⟨0, 1, 0⟩)
  | ParticleOrientation.NZ => (⟨-1, 0, 0⟩, ⟨0, 1, 0⟩, ⟨0, 0, 1⟩)
  | ParticleOrientation.Billboard =>
    (⟨env.viewMatrix 0 0, env.viewMatrix 0 1, env.viewMatrix 0 2⟩,
      ⟨env.viewMatrix 1 0, env.viewMatrix 1 1, env.viewMatrix 1 2⟩,
      ⟨env.viewMatrix 2 0, env.viewMatrix 2 1, env.viewMatrix 2 2⟩)
  | ParticleOrientation.Count => (⟨1, 0, 0⟩, ⟨0, 1, 0⟩, ⟨0, 0, -1⟩)

/-- The value `life = mElapsedTime / mLifetime` of a particle; `none` stands for the
non-finite float that the division gives when the lifetime is zero. -/
def lifeFraction (p : Particle) : Option ℚ :=
  if p.mLifetime = 0 then none else some (p.mElapsedTime / p.mLifetime)

/-- The vector `glm::vec4(axis, 0.0f) * mTransform`, truncated to a `vec3`. -/
def axisTimesMatrix (axis : Vec3) (m : Mat4) : Vec3 :=
  xyz (Matrix.vecMul ![axis.x, axis.y, axis.z, 0] m)

/-- The four vertices written for one particle from its position, its two axes, its half
size and its packed color. -/
def quadVertices (pos rightAxis upAxis : Vec3) (halfSize : Vec2) (color32 : Nat) :
    List VertexParticle :=
  [{ mPosition :=
      ⟨pos.x - rightAxis.x * halfSize.x + upAxis.x * halfSize.y,
        pos.y - rightAxis.y * halfSize.x + upAxis.y * halfSize.y,
        pos.z - rightAxis.z * halfSize.x + upAxis.z * halfSize.y⟩
     mTexcoord := ⟨0, 0⟩
     mColor := color32 },
   { mPosition :=
      ⟨pos.x - rightAxis.x * halfSize.x - upAxis.x * halfSize.y,
        pos.y - rightAxis.y * halfSize.x - upAxis.y * halfSize.y,
        pos.z - rightAxis.z * halfSize.x - upAxis.z * halfSize.y⟩
     mTexcoord := ⟨0, 1⟩
     mColor := color32 },
   { mPosition :=
      ⟨pos.x + rightAxis.x * halfSize.x + upAxis.x * halfSize.y,
        pos.y + rightAxis.y * halfSize.x + upAxis.y * halfSize.y,
        pos.z + rightAxis.z * halfSize.x + upAxis.z * halfSize.y⟩
     mTexcoord := ⟨1, 0⟩
     mColor := color32 },
   { mPosition :=
      ⟨pos.x + rightAxis.x * halfSize.x - upAxis.x * halfSize.y,
        pos.y + rightAxis.y * halfSize.x - upAxis.y * halfSize.y,
        pos.z + rightAxis.z * halfSize.x - upAxis.z * halfSize.y⟩
     mTexcoord := ⟨1, 1⟩
     mColor := color32 }]

/-- Body of the loop of `UpdateVertexBuffer` for one particle whose life fraction is the
finite number `life`. -/
def quadAt (env : VertexEnv) (params : ParticleParams) (c : ParticleComponent) (p : Particle)
    (life : ℚ) : List VertexParticle :=
  let scale : Vec2 :=
    ⟨glmMix params.mScaleStart.x params.mScaleEnd.x life,
      glmMix params.mScaleStart.y params.mScaleEnd.y life⟩
  let color : Vec4 :=
    ⟨glmMix params.mColorStart.r params.mColorEnd.r life,
      glmMix params.mColorStart.g params.mColorEnd.g life,
      glmMix params.mColorStart.b params.mColorEnd.b life,
      glmMix params.mColorStart.a params.mColorEnd.a life⟩
  let scale2 : Vec2 :=
    if params.mScaleEase > 0 then
      ⟨glmMix 0 scale.x (easePower params.mScaleEase life),
        glmMix 0 scale.y (easePower params.mScaleEase life)⟩
    else scale
  let alpha : ℚ :=
    if params.mAlphaEase > 0 then glmMix 0 color.a (easePower params.mAlphaEase life)
    else color.a
  let halfSize : Vec2 := ⟨p.mSize.x * scale2.x * (1 / 2), p.mSize.y * scale2.y * (1 / 2)⟩
  let color32 := packColor (colorByte color.r) (colorByte color.g) (colorByte color.b)
    (colorByte alpha)
  let axes := orientationAxes env c.mOrientation
  let rightAxis := env.rotate axes.1 p.mRotation axes.2.2
  let upAxis := env.rotate axes.2.1 p.mRotation axes.2.2
  let localBillboard := c.mUseLocalSpace && decide (c.mOrientation = ParticleOrientation.Billboard)
  let rightAxis2 := if localBillboard then axisTimesMatrix rightAxis c.mTransform else rightAxis
  let upAxis2 := if localBillboard then axisTimesMatrix upAxis c.mTransform else upAxis
  quadVertices p.mPosition rightAxis2 upAxis2 halfSize color32

/-- Body of the loop of `UpdateVertexBuffer` for one particle; `none` when the life
fraction is not a finite number. -/
def particleQuad (env : VertexEnv) (params : ParticleParams) (c : ParticleComponent)
    (p : Particle) : Option (List VertexParticle) :=
  (lifeFraction p).map (quadAt env params c p)

/-- The loop of `UpdateVertexBuffer` over the pool: the quads of the particles in pool
order. -/
def buildVertices (env : VertexEnv) (params : ParticleParams) (c : ParticleComponent) :
    List Particle → Option (List VertexParticle)
  | [] => some []
  | p :: rest =>
    match particleQuad env params c p, buildVertices env params c rest with
    | some quad, some vs => some (quad ++ vs)
    | _, _ => none

/-- The method `ParticleComponent::UpdateVertexBuffer`. The result is `none` when the
vertex count `numParticles * 4` leaves the range of `uint32_t` or a life fraction is not a
finite number; the graphics call at the end does not touch the component. -/
def UpdateVertexBuffer (env : VertexEnv) (c : ParticleComponent) : Option ParticleComponent :=
  match c.mParticleSystem with
  | none => some c
  | some system =>
    if c.mHasUpdatedVerticesThisFrame then some c
    else if c.mParticles.length * 4 < 2 ^ 32 then
      (buildVertices env system.params c c.mParticles).map fun vs =>
        { c with mVertices := vs, mHasUpdatedVerticesThisFrame := true }
    else none

/-- The method `ParticleComponent::SetParticleSystem`; its guard only skips the
assignment of the reference that is already stored. -/
def SetParticleSystem (c : ParticleComponent) (particleSystem : Option ParticleSystem) :
    ParticleComponent :=
  { c with mParticleSystem := particleSystem }

/-- A sample vertex environment: `glm::rotate` by the angle 0 (the vector is returned
as it is) and the identity view matrix. -/
def sampleVertexEnv : VertexEnv where
  rotate := fun v _ _ => v
  viewMatrix := 1

/-! ## C28: a component without a particle system -/

/-- C28 (as stated, refuted): the particle of `agingComponent` is aged to its lifetime by
a tick of 1 s and stays in the pool; the system reference is then cleared; the next frame
runs `Simulate` with no particle system, and the kill step, which does not test the
reference, empties the pool. -/
theorem C28_pool_changed_counterexample :
    (SetParticleSystem (Simulate sampleEnv agingComponent 1) none).mParticleSystem.isNone = true
      ∧ (SetParticleSystem (Simulate sampleEnv agingComponent 1) none).mParticles.length = 1
      ∧ (Simulate sampleEnv
          (Tick (SetParticleSystem (Simulate sampleEnv agingComponent 1) none) 1) 1).mParticles
        = [] := by
  decide!

/-- C28 (amended): for every component without a particle system reference (pool size
below 2^31), Simulate with any dt leaves the system elapsed time, the loop counter, the
spawn accumulator, the emit flag and the vertex list unchanged, ages no particle and
spawns none; the pool is unchanged when the frame guard is set or the component is
inactive or simulation is disabled, and otherwise it loses exactly the particles whose
elapsed time has reached their lifetime (so it is unchanged when there is no such
particle). UpdateVertexBuffer returns the component unchanged, vertex list included. -/
theorem C28_no_system (env : ParticleEnv) (venv : VertexEnv) (c : ParticleComponent) (dt : ℚ)
    (hs : c.mParticleSystem = none) (hl : c.mParticles.length < 2 ^ 31) :
    (Simulate env c dt).mElapsedTime = c.mElapsedTime
      ∧ (Simulate env c dt).mLoop = c.mLoop
      ∧ (Simulate env c dt).mEmissionCounter = c.mEmissionCounter
      ∧ (Simulate env c dt).mEmit = c.mEmit
      ∧ (Simulate env c dt).mVertices = c.mVertices
      ∧ (Simulate env c dt).mParticles
          = (if c.mHasSimulatedThisFrame = false ∧ c.mActive = true
                ∧ c.mEnableSimulation = true
              then c.mParticles.filter alive else c.mParticles)
      ∧ ((∀ p ∈ c.mParticles, p.mElapsedTime < p.mLifetime) →
          (Simulate env c dt).mParticles = c.mParticles)
      ∧ UpdateVertexBuffer venv c = some c := by
  have hk := KillExpiredParticles_eq c (dt * c.mTimeMultiplier) hl
  have hsim : Simulate env c dt
      = if c.mHasSimulatedThisFrame = false ∧ c.mActive = true ∧ c.mEnableSimulation = true
        then { c with mParticles := c.mParticles.filter alive, mHasSimulatedThisFrame := true }
        else { c with mHasSimulatedThisFrame := c.mHasSimulatedThisFrame
                        || true } := by
    unfold Simulate simulateBody
    by_cases hg : c.mHasSimulatedThisFrame = true
    · simp [hg]
      cases c
      simp_all
    · have hg2 : c.mHasSimulatedThisFrame = false := by simpa using hg
      by_cases ha : c.mActive = true
      · by_cases hen : c.mEnableSimulation = true
        · simp [hg2, ha, hen, hk, UpdateParticles, SpawnNewParticles, hs]
        · simp [hg2, ha, hen]
      · simp [hg2, ha]
  have hpool : (Simulate env c dt).mParticles
      = (if c.mHasSimulatedThisFrame = false ∧ c.mActive = true ∧ c.mEnableSimulation = true
          then c.mParticles.filter alive else c.mParticles) := by
    rw [hsim]
    split_ifs <;> rfl
  refine ⟨?_, ?_, ?_, ?_, ?_, hpool, ?_, ?_⟩
  · rw [hsim]; split_ifs <;> rfl
  · rw [hsim]; split_ifs <;> rfl
  · rw [hsim]; split_ifs <;> rfl
  · rw [hsim]; split_ifs <;> rfl
  · rw [hsim]; split_ifs <;> rfl
  · intro hall
    rw [hpool]
    split_ifs
    · exact List.filter_eq_self.2 (fun p hp => by simpa [alive] using hall p hp)
    · rfl
  · simp [UpdateVertexBuffer, hs]

/-- Witness for C28: `agingComponent` with its system reference cleared keeps its one
particle through a Simulate call, and UpdateVertexBuffer returns it unchanged. -/
theorem C28_no_system_witness :
    (Simulate sampleEnv (SetParticleSystem agingComponent none) 1).mParticles
        = agingComponent.mParticles
      ∧ (UpdateVertexBuffer sampleVertexEnv (SetParticleSystem agingComponent none)).map
          (fun c => c.mVertices) = some agingComponent.mVertices :=
  have h := C28_no_system sampleEnv sampleVertexEnv (SetParticleSystem agingComponent none) 1
    rfl (by decide)
  ⟨h.2.2.2.2.2.2.1 (by decide!), by rw [h.2.2.2.2.2.2.2]; rfl⟩

/-! ## C29: the transform applied at spawn -/

/-- The velocity of a new particle after the radial-velocity step and before the
transform into world space, when `r` calls of `Maths::RandRange` have been made before. -/
def localVelocity (env : ParticleEnv) (system : ParticleSystem) (r : Nat) : Vec3 :=
  let velocity := env.randVec3 system.params.mVelocityMin system.params.mVelocityMax
    (r + positionDraws system)
  if system.radialVelocity then
    let speed := velocity.x
    let direction := env.normalize (samplePosition env system r)
    ⟨direction.x * speed, direction.y * speed, direction.z * speed⟩
  else velocity

/-- A system that draws the local position (1,0,0) and the local velocity (0,1,0). -/
def worldSystem : ParticleSystem :=
  { sampleSystem with
    params :=
      { sampleParams with
        mPositionMin := ⟨1, 0, 0⟩
        mPositionMax := ⟨1, 0, 0⟩
        mVelocityMin := ⟨0, 1, 0⟩
        mVelocityMax := ⟨0, 1, 0⟩ } }

/-- A component not in local space whose matrix scales by 2 and then translates by
(10,20,30); its system is `worldSystem`. -/
def worldEmitter : ParticleComponent :=
  { freshEmitter worldSystem with
    mTransform := translateMat ⟨10, 20, 30⟩ * scaleMat ⟨2, 2, 2⟩ }

theorem newParticle_congr (env : ParticleEnv) (system : ParticleSystem)
    (c1 c2 : ParticleComponent) (r : Nat) (h1 : c1.mUseLocalSpace = c2.mUseLocalSpace)
    (h2 : c1.mTransform = c2.mTransform) :
    newParticle env system c1 r = newParticle env system c2 r := by
  unfold newParticle
  rw [h1, h2]

theorem spawnLoop_members (env : ParticleEnv) (system : ParticleSystem) :
    ∀ (k : Nat) (c : ParticleComponent),
      ∃ new, (spawnLoop env system k c).mParticles = c.mParticles ++ new
        ∧ ∀ q ∈ new, ∃ r, q = newParticle env system c r := by
  intro k
  induction k with
  | zero => intro c; exact ⟨[], by simp [spawnLoop], fun q hq => absurd hq (List.not_mem_nil q)⟩
  | succ k ih =>
    intro c
    obtain ⟨new, he, hall⟩ := ih
      { c with
        mParticles := c.mParticles ++ [newParticle env system c c.randCalls]
        randCalls := c.randCalls + particleDraws system }
    refine ⟨newParticle env system c c.randCalls :: new, ?_, ?_⟩
    · rw [spawnLoop, he]
      simp
    · intro q hq
      rcases List.mem_cons.1 hq with h | h
      · exact ⟨c.randCalls, h⟩
      · obtain ⟨r, hr⟩ := hall q h
        exact ⟨r, hr.trans (newParticle_congr env system _ c r rfl rfl)⟩

theorem SpawnNewParticles_members (env : ParticleEnv) (c : ParticleComponent) (dt : ℚ)
    (system : ParticleSystem) (hs : c.mParticleSystem = some system) :
    ∃ new, (SpawnNewParticles env c dt).mParticles = c.mParticles ++ new
      ∧ ∀ q ∈ new, ∃ r, q = newParticle env system c r := by
  by_cases he : c.mEmit = true
  · have hadv : (advanceTimers system c dt).mUseLocalSpace = c.mUseLocalSpace
        ∧ (advanceTimers system c dt).mTransform = c.mTransform
        ∧ (advanceTimers system c dt).mParticles = c.mParticles := by
      unfold advanceTimers EnableEmission
      simp only
      split_ifs <;> simp
    obtain ⟨new, hn, hall⟩ := spawnLoop_members env system
      (cappedCount system (advanceTimers system c dt).mParticles.length
        (spawnRequest ((advanceTimers system c dt).mEmissionCounter + dt * system.spawnRate)
          (burstShare system c.mElapsedTime dt))).toNat
      { advanceTimers system c dt with
        mEmissionCounter := (advanceTimers system c dt).mEmissionCounter
          + dt * system.spawnRate
          - (truncToInt32 ((advanceTimers system c dt).mEmissionCounter
              + dt * system.spawnRate) : ℚ) }
    refine ⟨new, ?_, fun q hq => ?_⟩
    · have h0 : SpawnNewParticles env c dt
          = spawnLoop env system
            (cappedCount system (advanceTimers system c dt).mParticles.length
              (spawnRequest ((advanceTimers system c dt).mEmissionCounter
                + dt * system.spawnRate) (burstShare system c.mElapsedTime dt))).toNat
            { advanceTimers system c dt with
              mEmissionCounter := (advanceTimers system c dt).mEmissionCounter
                + dt * system.spawnRate
                - (truncToInt32 ((advanceTimers system c dt).mEmissionCounter
                    + dt * system.spawnRate) : ℚ) } := by
        simp [SpawnNewParticles, hs, he]
      rw [h0, hn]
      exact congrArg (fun l => l ++ new) hadv.2.2
    · obtain ⟨r, hr⟩ := hall q hq
      exact ⟨r, hr.trans (newParticle_congr env system _ c r hadv.1 hadv.2.1)⟩
  · exact ⟨[], by simp [SpawnNewParticles, hs, he], fun q hq => absurd hq (List.not_mem_nil q)⟩

/-- C29: every particle q that the spawn step appends to the pool comes from a sampled
local position p and a local velocity v (taken after the radial-velocity step): when the
component does not use local space, q stores T applied to (p,1) as position (the
translation column of T is added) and T applied to (v,0) as velocity (the translation is
not added); when it uses local space q stores p and v. The particles already in the pool
are left as they are, so the transform is applied once, at spawn. -/
theorem C29_spawn_world_transform (env : ParticleEnv) (c : ParticleComponent) (dt : ℚ)
    (system : ParticleSystem) (hs : c.mParticleSystem = some system) :
    ∃ new, (SpawnNewParticles env c dt).mParticles = c.mParticles ++ new
      ∧ ∀ q ∈ new, ∃ r,
        (c.mUseLocalSpace = false →
          q.mPosition
              = ⟨c.mTransform 0 0 * (samplePosition env system r).x
                    + c.mTransform 0 1 * (samplePosition env system r).y
                    + c.mTransform 0 2 * (samplePosition env system r).z + c.mTransform 0 3,
                  c.mTransform 1 0 * (samplePosition env system r).x
                    + c.mTransform 1 1 * (samplePosition env system r).y
                    + c.mTransform 1 2 * (samplePosition env system r).z + c.mTransform 1 3,
                  c.mTransform 2 0 * (samplePosition env system r).x
                    + c.mTransform 2 1 * (samplePosition env system r).y
                    + c.mTransform 2 2 * (samplePosition env system r).z + c.mTransform 2 3⟩
            ∧ q.mVelocity
              = ⟨c.mTransform 0 0 * (localVelocity env system r).x
                    + c.mTransform 0 1 * (localVelocity env system r).y
                    + c.mTransform 0 2 * (localVelocity env system r).z,
                  c.mTransform 1 0 * (localVelocity env system r).x
                    + c.mTransform 1 1 * (localVelocity env system r).y
                    + c.mTransform 1 2 * (localVelocity env system r).z,
                  c.mTransform 2 0 * (localVelocity env system r).x
                    + c.mTransform 2 1 * (localVelocity env system r).y
                    + c.mTransform 2 2 * (localVelocity env system r).z⟩)
          ∧ (c.mUseLocalSpace = true →
              q.mPosition = samplePosition env system r
                ∧ q.mVelocity = localVelocity env system r)
          ∧ (system.radialVelocity = true →
              localVelocity env system r
                = ⟨(env.normalize (samplePosition env system r)).x
                      * (env.randVec3 system.params.mVelocityMin system.params.mVelocityMax
                          (r + positionDraws system)).x,
                    (env.normalize (samplePosition env system r)).y
                      * (env.randVec3 system.params.mVelocityMin system.params.mVelocityMax
                          (r + positionDraws system)).x,
                    (env.normalize (samplePosition env system r)).z
                      * (env.randVec3 system.params.mVelocityMin system.params.mVelocityMax
                          (r + positionDraws system)).x⟩) := by
  obtain ⟨new, hpool, hall⟩ := SpawnNewParticles_members env c dt system hs
  refine ⟨new, hpool, fun q hq => ?_⟩
  obtain ⟨r, hr⟩ := hall q hq
  refine ⟨r, fun hw => ?_, fun hloc => ?_, fun hrad => ?_⟩
  · rw [hr]
    simp [newParticle, localVelocity, hw, xyz, point4, Matrix.mulVec, Matrix.dotProduct,
      Fin.sum_univ_four]
  · rw [hr]
    simp [newParticle, localVelocity, hloc]
  · simp [localVelocity, hrad]

/-- Witness for C29: the one particle spawned by `worldEmitter` in a step of 0.1 s has
position 2 * (1,0,0) + (10,20,30) and velocity 2 * (0,1,0). -/
theorem C29_spawn_world_transform_witness :
    ∃ new, (SpawnNewParticles sampleEnv worldEmitter (1 / 10)).mParticles = [] ++ new
      ∧ new.length = 1
      ∧ ∀ q ∈ new, q.mPosition = ⟨12, 20, 30⟩ ∧ q.mVelocity = ⟨0, 2, 0⟩ := by
  obtain ⟨new, hpool, hall⟩ :=
    C29_spawn_world_transform sampleEnv worldEmitter (1 / 10) worldSystem rfl
  have hlen : (SpawnNewParticles sampleEnv worldEmitter (1 / 10)).mParticles.length = 1 := by
    decide!
  refine ⟨new, hpool, by rw [hpool] at hlen; simpa [worldEmitter, freshEmitter] using hlen,
    fun q hq => ?_⟩
  obtain ⟨r, hw, -, -⟩ := hall q hq
  obtain ⟨h1, h2⟩ := hw rfl
  have hp : samplePosition sampleEnv worldSystem r = ⟨1, 0, 0⟩ := rfl
  have hv : localVelocity sampleEnv worldSystem r = ⟨0, 1, 0⟩ := rfl
  rw [hp] at h1
  rw [hv] at h2
  exact ⟨h1.trans (by decide!), h2.trans (by decide!)⟩

/-! ## C30: readers of the cached world matrix -/

/-- The method `Node3D::GetForwardVector`, a `const` method that reads `mTransform`;
`safeNormalize` is `Maths::SafeNormalize`, declared outside the sources. -/
def GetForwardVector (safeNormalize : Vec3 → Vec3) (s : Scene) (n : Ptr) : Vec3 :=
  safeNormalize (xyz (Matrix.mulVec (s n).mTransform ![0, 0, -1, 0]))

/-- The method `Node3D::GetRightVector`. -/
def GetRightVector (safeNormalize : Vec3 → Vec3) (s : Scene) (n : Ptr) : Vec3 :=
  safeNormalize (xyz (Matrix.mulVec (s n).mTransform ![1, 0, 0, 0]))

/-- The method `Node3D::GetUpVector`. -/
def GetUpVector (safeNormalize : Vec3 → Vec3) (s : Scene) (n : Ptr) : Vec3 :=
  safeNormalize (xyz (Matrix.mulVec (s n).mTransform ![0, 1, 0, 0]))

/-- The particle component `c` seen as the node `n` of the scene: a `ParticleComponent`
is a `Node3D`, and the `mTransform` its spawn step reads is the cached world matrix of
the node. -/
def componentAt (s : Scene) (n : Ptr) (c : ParticleComponent) : ParticleComponent :=
  { c with mTransform := (s n).mTransform }

/-- A fresh node 0 that has been moved to (5,0,0) and mirrored by the scale (-1,-1,-1),
and not read since: its dirty flag is true and its cached matrix is still the identity. -/
def mirroredScene : Scene := SetScale (SetPosition Scene.fresh 0 ⟨5, 0, 0⟩) 0 ⟨-1, -1, -1⟩

/-- The scene `mirroredScene` after node 0 has been brought up to date. -/
def mirroredSettled : Scene := finish sampleMaths mirroredScene 0

/-- C30 (as stated, refuted): node 0 of `mirroredScene` is dirty. Read on it, the forward,
right and up vectors are the normalized (0,0,-1), (1,0,0) and (0,1,0) of the stale
identity matrix, whereas after GetTransform they are the normalized (0,0,1), (-1,0,0) and
(0,-1,0); and a particle with sampled local position (1,0,0) is spawned at (1,0,0),
whereas after GetTransform it is spawned at (4,0,0). -/
theorem C30_dirty_matrix_read_counterexample :
    (mirroredScene 0).mTransformDirty = true
      ∧ (∀ safeNormalize : Vec3 → Vec3,
          GetForwardVector safeNormalize mirroredScene 0 = safeNormalize ⟨0, 0, -1⟩
            ∧ (GetTransform sampleMaths 1 mirroredScene 0).map
                (fun r => GetForwardVector safeNormalize r.2 0) = some (safeNormalize ⟨0, 0, 1⟩)
            ∧ GetRightVector safeNormalize mirroredScene 0 = safeNormalize ⟨1, 0, 0⟩
            ∧ (GetTransform sampleMaths 1 mirroredScene 0).map
                (fun r => GetRightVector safeNormalize r.2 0) = some (safeNormalize ⟨-1, 0, 0⟩)
            ∧ GetUpVector safeNormalize mirroredScene 0 = safeNormalize ⟨0, 1, 0⟩
            ∧ (GetTransform sampleMaths 1 mirroredScene 0).map
                (fun r => GetUpVector safeNormalize r.2 0) = some (safeNormalize ⟨0, -1, 0⟩))
      ∧ (newParticle sampleEnv worldSystem
          (componentAt mirroredScene 0 (freshEmitter worldSystem)) 0).mPosition = ⟨1, 0, 0⟩
      ∧ (GetTransform sampleMaths 1 mirroredScene 0).map
          (fun r => (newParticle sampleEnv worldSystem
            (componentAt r.2 0 (freshEmitter worldSystem)) 0).mPosition) = some ⟨4, 0, 0⟩ := by
  have hf1 : xyz (Matrix.mulVec (mirroredScene 0).mTransform ![0, 0, -1, 0]) = ⟨0, 0, -1⟩ := by
    decide!
  have hr1 : xyz (Matrix.mulVec (mirroredScene 0).mTransform ![1, 0, 0, 0]) = ⟨1, 0, 0⟩ := by
    decide!
  have hu1 : xyz (Matrix.mulVec (mirroredScene 0).mTransform ![0, 1, 0, 0]) = ⟨0, 1, 0⟩ := by
    decide!
  have hd : (mirroredScene 0).mTransformDirty = true := rfl
  have hp : (mirroredScene 0).mParent = none := rfl
  have hu : UpdateTransform sampleMaths 1 mirroredScene 0 false = some mirroredSettled := by
    rw [UpdateTransform_step]
    simp [updateParentWith, hp, mirroredSettled]
  have hg : GetTransform sampleMaths 1 mirroredScene 0
      = some ((mirroredSettled 0).mTransform, mirroredSettled) := by
    simp [GetTransform, GetTransformWith, hd, hu]
  have hf2 : xyz (Matrix.mulVec (mirroredSettled 0).mTransform ![0, 0, -1, 0]) = ⟨0, 0, 1⟩ := by
    decide!
  have hr2 : xyz (Matrix.mulVec (mirroredSettled 0).mTransform ![1, 0, 0, 0]) = ⟨-1, 0, 0⟩ := by
    decide!
  have hu2 : xyz (Matrix.mulVec (mirroredSettled 0).mTransform ![0, 1, 0, 0]) = ⟨0, -1, 0⟩ := by
    decide!
  refine ⟨rfl, fun sn => ⟨?_, ?_, ?_, ?_, ?_, ?_⟩, by decide!, by decide!⟩
  · exact congrArg sn hf1
  · rw [hg]
    exact congrArg (fun v => some (sn v)) hf2
  · exact congrArg sn hr1
  · rw [hg]
    exact congrArg (fun v => some (sn v)) hr2
  · exact congrArg sn hu1
  · rw [hg]
    exact congrArg (fun v => some (sn v)) hu2

/-- C30 (amended): for every node whose dirty flag is false, GetTransform returns the
cached matrix M and leaves the scene unchanged, so GetForwardVector, GetRightVector and
GetUpVector are the normalized images under M of (0,0,-1,0), (1,0,0,0) and (0,1,0,0), and
the particle spawn step uses M: all give the same result as if GetTransform had been
called first. (They read the cached matrix without looking at the flag; while the flag is
true that matrix is the one of the last update.) -/
theorem C30_clean_matrix_read (mx : Maths) (fuel : Nat) (s : Scene) (n : Ptr)
    (safeNormalize : Vec3 → Vec3) (h : (s n).mTransformDirty = false) :
    ∃ M, GetTransform mx fuel s n = some (M, s)
      ∧ GetForwardVector safeNormalize s n
          = safeNormalize (xyz (Matrix.mulVec M ![0, 0, -1, 0]))
      ∧ GetRightVector safeNormalize s n = safeNormalize (xyz (Matrix.mulVec M ![1, 0, 0, 0]))
      ∧ GetUpVector safeNormalize s n = safeNormalize (xyz (Matrix.mulVec M ![0, 1, 0, 0]))
      ∧ (GetTransform mx fuel s n).map (fun r =>
            (GetForwardVector safeNormalize r.2 n, GetRightVector safeNormalize r.2 n,
              GetUpVector safeNormalize r.2 n))
          = some (GetForwardVector safeNormalize s n, GetRightVector safeNormalize s n,
              GetUpVector safeNormalize s n)
      ∧ ∀ (env : ParticleEnv) (system : ParticleSystem) (c : ParticleComponent) (r : Nat),
          newParticle env system (componentAt s n c) r
              = newParticle env system { c with mTransform := M } r
            ∧ (GetTransform mx fuel s n).map
                (fun x => newParticle env system (componentAt x.2 n c) r)
              = some (newParticle env system (componentAt s n c) r) := by
  have hg : GetTransform mx fuel s n = some ((s n).mTransform, s) :=
    GetTransformWith_clean _ h
  refine ⟨(s n).mTransform, hg, rfl, rfl, rfl, ?_, fun env system c r => ⟨rfl, ?_⟩⟩
  · rw [hg]
    rfl
  · rw [hg]
    rfl

/-- Witness for C30: node 0 of `mirroredSettled` is clean; its forward vector (with the
identity in place of the normalization) is (0,0,1), before and after GetTransform. -/
theorem C30_clean_matrix_read_witness :
    (mirroredSettled 0).mTransformDirty = false
      ∧ GetForwardVector id mirroredSettled 0 = ⟨0, 0, 1⟩
      ∧ (GetTransform sampleMaths 0 mirroredSettled 0).map
          (fun r => GetForwardVector id r.2 0) = some ⟨0, 0, 1⟩ := by
  obtain ⟨M, hM, hf, -, -, -, -⟩ :=
    C30_clean_matrix_read sampleMaths 0 mirroredSettled 0 id (by decide!)
  have hv : GetForwardVector id mirroredSettled 0 = ⟨0, 0, 1⟩ := by decide!
  refine ⟨by decide!, hv, ?_⟩
  rw [hM]
  exact congrArg some hv

/-! ## C37: the axes of the six axis-aligned orientations -/

/-- The product `glm::dot(a, b)`. -/
def dot3 (a b : Vec3) : ℚ := a.x * b.x + a.y * b.y + a.z * b.z

/-- The product `glm::cross(a, b)`. -/
def cross3 (a b : Vec3) : Vec3 :=
  ⟨a.y * b.z - a.z * b.y, a.z * b.x - a.x * b.z, a.x * b.y - a.y * b.x⟩

/-- The vector `-a`. -/
def neg3 (a : Vec3) : Vec3 := ⟨-a.x, -a.y, -a.z⟩

/-- The vector is one of the six unit vectors along a coordinate axis. -/
def IsUnitAxis (a : Vec3) : Prop :=
  a = ⟨1, 0, 0⟩ ∨ a = ⟨-1, 0, 0⟩ ∨ a = ⟨0, 1, 0⟩ ∨ a = ⟨0, -1, 0⟩ ∨ a = ⟨0, 0, 1⟩
    ∨ a = ⟨0, 0, -1⟩

/-- A triple (right, up, forward) of unit axis vectors that are pairwise orthogonal and
satisfy cross(right, up) = -forward. -/
def HandedAxes (a : Vec3 × Vec3 × Vec3) : Prop :=
  IsUnitAxis a.1 ∧ IsUnitAxis a.2.1 ∧ IsUnitAxis a.2.2
    ∧ dot3 a.1 a.2.1 = 0 ∧ dot3 a.1 a.2.2 = 0 ∧ dot3 a.2.1 a.2.2 = 0
    ∧ cross3 a.1 a.2.1 = neg3 a.2.2

instance (a : Vec3) : Decidable (IsUnitAxis a) := by
  unfold IsUnitAxis
  infer_instance

instance (a : Vec3 × Vec3 × Vec3) : Decidable (HandedAxes a) := by
  unfold HandedAxes
  infer_instance

/-- C37: for each of the orientations X, Y, Z, -X, -Y and -Z, the right, up and forward
vectors that UpdateVertexBuffer selects are unit axis vectors, pairwise orthogonal, with
cross(right, up) = -forward, whatever the view matrix and the rotation helper are. -/
theorem C37_axis_orientations_handed (env : VertexEnv) :
    HandedAxes (orientationAxes env ParticleOrientation.X)
      ∧ HandedAxes (orientationAxes env ParticleOrientation.Y)
      ∧ HandedAxes (orientationAxes env ParticleOrientation.Z)
      ∧ HandedAxes (orientationAxes env ParticleOrientation.NX)
      ∧ HandedAxes (orientationAxes env ParticleOrientation.NY)
      ∧ HandedAxes (orientationAxes env ParticleOrientation.NZ) := by
  have hx : HandedAxes ((⟨0, 0, -1⟩ : Vec3), (⟨0, 1, 0⟩ : Vec3), (⟨-1, 0, 0⟩ : Vec3)) := by
    decide!
  have hy : HandedAxes ((⟨1, 0, 0⟩ : Vec3), (⟨0, 0, -1⟩ : Vec3), (⟨0, -1, 0⟩ : Vec3)) := by
    decide!
  have hz : HandedAxes ((⟨1, 0, 0⟩ : Vec3), (⟨0, 1, 0⟩ : Vec3), (⟨0, 0, -1⟩ : Vec3)) := by
    decide!
  have hnx : HandedAxes ((⟨0, 0, 1⟩ : Vec3), (⟨0, 1, 0⟩ : Vec3), (⟨1, 0, 0⟩ : Vec3)) := by
    decide!
  have hny : HandedAxes ((⟨-1, 0, 0⟩ : Vec3), (⟨0, 0, -1⟩ : Vec3), (⟨0, 1, 0⟩ : Vec3)) := by
    decide!
  have hnz : HandedAxes ((⟨-1, 0, 0⟩ : Vec3), (⟨0, 1, 0⟩ : Vec3), (⟨0, 0, 1⟩ : Vec3)) := by
    decide!
  exact ⟨hx, hy, hz, hnx, hny, hnz⟩

/-! ## C34: color bytes and the packed color -/

theorem glmClamp_bounds (x lo hi : ℚ) (h : lo ≤ hi) :
    lo ≤ glmClamp x lo hi ∧ glmClamp x lo hi ≤ hi := by
  unfold glmClamp
  exact ⟨le_min (le_max_right _ _) h, min_le_right _ _⟩

theorem colorByte_eq (channel : ℚ) :
    colorByte channel = ⌊glmClamp (channel * 255) 0 255⌋.toNat ∧ colorByte channel ≤ 255 := by
  obtain ⟨h0, h1⟩ := glmClamp_bounds (channel * 255) 0 255 (by norm_num)
  have hf0 : 0 ≤ ⌊glmClamp (channel * 255) 0 255⌋ := Int.floor_nonneg.2 h0
  have hf1 : ⌊glmClamp (channel * 255) 0 255⌋ ≤ 255 := by
    have : ⌊glmClamp (channel * 255) 0 255⌋ ≤ ⌊(255 : ℚ)⌋ := Int.floor_mono h1
    simpa using this
  have ht : truncToInt32 (glmClamp (channel * 255) 0 255)
      = ⌊glmClamp (channel * 255) 0 255⌋ :=
    truncToInt32_floor h0 (lt_of_le_of_lt h1 (by norm_num))
  unfold colorByte toUint8
  rw [ht]
  constructor
  · congr 1
    omega
  · omega

theorem packColor_sum (c0 c1 c2 c3 : Nat) (h0 : c0 ≤ 255) (h1 : c1 ≤ 255) (h2 : c2 ≤ 255)
    (h3 : c3 ≤ 255) :
    packColor c0 c1 c2 c3 = c0 + c1 * 2 ^ 8 + c2 * 2 ^ 16 + c3 * 2 ^ 24 := by
  have e1 : c0 ||| (c1 <<< 8) = c1 * 2 ^ 8 + c0 := by
    rw [Nat.shiftLeft_eq, Nat.lor_comm, Nat.mul_comm c1,
      ← Nat.mul_add_lt_is_or (by omega : c0 < 2 ^ 8)]
  have e2 : (c1 * 2 ^ 8 + c0) ||| (c2 <<< 16) = c2 * 2 ^ 16 + (c1 * 2 ^ 8 + c0) := by
    rw [Nat.shiftLeft_eq, Nat.lor_comm, Nat.mul_comm c2,
      ← Nat.mul_add_lt_is_or (by omega : c1 * 2 ^ 8 + c0 < 2 ^ 16)]
  have e3 : (c2 * 2 ^ 16 + (c1 * 2 ^ 8 + c0)) ||| (c3 <<< 24)
      = c3 * 2 ^ 24 + (c2 * 2 ^ 16 + (c1 * 2 ^ 8 + c0)) := by
    rw [Nat.shiftLeft_eq, Nat.lor_comm, Nat.mul_comm c3,
      ← Nat.mul_add_lt_is_or (by omega : c2 * 2 ^ 16 + (c1 * 2 ^ 8 + c0) < 2 ^ 24)]
  unfold packColor
  rw [e1, e2, e3]
  omega

/-- C34: for every color (r,g,b,a), each channel is converted to the byte
trunc(clamp(channel * 255, 0, 255)), which is the floor of the clamped value and lies in
0..255 (it is 0 for a channel <= 0 and 255 for a channel >= 1); the packed color is
R | G<<8 | B<<16 | A<<24 modulo 2^32, which is R + 2^8 G + 2^16 B + 2^24 A, and byte k of
the packed value is the byte of channel k. -/
theorem C34_color_packing (r g b a : ℚ) :
    (∀ channel : ℚ,
        colorByte channel = ⌊glmClamp (channel * 255) 0 255⌋.toNat
          ∧ (colorByte channel : Int) = truncToInt32 (glmClamp (channel * 255) 0 255)
          ∧ colorByte channel ≤ 255
          ∧ (channel ≤ 0 → colorByte channel = 0)
          ∧ (1 ≤ channel → colorByte channel = 255))
      ∧ packColor (colorByte r) (colorByte g) (colorByte b) (colorByte a)
          = (colorByte r ||| (colorByte g <<< 8) ||| (colorByte b <<< 16)
              ||| (colorByte a <<< 24)) % 2 ^ 32
      ∧ packColor (colorByte r) (colorByte g) (colorByte b) (colorByte a)
          = colorByte r + colorByte g * 2 ^ 8 + colorByte b * 2 ^ 16 + colorByte a * 2 ^ 24
      ∧ packColor (colorByte r) (colorByte g) (colorByte b) (colorByte a) % 256 = colorByte r
      ∧ (packColor (colorByte r) (colorByte g) (colorByte b) (colorByte a) >>> 8) % 256
          = colorByte g
      ∧ (packColor (colorByte r) (colorByte g) (colorByte b) (colorByte a) >>> 16) % 256
          = colorByte b
      ∧ (packColor (colorByte r) (colorByte g) (colorByte b) (colorByte a) >>> 24) % 256
          = colorByte a := by
  have hs := packColor_sum (colorByte r) (colorByte g) (colorByte b) (colorByte a)
    (colorByte_eq r).2 (colorByte_eq g).2 (colorByte_eq b).2 (colorByte_eq a).2
  have hr := (colorByte_eq r).2
  have hg := (colorByte_eq g).2
  have hb := (colorByte_eq b).2
  have ha := (colorByte_eq a).2
  refine ⟨fun channel => ?_, rfl, hs, ?_, ?_, ?_, ?_⟩
  · obtain ⟨h0, h1⟩ := glmClamp_bounds (channel * 255) 0 255 (by norm_num)
    have ht : truncToInt32 (glmClamp (channel * 255) 0 255)
        = ⌊glmClamp (channel * 255) 0 255⌋ :=
      truncToInt32_floor h0 (lt_of_le_of_lt h1 (by norm_num))
    refine ⟨(colorByte_eq channel).1, ?_, (colorByte_eq channel).2, fun hle => ?_, fun hge => ?_⟩
    · rw [(colorByte_eq channel).1, ht]
      exact Int.toNat_of_nonneg (Int.floor_nonneg.2 h0)
    · have hc : glmClamp (channel * 255) 0 255 = 0 := by
        unfold glmClamp
        rw [max_eq_right (by nlinarith), min_eq_left (by norm_num)]
      rw [(colorByte_eq channel).1, hc]
      simp
    · have hc : glmClamp (channel * 255) 0 255 = 255 := by
        unfold glmClamp
        rw [max_eq_left (by nlinarith), min_eq_right (by nlinarith)]
      rw [(colorByte_eq channel).1, hc]
      have : ⌊(255 : ℚ)⌋ = 255 := by norm_num
      rw [this]
      rfl
  · rw [hs]
    omega
  · rw [hs, Nat.shiftRight_eq_div_pow]
    omega
  · rw [hs, Nat.shiftRight_eq_div_pow]
    omega
  · rw [hs, Nat.shiftRight_eq_div_pow]
    omega

/-! ## The parts of a quad -/

/-- The value of `scale` after `glm::mix(params.mScaleStart, params.mScaleEnd, life)`. -/
def mixedScale (params : ParticleParams) (life : ℚ) : Vec2 :=
  ⟨glmMix params.mScaleStart.x params.mScaleEnd.x life,
    glmMix params.mScaleStart.y params.mScaleEnd.y life⟩

/-- The value of `color` after `glm::mix(params.mColorStart, params.mColorEnd, life)`. -/
def mixedColor (params : ParticleParams) (life : ℚ) : Vec4 :=
  ⟨glmMix params.mColorStart.r params.mColorEnd.r life,
    glmMix params.mColorStart.g params.mColorEnd.g life,
    glmMix params.mColorStart.b params.mColorEnd.b life,
    glmMix params.mColorStart.a params.mColorEnd.a life⟩

/-- The value of `scale` after the block `if (scaleEase > 0.0f)`. -/
def shapedScale (params : ParticleParams) (life : ℚ) : Vec2 :=
  if params.mScaleEase > 0 then
    ⟨glmMix 0 (mixedScale params life).x (easePower params.mScaleEase life),
      glmMix 0 (mixedScale params life).y (easePower params.mScaleEase life)⟩
  else mixedScale params life

/-- The value of `color.a` after the block `if (alphaEase > 0.0f)`. -/
def shapedAlpha (params : ParticleParams) (life : ℚ) : ℚ :=
  if params.mAlphaEase > 0 then
    glmMix 0 (mixedColor params life).a (easePower params.mAlphaEase life)
  else (mixedColor params life).a

/-- The value of `halfSize`: `mSize * scale * 0.5f`. -/
def quadHalfSize (params : ParticleParams) (p : Particle) (life : ℚ) : Vec2 :=
  ⟨p.mSize.x * (shapedScale params life).x * (1 / 2),
    p.mSize.y * (shapedScale params life).y * (1 / 2)⟩

/-- The value of `color32`. -/
def quadColor (params : ParticleParams) (life : ℚ) : Nat :=
  packColor (colorByte (mixedColor params life).r) (colorByte (mixedColor params life).g)
    (colorByte (mixedColor params life).b) (colorByte (shapedAlpha params life))

/-- The value of `rightAxis` when the vertices are written. -/
def quadRight (env : VertexEnv) (c : ParticleComponent) (p : Particle) : Vec3 :=
  let axes := orientationAxes env c.mOrientation
  let rightAxis := env.rotate axes.1 p.mRotation axes.2.2
  if c.mUseLocalSpace && decide (c.mOrientation = ParticleOrientation.Billboard) then
    axisTimesMatrix rightAxis c.mTransform
  else rightAxis

/-- The value of `upAxis` when the vertices are written. -/
def quadUp (env : VertexEnv) (c : ParticleComponent) (p : Particle) : Vec3 :=
  let axes := orientationAxes env c.mOrientation
  let upAxis := env.rotate axes.2.1 p.mRotation axes.2.2
  if c.mUseLocalSpace && decide (c.mOrientation = ParticleOrientation.Billboard) then
    axisTimesMatrix upAxis c.mTransform
  else upAxis

theorem quadAt_eq (env : VertexEnv) (params : ParticleParams) (c : ParticleComponent)
    (p : Particle) (life : ℚ) :
    quadAt env params c p life
      = quadVertices p.mPosition (quadRight env c p) (quadUp env c p)
          (quadHalfSize params p life) (quadColor params life) := rfl

/-! ## C32: the ease factor -/

/-- C32: for every ease amount e > 0 and every life fraction (in [0,1] or not), the factor
`easePower e life` by which the scale and the alpha are blended from zero is
clamp((1 - 2*|life - 1/2|) / (2*e), 0, 1); it lies in [0,1], is 0 at life 0 and at life 1,
takes the same value at life and 1 - life, and is largest at life 1/2. With scale ease
(resp. alpha ease) e the shaped scale (resp. alpha) is the interpolated one times this
factor; when the ease amount is <= 0 the interpolated scale (resp. alpha) is used as it
is. -/
theorem C32_ease_factor (e life : ℚ) (he : 0 < e) :
    easePower e life = glmClamp ((1 - 2 * |life - 1 / 2|) / (2 * e)) 0 1
      ∧ 0 ≤ easePower e life ∧ easePower e life ≤ 1
      ∧ easePower e 0 = 0 ∧ easePower e 1 = 0
      ∧ easePower e (1 - life) = easePower e life
      ∧ easePower e life ≤ easePower e (1 / 2)
      ∧ (∀ params : ParticleParams, params.mScaleEase = e →
          shapedScale params life
            = ⟨(mixedScale params life).x * easePower e life,
                (mixedScale params life).y * easePower e life⟩)
      ∧ (∀ params : ParticleParams, params.mAlphaEase = e →
          shapedAlpha params life = (mixedColor params life).a * easePower e life)
      ∧ (∀ params : ParticleParams, params.mScaleEase ≤ 0 →
          shapedScale params life = mixedScale params life)
      ∧ (∀ params : ParticleParams, params.mAlphaEase ≤ 0 →
          shapedAlpha params life = (mixedColor params life).a) := by
  have hval : ∀ l : ℚ, easePower e l = glmClamp ((1 - 2 * |l - 1 / 2|) / (2 * e)) 0 1 := by
    intro l
    unfold easePower invEase2 easeX
    rw [if_pos (ne_of_gt he)]
    congr 1
    field_simp
  have hmono : ∀ x y : ℚ, x ≤ y → glmClamp x 0 1 ≤ glmClamp y 0 1 := by
    intro x y hxy
    unfold glmClamp
    exact min_le_min (max_le_max hxy le_rfl) le_rfl
  have hzero : glmClamp ((1 - 2 * |(0 : ℚ) - 1 / 2|) / (2 * e)) 0 1 = 0 := by
    have : |(0 : ℚ) - 1 / 2| = 1 / 2 := by
      rw [abs_of_nonpos (by norm_num)]
      norm_num
    rw [this]
    norm_num [glmClamp]
  have hone : glmClamp ((1 - 2 * |(1 : ℚ) - 1 / 2|) / (2 * e)) 0 1 = 0 := by
    have : |(1 : ℚ) - 1 / 2| = 1 / 2 := by
      rw [abs_of_nonneg (by norm_num)]
      norm_num
    rw [this]
    norm_num [glmClamp]
  refine ⟨hval life, (glmClamp_bounds _ 0 1 (by norm_num)).1,
    (glmClamp_bounds _ 0 1 (by norm_num)).2, ?_, ?_, ?_, ?_, ?_, ?_, ?_, ?_⟩
  · rw [hval, hzero]
  · rw [hval, hone]
  · rw [hval, hval]
    have : |1 - life - 1 / 2| = |life - 1 / 2| := by
      rw [← abs_neg]
      congr 1
      ring
    rw [this]
  · rw [hval, hval]
    apply hmono
    have h2e : 0 < 2 * e := by linarith
    apply div_le_div_of_nonneg_right _ h2e.le
    have : 0 ≤ |life - 1 / 2| := abs_nonneg _
    have h5 : |(1 / 2 : ℚ) - 1 / 2| = 0 := by norm_num
    rw [h5]
    linarith
  · intro params hp
    unfold shapedScale
    rw [hp, if_pos he]
    simp [glmMix]
  · intro params hp
    unfold shapedAlpha
    rw [hp, if_pos he]
    simp [glmMix]
  · intro params hp
    unfold shapedScale
    rw [if_neg (not_lt.2 hp)]
  · intro params hp
    unfold shapedAlpha
    rw [if_neg (not_lt.2 hp)]

/-- Witness for C32: with ease amount 1 the factor at life 1/4 is 1/4; it is at most the
factor at life 1/2 and equal to the factor at life 3/4. -/
theorem C32_ease_factor_witness :
    easePower 1 (1 / 4) = 1 / 4 ∧ easePower 1 (1 / 4) ≤ easePower 1 (1 / 2)
      ∧ easePower 1 (1 - 1 / 4) = easePower 1 (1 / 4) :=
  have h := C32_ease_factor 1 (1 / 4) (by decide!)
  ⟨h.1.trans (by decide!), h.2.2.2.2.2.2.1, h.2.2.2.2.2.1⟩

/-! ## C31: the four vertices of a particle -/

theorem lifeFraction_some (p : Particle) (h : p.mLifetime ≠ 0) :
    lifeFraction p = some (p.mElapsedTime / p.mLifetime) := by
  simp [lifeFraction, h]

theorem buildVertices_spec (env : VertexEnv) (params : ParticleParams) (c : ParticleComponent) :
    ∀ ps : List Particle, (∀ p ∈ ps, p.mLifetime ≠ 0) →
      ∃ vs, buildVertices env params c ps = some vs ∧ vs.length = 4 * ps.length
        ∧ ∀ i p, ps[i]? = some p →
            (vs.drop (4 * i)).take 4
              = quadAt env params c p (p.mElapsedTime / p.mLifetime) := by
  intro ps
  induction ps with
  | nil =>
    intro _
    exact ⟨[], rfl, rfl, fun i p h => by simp at h⟩
  | cons q rest ih =>
    intro hl
    obtain ⟨vs, hvs, hlen, hquads⟩ := ih (fun p hp => hl p (List.mem_cons_of_mem q hp))
    have hq : particleQuad env params c q
        = some (quadAt env params c q (q.mElapsedTime / q.mLifetime)) := by
      rw [particleQuad, lifeFraction_some q (hl q (List.mem_cons_self q rest))]
      rfl
    have hql : (quadAt env params c q (q.mElapsedTime / q.mLifetime)).length = 4 := rfl
    refine ⟨quadAt env params c q (q.mElapsedTime / q.mLifetime) ++ vs, ?_, ?_, ?_⟩
    · rw [buildVertices, hq, hvs]
    · rw [List.length_append, hql, hlen, List.length_cons]
      ring
    · intro i p hp
      cases i with
      | zero =>
        simp only [List.getElem?_cons_zero, Option.some.injEq] at hp
        subst hp
        rw [Nat.mul_zero, List.drop_zero]
        exact List.take_left' hql
      | succ j =>
        simp only [List.getElem?_cons_succ] at hp
        have e : 4 * (j + 1) = (quadAt env params c q (q.mElapsedTime / q.mLifetime)).length
            + 4 * j := by rw [hql]; ring
        rw [e, List.drop_append]
        exact hquads j p hp

/-- C31: when UpdateVertexBuffer runs (particle system present, frame flag clear, 4n
within the range of uint32_t, every lifetime different from zero) on a pool of n
particles, it returns with exactly 4n vertices, and the vertices 4i..4i+3 of particle i,
with position c, axes r and u, half size (hw, hh) = size * scale / 2 and packed color k,
are c - r*hw + u*hh with texcoord (0,0), c - r*hw - u*hh with (0,1), c + r*hw + u*hh with
(1,0) and c + r*hw - u*hh with (1,1), all with color k; the four positions add up to
4c. -/
theorem C31_quad_vertices (env : VertexEnv) (c : ParticleComponent) (system : ParticleSystem)
    (hs : c.mParticleSystem = some system) (hf : c.mHasUpdatedVerticesThisFrame = false)
    (hn : c.mParticles.length * 4 < 2 ^ 32) (hl : ∀ p ∈ c.mParticles, p.mLifetime ≠ 0) :
    ∃ c2, UpdateVertexBuffer env c = some c2
      ∧ c2.mVertices.length = 4 * c.mParticles.length
      ∧ c2.mParticles = c.mParticles
      ∧ c2.mHasUpdatedVerticesThisFrame = true
      ∧ (∀ i p, c.mParticles[i]? = some p →
          (c2.mVertices.drop (4 * i)).take 4
            = quadVertices p.mPosition (quadRight env c p) (quadUp env c p)
                (quadHalfSize system.params p (p.mElapsedTime / p.mLifetime))
                (quadColor system.params (p.mElapsedTime / p.mLifetime)))
      ∧ (∀ (p : Particle) (life : ℚ),
          quadHalfSize system.params p life
            = ⟨p.mSize.x * (shapedScale system.params life).x * (1 / 2),
                p.mSize.y * (shapedScale system.params life).y * (1 / 2)⟩)
      ∧ ∀ (pos r u : Vec3) (half : Vec2) (k : Nat),
          quadVertices pos r u half k
              = [{ mPosition := ⟨pos.x - r.x * half.x + u.x * half.y,
                      pos.y - r.y * half.x + u.y * half.y,
                      pos.z - r.z * half.x + u.z * half.y⟩
                   mTexcoord := ⟨0, 0⟩
                   mColor := k },
                 { mPosition := ⟨pos.x - r.x * half.x - u.x * half.y,
                      pos.y - r.y * half.x - u.y * half.y,
                      pos.z - r.z * half.x - u.z * half.y⟩
                   mTexcoord := ⟨0, 1⟩
                   mColor := k },
                 { mPosition := ⟨pos.x + r.x * half.x + u.x * half.y,
                      pos.y + r.y * half.x + u.y * half.y,
                      pos.z + r.z * half.x + u.z * half.y⟩
                   mTexcoord := ⟨1, 0⟩
                   mColor := k },
                 { mPosition := ⟨pos.x + r.x * half.x - u.x * half.y,
                      pos.y + r.y * half.x - u.y * half.y,
                      pos.z + r.z * half.x - u.z * half.y⟩
                   mTexcoord := ⟨1, 1⟩
                   mColor := k }]
            ∧ ((quadVertices pos r u half k).map fun v => v.mPosition.x).sum = 4 * pos.x
            ∧ ((quadVertices pos r u half k).map fun v => v.mPosition.y).sum = 4 * pos.y
            ∧ ((quadVertices pos r u half k).map fun v => v.mPosition.z).sum = 4 * pos.z := by
  obtain ⟨vs, hvs, hlen, hquads⟩ := buildVertices_spec env system.params c c.mParticles hl
  refine ⟨{ c with mVertices := vs, mHasUpdatedVerticesThisFrame := true }, ?_, hlen, rfl, rfl,
    ?_, fun p life => rfl, fun pos r u half k => ⟨rfl, ?_, ?_, ?_⟩⟩
  · simp only [UpdateVertexBuffer, hs, hf, Bool.false_eq_true, if_false, if_pos hn, hvs,
      Option.map_some']
  · intro i p hp
    rw [← quadAt_eq]
    exact hquads i p hp
  · simp only [quadVertices, List.map_cons, List.map_nil, List.sum_cons, List.sum_nil]
    ring
  · simp only [quadVertices, List.map_cons, List.map_nil, List.sum_cons, List.sum_nil]
    ring
  · simp only [quadVertices, List.map_cons, List.map_nil, List.sum_cons, List.sum_nil]
    ring

/-- Witness for C31: the one particle of `agingComponent` (at the origin, size 1, scale
1) gives four vertices. -/
theorem C31_quad_vertices_witness :
    (UpdateVertexBuffer sampleVertexEnv agingComponent).map (fun c => c.mVertices.length)
      = some 4 := by
  obtain ⟨c2, h, hlen, -⟩ := C31_quad_vertices sampleVertexEnv agingComponent sampleSystem
    rfl rfl (by decide) (by decide!)
  rw [h, Option.map_some', hlen]
  rfl

/-! ## C33: the life fraction -/

/-- A system whose particles are drawn with lifetime 0. -/
def zeroLifeSystem : ParticleSystem :=
  { sampleSystem with params := { sampleParams with mLifetimeMin := 0, mLifetimeMax := 0 } }

/-- C33 (as stated, refuted): a frame of 0.1 s on a fresh emitter whose system draws the
lifetime 0 leaves a particle of lifetime 0 in the pool; its life fraction is the
unguarded quotient 0/0, not a finite number, and UpdateVertexBuffer does not produce
finite vertices. And the particle of `agingComponent` (lifetime 1), ticked once with
dt = 2, is in the pool with life fraction 2, outside [0,1]. -/
theorem C33_life_fraction_counterexample :
    (Simulate sampleEnv (freshEmitter zeroLifeSystem) (1 / 10)).mParticles.map
        (fun p => (p.mElapsedTime, p.mLifetime, lifeFraction p)) = [(0, 0, none)]
      ∧ (UpdateVertexBuffer sampleVertexEnv
          (Simulate sampleEnv (freshEmitter zeroLifeSystem) (1 / 10))).isNone = true
      ∧ (Simulate sampleEnv agingComponent 2).mParticles.map lifeFraction = [some 2] := by
  decide!

/-- C33 (amended): UpdateVertexBuffer computes the life fraction as the plain quotient
elapsed / lifetime; it is a finite number exactly when the lifetime is not zero. For a
particle that is in the pool with elapsed >= 0 before an executing tick with effective
step h >= 0 and survives the tick, the lifetime is positive and the life fraction after
the tick is (elapsed + h) / lifetime, which is >= 0 and below 1 + h / lifetime; it is at
most 1 exactly when elapsed + h <= lifetime. -/
theorem C33_survivor_life_fraction (env : ParticleEnv) (c : ParticleComponent) (dt : ℚ)
    (system : ParticleSystem) (hg : c.mHasSimulatedThisFrame = false) (ha : c.mActive = true)
    (hen : c.mEnableSimulation = true) (hs : c.mParticleSystem = some system)
    (hl : c.mParticles.length < 2 ^ 31) (i : Nat) (p : Particle)
    (hp : (c.mParticles.filter alive)[i]? = some p) (hp0 : 0 ≤ p.mElapsedTime)
    (hh : 0 ≤ dt * c.mTimeMultiplier) :
    (∀ q : Particle, (lifeFraction q).isSome = true ↔ q.mLifetime ≠ 0)
      ∧ ∃ p2, (Simulate env c dt).mParticles[i]? = some p2
        ∧ 0 < p2.mLifetime
        ∧ lifeFraction p2 = some ((p.mElapsedTime + dt * c.mTimeMultiplier) / p.mLifetime)
        ∧ 0 ≤ (p.mElapsedTime + dt * c.mTimeMultiplier) / p.mLifetime
        ∧ (p.mElapsedTime + dt * c.mTimeMultiplier) / p.mLifetime
            < 1 + dt * c.mTimeMultiplier / p.mLifetime
        ∧ ((p.mElapsedTime + dt * c.mTimeMultiplier) / p.mLifetime ≤ 1
            ↔ p.mElapsedTime + dt * c.mTimeMultiplier ≤ p.mLifetime) := by
  obtain ⟨new, hpool, -⟩ := simulate_pool env c dt system hg ha hen hs hl
  have hi : i < (c.mParticles.filter alive).length := by
    by_contra hge
    rw [List.getElem?_eq_none (not_lt.1 hge)] at hp
    exact Option.noConfusion hp
  have hmem : p ∈ c.mParticles.filter alive := by
    rw [List.getElem?_eq_getElem hi, Option.some.injEq] at hp
    rw [← hp]
    exact List.getElem_mem _
  have hlive : p.mElapsedTime < p.mLifetime := by
    have := (List.mem_filter.1 hmem).2
    simpa [alive] using this
  have hL : 0 < p.mLifetime := lt_of_le_of_lt hp0 hlive
  refine ⟨fun q => ?_, stepParticle system.params.mAcceleration (dt * c.mTimeMultiplier) p,
    ?_, hL, ?_, ?_, ?_, ?_⟩
  · unfold lifeFraction
    by_cases hq : q.mLifetime = 0 <;> simp [hq]
  · rw [hpool, List.getElem?_append_left (by rw [List.length_map]; exact hi),
      List.getElem?_map, hp]
    rfl
  · exact lifeFraction_some _ (ne_of_gt hL)
  · exact div_nonneg (by linarith) hL.le
  · rw [add_div, add_lt_add_iff_right]
    exact (div_lt_one hL).2 hlive
  · exact div_le_one hL

/-- Witness for C33: the particle of `agingComponent` (age 0, lifetime 1) after a tick of
0.5 s has life fraction 1/2. -/
theorem C33_survivor_life_fraction_witness :
    ∃ p2, (Simulate sampleEnv agingComponent (1 / 2)).mParticles[0]? = some p2
      ∧ lifeFraction p2 = some (1 / 2) := by
  obtain ⟨-, p2, h1, -, h2, -, -, -⟩ :=
    C33_survivor_life_fraction sampleEnv agingComponent (1 / 2) sampleSystem rfl rfl rfl rfl
      (by decide) 0
      { mPosition := ⟨0, 0, 0⟩, mVelocity := ⟨0, 0, 0⟩, mSize := ⟨1, 1⟩, mElapsedTime := 0,
        mLifetime := 1, mRotation := 0, mRotationSpeed := 0 } (by decide!) (by decide!)
      (by decide!)
  exact ⟨p2, h1, h2.trans (by decide!)⟩

/-! ## C38: `Node::SaveStream` and `Node::LoadStream` -/

/-- A value written to a `Stream`. The class `Stream` is declared outside the sources; a
stream is modelled by the sequence of the values written to it, which are read back in
the same order. -/
inductive StreamItem where
  | text (s : String)
  | flag (b : Bool)
  | byte (n : Nat)
deriving DecidableEq

/-- The fields of a `Node` that `SaveStream` and `LoadStream` touch. -/
structure NodeRecord where
  mName : String
  mActive : Bool
  mVisible : Bool
  mTags : List String
  mReplicate : Bool
  mReplicateTransform : Bool
deriving DecidableEq

/-- The call `stream.ReadString(out)`: the next value, when it is a string. -/
def ReadString : List StreamItem → Option (String × List StreamItem)
  | StreamItem.text s :: rest => some (s, rest)
  | _ => none

/-- The call `stream.ReadBool()`: the next value, when it is a boolean. -/
def ReadBool : List StreamItem → Option (Bool × List StreamItem)
  | StreamItem.flag b :: rest => some (b, rest)
  | _ => none

/-- The method `Node::SaveStream` (with the debug assertion compiled out): the values it
appends to the stream. -/
def SaveStream (node : NodeRecord) (stream : List StreamItem) : List StreamItem :=
  let numTags := min (node.mTags.length % 2 ^ 32) 255
  stream ++ [StreamItem.text node.mName, StreamItem.flag node.mActive,
      StreamItem.flag node.mVisible, StreamItem.byte numTags]
    ++ (node.mTags.take numTags).map StreamItem.text
    ++ [StreamItem.flag node.mReplicate, StreamItem.flag node.mReplicateTransform]

/-- The method `Node::LoadStream`, that is the branch `#if 1` that is compiled: the node
after the call and the part of the stream that is left; `none` when the next values are
not a string and two booleans. -/
def LoadStream (node : NodeRecord) (stream : List StreamItem) :
    Option (NodeRecord × List StreamItem) :=
  (ReadString stream).bind fun r1 =>
  (ReadBool r1.2).bind fun r2 =>
  (ReadBool r2.2).map fun r3 =>
    ({ node with mName := r1.1, mActive := r2.1, mVisible := r3.1 }, r3.2)

/-- A node named "Lamp", inactive, visible, with the tag "light" and both replication
flags set. -/
def savedNode : NodeRecord where
  mName := "Lamp"
  mActive := false
  mVisible := true
  mTags := ["light"]
  mReplicate := true
  mReplicateTransform := true

/-- A node with no tags and both replication flags clear, into which a stream is
loaded. -/
def blankNode : NodeRecord where
  mName := "Node"
  mActive := true
  mVisible := true
  mTags := []
  mReplicate := false
  mReplicateTransform := false

/-- C38 (as stated, refuted): loading what SaveStream wrote for `savedNode` into
`blankNode` does not give back the saved node with the stream used up: the name and the
active and visible flags are restored, the tags stay empty and both replication flags stay
false, and four of the values written (the tag count, the tag and the two replication
flags) are left unread, so that the next read starts at the tag count. -/
theorem C38_tags_not_restored_counterexample :
    LoadStream blankNode (SaveStream savedNode []) ≠ some (savedNode, [])
      ∧ LoadStream blankNode (SaveStream savedNode [])
        = some ({ mName := "Lamp", mActive := false, mVisible := true, mTags := [],
                  mReplicate := false, mReplicateTransform := false },
            [StreamItem.byte 1, StreamItem.text "light", StreamItem.flag true,
              StreamItem.flag true]) := by
  decide

/-- C38 (amended): LoadStream reads three values, a string and two booleans, into the
name and the active and visible flags, leaves every other field of the loading node as it
was and leaves the stream right after the third value. On what SaveStream wrote for a
node `saved`, followed by any further values, it therefore restores the name and the two
flags of `saved`, keeps the tags and the replication flags of the loading node, and the
next read starts at the tag count that SaveStream wrote (the number of tags, at most 255),
followed by that many tags, the two replication flags and the further values. -/
theorem C38_load_restores_first_three (saved target : NodeRecord)
    (tail : List StreamItem) :
    (∀ (name : String) (active visible : Bool),
        LoadStream target
            (StreamItem.text name :: StreamItem.flag active :: StreamItem.flag visible
              :: tail)
          = some ({ target with mName := name, mActive := active, mVisible := visible },
              tail))
      ∧ LoadStream target (SaveStream saved [] ++ tail)
        = some ({ mName := saved.mName, mActive := saved.mActive,
                  mVisible := saved.mVisible, mTags := target.mTags,
                  mReplicate := target.mReplicate,
                  mReplicateTransform := target.mReplicateTransform },
            StreamItem.byte (min (saved.mTags.length % 2 ^ 32) 255)
              :: ((saved.mTags.take (min (saved.mTags.length % 2 ^ 32) 255)).map
                    StreamItem.text
                  ++ [StreamItem.flag saved.mReplicate,
                      StreamItem.flag saved.mReplicateTransform] ++ tail)) := by
  refine ⟨fun name active visible => rfl, ?_⟩
  simp [LoadStream, SaveStream, ReadString, ReadBool]

/-! ## C39: `Node::FindParentNodeIndex` -/

/-- The method `Node::FindParentNodeIndex`: the loop runs over the child list of the
parent and compares each entry with `mParent`; the first index found is returned as an
`int32_t`. -/
def FindParentNodeIndex (s : Scene) (n : Ptr) : Int :=
  match (s n).mParent with
  | none => -1
  | some p =>
    if p ∈ (s p).mChildren then toInt32 ((s p).mChildren.indexOf p) else -1

theorem familyScene_irreflexive : ∀ m, m ∉ (familyScene m).mChildren := by
  intro m
  unfold familyScene
  split_ifs <;> simp_all [Node3D.new]

/-- C39: in every scene in which no node occurs in its own child list,
FindParentNodeIndex returns -1 for every node, with or without a parent: the loop looks
for the parent in the parent's own child list, so the position of the node in that list
is never returned. -/
theorem C39_FindParentNodeIndex_minus_one (s : Scene) (h : ∀ m, m ∉ (s m).mChildren)
    (n : Ptr) : FindParentNodeIndex s n = -1 := by
  unfold FindParentNodeIndex
  cases hp : (s n).mParent with
  | none => rfl
  | some p => simp [h p]

/-- Witness for C39: in the tree 0 - 1 - (2, 3), node 3 has the parent 1 and is at index
1 of its child list, and FindParentNodeIndex returns -1 for it. -/
theorem C39_FindParentNodeIndex_minus_one_witness :
    (familyScene 3).mParent = some 1 ∧ (familyScene 1).mChildren.indexOf 3 = 1
      ∧ FindParentNodeIndex familyScene 3 = -1 :=
  ⟨rfl, rfl, C39_FindParentNodeIndex_minus_one familyScene familyScene_irreflexive 3⟩

/-! ## C36: parent pointers and child lists through `Attach` -/

/-- The consistency condition in the words of the specification: the parent of `m` is
`p` if and only if `m` occurs exactly once in the child list of `p`. -/
def LinksConsistent (s : Scene) : Prop :=
  ∀ m p, (s m).mParent = some p ↔ (s p).mChildren.count m = 1

theorem wellFormed_consistent {s : Scene} (hw : WellFormed s) : LinksConsistent s := by
  intro m p
  rw [hw.1 m p]
  constructor
  · intro h
    exact List.count_eq_one_of_mem (hw.2 p) h
  · intro h
    exact List.count_pos_iff.1 (by omega)

theorem wellFormed_absent {s : Scene} (hw : WellFormed s) {n q : Ptr}
    (h : (s n).mParent ≠ some q) : n ∉ (s q).mChildren :=
  fun hm => h ((hw.1 n q).2 hm)

theorem detachOld_children {mx : Maths} {f : Nat} {s t : Scene} {n : Ptr} {keep : Bool}
    (h : detachOld mx f s n keep = some t) (hw : WellFormed s) :
    ∀ q, (t q).mChildren = (s q).mChildren.erase n := by
  unfold detachOld at h
  cases hp : (s n).mParent with
  | none =>
    rw [hp] at h
    simp only [Option.some.injEq] at h
    subst h
    intro q
    rw [List.erase_of_not_mem (wellFormed_absent hw (by rw [hp]; simp))]
  | some old =>
    rw [hp] at h
    have key : ∀ u : Scene, WellFormed u → (u n).mParent = some old →
        ∀ q, (RemoveChild u old (some n) q).mChildren = (u q).mChildren.erase n := by
      intro u hu hpu q
      rw [RemoveChild_eq u old n ((hu.1 n old).1 hpu)]
      by_cases hq : q = old
      · subst hq
        simp only [modify_same]
        by_cases hqn : q = n
        · subst hqn
          simp
        · rw [modify_other _ _ hqn]
      · rw [modify_other _ _ hq]
        have hne : (u n).mParent ≠ some q := by
          rw [hpu]
          intro e
          exact hq (Option.some.inj e).symm
        rw [List.erase_of_not_mem (wellFormed_absent hu hne)]
        by_cases hqn : q = n
        · subst hqn
          simp
        · rw [modify_other _ _ hqn]
    cases keep with
    | false =>
      simp only [Bool.false_eq_true, if_false, Option.some.injEq] at h
      subst h
      exact key s hw hp
    | true =>
      simp only [if_true, Option.bind_eq_some] at h
      obtain ⟨r, hr, hset⟩ := h
      have hfr := GetTransform_frame hr
      have hw1 := frame_wellFormed hfr hw
      have hp1 : (r.2 n).mParent = some old := (hfr n).1.trans hp
      have hl := SetTransform_sameLinks hset
      intro q
      rw [(hl q).2.1, key r.2 hw1 hp1 q, (hfr q).2.1]

theorem attachNew_children {mx : Maths} {f : Nat} {s t : Scene} {n : Ptr}
    {parent : Option Ptr} {keep : Bool} (h : attachNew mx f s n parent keep = some t)
    (hw : WellFormed s) (hp : (s n).mParent = none) :
    ∀ q, (t q).mChildren
      = if parent = some q then (s q).mChildren ++ [n] else (s q).mChildren := by
  unfold attachNew at h
  cases parent with
  | none =>
    simp only [Option.some.injEq] at h
    subst h
    intro q
    simp
  | some p =>
    have key : ∀ u : Scene, WellFormed u → (u n).mParent = none →
        ∀ q, (AddChild u p (some n) q).mChildren
          = if some p = some q then (u q).mChildren ++ [n] else (u q).mChildren := by
      intro u hu hun q
      have hnm : n ∉ (u p).mChildren := wellFormed_absent hu (by rw [hun]; simp)
      rw [AddChild_eq u p n hnm]
      by_cases hq : q = p
      · subst hq
        simp only [if_true]
        by_cases hqn : q = n
        · subst hqn
          simp
        · rw [modify_other _ _ hqn]
          simp
      · have hpq : ¬ (some p = some q) := fun e => hq (Option.some.inj e).symm
        rw [if_neg hpq]
        by_cases hqn : q = n
        · subst hqn
          simp [modify_other _ _ hq]
        · rw [modify_other _ _ hqn, modify_other _ _ hq]
    cases keep with
    | false =>
      simp only [Bool.false_eq_true, if_false, Option.some.injEq] at h
      subst h
      exact key s hw hp
    | true =>
      simp only [if_true, Option.bind_eq_some] at h
      obtain ⟨r, hr, hset⟩ := h
      have hfr := GetTransform_frame hr
      have hw1 := frame_wellFormed hfr hw
      have hp1 : (r.2 n).mParent = none := (hfr n).1.trans hp
      have hl := SetTransform_sameLinks hset
      intro q
      rw [(hl q).2.1, key r.2 hw1 hp1 q, (hfr q).2.1]

theorem Attach_children {mx : Maths} {f : Nat} {s t : Scene} {n : Ptr} {parent : Option Ptr}
    {keep : Bool} (h : Attach mx f s n parent keep = some t) (hw : WellFormed s)
    (hne : parent ≠ some n) :
    ∀ q, (t q).mChildren
      = if parent = some q then (s q).mChildren.erase n ++ [n]
        else (s q).mChildren.erase n := by
  unfold Attach at h
  simp only [hne, if_false, Option.bind_eq_some, Option.map_eq_some'] at h
  obtain ⟨s1, h1, s2, h2, s4, h4, rfl⟩ := h
  have hfr : Frame s s1 := by
    split at h1
    · exact UpdateTransform_frame h1
    · simp only [Option.some.injEq] at h1
      subst h1
      exact frame_refl s
  have hw1 := frame_wellFormed hfr hw
  obtain ⟨hw2, hp2, -⟩ := detachOld_links h2 hw1
  have hc2 := detachOld_children h2 hw1
  have hw3 : WellFormed (modify s2 n (fun nd => { nd with mParentBoneIndex := -1 })) :=
    wellFormed_modify s2 n _ (fun nd => by simp) hw2
  have hc4 := attachNew_children h4 hw3 (by simpa using hp2)
  have hc3 : ∀ q, (modify s2 n (fun nd => { nd with mParentBoneIndex := -1 }) q).mChildren
      = (s2 q).mChildren := by
    intro q
    by_cases hq : q = n
    · subst hq
      simp
    · rw [modify_other _ _ hq]
  intro q
  have hm : (MarkTransformDirty s4 n q).mChildren = (s4 q).mChildren := by
    unfold MarkTransformDirty
    by_cases hq : q = n
    · subst hq
      simp
    · rw [modify_other _ _ hq]
  rw [hm, hc4 q, hc3 q, hc2 q, (hfr q).2.1]

/-- C36 (as stated, refuted): the tree 0 - 1 - (2, 3) is consistent, node 2 has the
parent 1, and 2.Attach(1) is a call with a new parent different from the node; after it
node 2 is again in the child list of its old parent 1 (now as the last element), not
absent from it. -/
theorem C36_same_parent_counterexample :
    LinksConsistent familyScene ∧ (familyScene 2).mParent = some 1
      ∧ (Attach sampleMaths 0 familyScene 2 (some 1) false).map
          (fun t => ((t 2).mParent, (t 1).mChildren)) = some (some 1, [3, 2]) :=
  ⟨wellFormed_consistent familyScene_wellFormed, rfl, by decide!⟩

/-- C36 (amended): in a scene where the parent of m is p iff m is in the child list of p
and no child list has a duplicate (so m occurs exactly once), n.Attach(p) with p different
from n returns when keepWorldTransform is false, and whenever it returns (with either
flag) the same consistency holds afterwards for every node, the parent of n is p, the
child list of p is its old list without n followed by n, every other child list is its
old list without n, n is absent from the list of its old parent when that parent is not
p, the other children keep their relative order in every list, and no other node changes
its parent. -/
theorem C36_attach_consistency (mx : Maths) (f : Nat) (s : Scene) (n : Ptr)
    (parent : Option Ptr) (keep : Bool) (hw : WellFormed s) (hne : parent ≠ some n) :
    (∃ t, Attach mx f s n parent false = some t)
      ∧ ∀ t, Attach mx f s n parent keep = some t →
          WellFormed t ∧ LinksConsistent t ∧ (t n).mParent = parent
            ∧ (∀ p, parent = some p → (t p).mChildren = (s p).mChildren.erase n ++ [n])
            ∧ (∀ p, parent = some p → (t p).mChildren.getLast? = some n)
            ∧ (∀ q, parent ≠ some q → (t q).mChildren = (s q).mChildren.erase n)
            ∧ (∀ old, (s n).mParent = some old → parent ≠ some old →
                n ∉ (t old).mChildren)
            ∧ (∀ q, (t q).mChildren.filter (fun m => decide (m ≠ n))
                = (s q).mChildren.filter (fun m => decide (m ≠ n)))
            ∧ ∀ y, y ≠ n → (t y).mParent = (s y).mParent := by
  obtain ⟨t0, ht0, -⟩ := Attach_plain_spec mx f s n parent hw hne
  refine ⟨⟨t0, ht0⟩, fun t h => ?_⟩
  obtain ⟨hwt, hpt, hyt⟩ := Attach_links h hw hne
  have hc := Attach_children h hw hne
  have hfilter : ∀ l : List Ptr, l.Nodup →
      (l.erase n).filter (fun m => decide (m ≠ n)) = l.filter (fun m => decide (m ≠ n)) := by
    intro l hl
    rw [hl.erase_eq_filter, List.filter_filter]
    congr 1
    funext m
    by_cases hm : m = n <;> simp [hm]
  refine ⟨hwt, wellFormed_consistent hwt, hpt, fun p hp => ?_, fun p hp => ?_, fun q hq => ?_,
    fun old ho hno => ?_, fun q => ?_, hyt⟩
  · rw [hc p, if_pos hp]
  · rw [hc p, if_pos hp]
    simp
  · rw [hc q, if_neg hq]
  · rw [hc old, if_neg hno]
    exact fun hm => (List.Nodup.mem_erase_iff (hw.2 old)).1 hm |>.1 rfl
  · rw [hc q]
    split_ifs
    · rw [List.filter_append, hfilter _ (hw.2 q)]
      simp
    · exact hfilter _ (hw.2 q)

/-- Witness for C36: in the tree 0 - 1 - (2, 3), 3.Attach(0) without keeping the world
transform makes node 3 the last child of node 0 and removes it from the list of node 1. -/
theorem C36_attach_consistency_witness :
    ∃ t, Attach sampleMaths 0 familyScene 3 (some 0) false = some t
      ∧ (t 3).mParent = some 0 ∧ (t 0).mChildren = [1, 3] ∧ (t 1).mChildren = [2] := by
  have h := C36_attach_consistency sampleMaths 0 familyScene 3 (some 0) false
    familyScene_wellFormed (by decide)
  obtain ⟨t, ht⟩ := h.1
  obtain ⟨-, -, hp, hc, -, hq, -, -, -⟩ := h.2 t ht
  exact ⟨t, ht, hp, (hc 0 rfl).trans (by decide!), (hq 1 (by decide)).trans (by decide!)⟩

/-! ## C35: the uniform-scale rule across a change of the child count -/

/-- The diagonal entries (0,0), (1,1), (2,2) of a matrix. -/
def diagonalOf (m : Mat4) : Vec3 := ⟨m 0 0, m 1 1, m 2 2⟩

/-- Scenario: node 0 gets the scale (1,2,3) and is read while it has no child; node 1 is
attached to it; node 0 is read again. The result holds the diagonals of the two matrices
read and the child list of node 0 at the second read. -/
def scaleThenAttachScenario (mx : Maths) : Option (Vec3 × Vec3 × List Ptr) :=
  (GetTransform mx 1 (SetScale Scene.fresh 0 ⟨1, 2, 3⟩) 0).bind fun r1 =>
  (Attach mx 1 r1.2 1 (some 0) false).bind fun s2 =>
  (GetTransform mx 1 s2 0).map fun r3 => (diagonalOf r1.1, diagonalOf r3.1, (s2 0).mChildren)

/-- Scenario: node 0 gets the scale (1,2,3), node 1 is attached to it and node 0 is read;
node 1 is detached; node 0 is read again. The result holds the diagonals of the two
matrices read and the child list of node 0 at the second read. -/
def scaleThenDetachScenario (mx : Maths) : Option (Vec3 × Vec3 × List Ptr) :=
  (Attach mx 1 (SetScale Scene.fresh 0 ⟨1, 2, 3⟩) 1 (some 0) false).bind fun s1 =>
  (GetTransform mx 1 s1 0).bind fun r2 =>
  (Attach mx 1 r2.2 1 none false).bind fun s3 =>
  (GetTransform mx 1 s3 0).map fun r4 => (diagonalOf r2.1, diagonalOf r4.1, (s3 0).mChildren)

/-- C35 (as stated, refuted): node 0 has the stored scale (1,2,3) and its matrix, with
diagonal (1,2,3), is cached while it has no child; after node 1 is attached to it
GetTransform still returns a matrix with diagonal (1,2,3), whereas the matrix built with
(1,1,1) has the diagonal (1,1,1). In the other direction the matrix cached with the child
has the diagonal (1,1,1), and after the child is detached GetTransform still returns it,
whereas the matrix built with (1,2,3) has the diagonal (1,2,3). -/
theorem C35_stale_scale_counterexample :
    scaleThenAttachScenario sampleMaths = some (⟨1, 2, 3⟩, ⟨1, 2, 3⟩, [1])
      ∧ diagonalOf (translateMat ⟨0, 0, 0⟩ * toMat4 Quat.identity * scaleMat ⟨1, 1, 1⟩)
        = ⟨1, 1, 1⟩
      ∧ scaleThenDetachScenario sampleMaths = some (⟨1, 1, 1⟩, ⟨1, 1, 1⟩, [])
      ∧ diagonalOf (translateMat ⟨0, 0, 0⟩ * toMat4 Quat.identity * scaleMat ⟨1, 2, 3⟩)
        = ⟨1, 2, 3⟩ := by
  decide!

/-- C35 (amended): let p be a clean node at the head of a chain of k links, and let m
(not p, not an ancestor of p) be attached to some parent with keepWorldTransform false.
The call returns and GetTransform on p still returns the matrix cached before the call,
whatever the child count of p has become. The uniform-scale rule is applied at the next
rebuild: once p is marked dirty, GetTransform returns P * translate * rotate * scale with
the scale (sx, sx, sx) when m was attached to p, and with (sx, sy, sz) when m was the only
child of p and was moved away. -/
theorem C35_child_count_change (mx : Maths) (f k : Nat) (s : Scene) (p m : Ptr)
    (newParent : Option Ptr) (hw : WellFormed s) (hr : rooted s k p = true)
    (hoc : onChain s k p m = false) (hclean : (s p).mTransformDirty = false)
    (hnp : newParent ≠ some m) (hf : k ≤ f) :
    ∃ t, Attach mx f s m newParent false = some t
      ∧ (∀ g, GetTransform mx g t p = some ((s p).mTransform, t))
      ∧ (∃ s1 P u,
          updateParentWith (fun a b c => UpdateTransform mx f a b c)
              (MarkTransformDirty t p) p = some s1
            ∧ GetParentTransform mx f s1 p = some (P, s1)
            ∧ ((s p).mParent = none → P = 1)
            ∧ GetTransform mx (f + 1) (MarkTransformDirty t p) p
              = some (P * (translateMat (s p).mPosition * toMat4 (s p).mRotationQuat
                  * scaleMat (effectiveScale (t p))), u))
      ∧ (newParent = some p →
          m ∈ (t p).mChildren
            ∧ effectiveScale (t p) = ⟨(s p).mScale.x, (s p).mScale.x, (s p).mScale.x⟩)
      ∧ (newParent ≠ some p → (s p).mChildren = [m] →
          (t p).mChildren = [] ∧ effectiveScale (t p) = (s p).mScale) := by
  obtain ⟨t, ht, -, -, -, -, -, -, ho⟩ := Attach_plain_spec mx f s m newParent hw hnp
  obtain ⟨hpm, hpp, -⟩ := onChain_apart hoc hr
  obtain ⟨a1, a2, a3, a4, a5, -, a7⟩ := ho p hpm
  have hc := Attach_children ht hw hnp p
  have hct : (t p).mTransformDirty = false := (a7 hpp).trans hclean
  have hrt : rooted t k p = true := ((only_chain ho k p hoc).1).trans hr
  have hlinks : SameLinks t (MarkTransformDirty t p) :=
    sameLinks_modify t p _ (fun nd => by simp)
  have hrd : rooted (MarkTransformDirty t p) k p = true :=
    (sameLinks_rooted_eq hlinks k p).trans hrt
  have hdd : (MarkTransformDirty t p p).mTransformDirty = true := by
    simp [MarkTransformDirty]
  have hsame : specLocal (MarkTransformDirty t p p)
      = translateMat (s p).mPosition * toMat4 (s p).mRotationQuat
          * scaleMat (effectiveScale (t p)) := by
    rw [specLocal_eq]
    simp [MarkTransformDirty, effectiveScale, a2, a3, a4]
  obtain ⟨s1, h1, hfr, hpc, hu⟩ :=
    rebuild_dirty_rooted mx (MarkTransformDirty t p) p k f hrd hdd hf
  have hm : (rebuilt mx s1 p (rebuildMatrix s1 p) p).mTransform
      = parentMatrix s1 p * specLocal (MarkTransformDirty t p p) := by
    rw [(rebuilt_at mx s1 p _).1, ← frame_specLocal_eq hfr p]
    unfold rebuildMatrix
    cases hp : (s1 p).mParent with
    | none => simp [parentMatrix, hp, localMatrix_eq_specLocal]
    | some g => simp [localMatrix_eq_specLocal]
  refine ⟨t, ht, fun g => ?_, ⟨s1, parentMatrix s1 p, rebuilt mx s1 p (rebuildMatrix s1 p), h1,
    GetParentTransformWith_clean _ hpc, ?_, ?_⟩, fun hnew => ?_, fun hnew hone => ?_⟩
  · rw [GetTransform, GetTransformWith_clean _ hct, a5]
  · intro hroot
    have hp1 : (s1 p).mParent = none := by
      rw [(hfr p).1, (hlinks p).1, a1]
      exact hroot
    simp [parentMatrix, hp1]
  · rw [← hsame, ← hm]
    simp [GetTransform, GetTransformWith, hdd, hu]
  · rw [if_pos hnew] at hc
    have hmem : m ∈ (t p).mChildren := by
      rw [hc]
      simp
    refine ⟨hmem, ?_⟩
    have hlen : (t p).mChildren.length > 0 := List.length_pos_of_mem hmem
    simp [effectiveScale, hlen, a3]
  · rw [if_neg hnew, hone] at hc
    have hnil : (t p).mChildren = [] := by
      rw [hc]
      simp
    refine ⟨hnil, ?_⟩
    simp [effectiveScale, hnil, a3]

/-- A scene in which node 0 has the stored scale (1,2,3), no parent and no child, a clean
flag and the cached matrix scale(1,2,3); the other nodes are fresh. -/
def scaledRootScene : Scene := fun m =>
  if m = 0 then
    { Node3D.new with
      mScale := ⟨1, 2, 3⟩, mTransform := scaleMat ⟨1, 2, 3⟩, mTransformDirty := false }
  else Node3D.new

theorem scaledRootScene_wellFormed : WellFormed scaledRootScene := by
  constructor
  · intro c p
    unfold scaledRootScene
    split_ifs <;> simp [Node3D.new]
  · intro p
    unfold scaledRootScene
    split_ifs <;> simp [Node3D.new]

/-- Witness for C35: node 1 is attached to the clean root 0 of `scaledRootScene`;
GetTransform on node 0 still returns the cached scale(1,2,3), and the scale used at the
next rebuild is (1,1,1). -/
theorem C35_child_count_change_witness :
    ∃ t, Attach sampleMaths 0 scaledRootScene 1 (some 0) false = some t
      ∧ (∀ g, GetTransform sampleMaths g t 0 = some (scaleMat ⟨1, 2, 3⟩, t))
      ∧ effectiveScale (t 0) = ⟨1, 1, 1⟩ := by
  obtain ⟨t, h1, h2, -, h4, -⟩ := C35_child_count_change sampleMaths 0 0 scaledRootScene 0 1
    (some 0) scaledRootScene_wellFormed (by decide) (by decide) rfl (by decide) (Nat.le_refl 0)
  exact ⟨t, h1, h2, (h4 rfl).2⟩

/-! ## C8: the read after re-parenting with `keepWorldTransform = false` -/

/-- Scenario: node 1 is attached to node 0 and read; node 0 is then moved to (1,0,0)
(node 1 stays clean with a stale matrix) and the detached node 2 is moved to (0,1,0);
node 2 is attached to node 1 with `keepWorldTransform = false` and read. The result pairs
the absolute position read with the world transform of the new parent, that is the product
of the local transforms of nodes 0 and 1, applied to the local position of node 2. -/
def stalePlainAttachScenario : Option (Vec3 × Vec3) :=
  (Attach sampleMaths 3 Scene.fresh 1 (some 0) false).bind fun s1 =>
  (GetAbsolutePosition sampleMaths 3 s1 1).bind fun r1 =>
  (Attach sampleMaths 3 (SetPosition (SetPosition r1.2 0 ⟨1, 0, 0⟩) 2 ⟨0, 1, 0⟩) 2 (some 1)
      false).bind fun t =>
  (GetAbsolutePosition sampleMaths 3 t 2).map fun r =>
    (r.1, xyz (Matrix.mulVec (worldMatrix t 1 1) (point4 (t 2).mPosition)))

/-- C8 (as stated, refuted): node 2 with local position (0,1,0) is attached with
keepWorldTransform = false to node 1, which is clean but whose parent 0 was moved to
(1,0,0) after node 1 was read; the next GetAbsolutePosition on node 2 returns (0,1,0),
whereas the world transform of the new parent applied to the local position is
(1,1,0). -/
theorem C8_stale_new_parent_counterexample :
    stalePlainAttachScenario = some (⟨0, 1, 0⟩, ⟨1, 1, 0⟩) := by
  decide!

/-- C8 (amended): in a well-formed scene, for every node n and every new parent different
from n (null included), Attach(parent, keepWorldTransform = false) returns and leaves the
stored local position, rotation and scale of n unchanged, makes parent the parent of n
and sets the dirty flag of n. When the chain of the new parent p ends at a root without
passing through n, the next GetAbsolutePosition returns the matrix cached on p, after p
has been updated if it was dirty, applied to the unchanged local position. That matrix is
the world transform of p, the product of the local transforms from the root down to p,
when in the state left by the call the chain of p is up to date (every node on it is
clean with a cache equal to the parent's cache times its local transform) or p is dirty
and its chain can be pulled up to date (the dirty ancestors form a run starting at p,
above which the chain is up to date). In the example, node 1 with local position (0,1,0)
under node 0 at (1,0,0) is moved to node 2 at (5,0,0) and then reads the world position
(5,1,0). -/
theorem C8_plain_attach_then_read (mx : Maths) (f : Nat) (s : Scene) (n : Ptr)
    (parent : Option Ptr) (hw : WellFormed s) (hne : parent ≠ some n) :
    (∃ t, Attach mx f s n parent false = some t
        ∧ (t n).mPosition = (s n).mPosition ∧ (t n).mRotationQuat = (s n).mRotationQuat
        ∧ (t n).mScale = (s n).mScale ∧ (t n).mParent = parent
        ∧ (t n).mTransformDirty = true
        ∧ (∀ p k g, parent = some p → rooted s k p = true → onChain s k p n = false →
            k + 1 < g →
            ∃ u, GetAbsolutePosition mx g t n
              = some (xyz (Matrix.mulVec (u p).mTransform (point4 (s n).mPosition)), u))
        ∧ ∀ p k g, parent = some p →
            (resolved t k p = true
              ∨ ((t p).mTransformDirty = true ∧ pullable t k p = true)) →
            k + 1 < g →
            ∃ u, GetAbsolutePosition mx g t n
              = some (xyz (Matrix.mulVec (worldMatrix t k p) (point4 (s n).mPosition)), u))
      ∧ ∃ s1 t u, Attach mx 3 (threeNodes ⟨1, 0, 0⟩ ⟨5, 0, 0⟩ ⟨0, 1, 0⟩) 1 (some 0) false = some s1
          ∧ Attach mx 3 s1 1 (some 2) false = some t
          ∧ GetAbsolutePosition mx 3 t 1 = some (⟨5, 1, 0⟩, u) := by
  constructor
  · obtain ⟨t, h1, h2, h3, h4, h5, h6, h7, o⟩ := Attach_plain_spec mx f s n parent hw hne
    refine ⟨t, h1, h2, h3, h4, h5, h7, ?_, ?_⟩
    · intro p k g hp hr hoc hg
      have hr2 : rooted t k p = true := ((only_chain o k p hoc).1).trans hr
      obtain ⟨u, hu⟩ := read_after_attach mx t n p k g (h5.trans hp) h6 h7 hr2 hg
      exact ⟨u, by rw [hu, h2]⟩
    · intro p k g hp hch hg
      have hpar : (t n).mParent = some p := h5.trans hp
      have hmem : n ∈ (t p).mChildren := ((Attach_links h1 hw hne).1.1 n p).1 hpar
      have hpull : pullable t (k + 1) n = true := by
        simp only [pullable, hpar, h6, hmem, decide_True, Bool.true_and]
        rcases hch with hres | ⟨hd, hpl⟩
        · have hc : (t p).mTransformDirty = false := (resolved_world hres).2.2
          simp [hc, hres, h7]
        · simp [hd, hpl]
      obtain ⟨u, hu, hm, -⟩ := UpdateTransform_pull mx (k + 1) t n hpull g hg
      refine ⟨u, ?_⟩
      simp only [GetAbsolutePosition, hu, Option.map_some', hm, worldMatrix, hpar,
        extractPosition_mul_specLocal, h2]
  · obtain ⟨s1, t, u, h1, h2, h3⟩ := reparentPlain_example mx ⟨1, 0, 0⟩ ⟨5, 0, 0⟩ ⟨0, 1, 0⟩
    norm_num at h3
    exact ⟨s1, t, u, h1, h2, h3⟩

theorem twoRoots_plain_attach :
    (Attach sampleMaths 1 twoRootsScene 2 (some 1) false).map
        (fun t => (decide ((t 1).mTransformDirty = true ∧ pullable t 0 1 = true),
          xyz (Matrix.mulVec (worldMatrix t 0 1) (point4 (twoRootsScene 2).mPosition))))
      = some (true, ⟨6, 1, 0⟩) := by
  decide!

/-- Witness for C8: the read node 2 at (1,1,0) is attached, without keeping its world
transform, to the parentless and never read node 1 at (5,0,0); its local position stays
(1,1,0) and the next read returns (6,1,0), the world transform of node 1 applied to it. -/
theorem C8_plain_attach_then_read_witness :
    ∃ t u, Attach sampleMaths 1 twoRootsScene 2 (some 1) false = some t
      ∧ (t 2).mParent = some 1 ∧ (t 2).mPosition = (twoRootsScene 2).mPosition
      ∧ GetAbsolutePosition sampleMaths 2 t 2 = some (⟨6, 1, 0⟩, u) := by
  obtain ⟨⟨t, h1, h2, -, -, h5, -, -, h8⟩, -⟩ :=
    C8_plain_attach_then_read sampleMaths 1 twoRootsScene 2 (some 1)
      (reachable_inv twoRootsScene_reachable).1 (by decide)
  have h := twoRoots_plain_attach
  rw [h1] at h
  simp only [Option.map_some', Option.some.injEq, Prod.mk.injEq, decide_eq_true_eq] at h
  obtain ⟨u, hu⟩ := h8 1 0 2 rfl (Or.inr h.1) (by decide)
  rw [h.2] at hu
  exact ⟨t, u, h1, h5, h2, hu⟩

/-! ## C20: the spawn-rate accumulator in `float` arithmetic -/

/-- The integer part of the binary logarithm of `n`, `0` for `n < 2`; the first argument
bounds the number of halvings. -/
def log2Fuel : Nat → Nat → Nat
  | 0, _ => 0
  | fuel + 1, n => if 2 ≤ n then log2Fuel fuel (n / 2) + 1 else 0

/-- The power `2 ^ e` for an integer exponent. -/
def pow2 (e : Int) : ℚ := if 0 ≤ e then 2 ^ e.toNat else 1 / 2 ^ (-e).toNat

/-- The exponent `e` with `2 ^ e ≤ |x| < 2 ^ (e + 1)`, for `x ≠ 0`. -/
def binaryExponent (x : ℚ) : Int :=
  let e0 : Int := (log2Fuel x.num.natAbs x.num.natAbs : Int) - (log2Fuel x.den x.den : Int)
  if pow2 e0 ≤ |x| then e0 else e0 - 1

/-- Rounding to the nearest integer, ties to the even one. -/
def roundHalfEven (y : ℚ) : Int :=
  let f := ⌊y⌋
  let r := y - f
  if r < 1 / 2 then f else if 1 / 2 < r then f + 1 else if f % 2 = 0 then f else f + 1

/-- The value of a real number stored in a `float`: rounding to the nearest number with a
24-bit significand, ties to even (the default IEEE 754 mode). The exponent is not bounded:
overflow and subnormal numbers are not modelled. -/
def roundFloat32 (x : ℚ) : ℚ :=
  if x = 0 then 0
  else
    let ulp := pow2 (binaryExponent x - 23)
    (roundHalfEven (x / ulp) : ℚ) * ulp

/-- The method `ParticleComponent::SpawnNewParticles` with the rounding of the `float`
operations on `mEmissionCounter`: the product `deltaTime * GetSpawnRate()`, the sum stored
by `+=`, the conversion `float(spawnCount)` and the difference stored by `-=` are each
rounded to a `float`, one operation at a time (no fused multiply-add). The burst share
and the timers stay in exact arithmetic; they do not enter the spawn count when there is
no burst and no duration limit. -/
def SpawnNewParticlesF32 (env : ParticleEnv) (c : ParticleComponent) (deltaTime : ℚ) :
    ParticleComponent :=
  match c.mParticleSystem with
  | some system =>
    if c.mEmit then
      let burstCount := burstShare system c.mElapsedTime deltaTime
      let c1 := advanceTimers system c deltaTime
      let counter :=
        roundFloat32 (c1.mEmissionCounter + roundFloat32 (deltaTime * system.spawnRate))
      let c2 :=
        { c1 with
          mEmissionCounter :=
            roundFloat32 (counter - roundFloat32 (truncToInt32 counter : ℚ)) }
      let spawnCount :=
        cappedCount system c2.mParticles.length (spawnRequest counter burstCount)
      spawnLoop env system spawnCount.toNat c2
    else c
  | none => c

/-- The block guarded by `mActive && mEnableSimulation` in `Simulate`, with the spawn step
in `float` arithmetic. -/
def simulateBodyF32 (env : ParticleEnv) (c : ParticleComponent) (modDeltaTime : ℚ) :
    ParticleComponent :=
  if c.mActive && c.mEnableSimulation then
    SpawnNewParticlesF32 env
      (UpdateParticles (KillExpiredParticles c modDeltaTime) modDeltaTime) modDeltaTime
  else c

/-- The method `ParticleComponent::Simulate` with `modDeltaTime = deltaTime *
mTimeMultiplier` rounded to a `float` and the spawn step in `float` arithmetic. -/
def SimulateF32 (env : ParticleEnv) (c : ParticleComponent) (deltaTime : ℚ) :
    ParticleComponent :=
  if c.mHasSimulatedThisFrame then c
  else
    { simulateBodyF32 env c (roundFloat32 (deltaTime * c.mTimeMultiplier)) with
      mHasSimulatedThisFrame := true }

/-- The frames `Tick(dt); Simulate(dt)` run for the steps of `dts`, in `float`
arithmetic. -/
def runFramesF32 (env : ParticleEnv) : ParticleComponent → List ℚ → ParticleComponent
  | c, [] => c
  | c, dt :: rest => runFramesF32 env (SimulateF32 env (Tick c dt) dt) rest

/-- The number of particles the spawn step in `float` arithmetic appends to the pool. -/
def spawnedByF32 (env : ParticleEnv) (c : ParticleComponent) (deltaTime : ℚ) : Int :=
  ((SpawnNewParticlesF32 env c deltaTime).mParticles.length : Int) - c.mParticles.length

/-- The total number of particles spawned by the frames `Tick(dt); Simulate(dt)` run for
the steps of `dts` in `float` arithmetic: in each frame, what the spawn step appends to
the pool left by the kill and update steps. -/
def totalSpawnedF32 (env : ParticleEnv) : ParticleComponent → List ℚ → Int
  | _, [] => 0
  | c, dt :: rest =>
    spawnedByF32 env
        (UpdateParticles
          (KillExpiredParticles (Tick c dt) (roundFloat32 (dt * (Tick c dt).mTimeMultiplier)))
          (roundFloat32 (dt * (Tick c dt).mTimeMultiplier)))
        (roundFloat32 (dt * (Tick c dt).mTimeMultiplier))
      + totalSpawnedF32 env (SimulateF32 env (Tick c dt) dt) rest

/-- The `float` value added to the accumulator in a frame of length `dt`: the product
`modDeltaTime * spawnRate`, with `modDeltaTime = dt * timeMultiplier`, both rounded. -/
def frameShare (timeMultiplier spawnRate dt : ℚ) : ℚ :=
  roundFloat32 (roundFloat32 (dt * timeMultiplier) * spawnRate)

/-- The three statements on `mEmissionCounter` iterated over the frames of `dts`, in
`float` arithmetic, from the accumulator value `counter`: the number of rounds of the spawn
loop summed over the frames, and the final accumulator. -/
def accumulateF32 (timeMultiplier spawnRate : ℚ) : ℚ → List ℚ → Int × ℚ
  | counter, [] => (0, counter)
  | counter, dt :: rest =>
    let sum := roundFloat32 (counter + frameShare timeMultiplier spawnRate dt)
    let r := accumulateF32 timeMultiplier spawnRate
      (roundFloat32 (sum - roundFloat32 (truncToInt32 sum : ℚ))) rest
    (((truncToInt32 sum).toNat : Int) + r.1, r.2)

/-- No rounding occurs in the accumulator over the frames of `dts`: in every frame the sum
of the accumulator and the share, its integer part and its fractional part are `float`
values. -/
def exactSums (timeMultiplier spawnRate : ℚ) : ℚ → List ℚ → Bool
  | _, [] => true
  | counter, dt :: rest =>
    decide (roundFloat32 (counter + frameShare timeMultiplier spawnRate dt)
        = counter + frameShare timeMultiplier spawnRate dt)
      && decide (roundFloat32 (⌊counter + frameShare timeMultiplier spawnRate dt⌋ : ℚ)
        = (⌊counter + frameShare timeMultiplier spawnRate dt⌋ : ℚ))
      && decide (roundFloat32 (Int.fract (counter + frameShare timeMultiplier spawnRate dt))
        = Int.fract (counter + frameShare timeMultiplier spawnRate dt))
      && exactSums timeMultiplier spawnRate
          (Int.fract (counter + frameShare timeMultiplier spawnRate dt)) rest

/-- The system `sampleSystem` with the spawn rate 7. -/
def sevenSystem : ParticleSystem := { sampleSystem with spawnRate := 7 }

theorem truncToInt32_range (x : ℚ) : -2 ^ 31 ≤ truncToInt32 x ∧ truncToInt32 x < 2 ^ 31 := by
  unfold truncToInt32
  simp only
  split_ifs with h1 h2 h3
  · exact h2
  · constructor <;> norm_num
  · exact h3
  · constructor <;> norm_num

theorem SpawnNewParticlesF32_emit (env : ParticleEnv) (c : ParticleComponent) (dt : ℚ)
    (system : ParticleSystem) (hs : c.mParticleSystem = some system) (he : c.mEmit = true) :
    ∃ new,
      new.length
          = (cappedCount system c.mParticles.length
              (spawnRequest
                (roundFloat32 (c.mEmissionCounter + roundFloat32 (dt * system.spawnRate)))
                (burstShare system c.mElapsedTime dt))).toNat
        ∧ SpawnNewParticlesF32 env c dt
          = { advanceTimers system c dt with
              mEmissionCounter :=
                roundFloat32
                  (roundFloat32 (c.mEmissionCounter + roundFloat32 (dt * system.spawnRate))
                    - roundFloat32
                        (truncToInt32
                          (roundFloat32
                            (c.mEmissionCounter + roundFloat32 (dt * system.spawnRate))) : ℚ))
              mParticles := c.mParticles ++ new
              randCalls := c.randCalls + new.length * particleDraws system } := by
  obtain ⟨k1, k2, -, -, -, -, k7⟩ := advanceTimers_keeps system c dt
  have h0 : SpawnNewParticlesF32 env c dt
      = spawnLoop env system
          (cappedCount system (advanceTimers system c dt).mParticles.length
            (spawnRequest
              (roundFloat32 ((advanceTimers system c dt).mEmissionCounter
                + roundFloat32 (dt * system.spawnRate)))
              (burstShare system c.mElapsedTime dt))).toNat
          { advanceTimers system c dt with
            mEmissionCounter :=
              roundFloat32
                (roundFloat32 ((advanceTimers system c dt).mEmissionCounter
                    + roundFloat32 (dt * system.spawnRate))
                  - roundFloat32
                      (truncToInt32
                        (roundFloat32 ((advanceTimers system c dt).mEmissionCounter
                          + roundFloat32 (dt * system.spawnRate))) : ℚ)) } := by
    unfold SpawnNewParticlesF32
    rw [hs]
    simp only [he, if_true]
  obtain ⟨new, hn, hl⟩ := spawnLoop_spec env system
    (cappedCount system (advanceTimers system c dt).mParticles.length
      (spawnRequest
        (roundFloat32 ((advanceTimers system c dt).mEmissionCounter
          + roundFloat32 (dt * system.spawnRate)))
        (burstShare system c.mElapsedTime dt))).toNat
    { advanceTimers system c dt with
      mEmissionCounter :=
        roundFloat32
          (roundFloat32 ((advanceTimers system c dt).mEmissionCounter
              + roundFloat32 (dt * system.spawnRate))
            - roundFloat32
                (truncToInt32
                  (roundFloat32 ((advanceTimers system c dt).mEmissionCounter
                    + roundFloat32 (dt * system.spawnRate))) : ℚ)) }
  rw [k1, k2] at hn
  refine ⟨new, hn, ?_⟩
  rw [h0, hl]
  simp only [k1, k2, k7, hn]

/-- One frame in `float` arithmetic, with emission on and no burst, cap or duration: the
flags are kept, the accumulator and the number of particles appended are those of the
accumulator statements. -/
theorem frameF32_accumulates (env : ParticleEnv) (c : ParticleComponent) (dt : ℚ)
    (system : ParticleSystem) (hs : c.mParticleSystem = some system) (he : c.mEmit = true)
    (ha : c.mActive = true) (hen : c.mEnableSimulation = true)
    (hb : system.burstCount ≤ 0) (hcap : system.maxParticles ≤ 0)
    (hcap2 : -2 ^ 31 ≤ system.maxParticles) (hd : system.duration ≤ 0) :
    (SimulateF32 env (Tick c dt) dt).mParticleSystem = some system
      ∧ (SimulateF32 env (Tick c dt) dt).mEmit = true
      ∧ (SimulateF32 env (Tick c dt) dt).mActive = true
      ∧ (SimulateF32 env (Tick c dt) dt).mEnableSimulation = true
      ∧ (SimulateF32 env (Tick c dt) dt).mTimeMultiplier = c.mTimeMultiplier
      ∧ (SimulateF32 env (Tick c dt) dt).mEmissionCounter
          = roundFloat32
              (roundFloat32
                  (c.mEmissionCounter + frameShare c.mTimeMultiplier system.spawnRate dt)
                - roundFloat32
                    (truncToInt32
                      (roundFloat32
                        (c.mEmissionCounter
                          + frameShare c.mTimeMultiplier system.spawnRate dt)) : ℚ))
      ∧ spawnedByF32 env
          (UpdateParticles
            (KillExpiredParticles (Tick c dt)
              (roundFloat32 (dt * (Tick c dt).mTimeMultiplier)))
            (roundFloat32 (dt * (Tick c dt).mTimeMultiplier)))
          (roundFloat32 (dt * (Tick c dt).mTimeMultiplier))
          = ((truncToInt32
              (roundFloat32
                (c.mEmissionCounter
                  + frameShare c.mTimeMultiplier system.spawnRate dt))).toNat : Int) := by
  obtain ⟨md, hmd⟩ : ∃ md, md = roundFloat32 (dt * c.mTimeMultiplier) := ⟨_, rfl⟩
  have htick : (Tick c dt).mTimeMultiplier = c.mTimeMultiplier := rfl
  rw [htick, ← hmd]
  obtain ⟨mid, hmid⟩ : ∃ mid, mid = UpdateParticles (KillExpiredParticles (Tick c dt) md) md :=
    ⟨_, rfl⟩
  have hm : mid = { Tick c dt with mParticles := mid.mParticles } := by
    rw [hmid]
    obtain ⟨-, u2⟩ := UpdateParticles_keeps (KillExpiredParticles (Tick c dt) md) md
    obtain ⟨-, k2⟩ := KillExpiredParticles_keeps (Tick c dt) md
    rw [u2, k2]
  have hms : mid.mParticleSystem = some system := by rw [hm]; exact hs
  have hme : mid.mEmit = true := by rw [hm]; exact he
  have hmc : mid.mEmissionCounter = c.mEmissionCounter := by rw [hm]; rfl
  have hmm : mid.mTimeMultiplier = c.mTimeMultiplier := by rw [hm]; rfl
  have hma : mid.mActive = true := by rw [hm]; exact ha
  have hmn : mid.mEnableSimulation = true := by rw [hm]; exact hen
  have hsim : SimulateF32 env (Tick c dt) dt
      = { SpawnNewParticlesF32 env mid md with mHasSimulatedThisFrame := true } := by
    rw [hmid, hmd]
    simp [SimulateF32, Tick, simulateBodyF32, ha, hen]
  obtain ⟨new, hn, hsp⟩ := SpawnNewParticlesF32_emit env mid md system hms hme
  have hshare : roundFloat32 (md * system.spawnRate)
      = frameShare c.mTimeMultiplier system.spawnRate dt := by rw [hmd, frameShare]
  rw [hmc, hshare] at hn hsp
  obtain ⟨x, hx⟩ : ∃ x, x = roundFloat32
      (c.mEmissionCounter + frameShare c.mTimeMultiplier system.spawnRate dt) := ⟨_, rfl⟩
  rw [← hx] at hn hsp ⊢
  obtain ⟨r1, r2⟩ := truncToInt32_range x
  have hburst : burstShare system mid.mElapsedTime md = 0 := by
    simp [burstShare, not_lt.2 hb]
  have hlen : (new.length : Int) = ((truncToInt32 x).toNat : Int) := by
    rw [hn, hburst, cappedCount, wrapInt32_small hcap2 (by omega), if_neg (by omega),
      spawnRequest, add_zero, wrapInt32_small r1 r2]
  have hadv : (advanceTimers system mid md).mEmit = mid.mEmit := by
    simp [advanceTimers, not_lt.2 hd]
  obtain ⟨-, -, k3, k4, k5, k6, -⟩ := advanceTimers_keeps system mid md
  rw [hsim, hsp]
  refine ⟨k3.trans hms, hadv.trans hme, k4.trans hma, k5.trans hmn, k6.trans hmm, rfl, ?_⟩
  rw [← hmid, spawnedByF32]
  simp only [hsp, List.length_append, Nat.cast_add]
  rw [hlen]
  ring

/-- With emission on and no burst, cap or duration, the frames in `float` arithmetic
spawn what the accumulator statements give, whatever the frame lengths. -/
theorem framesF32_accumulate (env : ParticleEnv) (system : ParticleSystem) (m : ℚ)
    (hb : system.burstCount ≤ 0) (hcap : system.maxParticles ≤ 0)
    (hcap2 : -2 ^ 31 ≤ system.maxParticles) (hd : system.duration ≤ 0) :
    ∀ (dts : List ℚ) (c : ParticleComponent), c.mParticleSystem = some system →
      c.mEmit = true → c.mActive = true → c.mEnableSimulation = true →
      c.mTimeMultiplier = m →
      totalSpawnedF32 env c dts = (accumulateF32 m system.spawnRate c.mEmissionCounter dts).1
        ∧ (runFramesF32 env c dts).mEmissionCounter
          = (accumulateF32 m system.spawnRate c.mEmissionCounter dts).2 := by
  intro dts
  induction dts with
  | nil =>
    intro c _ _ _ _ _
    exact ⟨rfl, rfl⟩
  | cons dt rest ih =>
    intro c hs he ha hen hm
    obtain ⟨f1, f2, f3, f4, f5, f6, f7⟩ :=
      frameF32_accumulates env c dt system hs he ha hen hb hcap hcap2 hd
    have hrest := ih (SimulateF32 env (Tick c dt) dt) f1 f2 f3 f4 (f5.trans hm)
    rw [hm] at f6 f7
    simp only [totalSpawnedF32, runFramesF32, accumulateF32]
    rw [f7, hrest.1, hrest.2, f6]
    exact ⟨rfl, rfl⟩

/-- When no rounding occurs in the accumulator, the accumulator statements in `float`
arithmetic give the integer part and the fractional part of the exact sum. -/
theorem accumulateF32_exact (m rate : ℚ) :
    ∀ (dts : List ℚ) (c : ℚ), 0 ≤ c → c < 1 →
      (∀ dt ∈ dts, 0 ≤ frameShare m rate dt ∧ frameShare m rate dt < 2 ^ 31 - 1) →
      exactSums m rate c dts = true →
      accumulateF32 m rate c dts
        = (⌊c + (dts.map (frameShare m rate)).sum⌋,
            Int.fract (c + (dts.map (frameShare m rate)).sum)) := by
  intro dts
  induction dts with
  | nil =>
    intro c hc0 hc1 _ _
    simp only [accumulateF32, List.map_nil, List.sum_nil, add_zero]
    rw [Int.floor_eq_zero_iff.2 ⟨hc0, hc1⟩, Int.fract_eq_self.2 ⟨hc0, hc1⟩]
  | cons dt rest ih =>
    intro c hc0 hc1 hx hex
    obtain ⟨hx0, hx1⟩ := hx dt (List.mem_cons_self dt rest)
    simp only [exactSums, Bool.and_eq_true, decide_eq_true_eq] at hex
    obtain ⟨⟨⟨e1, e2⟩, e3⟩, e4⟩ := hex
    have hsum0 : 0 ≤ c + frameShare m rate dt := by linarith
    have hsum1 : c + frameShare m rate dt < 2 ^ 31 := by linarith
    have htr := truncToInt32_floor hsum0 hsum1
    have hfl0 : 0 ≤ ⌊c + frameShare m rate dt⌋ := Int.floor_nonneg.2 hsum0
    have hrest := ih (Int.fract (c + frameShare m rate dt)) (Int.fract_nonneg _)
      (Int.fract_lt_one _) (fun d hd2 => hx d (List.mem_cons_of_mem dt hd2)) e4
    have hsplit : c + (frameShare m rate dt + (rest.map (frameShare m rate)).sum)
        = (⌊c + frameShare m rate dt⌋ : ℚ)
          + (Int.fract (c + frameShare m rate dt) + (rest.map (frameShare m rate)).sum) := by
      rw [← add_assoc, ← add_assoc, Int.floor_add_fract]
    simp only [accumulateF32, List.map_cons, List.sum_cons]
    rw [e1, htr, e2, Int.self_sub_floor, e3, hrest, hsplit, Int.floor_int_add,
      Int.fract_int_add, Int.toNat_of_nonneg hfl0]

theorem sevenSystem_accumulate :
    accumulateF32 1 7 0 (List.replicate 10 (roundFloat32 (1 / 10)))
        = (6, 16777211 / 16777216)
      ∧ ⌊(0 : ℚ) + ((List.replicate 10 (roundFloat32 (1 / 10))).map fun dt => dt * 7).sum⌋
        = 7 := by
  decide!

/-- C20 (as stated, refuted): a component with emission on, no burst, no cap and no
duration limit, spawn rate 7 and an accumulator at 0, is ticked 10 times with dt = 0.1f
(the `float` nearest to 0.1). In `float` arithmetic 6 particles are spawned and the
accumulator ends at 16777211 / 16777216, whereas the integer part of c0 + the sum of
dt * spawnRate is 7: the product 0.1f * 7 and the sums are rounded. -/
theorem C20_float_rounding_counterexample :
    (freshEmitter sevenSystem).mEmit = true ∧ sevenSystem.burstCount = 0
      ∧ sevenSystem.maxParticles = 0 ∧ sevenSystem.duration = 0
      ∧ (freshEmitter sevenSystem).mEmissionCounter = 0
      ∧ totalSpawnedF32 sampleEnv (freshEmitter sevenSystem)
          (List.replicate 10 (roundFloat32 (1 / 10))) = 6
      ∧ (runFramesF32 sampleEnv (freshEmitter sevenSystem)
          (List.replicate 10 (roundFloat32 (1 / 10)))).mEmissionCounter
        = 16777211 / 16777216
      ∧ ⌊(freshEmitter sevenSystem).mEmissionCounter
          + ((List.replicate 10 (roundFloat32 (1 / 10))).map fun dt =>
              dt * sevenSystem.spawnRate).sum⌋ = 7 := by
  have h := framesF32_accumulate sampleEnv sevenSystem 1 (by decide) (by decide) (by decide)
    (by decide) (List.replicate 10 (roundFloat32 (1 / 10))) (freshEmitter sevenSystem)
    rfl rfl rfl rfl rfl
  have e : accumulateF32 1 sevenSystem.spawnRate (freshEmitter sevenSystem).mEmissionCounter
      (List.replicate 10 (roundFloat32 (1 / 10))) = (6, 16777211 / 16777216) :=
    sevenSystem_accumulate.1
  rw [e] at h
  exact ⟨rfl, rfl, rfl, rfl, rfl, h.1, h.2, sevenSystem_accumulate.2⟩

theorem sampleSystem_accumulate :
    accumulateF32 1 10 0 (List.replicate 20 (roundFloat32 (1 / 20))) = (10, 0) := by
  decide!

/-- C20 (amended): with emission on, no burst, no cap and no duration limit, let the
share of a tick be the `float` value of (dt * timeMultiplier) * spawnRate, the two
products being rounded, and let every share be non-negative and below 2^31 - 1. When no
rounding occurs in the accumulator (in every tick the sum of the accumulator and the
share, its integer part and its fractional part are `float` values), the frames started
with the accumulator c0 in [0,1) spawn the integer part of c0 + the sum of the shares, and
the accumulator ends as its fractional part; when moreover every share is the exact
product dt * timeMultiplier * spawnRate the total is the integer part of c0 + the sum of
these products. In particular spawn rate 10 and dt = 0.05f ticked 20 times from an
accumulator at 0 spawn exactly 10 particles and leave the accumulator at 0. -/
theorem C20_accumulator_float32 (env : ParticleEnv) (c : ParticleComponent)
    (system : ParticleSystem) (dts : List ℚ) (hs : c.mParticleSystem = some system)
    (he : c.mEmit = true) (ha : c.mActive = true) (hen : c.mEnableSimulation = true)
    (hb : system.burstCount ≤ 0) (hcap : system.maxParticles ≤ 0)
    (hcap2 : -2 ^ 31 ≤ system.maxParticles) (hd : system.duration ≤ 0)
    (hc0 : 0 ≤ c.mEmissionCounter) (hc1 : c.mEmissionCounter < 1)
    (hx : ∀ dt ∈ dts, 0 ≤ frameShare c.mTimeMultiplier system.spawnRate dt
      ∧ frameShare c.mTimeMultiplier system.spawnRate dt < 2 ^ 31 - 1)
    (hex : exactSums c.mTimeMultiplier system.spawnRate c.mEmissionCounter dts = true) :
    totalSpawnedF32 env c dts
        = ⌊c.mEmissionCounter
            + (dts.map (frameShare c.mTimeMultiplier system.spawnRate)).sum⌋
      ∧ (runFramesF32 env c dts).mEmissionCounter
        = Int.fract (c.mEmissionCounter
            + (dts.map (frameShare c.mTimeMultiplier system.spawnRate)).sum)
      ∧ ((∀ dt ∈ dts, frameShare c.mTimeMultiplier system.spawnRate dt
            = dt * c.mTimeMultiplier * system.spawnRate) →
          totalSpawnedF32 env c dts
            = ⌊c.mEmissionCounter
                + (dts.map fun dt => dt * c.mTimeMultiplier * system.spawnRate).sum⌋)
      ∧ totalSpawnedF32 env (freshEmitter sampleSystem)
          (List.replicate 20 (roundFloat32 (1 / 20))) = 10
      ∧ (runFramesF32 env (freshEmitter sampleSystem)
          (List.replicate 20 (roundFloat32 (1 / 20)))).mEmissionCounter = 0 := by
  have h := framesF32_accumulate env system c.mTimeMultiplier hb hcap hcap2 hd dts c hs he ha
    hen rfl
  rw [accumulateF32_exact c.mTimeMultiplier system.spawnRate dts c.mEmissionCounter hc0 hc1
    hx hex] at h
  have hex2 := framesF32_accumulate env sampleSystem 1 (by decide) (by decide) (by decide)
    (by decide) (List.replicate 20 (roundFloat32 (1 / 20))) (freshEmitter sampleSystem)
    rfl rfl rfl rfl rfl
  have e : accumulateF32 1 sampleSystem.spawnRate (freshEmitter sampleSystem).mEmissionCounter
      (List.replicate 20 (roundFloat32 (1 / 20))) = (10, 0) := sampleSystem_accumulate
  rw [e] at hex2
  refine ⟨h.1, h.2, fun hp => ?_, hex2.1, hex2.2⟩
  rw [h.1, List.map_congr_left hp]

theorem eighths_exact :
    (∀ dt ∈ [(3 / 8 : ℚ), 3 / 8, 3 / 8], 0 ≤ frameShare 1 10 dt ∧ frameShare 1 10 dt < 2 ^ 31 - 1)
      ∧ exactSums 1 10 0 [3 / 8, 3 / 8, 3 / 8] = true
      ∧ ⌊(0 : ℚ) + ([(3 / 8 : ℚ), 3 / 8, 3 / 8].map (frameShare 1 10)).sum⌋ = 11
      ∧ Int.fract ((0 : ℚ) + ([(3 / 8 : ℚ), 3 / 8, 3 / 8].map (frameShare 1 10)).sum)
        = 1 / 4 := by
  decide!

/-- Witness for C20: three frames of 0.375 s at rate 10 from an accumulator at 0 spawn 11
particles and leave the accumulator at 0.25; every value that occurs is a `float`. -/
theorem C20_accumulator_float32_witness :
    totalSpawnedF32 sampleEnv (freshEmitter sampleSystem) [3 / 8, 3 / 8, 3 / 8] = 11
      ∧ (runFramesF32 sampleEnv (freshEmitter sampleSystem)
          [3 / 8, 3 / 8, 3 / 8]).mEmissionCounter = 1 / 4 := by
  obtain ⟨e1, e2, e3, e4⟩ := eighths_exact
  have h := C20_accumulator_float32 sampleEnv (freshEmitter sampleSystem) sampleSystem
    [3 / 8, 3 / 8, 3 / 8] rfl rfl rfl rfl (by decide) (by decide) (by decide)
    (by decide) (by decide) (by decide) e1 e2
  exact ⟨h.1.trans e3, h.2.1.trans e4⟩

end Octave
